import Mathlib

/-! # Gamma: the game-state engine of `gamma.c`

A shallow embedding of the engine in `src/src/gamma.c` and a verification of
its contract.

Modelling conventions.

* The heap objects (`field** board`, `player* playerlist`,
  `bool* does_area_exist`) are total maps from indices; the engine only ever
  reads or writes indices inside the allocated ranges in the states
  considered below.  `board` is indexed `[y][x]` as in the source.
* `uint32_t` region counters wrap modulo `2^32` and the `uint64_t` busy-field
  counter wraps modulo `2^64`, exactly where the source does arithmetic on
  them.
* A function that contains a loop or a recursion that is not bounded
  syntactically returns an `Option`: `none` stands for a call that does not
  return.  The cursor scan of `move_player_first_free_colour` visits at most
  `max_no_areas` slots before it is back at its starting slot, so it is given
  that many steps; the flood fill `colour_area` is given `width * height + 1`
  levels of recursion, which is shown to be always enough.
* The loops over the players, `for (uint32_t i = 1; i <= no_players; i++)`,
  are ranges over the ids `1, ..., no_players`.  A game of `2^32 - 1` players,
  for which the counter of such a loop would never exceed its bound, is never
  returned by `gamma_new`: for that number `make_playerlist` does not return.
* The buffer filled by `gamma_board` is a map from indices to characters
  together with `top`, the number of bytes up to the last index written, and
  the write index `it`.  A run that writes behind the end of the allocated
  buffer has no result (`none`); otherwise the string returned is what stands
  in front of the terminating NUL, as a list of characters.
* Allocations are taken to succeed, except the request for a negative number
  of bytes in `substr`.  The `NULL` results of a null game or a failed
  allocation have no counterpart: a game is a value.
-/

namespace Gamma

/-- The sentinel colour `TRANSPARENT` (`UINT32_MAX`). -/
def TRANSPARENT : Nat := 4294967295

/-- The x-offsets of the directions `(E, N, W, S)`. -/
def directions_x : Nat → Int
  | 0 => 1
  | 1 => 0
  | 2 => -1
  | _ => 0

/-- The y-offsets of the directions `(E, N, W, S)`. -/
def directions_y : Nat → Int
  | 0 => 0
  | 1 => 1
  | 2 => 0
  | _ => -1

/-- A board cell: its owner (`0` for nobody) and its region id. -/
@[ext]
structure field where
  player_id : Nat
  area_id : Nat

/-- The record kept for one player. -/
@[ext]
structure player where
  does_area_exist : Nat → Bool
  no_busy_fields : Nat
  golden_move_used : Bool
  no_areas_used : Nat
  first_free_colour : Nat

/-- The game state. -/
@[ext]
structure gamma_t where
  board : Nat → Nat → field
  width : Nat
  height : Nat
  no_players : Nat
  max_no_areas : Nat
  playerlist : Nat → player

/-- Replace the record of player `i`. -/
def set_player (g : gamma_t) (i : Nat) (p : player) : gamma_t :=
  { g with playerlist := fun j => if j = i then p else g.playerlist j }

/-- Replace the cell `board[y][x]`. -/
def set_field (g : gamma_t) (x y : Nat) (f : field) : gamma_t :=
  { g with board := fun i j => if i = y ∧ j = x then f else g.board i j }

def player_all_areas_used (g : gamma_t) (player : Nat) : Bool :=
  decide ((g.playerlist player).no_areas_used = g.max_no_areas)

def get_field (g : gamma_t) (x y : Nat) : field :=
  g.board y x

def get_height (g : gamma_t) : Nat := g.height

def get_width (g : gamma_t) : Nat := g.width

def set_area_id (g : gamma_t) (x y colour : Nat) : gamma_t :=
  set_field g x y { g.board y x with area_id := colour }

def set_player_id (g : gamma_t) (x y player : Nat) : gamma_t :=
  set_field g x y { g.board y x with player_id := player }

def increase_player_no_areas_used (g : gamma_t) (player : Nat) : gamma_t :=
  set_player g player
    { g.playerlist player with
      no_areas_used := ((g.playerlist player).no_areas_used + 1) % 4294967296 }

def decrease_player_no_areas_used (g : gamma_t) (player : Nat) : gamma_t :=
  set_player g player
    { g.playerlist player with
      no_areas_used := ((g.playerlist player).no_areas_used + 4294967295) % 4294967296 }

def get_player_no_areas_used (g : gamma_t) (player : Nat) : Nat :=
  (g.playerlist player).no_areas_used

def get_player_first_free_colour (g : gamma_t) (player : Nat) : Nat :=
  (g.playerlist player).first_free_colour

def set_player_first_free_colour (g : gamma_t) (player value : Nat) : gamma_t :=
  set_player g player { g.playerlist player with first_free_colour := value }

def set_player_does_area_exist (g : gamma_t) (player area_id : Nat) (value : Bool) :
    gamma_t :=
  set_player g player
    { g.playerlist player with
      does_area_exist := fun i =>
        if i = area_id then value else (g.playerlist player).does_area_exist i }

def get_player_does_area_exist (g : gamma_t) (player area : Nat) : Bool :=
  (g.playerlist player).does_area_exist area

/-- The `while` loop of `move_player_first_free_colour`, run for at most `fuel`
iterations from `iterator`; `none` when no free slot was met. -/
def first_free_scan (g : gamma_t) (player : Nat) : Nat → Nat → Option Nat
  | 0, _ => none
  | fuel + 1, iterator =>
    if get_player_does_area_exist g player iterator then
      first_free_scan g player fuel ((iterator + 1) % g.max_no_areas)
    else some iterator

def move_player_first_free_colour (g : gamma_t) (player : Nat) : Option gamma_t :=
  if !player_all_areas_used g player then
    (first_free_scan g player g.max_no_areas (get_player_first_free_colour g player)).map
      fun iterator => set_player_first_free_colour g player iterator
  else some g

def get_player_golden_move_used (g : gamma_t) (player : Nat) : Bool :=
  (g.playerlist player).golden_move_used

def set_player_golden_move_used (g : gamma_t) (player : Nat) (value : Bool) : gamma_t :=
  set_player g player { g.playerlist player with golden_move_used := value }

def increase_player_no_busy_fields (g : gamma_t) (player : Nat) : gamma_t :=
  set_player g player
    { g.playerlist player with
      no_busy_fields := ((g.playerlist player).no_busy_fields + 1) % 18446744073709551616 }

def decrease_player_no_busy_fields (g : gamma_t) (player : Nat) : gamma_t :=
  set_player g player
    { g.playerlist player with
      no_busy_fields :=
        ((g.playerlist player).no_busy_fields + 18446744073709551615)
          % 18446744073709551616 }

def get_player_no_busy_fields (g : gamma_t) (player : Nat) : Nat :=
  (g.playerlist player).no_busy_fields

def get_no_players (g : gamma_t) : Nat := g.no_players

def get_max_no_areas (g : gamma_t) : Nat := g.max_no_areas

def field_belongs_to_other_player (g : gamma_t) (player x y : Nat) : Bool :=
  let f := get_field g x y
  let flague := true
  let flague := flague && decide (f.player_id ≠ 0)
  let flague := flague && decide (f.player_id ≠ player)
  flague

def x_y_fit_the_board (g : gamma_t) (x y : Nat) : Bool :=
  let flague := true
  let flague := flague && decide (x < g.width)
  let flague := flague && decide (y < g.height)
  flague

def player_fit_the_range (g : gamma_t) (player : Nat) : Bool :=
  decide (player > 0) && decide (player ≤ get_no_players g)

def gamma_new_valid_input (width height players areas : Nat) : Bool :=
  let flague := true
  let flague := flague && decide (width > 0)
  let flague := flague && decide (height > 0)
  let flague := flague && decide (players > 0)
  let flague := flague && decide (areas > 0)
  flague

/-- The record written by `set_player_to_default`. -/
def set_player_to_default : player :=
  { does_area_exist := fun _ => false
    no_busy_fields := 0
    golden_move_used := false
    no_areas_used := 0
    first_free_colour := 0 }

/-- The two loops `for(uint32_t i=0;i<=players;i++)` of `make_playerlist`,
started at `i`: `true` when the loop is left.  The counter is a `uint32_t`, so
the successor of `UINT32_MAX` is `0`; the loop is left within `2^32` rounds or
never, and `fuel` bounds the number of rounds. -/
def make_playerlist_loop : Nat → Nat → Nat → Bool
  | 0, _, _ => false
  | fuel + 1, players, i =>
    if i ≤ players then make_playerlist_loop fuel players ((i + 1) % 4294967296) else true

/-- The list built by `make_playerlist` when every allocation succeeds: each
record is the one written by `set_player_to_default`.  The result `none` stands
for a call that does not return: for `players = UINT32_MAX` the length
`players + 1` of the list is `0` in `uint32_t`, and the loops over
`i <= players` write behind the list and never end. -/
def make_playerlist (players : Nat) : Option (Nat → player) :=
  if make_playerlist_loop 4294967297 players 0 then some fun _ => set_player_to_default
  else none

/-- The game that `make_game_state` returns when it returns one: the fields it
assigns, over a board of fields `(0, 0)` and a list of default players. -/
def new_game (width height players areas : Nat) : gamma_t :=
  { board := fun _ _ => { player_id := 0, area_id := 0 }
    width := width
    height := height
    no_players := players
    max_no_areas := areas
    playerlist := fun _ => set_player_to_default }

/-- The state built by `make_game_state` when every allocation succeeds;
`none` stands for a call that does not return. -/
def make_game_state (width height players areas : Nat) : Option gamma_t :=
  match make_playerlist players with
  | some playerlist =>
    some
      { board := fun _ _ => { player_id := 0, area_id := 0 }
        width := width
        height := height
        no_players := players
        max_no_areas := areas
        playerlist := playerlist }
  | none => none

/-- The constructor `gamma_new`: `some none` is the `NULL` result, and `none`
stands for a call that does not return. -/
def gamma_new (width height players areas : Nat) : Option (Option gamma_t) :=
  if gamma_new_valid_input width height players areas then
    match make_game_state width height players areas with
    | some game_state => some (some game_state)
    | none => none
  else some none

/-- The coordinate `x + directions_x[i]`. -/
def new_x (x i : Nat) : Nat := ((x : Int) + directions_x i).toNat

/-- The coordinate `y + directions_y[i]`. -/
def new_y (y i : Nat) : Nat := ((y : Int) + directions_y i).toNat

/-- The table `[E, N, W, S]` telling in which directions `player` owns the
neighbour of `(x, y)`. -/
def player_areas_nearby (g : gamma_t) (player x y : Nat) : Nat → Bool :=
  let E := if x < g.width - 1 then decide ((get_field g (x + 1) y).player_id = player)
    else false
  let W := if x > 0 then decide ((get_field g (x - 1) y).player_id = player) else false
  let N := if y < g.height - 1 then decide ((get_field g x (y + 1)).player_id = player)
    else false
  let S := if y > 0 then decide ((get_field g x (y - 1)).player_id = player) else false
  fun i =>
    match i with
    | 0 => E
    | 1 => N
    | 2 => W
    | 3 => S
    | _ => false

def are_player_areas_nearby (g : gamma_t) (player x y : Nat) : Bool :=
  let tab := player_areas_nearby g player x y
  [0, 1, 2, 3].foldl (fun flague i => flague || tab i) false

def gamma_move_valid_input (g : gamma_t) (player x y : Nat) : Bool :=
  let flague := true
  let flague := flague && player_fit_the_range g player
  let flague := flague && x_y_fit_the_board g x y
  let flague := flague && decide ((g.board y x).player_id = 0)
  let flague := flague &&
    (!player_all_areas_used g player || are_player_areas_nearby g player x y)
  flague

def colour_new (g : gamma_t) (player x y : Nat) : Option gamma_t :=
  let g := increase_player_no_areas_used g player
  let first_free_colour := get_player_first_free_colour g player
  let g := set_area_id g x y first_free_colour
  let g := set_player_does_area_exist g player first_free_colour true
  if !player_all_areas_used g player then move_player_first_free_colour g player
  else some g

/-- The flood fill `colour_area`, with an explicit bound on the recursion
depth. -/
def colour_area_aux : Nat → gamma_t → Nat → Nat → Nat → Nat → Option gamma_t
  | 0, _, _, _, _, _ => none
  | fuel + 1, g, player, x, y, colour =>
    let g := set_area_id g x y colour
    let tab := player_areas_nearby g player x y
    [0, 1, 2, 3].foldlM (fun g i =>
      if tab i then
        let new_x := new_x x i
        let new_y := new_y y i
        if colour ≠ (get_field g new_x new_y).area_id then
          colour_area_aux fuel g player new_x new_y colour
        else some g
      else some g) g

def colour_area (g : gamma_t) (player x y colour : Nat) : Option gamma_t :=
  colour_area_aux (g.width * g.height + 1) g player x y colour

def perform_area_colouring (g : gamma_t) (player x y colour : Nat) : Option gamma_t :=
  let g := set_area_id g x y colour
  let tab := player_areas_nearby g player x y
  [0, 1, 2, 3].foldlM (fun g i =>
    if tab i then
      let new_x := new_x x i
      let new_y := new_y y i
      let field_colour := (get_field g new_x new_y).area_id
      if colour ≠ field_colour then
        let g := decrease_player_no_areas_used g player
        let g := set_player_does_area_exist g player field_colour false
        (colour_area g player new_x new_y colour).bind fun g =>
          move_player_first_free_colour g player
      else some g
    else some g) g

def gamma_make_move (g : gamma_t) (player x y : Nat) : Option gamma_t :=
  let g := set_player_id g x y player
  let tab := player_areas_nearby g player x y
  let choice := [0, 1, 2, 3].foldl (fun (choice : Nat × Bool) i =>
    if tab i then ((get_field g (new_x x i) (new_y y i)).area_id, true) else choice)
    (0, false)
  let colour := choice.1
  let is_colour_choosen := choice.2
  if is_colour_choosen then perform_area_colouring g player x y colour
  else colour_new g player x y

/-- The public `gamma_move`: the returned flag and the state left behind, or
`none` when the call does not return. -/
def gamma_move (g : gamma_t) (player x y : Nat) : Option (Bool × gamma_t) :=
  if gamma_move_valid_input g player x y then
    (gamma_make_move g player x y).map fun g =>
      (true, increase_player_no_busy_fields g player)
  else some (false, g)

def other_players_have_busy_fields (g : gamma_t) (player : Nat) : Bool :=
  (List.range (get_no_players g)).any fun k =>
    decide (k + 1 ≠ player) && decide (get_player_no_busy_fields g (k + 1) > 0)

def gamma_golden_possible_valid_input (g : gamma_t) (player : Nat) : Bool :=
  let flague := true
  let flague := flague && player_fit_the_range g player
  flague

/-- The first half shared by `gamma_try_golden_move` and
`gamma_try_golden_move_no_sideeffect`: vacate `(x, y)` and paint the
neighbouring pieces of its region `TRANSPARENT`, counting them. -/
def golden_vacate (g : gamma_t) (x y : Nat) : Option (gamma_t × Nat) :=
  let primal_field := get_field g x y
  let primal_player := primal_field.player_id
  let primal_colour := primal_field.area_id
  let tab := player_areas_nearby g primal_player x y
  let g := set_area_id g x y 0
  let g := set_player_id g x y 0
  let g := set_player_does_area_exist g primal_player primal_colour false
  let g := decrease_player_no_areas_used g primal_player
  (move_player_first_free_colour g primal_player).bind fun g =>
    [0, 1, 2, 3].foldlM (fun (s : gamma_t × Nat) i =>
      if tab i then
        let new_x := new_x x i
        let new_y := new_y y i
        if (get_field s.1 new_x new_y).area_id ≠ TRANSPARENT then
          (colour_area s.1 primal_player new_x new_y TRANSPARENT).map fun g =>
            (g, (s.2 + 1) % 4294967296)
        else some s
      else some s) (g, 0)

/-- The "undo things" block shared by `gamma_try_golden_move` and
`gamma_try_golden_move_no_sideeffect`. -/
def golden_undo (g : gamma_t) (x y primal_player primal_colour : Nat) : Option gamma_t :=
  let g := set_area_id g x y primal_colour
  let g := set_player_id g x y primal_player
  let g := set_player_does_area_exist g primal_player primal_colour true
  let g := increase_player_no_areas_used g primal_player
  (move_player_first_free_colour g primal_player).bind fun g =>
    colour_area g primal_player x y primal_colour

def gamma_try_golden_move_no_sideeffect (g : gamma_t) (x y : Nat) :
    Option (Bool × gamma_t) :=
  let primal_field := get_field g x y
  let primal_player := primal_field.player_id
  let primal_colour := primal_field.area_id
  (golden_vacate g x y).bind fun s =>
    let g := s.1
    let no_areas_that_will_be_added := s.2
    let answ := decide
      ((get_player_no_areas_used g primal_player + no_areas_that_will_be_added)
        % 4294967296 ≤ get_max_no_areas g)
    (golden_undo g x y primal_player primal_colour).map fun g => (answ, g)

def gamma_golden_move_valid_input (g : gamma_t) (player x y : Nat) : Bool :=
  let flague := true
  let flague := flague && player_fit_the_range g player
  let flague := flague && !get_player_golden_move_used g player
  let flague := flague && x_y_fit_the_board g x y
  if flague then
    let flague := flague &&
      (!player_all_areas_used g player || are_player_areas_nearby g player x y)
    let flague := flague && field_belongs_to_other_player g player x y
    flague
  else flague

/-- The scan of `is_golden_move_makable_anywhere` over the cells still to be
visited, in the order of its two nested `for` loops. -/
def is_golden_move_makable_loop (player : Nat) :
    List (Nat × Nat) → gamma_t → Option (Bool × gamma_t)
  | [], g => some (false, g)
  | (x, y) :: rest, g =>
    if gamma_golden_move_valid_input g player x y then
      (gamma_try_golden_move_no_sideeffect g x y).bind fun r =>
        if r.1 then some (true, r.2) else is_golden_move_makable_loop player rest r.2
    else is_golden_move_makable_loop player rest g

def is_golden_move_makable_anywhere (g : gamma_t) (player : Nat) :
    Option (Bool × gamma_t) :=
  is_golden_move_makable_loop player
    ((List.range (get_width g)).flatMap fun x => (List.range (get_height g)).map fun y => (x, y))
    g

def gamma_golden_possible (g : gamma_t) (player : Nat) : Option (Bool × gamma_t) :=
  let flague := true
  if gamma_golden_possible_valid_input g player then
    let flague := flague && !get_player_golden_move_used g player
    let flague := flague && other_players_have_busy_fields g player
    if flague then is_golden_move_makable_anywhere g player
    else some (flague, g)
  else some (false, g)

def perform_transparent_colouring (g : gamma_t) (primal_player new_x new_y : Nat) :
    Option gamma_t :=
  let g := increase_player_no_areas_used g primal_player
  let fst_col := get_player_first_free_colour g primal_player
  let g := set_player_does_area_exist g primal_player fst_col true
  (colour_area g primal_player new_x new_y fst_col).bind fun g =>
    move_player_first_free_colour g primal_player

def gamma_make_golden_move (g : gamma_t) (player primal_player x y : Nat) :
    Option gamma_t :=
  let g := set_area_id g x y 0
  let g := set_player_id g x y 0
  (gamma_move g player x y).bind fun r =>
    let g := r.2
    let tab := player_areas_nearby g primal_player x y
    ([0, 1, 2, 3].foldlM (fun g i =>
      if tab i then
        let new_x := new_x x i
        let new_y := new_y y i
        let new_field := get_field g new_x new_y
        if new_field.area_id = TRANSPARENT then
          perform_transparent_colouring g primal_player new_x new_y
        else some g
      else some g) g).map fun g =>
        let g := set_player_golden_move_used g player true
        decrease_player_no_busy_fields g primal_player

def gamma_try_golden_move (g : gamma_t) (player x y : Nat) : Option (Bool × gamma_t) :=
  let primal_field := get_field g x y
  let primal_player := primal_field.player_id
  let primal_colour := primal_field.area_id
  (golden_vacate g x y).bind fun s =>
    let g := s.1
    let no_areas_that_will_be_added := s.2
    if (get_player_no_areas_used g primal_player + no_areas_that_will_be_added)
        % 4294967296 ≤ get_max_no_areas g then
      (gamma_make_golden_move g player primal_player x y).map fun g => (true, g)
    else
      (golden_undo g x y primal_player primal_colour).map fun g => (false, g)

/-- The public `gamma_golden_move`. -/
def gamma_golden_move (g : gamma_t) (player x y : Nat) : Option (Bool × gamma_t) :=
  if gamma_golden_move_valid_input g player x y then gamma_try_golden_move g player x y
  else some (false, g)

def gamma_busy_fields_valid_input (g : gamma_t) (player : Nat) : Bool :=
  let flague := true
  let flague := flague && player_fit_the_range g player
  flague

def gamma_busy_fields (g : gamma_t) (player : Nat) : Nat :=
  if gamma_busy_fields_valid_input g player then get_player_no_busy_fields g player
  else 0

/-! ## Cells, adjacency and paths -/

/-- A board position `(x, y)`. -/
abbrev Cell := Nat × Nat

/-- The position lies on the board. -/
def inb (g : gamma_t) (v : Cell) : Prop := v.1 < g.width ∧ v.2 < g.height

/-- Owner of a position. -/
def owner (g : gamma_t) (v : Cell) : Nat := (g.board v.2 v.1).player_id

/-- Region id of a position. -/
def area (g : gamma_t) (v : Cell) : Nat := (g.board v.2 v.1).area_id

/-- Two positions are 4-adjacent. -/
def adj (a b : Cell) : Prop :=
  (a.2 = b.2 ∧ (a.1 + 1 = b.1 ∨ b.1 + 1 = a.1)) ∨
  (a.1 = b.1 ∧ (a.2 + 1 = b.2 ∨ b.2 + 1 = a.2))

/-- A walk of 4-adjacent steps every cell of which, the first apart, satisfies `P`. -/
def Path (P : Cell → Prop) : Cell → Cell → Prop :=
  Relation.ReflTransGen fun a b => adj a b ∧ P b

/-- The neighbour of `(x, y)` in direction `i`. -/
def nbr (x y i : Nat) : Cell := (new_x x i, new_y y i)

/-- Direction `i` does not leave the board from `(x, y)`: the guards of
`player_areas_nearby`. -/
def valid_dir (g : gamma_t) (x y i : Nat) : Prop :=
  (i = 0 ∧ x + 1 < g.width) ∨ (i = 1 ∧ y + 1 < g.height) ∨ (i = 2 ∧ 0 < x) ∨ (i = 3 ∧ 0 < y)

/-- Two states agree on everything but, possibly, the region ids on the board. -/
structure SameButAreas (g g' : gamma_t) : Prop where
  width : g'.width = g.width
  height : g'.height = g.height
  no_players : g'.no_players = g.no_players
  max_no_areas : g'.max_no_areas = g.max_no_areas
  playerlist : g'.playerlist = g.playerlist
  owner : ∀ v, owner g' v = owner g v

/-! ## The flood fill -/

/-- The cells the flood fill may enter: on the board, owned by `p`, not yet of colour `c`. -/
def Fillable (g : gamma_t) (p c : Nat) (b : Cell) : Prop :=
  inb g b ∧ owner g b = p ∧ area g b ≠ c

/-- What a run of the flood fill from `s` towards colour `c` has achieved. -/
structure Filled (g : gamma_t) (p c : Nat) (s : Cell) (g' : gamma_t) : Prop where
  frame : SameButAreas g g'
  start : area g' s = c
  changed : ∀ v, area g' v ≠ area g v → area g' v = c ∧ Path (Fillable g p c) s v
  closed : ∀ v u, (v = s ∨ area g' v ≠ area g v) → adj v u → inb g u → owner g u = p →
    area g' u = c

/-- The loop invariant of the flood fill after the directions below `i`. -/
structure FillInv (g : gamma_t) (p c : Nat) (s : Cell) (i : Nat) (gi : gamma_t) : Prop where
  frame : SameButAreas g gi
  start : area gi s = c
  changed : ∀ v, area gi v ≠ area g v → area gi v = c ∧ Path (Fillable g p c) s v
  closed : ∀ v u, v ≠ s → area gi v ≠ area g v → adj v u → inb g u → owner g u = p →
    area gi u = c
  done : ∀ j, j < i → valid_dir g s.1 s.2 j → owner g (nbr s.1 s.2 j) = p →
    area gi (nbr s.1 s.2 j) = c

/-- The number of board cells the flood fill towards `c` may still enter. -/
def fill_measure (g : gamma_t) (p c : Nat) : Nat :=
  ((Finset.range g.width ×ˢ Finset.range g.height).filter
    fun v => owner g v = p ∧ area g v ≠ c).card

/-! ## The invariants of the engine -/

/-- The cells of the board. -/
def cells (g : gamma_t) : Finset Cell := Finset.range g.width ×ˢ Finset.range g.height

/-- The cells of the board owned by `p`. -/
def owned (g : gamma_t) (p : Nat) : Finset Cell := (cells g).filter fun v => owner g v = p

/-- The region ids marked in use in the record of `p`. -/
def in_use (g : gamma_t) (p : Nat) : Finset Nat :=
  (Finset.range g.max_no_areas).filter fun r => (g.playerlist p).does_area_exist r = true

/-- The cells of `p` on the board. -/
def Own (g : gamma_t) (p : Nat) (b : Cell) : Prop := inb g b ∧ owner g b = p

/-- The parameters of the game are positive 32-bit numbers. -/
structure Dims (g : gamma_t) : Prop where
  width_pos : 0 < g.width
  width_lt : g.width < 4294967296
  height_pos : 0 < g.height
  height_lt : g.height < 4294967296
  players_pos : 0 < g.no_players
  players_lt : g.no_players < 4294967296
  areas_pos : 0 < g.max_no_areas
  areas_lt : g.max_no_areas < 4294967296

/-- The invariants on the regions of one player that the data model states:
the region ids lie below `max_no_areas` (the size of `does_area_exist`), the
in-use table agrees with the board and with the region counter (invariant 2),
and regions are exactly the maximal 4-connected sets of the player's cells
(invariant 3).  Invariant 4 follows (`RegionInv.count_le`). -/
structure RegionInv (g : gamma_t) (p : Nat) : Prop where
  cursor_lt : (g.playerlist p).first_free_colour < g.max_no_areas
  exist_lt : ∀ r, (g.playerlist p).does_area_exist r = true → r < g.max_no_areas
  exist_iff : ∀ r, (g.playerlist p).does_area_exist r = true ↔
    ∃ v, Own g p v ∧ area g v = r
  areas_count : (g.playerlist p).no_areas_used = (in_use g p).card
  region : ∀ u v, Own g p u → Own g p v → (area g u = area g v ↔ Path (Own g p) u v)

/-- A well-typed game state that satisfies invariants 2, 3 and 4: the
parameters are positive 32-bit numbers, the owners on the board are player
ids, and every player's regions satisfy `RegionInv`.  Nothing is asked of
where a cursor points inside the table, nor of invariants 1 and 5. -/
structure BoardInv (g : gamma_t) : Prop where
  dims : Dims g
  owner_le : ∀ v, inb g v → owner g v ≤ g.no_players
  players : ∀ p, 0 < p → p ≤ g.no_players → RegionInv g p

/-- The cursor discipline of `p`: while `p` has a free region id, the cursor
`first_free_colour` points to one. -/
def CursorFree (g : gamma_t) (p : Nat) : Prop :=
  (g.playerlist p).no_areas_used < g.max_no_areas →
    (g.playerlist p).does_area_exist (g.playerlist p).first_free_colour = false

/-- The invariants on the regions of one player: the cursor discipline, the
agreement of the in-use table with the board and with the region counter
(invariant 2), and regions being exactly the maximal 4-connected sets of the
player's cells (invariant 3). -/
structure RInv (g : gamma_t) (p : Nat) : Prop where
  cursor_lt : (g.playerlist p).first_free_colour < g.max_no_areas
  cursor_free : (g.playerlist p).no_areas_used < g.max_no_areas →
    (g.playerlist p).does_area_exist (g.playerlist p).first_free_colour = false
  exist_lt : ∀ r, (g.playerlist p).does_area_exist r = true → r < g.max_no_areas
  exist_iff : ∀ r, (g.playerlist p).does_area_exist r = true ↔
    ∃ v, Own g p v ∧ area g v = r
  areas_count : (g.playerlist p).no_areas_used = (in_use g p).card
  region : ∀ u v, Own g p u → Own g p v → (area g u = area g v ↔ Path (Own g p) u v)

/-- The invariants that concern one player: those on the regions, and the
busy-field counter (invariant 5). -/
structure PInv (g : gamma_t) (p : Nat) extends RInv g p : Prop where
  busy_count : (g.playerlist p).no_busy_fields = (owned g p).card

/-- The invariants of a game state. -/
structure Inv (g : gamma_t) : Prop where
  dims : Dims g
  empty_area : ∀ v, inb g v → owner g v = 0 → area g v = 0
  owner_le : ∀ v, inb g v → owner g v ≤ g.no_players
  players : ∀ p, 0 < p → p ≤ g.no_players → PInv g p

/-! ## Placing a stone -/

/-- What `gamma_make_move` leaves behind. -/
structure Made (g : gamma_t) (q : Nat) (s : Cell) (g' : gamma_t) : Prop where
  width : g'.width = g.width
  height : g'.height = g.height
  no_players : g'.no_players = g.no_players
  max_no_areas : g'.max_no_areas = g.max_no_areas
  owners : ∀ v, owner g' v = if v = s then q else owner g v
  area_other : ∀ v, v ≠ s → owner g v ≠ q → area g' v = area g v
  players_other : ∀ p, p ≠ q → g'.playerlist p = g.playerlist p
  golden : (g'.playerlist q).golden_move_used = (g.playerlist q).golden_move_used
  busy : (g'.playerlist q).no_busy_fields = (g.playerlist q).no_busy_fields
  rinv : RInv g' q

/-! ## Placing a stone next to own stones: the merge -/

/-- One of the region ids absorbed by the merge at `(x, y)` into colour `c`
while the directions below `i` were processed. -/
def absorbed (g : gamma_t) (q x y c i a : Nat) : Prop :=
  a ≠ c ∧ ∃ j, j < i ∧ valid_dir g x y j ∧ owner g (nbr x y j) = q ∧ area g (nbr x y j) = a

/-- The state reached by the merge once the region ids in `A` were absorbed into
colour `c`. -/
structure MergeInv (g : gamma_t) (q : Nat) (s : Cell) (c : Nat) (A : Nat → Prop)
    (gi : gamma_t) : Prop where
  width : gi.width = g.width
  height : gi.height = g.height
  no_players : gi.no_players = g.no_players
  max_no_areas : gi.max_no_areas = g.max_no_areas
  owners : ∀ v, owner gi v = if v = s then q else owner g v
  area_s : area gi s = c
  area_abs : ∀ v, Own g q v → A (area g v) → area gi v = c
  area_keep : ∀ v, v ≠ s → ¬ (Own g q v ∧ A (area g v)) → area gi v = area g v
  players_other : ∀ p, p ≠ q → gi.playerlist p = g.playerlist p
  golden : (gi.playerlist q).golden_move_used = (g.playerlist q).golden_move_used
  busy : (gi.playerlist q).no_busy_fields = (g.playerlist q).no_busy_fields
  exist : ∀ r, (gi.playerlist q).does_area_exist r = true ↔
    ((g.playerlist q).does_area_exist r = true ∧ ¬ A r)
  count : (gi.playerlist q).no_areas_used = (in_use gi q).card
  cursor_lt : (gi.playerlist q).first_free_colour < g.max_no_areas
  cursor_free : CursorFree g q → (gi.playerlist q).no_areas_used < g.max_no_areas →
    (gi.playerlist q).does_area_exist (gi.playerlist q).first_free_colour = false

/-- What a successful `gamma_move` leaves behind. -/
structure Placed (g : gamma_t) (q : Nat) (s : Cell) (g' : gamma_t) : Prop where
  width : g'.width = g.width
  height : g'.height = g.height
  no_players : g'.no_players = g.no_players
  max_no_areas : g'.max_no_areas = g.max_no_areas
  owners : ∀ v, owner g' v = if v = s then q else owner g v
  area_other : ∀ v, v ≠ s → owner g v ≠ q → area g' v = area g v
  players_other : ∀ p, p ≠ q → g'.playerlist p = g.playerlist p
  golden : (g'.playerlist q).golden_move_used = (g.playerlist q).golden_move_used
  pinv : PInv g' q

/-! ## Placing a stone: what is left of the rest of the state -/

/-- What a placement of `q` on `s` leaves of the rest of the state: the owners,
the region ids on the cells of the other players, and their records. -/
structure Framed (g : gamma_t) (q : Nat) (s : Cell) (g' : gamma_t) : Prop where
  width : g'.width = g.width
  height : g'.height = g.height
  no_players : g'.no_players = g.no_players
  max_no_areas : g'.max_no_areas = g.max_no_areas
  owners : ∀ v, owner g' v = if v = s then q else owner g v
  area_other : ∀ v, v ≠ s → owner g v ≠ q → area g' v = area g v
  players_other : ∀ p, p ≠ q → g'.playerlist p = g.playerlist p

/-- The loop invariant of the merge as far as the rest of the state goes; the
cursor and the region ids of `q` stay inside the table. -/
structure MergeFrame (g : gamma_t) (q : Nat) (s : Cell) (gi : gamma_t) : Prop where
  frame : Framed g q s gi
  cursor_lt : (gi.playerlist q).first_free_colour < g.max_no_areas
  area_lt : ∀ v, inb g v → owner gi v = q → area gi v < g.max_no_areas

/-! ## Placing a stone: the two cases in detail -/

/-- What `colour_new` leaves behind when the stone of `q` on `s` starts a region
of its own: the stone carries the id the cursor pointed to, and that id is
marked. -/
structure NewRegion (g : gamma_t) (q : Nat) (s : Cell) (g' : gamma_t) : Prop where
  frame : Framed g q s g'
  areas : ∀ v, area g' v = if v = s then (g.playerlist q).first_free_colour else area g v
  exist : ∀ r, (g'.playerlist q).does_area_exist r =
    if r = (g.playerlist q).first_free_colour then true
    else (g.playerlist q).does_area_exist r
  count : (g'.playerlist q).no_areas_used = (g.playerlist q).no_areas_used + 1
  golden : (g'.playerlist q).golden_move_used = (g.playerlist q).golden_move_used
  busy : (g'.playerlist q).no_busy_fields = (g.playerlist q).no_busy_fields

/-! ## The golden move: vacating the cell -/

/-- The cells of `p` other than `s`. -/
def Rest (g : gamma_t) (p : Nat) (s : Cell) (b : Cell) : Prop := Own g p b ∧ b ≠ s

/-- The cell `v` lies in the piece, of what is left of the cells of `p` once
`(x, y)` is taken away, of a neighbour of `(x, y)` in a direction below `i`. -/
def marked (g : gamma_t) (p x y i : Nat) (v : Cell) : Prop :=
  ∃ j, j < i ∧ valid_dir g x y j ∧ owner g (nbr x y j) = p ∧
    Path (Rest g p (x, y)) (nbr x y j) v

/-- The state after the cell has been vacated and the cursor moved, before the
pieces are painted. -/
structure Vacated (g : gamma_t) (x y : Nat) (g5 : gamma_t) : Prop where
  width : g5.width = g.width
  height : g5.height = g.height
  no_players : g5.no_players = g.no_players
  max_no_areas : g5.max_no_areas = g.max_no_areas
  owners : ∀ v, owner g5 v = if v = (x, y) then 0 else owner g v
  areas : ∀ v, area g5 v = if v = (x, y) then 0 else area g v
  players_other : ∀ r, r ≠ owner g (x, y) → g5.playerlist r = g.playerlist r
  golden : (g5.playerlist (owner g (x, y))).golden_move_used =
    (g.playerlist (owner g (x, y))).golden_move_used
  busy : (g5.playerlist (owner g (x, y))).no_busy_fields =
    (g.playerlist (owner g (x, y))).no_busy_fields
  exist : ∀ r, (g5.playerlist (owner g (x, y))).does_area_exist r =
    if r = area g (x, y) then false else (g.playerlist (owner g (x, y))).does_area_exist r
  count : (g5.playerlist (owner g (x, y))).no_areas_used + 1 =
    (g.playerlist (owner g (x, y))).no_areas_used
  cursor_lt : (g5.playerlist (owner g (x, y))).first_free_colour < g.max_no_areas
  cursor_free : (g5.playerlist (owner g (x, y))).does_area_exist
    (g5.playerlist (owner g (x, y))).first_free_colour = false

/-- The loop invariant of the painting of the pieces: the marked cells are
`TRANSPARENT`, the others untouched, and `reps` lists the neighbours that were
counted. -/
structure VacInv (g : gamma_t) (x y : Nat) (g5 : gamma_t) (reps : List Cell) (i : Nat)
    (st : gamma_t × Nat) : Prop where
  frame : SameButAreas g5 st.1
  mark_T : ∀ v, marked g (owner g (x, y)) x y i v → area st.1 v = TRANSPARENT
  mark_keep : ∀ v, ¬ marked g (owner g (x, y)) x y i v → area st.1 v = area g5 v
  count : st.2 = reps.length
  length_le : reps.length ≤ i
  pairwise : reps.Pairwise fun r r' => ¬ Path (Rest g (owner g (x, y)) (x, y)) r r'
  reps_nbr : ∀ r, r ∈ reps → ∃ j, j < i ∧ valid_dir g x y j ∧
    owner g (nbr x y j) = owner g (x, y) ∧ r = nbr x y j
  cover : ∀ j, j < i → valid_dir g x y j → owner g (nbr x y j) = owner g (x, y) →
    ∃ r, r ∈ reps ∧ Path (Rest g (owner g (x, y)) (x, y)) r (nbr x y j)

/-- The loop invariant of the commit: the pieces reached from the directions
below `i` carry fresh region ids, the other pieces are still `TRANSPARENT`, and
the cells of the victim that are not `TRANSPARENT` satisfy the region
invariants. -/
structure CommitInv (g : gamma_t) (x y q : Nat) (g5 g6 : gamma_t) (reps : List Cell)
    (cnt i : Nat) (gi : gamma_t) : Prop where
  width : gi.width = g.width
  height : gi.height = g.height
  no_players : gi.no_players = g.no_players
  max_no_areas : gi.max_no_areas = g.max_no_areas
  owners : ∀ v, owner gi v = if v = (x, y) then q else owner g v
  area_out : ∀ v, ¬ Rest g (owner g (x, y)) (x, y) v → area gi v = area g6 v
  players_other : ∀ r, r ≠ owner g (x, y) → gi.playerlist r = g6.playerlist r
  golden : (gi.playerlist (owner g (x, y))).golden_move_used =
    (g.playerlist (owner g (x, y))).golden_move_used
  busy : (gi.playerlist (owner g (x, y))).no_busy_fields =
    (g.playerlist (owner g (x, y))).no_busy_fields
  tmark : ∀ v, Rest g (owner g (x, y)) (x, y) v →
    (area gi v = TRANSPARENT ↔
      marked g (owner g (x, y)) x y 4 v ∧ ¬ marked g (owner g (x, y)) x y i v)
  cursor_lt : (gi.playerlist (owner g (x, y))).first_free_colour < g.max_no_areas
  cursor_free : (gi.playerlist (owner g (x, y))).no_areas_used < g.max_no_areas →
    (gi.playerlist (owner g (x, y))).does_area_exist
      (gi.playerlist (owner g (x, y))).first_free_colour = false
  exist_lt : ∀ r, (gi.playerlist (owner g (x, y))).does_area_exist r = true →
    r < g.max_no_areas
  exist_iff : ∀ r, (gi.playerlist (owner g (x, y))).does_area_exist r = true ↔
    ∃ v, Rest g (owner g (x, y)) (x, y) v ∧ area gi v ≠ TRANSPARENT ∧ area gi v = r
  count : (gi.playerlist (owner g (x, y))).no_areas_used = (in_use gi (owner g (x, y))).card
  region : ∀ u v, Rest g (owner g (x, y)) (x, y) u → Rest g (owner g (x, y)) (x, y) v →
    area gi u ≠ TRANSPARENT → area gi v ≠ TRANSPARENT →
    (area gi u = area gi v ↔ Path (Rest g (owner g (x, y)) (x, y)) u v)
  todo : ∃ todo : List Cell, todo.Nodup ∧
    (∀ r, r ∈ todo ↔ r ∈ reps ∧ ¬ marked g (owner g (x, y)) x y i r) ∧
    (gi.playerlist (owner g (x, y))).no_areas_used + todo.length =
      (g5.playerlist (owner g (x, y))).no_areas_used + cnt

/-! ## What a committed golden move changes -/

/-- What a committed golden move of `q` on `s` leaves of the owners, the busy
fields and the golden flags. -/
structure Captured (g : gamma_t) (q : Nat) (s : Cell) (g' : gamma_t) : Prop where
  owners : ∀ v, owner g' v = if v = s then q else owner g v
  busy_victim : (g'.playerlist (owner g s)).no_busy_fields =
    ((g.playerlist (owner g s)).no_busy_fields + 18446744073709551615) % 18446744073709551616
  busy_attacker : (g'.playerlist q).no_busy_fields =
    ((g.playerlist q).no_busy_fields + 1) % 18446744073709551616
  golden_attacker : (g'.playerlist q).golden_move_used = true
  golden_other : ∀ r, r ≠ q →
    (g'.playerlist r).golden_move_used = (g.playerlist r).golden_move_used
  busy_other : ∀ r, r ≠ q → r ≠ owner g s →
    (g'.playerlist r).no_busy_fields = (g.playerlist r).no_busy_fields

/-! ## Reachable states -/

/-- The states a game can be in: those produced by `gamma_new` from 32-bit
parameters and those left behind by a call of `gamma_move`, `gamma_golden_move`
or `gamma_golden_possible` (with any arguments, whatever it returned) on such a
state. -/
inductive Reachable : gamma_t → Prop
  | new {w h p a : Nat} {g : gamma_t} : w < 4294967296 → h < 4294967296 →
      p < 4294967296 → a < 4294967296 → gamma_new w h p a = some (some g) → Reachable g
  | move {g g' : gamma_t} {q x y : Nat} {b : Bool} : Reachable g →
      gamma_move g q x y = some (b, g') → Reachable g'
  | golden_move {g g' : gamma_t} {q x y : Nat} {b : Bool} : Reachable g →
      gamma_golden_move g q x y = some (b, g') → Reachable g'
  | golden_possible {g g' : gamma_t} {q : Nat} {b : Bool} : Reachable g →
      gamma_golden_possible g q = some (b, g') → Reachable g'

/-! ## The pieces of a region around a cell -/

/-- The cells of the region of `s` other than `s` itself. -/
def InPiece (g : gamma_t) (s b : Cell) : Prop :=
  inb g b ∧ owner g b = owner g s ∧ area g b = area g s ∧ b ≠ s

/-- The list `L` names exactly one cell in each 4-connected component of the
region of `s` with `s` taken away: its length is the number of those
components. -/
def IsComponentReps (g : gamma_t) (s : Cell) (L : List Cell) : Prop :=
  (∀ r, r ∈ L → InPiece g s r) ∧
  L.Pairwise (fun r r' => ¬ Path (InPiece g s) r r') ∧
  ∀ v, InPiece g s v → ∃ r, r ∈ L ∧ Path (InPiece g s) r v

/-! ## Example games -/

/-- The state left by a call, or `g` if the call does not return. -/
def state_after (r : Option (Bool × gamma_t)) (g : gamma_t) : gamma_t :=
  match r with
  | some r => r.2
  | none => g

/-- A 4x4 game of 2 players with 1 region each. -/
def corner_game_0 : gamma_t := new_game 4 4 2 1

/-- Player 1 has taken `(0, 0)`. -/
def corner_game_1 : gamma_t := state_after (gamma_move corner_game_0 1 0 0) corner_game_0

/-- Player 2 has taken `(3, 3)`. -/
def corner_game_2 : gamma_t := state_after (gamma_move corner_game_1 2 3 3) corner_game_1

/-- Player 1 has taken `(1, 0)`. -/
def corner_game_3 : gamma_t := state_after (gamma_move corner_game_2 1 1 0) corner_game_2

/-- A 3x1 game of 2 players with 1 region each. -/
def row_game_0 : gamma_t := new_game 3 1 2 1

/-- Player 1 has taken `(0, 0)`. -/
def row_game_1 : gamma_t := state_after (gamma_move row_game_0 1 0 0) row_game_0

/-- Player 1 has taken `(1, 0)`. -/
def row_game_2 : gamma_t := state_after (gamma_move row_game_1 1 1 0) row_game_1

/-- Player 1 has taken `(2, 0)`: one region that fills the row. -/
def row_game_3 : gamma_t := state_after (gamma_move row_game_2 1 2 0) row_game_2

/-- A 3x3 game of 2 players with 2 regions each. -/
def split_game_0 : gamma_t := new_game 3 3 2 2

/-- Player 1 has taken `(0, 0)`. -/
def split_game_1 : gamma_t := state_after (gamma_move split_game_0 1 0 0) split_game_0

/-- Player 1 has taken `(1, 0)`. -/
def split_game_2 : gamma_t := state_after (gamma_move split_game_1 1 1 0) split_game_1

/-- Player 1 has taken `(2, 0)`. -/
def split_game_3 : gamma_t := state_after (gamma_move split_game_2 1 2 0) split_game_2

/-- Player 1 has taken `(0, 2)`: a second region, both region ids are in use. -/
def split_game_4 : gamma_t := state_after (gamma_move split_game_3 1 0 2) split_game_3

/-- Player 2 has tried the golden move on `(1, 0)`, which would split the bottom row. -/
def split_game_5 : gamma_t := state_after (gamma_golden_move split_game_4 2 1 0) split_game_4

/-! ## `gamma_golden_possible`: what it changes and what it answers -/

/-- The states agree except for where the cursors point. -/
structure CursorsMoved (g g' : gamma_t) : Prop where
  width : g'.width = g.width
  height : g'.height = g.height
  no_players : g'.no_players = g.no_players
  max_no_areas : g'.max_no_areas = g.max_no_areas
  board : g'.board = g.board
  busy : ∀ r, (g'.playerlist r).no_busy_fields = (g.playerlist r).no_busy_fields
  count : ∀ r, (g'.playerlist r).no_areas_used = (g.playerlist r).no_areas_used
  exist : ∀ r, (g'.playerlist r).does_area_exist = (g.playerlist r).does_area_exist
  golden : ∀ r, (g'.playerlist r).golden_move_used = (g.playerlist r).golden_move_used
  cursor_lt : ∀ r, (g.playerlist r).first_free_colour < g.max_no_areas →
    (g'.playerlist r).first_free_colour < g.max_no_areas

/-- The test of the golden move on `(x, y)` as the code computes it: the region
count of the owner, less one, plus the number of pieces its region falls into,
taken modulo `2^32`, is at most `max_no_areas`. -/
def GoldenFits (g : gamma_t) (x y : Nat) : Prop :=
  ∃ L, IsComponentReps g (x, y) L ∧
    ((g.playerlist (owner g (x, y))).no_areas_used - 1 + L.length) % 4294967296
      ≤ g.max_no_areas

/-- A well-typed game state that satisfies invariants 1 to 5 of the data
model; nothing is asked of where a cursor points inside the table. -/
structure SpecInv (g : gamma_t) extends BoardInv g : Prop where
  empty_area : ∀ v, inb g v → owner g v = 0 → area g v = 0
  busy_count : ∀ p, 0 < p → p ≤ g.no_players →
    (g.playerlist p).no_busy_fields = (owned g p).card

/-- Player 1 joins its two regions with a stone on `(0, 1)`. -/
def split_game_6 : gamma_t := state_after (gamma_move split_game_4 1 0 1) split_game_4

/-- Player 2 has captured `(0, 0)`, the end of the row of player 1, with its
golden move. -/
def split_game_7 : gamma_t := state_after (gamma_golden_move split_game_4 2 0 0) split_game_4

/-! ## A game with `2^32 - 1` regions for each of two players

The board is `131072 x 131072`. Player 1 holds `(1, 0)` and every cell with two
even coordinates; player 2 holds the cells with two odd coordinates, the last
one apart. No stone of one player touches a stone of the other, except `(1, 1)`
above `(1, 0)`. -/

/-- The `k`-th cell with two even coordinates, row by row. -/
def even_cell (k : Nat) : Cell := (2 * (k % 65536), 2 * (k / 65536))

/-- The `k`-th cell with two odd coordinates, row by row. -/
def odd_cell (k : Nat) : Cell := (2 * (k % 65536) + 1, 2 * (k / 65536) + 1)

/-- The rank of a cell among the cells of its parity. -/
def cell_index (v : Cell) : Nat := v.1 / 2 + 65536 * (v.2 / 2)

/-- The owners once player 1 has placed `(1, 0)` and its first `k` even cells
and player 2 its first `m` odd cells. -/
def layout (k m : Nat) (v : Cell) : Nat :=
  if v = (1, 0) then 1
  else if v.1 % 2 = 0 ∧ v.2 % 2 = 0 ∧ v.1 < 131072 ∧ cell_index v < k then 1
  else if v.1 % 2 = 1 ∧ v.2 % 2 = 1 ∧ v.1 < 131072 ∧ cell_index v < m then 2
  else 0

/-- What the construction keeps track of: the parameters, the owners, the
region counts of the two players and the golden flag of player 2. -/
structure Laid (k m n1 n2 : Nat) (g : gamma_t) : Prop where
  reach : Reachable g
  width : g.width = 131072
  height : g.height = 131072
  no_players : g.no_players = 2
  max_no_areas : g.max_no_areas = 4294967295
  owners : ∀ v, owner g v = layout k m v
  count1 : (g.playerlist 1).no_areas_used = n1
  count2 : (g.playerlist 2).no_areas_used = n2
  golden2 : (g.playerlist 2).golden_move_used = false

/-- The board volume `board_size`: the product is formed in `uint32_t`, the
type of both getters, and only its result is widened to `uint64_t`. -/
def board_size (g : gamma_t) : Nat := (get_height g * get_width g) % 4294967296

/-- The `uint64_t` sum of the busy-field counters of the players
`1, ..., no_players`. -/
def sum_of_all_players_busy_fields (g : gamma_t) : Nat :=
  (List.range (get_no_players g)).foldl
    (fun sum k => (sum + get_player_no_busy_fields g (k + 1)) % 18446744073709551616) 0

/-- The number of unowned cells next to a cell of `player`, counted row by row
in a `uint64_t`. -/
def count_boarder_size (g : gamma_t) (player : Nat) : Nat :=
  (List.range (get_height g)).foldl (fun count i =>
    (List.range (get_width g)).foldl (fun count j =>
      let f := get_field g j i
      let flague := true
      let flague := flague && decide (f.player_id = 0)
      let flague := flague && are_player_areas_nearby g player j i
      if flague then (count + 1) % 18446744073709551616 else count) count) 0

def gamma_free_fields_valid_input (g : gamma_t) (player : Nat) : Bool :=
  let flague := true
  let flague := flague && player_fit_the_range g player
  flague

/-- The public `gamma_free_fields`; the difference is formed in `uint64_t`. -/
def gamma_free_fields (g : gamma_t) (player : Nat) : Nat :=
  if gamma_free_fields_valid_input g player then
    if player_all_areas_used g player then count_boarder_size g player
    else (board_size g + 18446744073709551616 - sum_of_all_players_busy_fields g)
      % 18446744073709551616
  else 0

/-- The `while` loop of `len`, which divides `n` by ten until it is zero; it
runs at most `n` times, and `fuel` bounds the number of rounds. -/
def len_loop : Nat → Nat → Nat → Nat
  | 0, _, log => log
  | fuel + 1, n, log => if n = 0 then log else len_loop fuel (n / 10) (log + 1)

/-- The number of decimal digits of `n`, and `1` for `n = 0`. -/
def len (n : Nat) : Nat := if n = 0 then 1 else len_loop n n 0

/-- The loop `for (i = no_players; i != 0; i--)` of `max_player_id_on_board`,
started at `i`. -/
def max_player_id_loop (g : gamma_t) : Nat → Nat
  | 0 => 0
  | i + 1 => if gamma_busy_fields g (i + 1) ≠ 0 then i + 1 else max_player_id_loop g i

def max_player_id_on_board (g : gamma_t) : Nat := max_player_id_loop g (get_no_players g)

def length_of_max_player_id_on_board (g : gamma_t) : Nat := len (max_player_id_on_board g)

/-- The assignment `buffer[i] = c`.  A buffer under construction is the map of
its bytes together with `top`, the number of bytes from its start up to the
highest index written so far. -/
def write (buffer : (Nat → Char) × Nat) (i : Nat) (c : Char) : (Nat → Char) × Nat :=
  (fun k => if k = i then c else buffer.1 k, max buffer.2 (i + 1))

/-- The rows visited by `for (int i = h - 1; i >= 0; i--)`.  The start value
`h - 1` is computed in `uint32_t` and converted to `int`: above `2^31 - 1` it
becomes negative, and then the loop body is never entered. -/
def rows_down (h : Nat) : List Nat :=
  if (h + 4294967295) % 4294967296 < 2147483648 then (List.range h).reverse else []

/-- The string held by a buffer whose terminating NUL was written at index
`it`: the `it` characters in front of it. -/
def c_string (buffer : Nat → Char) (it : Nat) : List Char := (List.range it).map buffer

/-- The function `print_board_without_space`, with the `uint64_t` index `it`
of the next byte.  The buffer has `board_size(g) + height + 1` bytes, a sum
formed in `uint64_t`; a run that writes behind the end of the buffer has no
result (`none`), and otherwise the result is the string that stands in front
of the terminating NUL. -/
def print_board_without_space (g : gamma_t) : Option (List Char) :=
  let size := (board_size g + get_height g + 1) % 18446744073709551616
  let h := get_height g
  let w := get_width g
  let s := (rows_down h).foldl (fun (s : ((Nat → Char) × Nat) × Nat) i =>
    let s := (List.range w).foldl (fun (s : ((Nat → Char) × Nat) × Nat) j =>
      let f := get_field g j i
      (write s.1 s.2
        (if f.player_id = 0 then '.' else Char.ofNat ((f.player_id + 48) % 256)),
        (s.2 + 1) % 18446744073709551616)) s
    (write s.1 s.2 '\n', (s.2 + 1) % 18446744073709551616)) ((fun _ => Char.ofNat 0, 0), 0)
  let buffer := write s.1 s.2 (Char.ofNat 0)
  if buffer.2 ≤ size then some (c_string buffer.1 s.2) else none

/-- The writes of `insert_player_id_in_buffer`: the decimal digits of
`player_id` from the last to the first, or a dot for `0`, and then spaces up to
`no_places_it_should_take` characters.  The index `ptr + i` is a `uint32_t`. -/
def insert_player_id_in_buffer (buffer : (Nat → Char) × Nat) (ptr no_places_it_should_take
    player_id : Nat) : (Nat → Char) × Nat :=
  if player_id ≠ 0 then
    let player_length := len player_id
    let s := (List.range player_length).reverse.foldl
      (fun (s : ((Nat → Char) × Nat) × Nat) i =>
        (write s.1 ((ptr + i) % 4294967296) (Char.ofNat (s.2 % 10 + 48)), s.2 / 10))
      (buffer, player_id)
    (List.range' player_length (no_places_it_should_take - player_length)).foldl
      (fun buffer i => write buffer ((ptr + i) % 4294967296) ' ') s.1
  else
    let buffer := write buffer ptr '.'
    (List.range' 1 (no_places_it_should_take - 1)).foldl
      (fun buffer i => write buffer ((ptr + i) % 4294967296) ' ') buffer

/-- The function `print_board_with_space`; here the index `it` is a
`uint32_t`.  The buffer has `h * w * (size_of_pocket + 1) + 1` bytes, a number
formed in `uint32_t`; a run that writes behind the end of the buffer has no
result (`none`), and otherwise the result is the string that stands in front
of the terminating NUL. -/
def print_board_with_space (g : gamma_t) (size_of_pocket : Nat) : Option (List Char) :=
  let h := get_height g
  let w := get_width g
  let size := ((h * w) % 4294967296 * ((size_of_pocket + 1) % 4294967296) % 4294967296 + 1)
    % 4294967296
  let s := (rows_down h).foldl (fun (s : ((Nat → Char) × Nat) × Nat) i =>
    let s := (List.range w).foldl (fun (s : ((Nat → Char) × Nat) × Nat) j =>
      let f := get_field g j i
      let buffer := insert_player_id_in_buffer s.1 s.2 size_of_pocket f.player_id
      let it := (s.2 + size_of_pocket) % 4294967296
      if j ≠ (w + 4294967295) % 4294967296 then
        (write buffer it ' ', (it + 1) % 4294967296)
      else (buffer, it)) s
    (write s.1 s.2 '\n', (s.2 + 1) % 4294967296)) ((fun _ => Char.ofNat 0, 0), 0)
  let buffer := write s.1 s.2 (Char.ofNat 0)
  if buffer.2 ≤ size then some (c_string buffer.1 s.2) else none

/-- The public `gamma_board`, as the list of the characters of the returned
string; `none` stands for a call that writes behind the end of its buffer. -/
def gamma_board (g : gamma_t) : Option (List Char) :=
  let size_of_pocket := length_of_max_player_id_on_board g
  if size_of_pocket > 1 then print_board_with_space g size_of_pocket
  else print_board_without_space g

/-- The unowned cells of the board next to a cell of `p`. -/
def border (g : gamma_t) (p : Nat) : Finset Cell :=
  (cells g).filter fun v => owner g v = 0 ∧ are_player_areas_nearby g p v.1 v.2 = true

/-! ## Boards of `2^32` cells and more -/

/-- A fresh game on a board of `65536 x 65536` cells, for one player who may
hold two regions. -/
def wide_game_0 : gamma_t := new_game 65536 65536 1 2

/-- Player 1 has taken the cell `(0, 0)` of the wide board. -/
def wide_game_1 : gamma_t := state_after (gamma_move wide_game_0 1 0 0) wide_game_0

/-- The 3x3 game after the first stone of player 1, with the cursor of
player 1 set back to the region id `0` of that stone. -/
def stale_game : gamma_t := set_player_first_free_colour split_game_1 1 0

/-- Player 1 places a second stone, on `(2, 2)`, away from the first. -/
def stale_game_1 : gamma_t := state_after (gamma_move stale_game 1 2 2) stale_game

/-! ## Boards of more than `2^31` rows -/

/-- A fresh game on a board one cell wide and `2^31 + 1` cells high, for ten
players. -/
def tall_game_0 : gamma_t := new_game 1 2147483649 10 1

/-- Player 10 has taken the cell `(0, 0)` of the tall board. -/
def tall_game_1 : gamma_t := state_after (gamma_move tall_game_0 10 0 0) tall_game_0

/-- The character at place `j` of the field that `insert_player_id_in_buffer`
writes for `player_id`: the decimal digits of the id from the left (a dot for
`0`), then spaces. -/
def pocket_char (player_id j : Nat) : Char :=
  if player_id = 0 then (if j = 0 then '.' else ' ')
  else if j < len player_id then
    Char.ofNat (player_id / 10 ^ (len player_id - 1 - j) % 10 + 48)
  else ' '

/-! ## The batch-mode parser of `bmparser.c` and the checks of `bmexecuter.c`

Strings are lists of characters without the terminating NUL.  The functions of
the C library that the parser calls (`isspace`, `strtok`, `strtoull`) are
described as ISO C specifies them in the "C" locale. -/

/-- The C library test `isspace` in the "C" locale: space, `\t`, `\n`, `\v`,
`\f`, `\r`. -/
def isspace (c : Char) : Bool :=
  c = ' ' || c = '\t' || c = '\n' || c = '\x0b' || c = '\x0c' || c = '\r'

def is_space (c : Char) : Bool := isspace c && c != '\n'

/-- The delimiter string `" \t\v\f\r"` that every call of `strtok` is given. -/
def delimiters : List Char := [' ', '\t', '\x0b', '\x0c', '\r']

/-- The C library function `strtok` with the delimiters above, run on what is
left of the line: the next token (`none` for `NULL`) and what is left after
it.  Leading delimiters are skipped; the token ends before the next delimiter,
which is consumed, or at the end of the string. -/
def strtok (str : List Char) : Option (List Char) × List Char :=
  let s := str.dropWhile fun c => delimiters.contains c
  if s = [] then (none, [])
  else (some (s.takeWhile fun c => !delimiters.contains c),
    (s.dropWhile fun c => !delimiters.contains c).tail)

/-- The C library function `strtoull(token, NULL, 10)` (ISO C 7.22.1.4): white
space is skipped, one sign is accepted, the longest run of decimal digits is
converted; without a digit the result is `0`, a value above `ULLONG_MAX` gives
`ULLONG_MAX`, and a value after a minus sign is negated in `unsigned long long`. -/
def strtoull (token : List Char) : Nat :=
  let s := token.dropWhile isspace
  let neg := decide (s.head? = some '-')
  let s := if s.head? = some '-' ∨ s.head? = some '+' then s.tail else s
  let digits := s.takeWhile Char.isDigit
  if digits = [] then 0
  else
    let v := digits.foldl (fun acc c => 10 * acc + (c.toNat - 48)) 0
    if 18446744073709551615 < v then 18446744073709551615
    else if neg then (18446744073709551616 - v) % 18446744073709551616 else v

/-- The conversion of an `unsigned long long` to `long long int`, which the
parser performs when it stores the result of `strtoull`. -/
def to_long_long (n : Nat) : Int :=
  if n % 18446744073709551616 < 9223372036854775808 then (n % 18446744073709551616 : Nat)
  else ((n % 18446744073709551616 : Nat) : Int) - 18446744073709551616

/-- The conversion of a `long long int` to `unsigned long`, which happens when
`num_len` is called. -/
def to_unsigned_long (z : Int) : Nat := (z % 18446744073709551616).toNat

/-- The `while` loop of `num_len`; it runs at most `n` times, and `fuel` bounds
the number of rounds. -/
def num_len_loop : Nat → Nat → Nat → Nat
  | 0, _, log => log
  | fuel + 1, n, log => if n = 0 then log else num_len_loop fuel (n / 10) (log + 1)

def num_len (n : Nat) : Nat := num_len_loop (n / 10) (n / 10) 1

def valid_num_token (ul : Int) (token : List Char) : Bool :=
  let flague := true
  let flague := flague && decide (num_len (to_unsigned_long ul) = token.length)
  if num_len (to_unsigned_long ul) = 1 then
    flague && decide (ul = ((token.headD (Char.ofNat 0)).toNat : Int) - 48)
  else flague

def trim_last (str : List Char) : List Char := str.dropLast

/-- The values of `enum command_type`. -/
inductive command_type where
  | Unknown
  | Move
  | Golden
  | Busy
  | Free
  | GoldenPossible
  | Print
  deriving DecidableEq

def parse_command_type (buffer : List Char) : command_type :=
  if buffer.length > 0 then
    let bufferCpy := trim_last buffer
    if bufferCpy.length > 0 ∧ is_space (buffer.headD (Char.ofNat 0)) = false then
      match (strtok bufferCpy).1 with
      | some token =>
        if token = ['m'] then command_type.Move
        else if token = ['g'] then command_type.Golden
        else if token = ['b'] then command_type.Busy
        else if token = ['f'] then command_type.Free
        else if token = ['q'] then command_type.GoldenPossible
        else if token = ['p'] then command_type.Print
        else command_type.Unknown
      | none => command_type.Unknown
    else command_type.Unknown
  else command_type.Unknown

/-- The loop of `parse_move_command` that reads `n` numbers from what is left
of the line: the numbers read and what is left after them, or `none` when a
token is missing or is refused by `valid_num_token`. -/
def parse_nums : Nat → List Char → Option (List Int × List Char)
  | 0, rest => some ([], rest)
  | n + 1, rest =>
    match strtok rest with
    | (some token, rest) =>
      let ul := to_long_long (strtoull token)
      if valid_num_token ul token then
        (parse_nums n rest).map fun r => (ul :: r.1, r.2)
      else none
    | (none, _) => none

/-- The parser `parse_move_command`: the three numbers of the command, or
`none` for `NULL`. -/
def parse_move_command (buffer : List Char) : Option (List Int) :=
  if buffer.length > 0 then
    let bufferCpy := trim_last buffer
    if bufferCpy.length > 0 then
      let rest := (strtok bufferCpy).2
      match parse_nums 3 rest with
      | some (nums, rest) =>
        match (strtok rest).1 with
        | none => some nums
        | some _ => none
      | none => none
    else none
  else none

/-- The parser `parse_player_info_command`: the player of the command, or
`none` for `NULL`. -/
def parse_player_info_command (buffer : List Char) : Option Int :=
  if buffer.length > 0 then
    let bufferCpy := trim_last buffer
    if bufferCpy.length > 0 then
      let rest := (strtok bufferCpy).2
      match strtok rest with
      | (some token, rest) =>
        let ul := to_long_long (strtoull token)
        if valid_num_token ul token then
          match (strtok rest).1 with
          | none => some ul
          | some _ => none
        else none
      | (none, _) => none
    else none
  else none

def valid_nums (nums : List Int) : Bool :=
  nums.foldl (fun flague n => flague && (decide (n ≥ 0) && decide (n ≤ 4294967295))) true

def valid_num (num : Int) : Bool := decide (num ≥ 0) && decide (num ≤ 4294967295)

/-- The guard of `execute_move_command` and `execute_golden_move_command`: the
`uint32_t` arguments with which the engine is called, or `none` when the
command is answered with `ERROR`. -/
def execute_move_command (com : Option (List Int)) : Option (Nat × Nat × Nat) :=
  match com with
  | some nums =>
    if valid_nums nums then
      some ((nums.getD 0 0 % 4294967296).toNat, (nums.getD 1 0 % 4294967296).toNat,
        (nums.getD 2 0 % 4294967296).toNat)
    else none
  | none => none

/-- The guard of `execute_busy_fields_command`, `execute_free_fields_command`
and `execute_golden_possible_command`: the `uint32_t` argument with which the
engine is called, or `none` when the command is answered with `ERROR`. -/
def execute_player_info_command (com : Option Int) : Option Nat :=
  match com with
  | some player => if valid_num player then some (player % 4294967296).toNat else none
  | none => none

/-- The number that a string of decimal digits denotes. -/
def decimal_value (t : List Char) : Nat :=
  t.foldl (fun acc c => 10 * acc + (c.toNat - 48)) 0

/-- A canonical decimal numeral: at least one character, decimal digits only
(so no sign), and no leading zero unless the string is exactly `0`. -/
def canonical_numeral (t : List Char) : Prop :=
  t ≠ [] ∧ (∀ c ∈ t, c.isDigit = true) ∧ (t.head? = some '0' → t = ['0'])

instance canonical_numeral_decidable (t : List Char) : Decidable (canonical_numeral t) :=
  inferInstanceAs
    (Decidable (t ≠ [] ∧ (∀ c ∈ t, c.isDigit = true) ∧ (t.head? = some '0' → t = ['0'])))

/-- The line starts with the one-letter command `k`: it does not start with
white space and its first token is exactly `k`, so `k` is its first character
and is followed by the end of the line or by a delimiter. -/
def command_line (k : Char) (body : List Char) : Prop :=
  ∃ rest, body = k :: rest ∧ (rest = [] ∨ ∃ d r, rest = d :: r ∧ d ∈ delimiters)

/-! ## The cursor highlight of `interactive.c` -/

/-- The conversion of a `uint32_t` or `size_t` value to `int`, which happens
when `highlighted` passes its arguments and `strlen(str)` to `substr`. -/
def to_int (n : Nat) : Int :=
  if n % 4294967296 < 2147483648 then (n % 4294967296 : Nat)
  else ((n % 4294967296 : Nat) : Int) - 4294967296

/-- The function `substr(str, s, k)` with `int` bounds: a copy of the
characters `[s, k)` of `str`.  The result `none` stands for every call that
does not return a copy: with `k < s` the size `k - s + 1` given to `malloc` is
not positive, so the allocation of a negative size fails and `NULL` is
returned (or, for size zero, `memcpy` is called with the length `-1`), and with
`s < 0` or `k` past the end of the string `memcpy` reads outside the string. -/
def substr (str : List Char) (s k : Int) : Option (List Char) :=
  if 0 ≤ s ∧ s ≤ k ∧ k ≤ (str.length : Int) then
    some ((str.drop s.toNat).take (k - s).toNat)
  else none

def append (str1 str2 : List Char) : List Char := str1 ++ str2

def highlighted (str : List Char) (s k : Nat) : Option (List Char) :=
  match substr str 0 (to_int s) with
  | none => none
  | some str1 =>
    match substr str (to_int s) (to_int k) with
    | none => none
    | some str2 =>
      match substr str (to_int k) (to_int str.length) with
      | none => none
      | some str3 =>
        let h1 := [Char.ofNat 27, '[', '4', '4', 'm']
        let h2 := [Char.ofNat 27, '[', '0', 'm']
        some (append (append (append (append str1 h1) str2) h2) str3)

/-- The function `highlighted_board`; `pos` is computed in `uint32_t`
arithmetic, and `highlighted` takes `pos` and `pos + size_of_pocket` as
`uint32_t` values.  Without a board from `gamma_board` there is no result. -/
def highlighted_board (game : gamma_t) (curX curY : Nat) : Option (List Char) :=
  let size_of_pocket := length_of_max_player_id_on_board game
  let w := get_width game
  let h := get_height game
  let rows := ((h + 4294967296 - 1) % 4294967296 + 4294967296 - curY) % 4294967296
  let pos :=
    if size_of_pocket > 1 then
      ((curX * ((size_of_pocket + 1) % 4294967296)) % 4294967296 +
        ((w * ((size_of_pocket + 1) % 4294967296)) % 4294967296 * rows) % 4294967296)
        % 4294967296
    else
      (curX + (((w + 1) % 4294967296) * rows) % 4294967296) % 4294967296
  match gamma_board game with
  | none => none
  | some board => highlighted board (pos % 4294967296) ((pos + size_of_pocket) % 4294967296)

def get_curX_default (game : gamma_t) : Nat := get_width game / 2

def get_curY_default (game : gamma_t) : Nat := get_height game / 2

/-- The board of 1431655765 columns and 2 rows for one player, as `gamma_new`
returns it. -/
def long_game_0 : gamma_t := new_game 1431655765 2 1 1

/-! ## Theorems -/

theorem adj_symm {a b : Cell} (h : adj a b) : adj b a := by
  unfold adj at *
  omega

theorem nbr_0 (x y : Nat) : nbr x y 0 = (x + 1, y) := by
  simp [nbr, new_x, new_y, directions_x, directions_y]

theorem nbr_1 (x y : Nat) : nbr x y 1 = (x, y + 1) := by
  simp [nbr, new_x, new_y, directions_x, directions_y]

theorem nbr_2 (x y : Nat) : nbr x y 2 = (x - 1, y) := by
  simp [nbr, new_x, new_y, directions_x, directions_y]
  omega

theorem nbr_3 (x y : Nat) : nbr x y 3 = (x, y - 1) := by
  simp [nbr, new_x, new_y, directions_x, directions_y]
  omega

theorem nearby_iff (g : gamma_t) (p x y i : Nat) :
    player_areas_nearby g p x y i = true ↔ valid_dir g x y i ∧ owner g (nbr x y i) = p := by
  unfold player_areas_nearby valid_dir
  match i with
  | 0 => simp [nbr_0, owner, get_field]; omega
  | 1 => simp [nbr_1, owner, get_field]; omega
  | 2 => simp [nbr_2, owner, get_field]
  | 3 => simp [nbr_3, owner, get_field]
  | n + 4 => simp

theorem valid_dir_lt {g : gamma_t} {x y i : Nat} (h : valid_dir g x y i) : i < 4 := by
  unfold valid_dir at h
  omega

theorem valid_dir_adj {g : gamma_t} {x y i : Nat} (hv : inb g (x, y))
    (h : valid_dir g x y i) : adj (x, y) (nbr x y i) ∧ inb g (nbr x y i) := by
  unfold valid_dir at h
  unfold inb at *
  rcases h with ⟨rfl, h⟩ | ⟨rfl, h⟩ | ⟨rfl, h⟩ | ⟨rfl, h⟩
  · rw [nbr_0]; simp [adj]; omega
  · rw [nbr_1]; simp [adj]; omega
  · rw [nbr_2]; simp [adj] at *; omega
  · rw [nbr_3]; simp [adj] at *; omega

theorem adj_exists_dir {g : gamma_t} {x y : Nat} {u : Cell}
    (ha : adj (x, y) u) (hu : inb g u) : ∃ i, valid_dir g x y i ∧ nbr x y i = u := by
  obtain ⟨a, b⟩ := u
  unfold adj at ha
  unfold inb at *
  simp only at ha hu
  rcases ha with ⟨h1, h2 | h2⟩ | ⟨h1, h2 | h2⟩
  · exact ⟨0, by unfold valid_dir; omega, by rw [nbr_0]; simp; omega⟩
  · exact ⟨2, by unfold valid_dir; omega, by rw [nbr_2]; simp; omega⟩
  · exact ⟨1, by unfold valid_dir; omega, by rw [nbr_1]; simp; omega⟩
  · exact ⟨3, by unfold valid_dir; omega, by rw [nbr_3]; simp; omega⟩

/-! ## Loops over the four directions -/

theorem loop4_inv {β : Type} (f : β → Nat → Option β) (J : Nat → β → Prop) (b0 b1 : β)
    (h0 : J 0 b0)
    (hstep : ∀ i b b', i < 4 → J i b → f b i = some b' → J (i + 1) b')
    (h : [0, 1, 2, 3].foldlM f b0 = some b1) : J 4 b1 := by
  simp only [List.foldlM_cons, List.foldlM_nil, Option.bind_eq_bind, Option.pure_def] at h
  rcases h0' : f b0 0 with _ | a0
  · simp [h0'] at h
  rcases h1' : f a0 1 with _ | a1
  · simp [h0', h1'] at h
  rcases h2' : f a1 2 with _ | a2
  · simp [h0', h1', h2'] at h
  rcases h3' : f a2 3 with _ | a3
  · simp [h0', h1', h2', h3'] at h
  simp [h0', h1', h2', h3'] at h
  subst h
  have j1 := hstep 0 b0 a0 (by omega) h0 h0'
  have j2 := hstep 1 a0 a1 (by omega) j1 h1'
  have j3 := hstep 2 a1 a2 (by omega) j2 h2'
  exact hstep 3 a2 a3 (by omega) j3 h3'

theorem loop4_total {β : Type} (f : β → Nat → Option β) (J : Nat → β → Prop) (b0 : β)
    (h0 : J 0 b0)
    (hstep : ∀ i b, i < 4 → J i b → ∃ b', f b i = some b' ∧ J (i + 1) b') :
    ∃ b1, [0, 1, 2, 3].foldlM f b0 = some b1 ∧ J 4 b1 := by
  obtain ⟨a0, e0, j0⟩ := hstep 0 b0 (by omega) h0
  obtain ⟨a1, e1, j1⟩ := hstep 1 a0 (by omega) j0
  obtain ⟨a2, e2, j2⟩ := hstep 2 a1 (by omega) j1
  obtain ⟨a3, e3, j3⟩ := hstep 3 a2 (by omega) j2
  exact ⟨a3, by simp [List.foldlM_cons, e0, e1, e2, e3], j3⟩

/-! ## How the setters act on cells and records -/

@[simp] theorem set_field_width (g : gamma_t) (x y : Nat) (f : field) :
    (set_field g x y f).width = g.width := rfl

@[simp] theorem set_field_height (g : gamma_t) (x y : Nat) (f : field) :
    (set_field g x y f).height = g.height := rfl

@[simp] theorem set_field_no_players (g : gamma_t) (x y : Nat) (f : field) :
    (set_field g x y f).no_players = g.no_players := rfl

@[simp] theorem set_field_max_no_areas (g : gamma_t) (x y : Nat) (f : field) :
    (set_field g x y f).max_no_areas = g.max_no_areas := rfl

@[simp] theorem set_field_playerlist (g : gamma_t) (x y : Nat) (f : field) :
    (set_field g x y f).playerlist = g.playerlist := rfl

@[simp] theorem set_player_width (g : gamma_t) (i : Nat) (p : player) :
    (set_player g i p).width = g.width := rfl

@[simp] theorem set_player_height (g : gamma_t) (i : Nat) (p : player) :
    (set_player g i p).height = g.height := rfl

@[simp] theorem set_player_no_players (g : gamma_t) (i : Nat) (p : player) :
    (set_player g i p).no_players = g.no_players := rfl

@[simp] theorem set_player_max_no_areas (g : gamma_t) (i : Nat) (p : player) :
    (set_player g i p).max_no_areas = g.max_no_areas := rfl

@[simp] theorem set_player_board (g : gamma_t) (i : Nat) (p : player) :
    (set_player g i p).board = g.board := rfl

@[simp] theorem set_player_playerlist (g : gamma_t) (i j : Nat) (p : player) :
    (set_player g i p).playerlist j = if j = i then p else g.playerlist j := rfl

@[simp] theorem owner_set_player (g : gamma_t) (i : Nat) (p : player) (v : Cell) :
    owner (set_player g i p) v = owner g v := rfl

@[simp] theorem area_set_player (g : gamma_t) (i : Nat) (p : player) (v : Cell) :
    area (set_player g i p) v = area g v := rfl

theorem owner_set_field (g : gamma_t) (x y : Nat) (f : field) (v : Cell) :
    owner (set_field g x y f) v = if v = (x, y) then f.player_id else owner g v := by
  obtain ⟨a, b⟩ := v
  simp only [owner, set_field, Prod.mk.injEq]
  by_cases h : b = y ∧ a = x
  · simp [h]
  · rw [if_neg h, if_neg (by tauto)]

theorem area_set_field (g : gamma_t) (x y : Nat) (f : field) (v : Cell) :
    area (set_field g x y f) v = if v = (x, y) then f.area_id else area g v := by
  obtain ⟨a, b⟩ := v
  simp only [area, set_field, Prod.mk.injEq]
  by_cases h : b = y ∧ a = x
  · simp [h]
  · rw [if_neg h, if_neg (by tauto)]

@[simp] theorem owner_set_area_id (g : gamma_t) (x y c : Nat) (v : Cell) :
    owner (set_area_id g x y c) v = owner g v := by
  rw [set_area_id, owner_set_field]
  split <;> simp_all [owner]

@[simp] theorem area_set_area_id (g : gamma_t) (x y c : Nat) (v : Cell) :
    area (set_area_id g x y c) v = if v = (x, y) then c else area g v := by
  rw [set_area_id, area_set_field]

@[simp] theorem owner_set_player_id (g : gamma_t) (x y p : Nat) (v : Cell) :
    owner (set_player_id g x y p) v = if v = (x, y) then p else owner g v := by
  rw [set_player_id, owner_set_field]

@[simp] theorem area_set_player_id (g : gamma_t) (x y p : Nat) (v : Cell) :
    area (set_player_id g x y p) v = area g v := by
  rw [set_player_id, area_set_field]
  split <;> simp_all [area]

@[simp] theorem set_area_id_width (g : gamma_t) (x y c : Nat) :
    (set_area_id g x y c).width = g.width := rfl

@[simp] theorem set_area_id_height (g : gamma_t) (x y c : Nat) :
    (set_area_id g x y c).height = g.height := rfl

@[simp] theorem set_area_id_no_players (g : gamma_t) (x y c : Nat) :
    (set_area_id g x y c).no_players = g.no_players := rfl

@[simp] theorem set_area_id_max_no_areas (g : gamma_t) (x y c : Nat) :
    (set_area_id g x y c).max_no_areas = g.max_no_areas := rfl

@[simp] theorem set_area_id_playerlist (g : gamma_t) (x y c : Nat) :
    (set_area_id g x y c).playerlist = g.playerlist := rfl

@[simp] theorem set_player_id_width (g : gamma_t) (x y c : Nat) :
    (set_player_id g x y c).width = g.width := rfl

@[simp] theorem set_player_id_height (g : gamma_t) (x y c : Nat) :
    (set_player_id g x y c).height = g.height := rfl

@[simp] theorem set_player_id_no_players (g : gamma_t) (x y c : Nat) :
    (set_player_id g x y c).no_players = g.no_players := rfl

@[simp] theorem set_player_id_max_no_areas (g : gamma_t) (x y c : Nat) :
    (set_player_id g x y c).max_no_areas = g.max_no_areas := rfl

@[simp] theorem set_player_id_playerlist (g : gamma_t) (x y c : Nat) :
    (set_player_id g x y c).playerlist = g.playerlist := rfl

theorem SameButAreas.refl (g : gamma_t) : SameButAreas g g :=
  ⟨rfl, rfl, rfl, rfl, rfl, fun _ => rfl⟩

theorem SameButAreas.trans {g g' g'' : gamma_t} (h : SameButAreas g g')
    (h' : SameButAreas g' g'') : SameButAreas g g'' :=
  ⟨h'.width.trans h.width, h'.height.trans h.height, h'.no_players.trans h.no_players,
    h'.max_no_areas.trans h.max_no_areas, h'.playerlist.trans h.playerlist,
    fun v => (h'.owner v).trans (h.owner v)⟩

theorem SameButAreas.inb {g g' : gamma_t} (h : SameButAreas g g') (v : Cell) :
    inb g' v ↔ inb g v := by
  unfold Gamma.inb
  rw [h.width, h.height]

theorem SameButAreas.valid_dir {g g' : gamma_t} (h : SameButAreas g g') (x y i : Nat) :
    valid_dir g' x y i ↔ valid_dir g x y i := by
  unfold Gamma.valid_dir
  rw [h.width, h.height]

theorem sameButAreas_set_area_id (g : gamma_t) (x y c : Nat) :
    SameButAreas g (set_area_id g x y c) :=
  ⟨rfl, rfl, rfl, rfl, rfl, fun v => owner_set_area_id g x y c v⟩

theorem Path.mono {P Q : Cell → Prop} (h : ∀ b, P b → Q b) {a b : Cell} (hp : Path P a b) :
    Path Q a b :=
  Relation.ReflTransGen.mono (fun _ b hab => ⟨hab.1, h b hab.2⟩) hp

theorem Filled.keeps {g g' : gamma_t} {p c : Nat} {s : Cell} (h : Filled g p c s g')
    {v : Cell} (hv : area g v = c) : area g' v = c := by
  by_contra hne
  exact hne (h.changed v (by rw [hv]; exact hne)).1

theorem colour_area_aux_succ (fuel : Nat) (g : gamma_t) (p x y c : Nat) :
    colour_area_aux (fuel + 1) g p x y c =
      [0, 1, 2, 3].foldlM (fun gi i =>
        if player_areas_nearby (set_area_id g x y c) p x y i then
          if c ≠ area gi (nbr x y i) then
            colour_area_aux fuel gi p (nbr x y i).1 (nbr x y i).2 c
          else some gi
        else some gi) (set_area_id g x y c) := rfl

theorem colour_area_aux_filled (fuel : Nat) : ∀ (g : gamma_t) (p x y c : Nat) (g' : gamma_t),
    inb g (x, y) → colour_area_aux fuel g p x y c = some g' → Filled g p c (x, y) g' := by
  induction fuel with
  | zero => intro g p x y c g' _ h; simp [colour_area_aux] at h
  | succ fuel ih =>
    intro g p x y c g' hs h
    rw [colour_area_aux_succ] at h
    have key := loop4_inv _ (FillInv g p c (x, y)) _ _ ?_ ?_ h
    · refine ⟨key.frame, key.start, key.changed, ?_⟩
      intro v u hv hvu hu hou
      by_cases hvs : v = (x, y)
      · subst hvs
        obtain ⟨j, hj, rfl⟩ := adj_exists_dir hvu hu
        exact key.done j (valid_dir_lt hj) hj hou
      · rcases hv with hv | hv
        · exact absurd hv hvs
        · exact key.closed v u hvs hv hvu hu hou
    · refine ⟨sameButAreas_set_area_id g x y c, by simp, ?_, ?_, ?_⟩
      · intro v hv
        rw [area_set_area_id] at hv ⊢
        by_cases hvs : v = (x, y)
        · subst hvs; exact ⟨by simp, Relation.ReflTransGen.refl⟩
        · simp [hvs] at hv
      · intro v u hvs hv
        simp [hvs] at hv
      · intro j hj; omega
    · intro i gi g1 hi J hstep
      by_cases htab : player_areas_nearby (set_area_id g x y c) p x y i = true
      · rw [if_pos htab] at hstep
        rw [nearby_iff] at htab
        obtain ⟨hval, hown⟩ := htab
        rw [(sameButAreas_set_area_id g x y c).valid_dir] at hval
        rw [owner_set_area_id] at hown
        obtain ⟨hadj, hinb⟩ := valid_dir_adj hs hval
        by_cases hcol : c ≠ area gi (nbr x y i)
        · rw [if_pos hcol] at hstep
          have F := ih gi p _ _ c g1 ((J.frame.inb _).2 hinb) hstep
          have hfill : ∀ b, Fillable gi p c b → Fillable g p c b := by
            intro b ⟨hb1, hb2, hb3⟩
            refine ⟨(J.frame.inb _).1 hb1, (J.frame.owner b) ▸ hb2, ?_⟩
            intro hbc
            by_cases hch : area gi b = area g b
            · exact hb3 (hch.trans hbc)
            · exact hb3 (J.changed b hch).1
          have hn : Fillable g p c (nbr x y i) := by
            refine hfill _ ⟨(J.frame.inb _).2 hinb, (J.frame.owner _).trans hown, ?_⟩
            exact fun h => hcol h.symm
          refine ⟨J.frame.trans F.frame, F.keeps J.start, ?_, ?_, ?_⟩
          · intro v hv
            by_cases hch : area g1 v = area gi v
            · rw [hch] at hv ⊢; exact J.changed v hv
            · obtain ⟨h1, h2⟩ := F.changed v hch
              exact ⟨h1, Relation.ReflTransGen.head ⟨hadj, hn⟩ (Path.mono hfill h2)⟩
          · intro v u hvs hv hvu hu hou
            by_cases hch : area gi v = area g v
            · refine F.closed v u (Or.inr ?_) hvu ((J.frame.inb _).2 hu)
                ((J.frame.owner u).trans hou)
              rw [hch]; exact hv
            · exact F.keeps (J.closed v u hvs hch hvu hu hou)
          · intro j hj hjv hjo
            by_cases hji : j = i
            · subst hji; exact F.start
            · exact F.keeps (J.done j (by omega) hjv hjo)
        · rw [if_neg hcol] at hstep
          cases hstep
          refine ⟨J.frame, J.start, J.changed, J.closed, ?_⟩
          intro j hj hjv hjo
          by_cases hji : j = i
          · subst hji; exact (not_ne_iff.1 hcol).symm
          · exact J.done j (by omega) hjv hjo
      · rw [if_neg htab] at hstep
        cases hstep
        refine ⟨J.frame, J.start, J.changed, J.closed, ?_⟩
        intro j hj hjv hjo
        by_cases hji : j = i
        · subst hji
          exact absurd ((nearby_iff _ _ _ _ _).2
            ⟨((sameButAreas_set_area_id g x y c).valid_dir _ _ _).2 hjv,
              by rw [owner_set_area_id]; exact hjo⟩) htab
        · exact J.done j (by omega) hjv hjo

theorem fill_measure_le_board (g : gamma_t) (p c : Nat) :
    fill_measure g p c ≤ g.width * g.height := by
  unfold fill_measure
  calc _ ≤ (Finset.range g.width ×ˢ Finset.range g.height).card := Finset.card_filter_le _ _
    _ = g.width * g.height := by simp

theorem fill_measure_le {g g' : gamma_t} {p c : Nat} (h : SameButAreas g g')
    (hc : ∀ v, area g' v ≠ area g v → area g' v = c) :
    fill_measure g' p c ≤ fill_measure g p c := by
  unfold fill_measure
  rw [h.width, h.height]
  apply Finset.card_le_card
  intro v hv
  simp only [Finset.mem_filter] at hv ⊢
  refine ⟨hv.1, (h.owner v) ▸ hv.2.1, ?_⟩
  intro hvc
  by_cases hch : area g' v = area g v
  · exact hv.2.2 (hch.trans hvc)
  · exact hv.2.2 (hc v hch)

theorem fill_measure_lt {g : gamma_t} {p c : Nat} {n : Cell} (hn : Fillable g p c n) :
    fill_measure (set_area_id g n.1 n.2 c) p c < fill_measure g p c := by
  unfold fill_measure
  apply Finset.card_lt_card
  rw [Finset.ssubset_iff_of_subset]
  · refine ⟨n, ?_, ?_⟩
    · simp only [Finset.mem_filter, Finset.mem_product, Finset.mem_range]
      exact ⟨hn.1, hn.2.1, hn.2.2⟩
    · simp
  · intro v hv
    simp only [Finset.mem_filter, set_area_id_width, set_area_id_height, owner_set_area_id,
      area_set_area_id] at hv ⊢
    refine ⟨hv.1, hv.2.1, ?_⟩
    have := hv.2.2
    by_cases hvn : v = (n.1, n.2)
    · simp [hvn] at this
    · simpa [hvn] using this

theorem colour_area_aux_total (fuel : Nat) : ∀ (g : gamma_t) (p x y c : Nat),
    inb g (x, y) → fill_measure (set_area_id g x y c) p c < fuel →
    ∃ g', colour_area_aux fuel g p x y c = some g' := by
  induction fuel with
  | zero => intro g p x y c _ h; omega
  | succ fuel ih =>
    intro g p x y c hs hm
    rw [colour_area_aux_succ]
    have key := loop4_total
      (fun gi i =>
        if player_areas_nearby (set_area_id g x y c) p x y i then
          if c ≠ area gi (nbr x y i) then
            colour_area_aux fuel gi p (nbr x y i).1 (nbr x y i).2 c
          else some gi
        else some gi)
      (fun _ gi => SameButAreas (set_area_id g x y c) gi ∧
        ∀ v, area gi v ≠ area (set_area_id g x y c) v → area gi v = c)
      (set_area_id g x y c) ⟨SameButAreas.refl _, fun v hv => absurd rfl hv⟩ ?_
    · obtain ⟨g', hg', _⟩ := key
      exact ⟨g', hg'⟩
    · intro i gi _ ⟨hfr, hch⟩
      by_cases htab : player_areas_nearby (set_area_id g x y c) p x y i = true
      · simp only [htab, if_true]
        rw [nearby_iff] at htab
        obtain ⟨hval, hown⟩ := htab
        have hs0 : inb (set_area_id g x y c) (x, y) := hs
        obtain ⟨_, hinb⟩ := valid_dir_adj hs0 hval
        by_cases hcol : c ≠ area gi (nbr x y i)
        · rw [if_pos hcol]
          have hn : Fillable gi p c (nbr x y i) :=
            ⟨(hfr.inb _).2 hinb, (hfr.owner _).trans hown, fun h => hcol h.symm⟩
          have h1 := fill_measure_lt hn
          have h2 := fill_measure_le (p := p) hfr hch
          obtain ⟨g1, hg1⟩ := ih gi p (nbr x y i).1 (nbr x y i).2 c hn.1 (by omega)
          have F := colour_area_aux_filled fuel gi p _ _ c g1 hn.1 hg1
          refine ⟨g1, hg1, hfr.trans F.frame, ?_⟩
          intro v hv
          by_cases hv1 : area g1 v = area gi v
          · rw [hv1] at hv ⊢; exact hch v hv
          · exact (F.changed v hv1).1
        · rw [if_neg hcol]
          exact ⟨gi, rfl, hfr, hch⟩
      · simp only [htab]
        exact ⟨gi, rfl, hfr, hch⟩

/-- The flood fill always returns, and `Filled` describes its result. -/
theorem colour_area_filled (g : gamma_t) (p x y c : Nat) (hs : inb g (x, y)) :
    ∃ g', colour_area g p x y c = some g' ∧ Filled g p c (x, y) g' := by
  have hm : fill_measure (set_area_id g x y c) p c < g.width * g.height + 1 := by
    have := fill_measure_le_board (set_area_id g x y c) p c
    simp only [set_area_id_width, set_area_id_height] at this
    omega
  obtain ⟨g', hg'⟩ := colour_area_aux_total _ g p x y c hs hm
  exact ⟨g', hg', colour_area_aux_filled _ g p x y c g' hs hg'⟩

/-- Every cell the fill can reach ends up with colour `c`. -/
theorem Filled.reached {g g' : gamma_t} {p c : Nat} {s : Cell} (h : Filled g p c s g')
    {v : Cell} (hp : Path (Fillable g p c) s v) : area g' v = c := by
  have : area g' v = c ∧ (v = s ∨ area g' v ≠ area g v) := by
    induction hp with
    | refl => exact ⟨h.start, Or.inl rfl⟩
    | tail _ hbc ih =>
      obtain ⟨hadj, hf⟩ := hbc
      have hc := h.closed _ _ ih.2 hadj hf.1 hf.2.1
      exact ⟨hc, Or.inr (by rw [hc]; exact fun e => hf.2.2 e.symm)⟩
  exact this.1

/-- Every cell the fill cannot reach keeps its colour. -/
theorem Filled.unreached {g g' : gamma_t} {p c : Nat} {s : Cell} (h : Filled g p c s g')
    {v : Cell} (hp : ¬ Path (Fillable g p c) s v) : area g' v = area g v := by
  by_contra hne
  exact hp (h.changed v hne).2

/-! ## The free-colour cursor -/

theorem first_free_scan_finds (g : gamma_t) (p : Nat) :
    ∀ (fuel it : Nat), it < g.max_no_areas →
      (∃ k, k < fuel ∧ (g.playerlist p).does_area_exist ((it + k) % g.max_no_areas) = false) →
      ∃ f, first_free_scan g p fuel it = some f ∧ f < g.max_no_areas ∧
        (g.playerlist p).does_area_exist f = false := by
  intro fuel
  induction fuel with
  | zero => intro it _ ⟨k, hk, _⟩; omega
  | succ fuel ih =>
    intro it hit ⟨k, hk, hfree⟩
    unfold first_free_scan
    by_cases hex : get_player_does_area_exist g p it = true
    · rw [if_pos hex]
      have hpos : 0 < g.max_no_areas := by omega
      apply ih _ (Nat.mod_lt _ hpos)
      cases k with
      | zero =>
        rw [Nat.add_zero, Nat.mod_eq_of_lt hit] at hfree
        rw [get_player_does_area_exist, hfree] at hex
        exact absurd hex (by simp)
      | succ k =>
        refine ⟨k, by omega, ?_⟩
        rw [Nat.mod_add_mod]
        rw [← hfree]
        congr 2
        omega
    · rw [if_neg hex]
      exact ⟨it, rfl, hit, by simpa [get_player_does_area_exist] using hex⟩

theorem first_free_scan_none (g : gamma_t) (p : Nat)
    (hall : ∀ r, r < g.max_no_areas → (g.playerlist p).does_area_exist r = true) :
    ∀ (fuel it : Nat), it < g.max_no_areas → first_free_scan g p fuel it = none := by
  intro fuel
  induction fuel with
  | zero => intro it _; rfl
  | succ fuel ih =>
    intro it hit
    unfold first_free_scan
    rw [if_pos (by simpa [get_player_does_area_exist] using hall it hit)]
    exact ih _ (Nat.mod_lt _ (by omega))

/-- The outcome of `move_player_first_free_colour` when a free slot exists: the
cursor is moved to a free slot and nothing else changes. -/
theorem move_cursor_some (g : gamma_t) (p : Nat)
    (hlt : (g.playerlist p).first_free_colour < g.max_no_areas)
    (hfree : ∃ r, r < g.max_no_areas ∧ (g.playerlist p).does_area_exist r = false)
    (hne : (g.playerlist p).no_areas_used ≠ g.max_no_areas) :
    ∃ f, move_player_first_free_colour g p = some (set_player_first_free_colour g p f) ∧
      f < g.max_no_areas ∧ (g.playerlist p).does_area_exist f = false := by
  obtain ⟨r, hr, hrf⟩ := hfree
  have hk : ∃ k, k < g.max_no_areas ∧ (g.playerlist p).does_area_exist
      (((g.playerlist p).first_free_colour + k) % g.max_no_areas) = false := by
    by_cases hle : (g.playerlist p).first_free_colour ≤ r
    · refine ⟨r - (g.playerlist p).first_free_colour, by omega, ?_⟩
      rw [Nat.add_sub_cancel' hle, Nat.mod_eq_of_lt hr]
      exact hrf
    · refine ⟨r + g.max_no_areas - (g.playerlist p).first_free_colour, by omega, ?_⟩
      have : (g.playerlist p).first_free_colour +
          (r + g.max_no_areas - (g.playerlist p).first_free_colour) = r + g.max_no_areas := by
        omega
      rw [this, Nat.add_mod_right, Nat.mod_eq_of_lt hr]
      exact hrf
  obtain ⟨f, hf, hfl, hff⟩ := first_free_scan_finds g p _ _ hlt hk
  refine ⟨f, ?_, hfl, hff⟩
  unfold move_player_first_free_colour
  simp [player_all_areas_used, hne, get_player_first_free_colour, hf]

theorem move_cursor_full (g : gamma_t) (p : Nat)
    (hfull : (g.playerlist p).no_areas_used = g.max_no_areas) :
    move_player_first_free_colour g p = some g := by
  unfold move_player_first_free_colour
  simp [player_all_areas_used, hfull]

/-- With every slot in use and a counter that differs from the limit the scan
never ends. -/
theorem move_cursor_none (g : gamma_t) (p : Nat)
    (hlt : (g.playerlist p).first_free_colour < g.max_no_areas)
    (hall : ∀ r, r < g.max_no_areas → (g.playerlist p).does_area_exist r = true)
    (hne : (g.playerlist p).no_areas_used ≠ g.max_no_areas) :
    move_player_first_free_colour g p = none := by
  unfold move_player_first_free_colour
  simp [player_all_areas_used, hne, get_player_first_free_colour,
    first_free_scan_none g p hall _ _ hlt]

theorem in_use_card_le (g : gamma_t) (p : Nat) : (in_use g p).card ≤ g.max_no_areas := by
  unfold in_use
  calc _ ≤ (Finset.range g.max_no_areas).card := Finset.card_filter_le _ _
    _ = g.max_no_areas := by simp

theorem in_use_free_slot (g : gamma_t) (p : Nat) (h : (in_use g p).card < g.max_no_areas) :
    ∃ r, r < g.max_no_areas ∧ (g.playerlist p).does_area_exist r = false := by
  by_contra hcon
  push_neg at hcon
  have : in_use g p = Finset.range g.max_no_areas := by
    unfold in_use
    apply Finset.filter_true_of_mem
    intro r hr
    have := hcon r (Finset.mem_range.1 hr)
    simpa using this
  rw [this] at h
  simp at h

theorem in_use_all_of_card (g : gamma_t) (p : Nat) (h : (in_use g p).card = g.max_no_areas) :
    ∀ r, r < g.max_no_areas → (g.playerlist p).does_area_exist r = true := by
  intro r hr
  by_contra hcon
  have hsub : in_use g p ⊆ (Finset.range g.max_no_areas).erase r := by
    intro s hs
    unfold in_use at hs
    simp only [Finset.mem_filter, Finset.mem_range] at hs
    simp only [Finset.mem_erase, Finset.mem_range]
    exact ⟨fun e => hcon (e ▸ hs.2), hs.1⟩
  have := Finset.card_le_card hsub
  rw [Finset.card_erase_of_mem (Finset.mem_range.2 hr)] at this
  simp at this
  omega

theorem owned_card_le (g : gamma_t) (p : Nat) : (owned g p).card ≤ g.width * g.height := by
  unfold owned cells
  calc _ ≤ (Finset.range g.width ×ˢ Finset.range g.height).card := Finset.card_filter_le _ _
    _ = g.width * g.height := by simp

theorem mem_owned {g : gamma_t} {p : Nat} {v : Cell} : v ∈ owned g p ↔ Own g p v := by
  simp [owned, cells, Own, inb]

theorem board_lt_of_dims {g : gamma_t} (h : Dims g) :
    g.width * g.height < 18446744073709551615 := by
  have h1 := h.width_lt
  have h2 := h.height_lt
  calc g.width * g.height ≤ 4294967295 * 4294967295 :=
        Nat.mul_le_mul (by omega) (by omega)
    _ < 18446744073709551615 := by norm_num

/-! ## Paths -/

theorem Path.symm {P : Cell → Prop} {u v : Cell} (hu : P u) (h : Path P u v) : Path P v u := by
  have : P v ∧ Path P v u := by
    induction h with
    | refl => exact ⟨hu, Relation.ReflTransGen.refl⟩
    | tail _ hbc ih =>
      exact ⟨hbc.2, Relation.ReflTransGen.head ⟨adj_symm hbc.1, ih.1⟩ ih.2⟩
  exact this.2

theorem Path.append {P : Cell → Prop} {u v w : Cell} (h : Path P u v) (h' : Path P v w) :
    Path P u w :=
  Relation.ReflTransGen.trans h h'

theorem Path.end_mem {P : Cell → Prop} {u v : Cell} (hu : P u) (h : Path P u v) : P v := by
  induction h with
  | refl => exact hu
  | tail _ hbc _ => exact hbc.2

/-- A path can be read with a stronger predicate when every cell met on the way
satisfies it. -/
theorem Path.restrict {P Q : Cell → Prop} {u v : Cell}
    (h : ∀ b, Path P u b → P b → Q b) (hp : Path P u v) : Path Q u v := by
  induction hp with
  | refl => exact Relation.ReflTransGen.refl
  | tail hab hbc ih =>
    exact Relation.ReflTransGen.tail ih ⟨hbc.1, h _ (Relation.ReflTransGen.tail hab hbc) hbc.2⟩

theorem Path.single {P : Cell → Prop} {u v : Cell} (ha : adj u v) (hv : P v) : Path P u v :=
  Relation.ReflTransGen.single ⟨ha, hv⟩

/-- From a cell without a neighbour in `P` no other cell can be reached. -/
theorem Path.eq_of_isolated {P : Cell → Prop} {u v : Cell} (hu : ∀ b, adj u b → ¬ P b)
    (h : Path P u v) : v = u := by
  induction h using Relation.ReflTransGen.head_induction_on with
  | refl => rfl
  | head hab _ _ => exact absurd hab.2 (hu _ hab.1)

/-- Adjacent cells of one player carry the same region id. -/
theorem RInv.toRegionInv {g : gamma_t} {p : Nat} (h : RInv g p) : RegionInv g p :=
  ⟨h.cursor_lt, h.exist_lt, h.exist_iff, h.areas_count, h.region⟩

theorem Inv.toBoardInv {g : gamma_t} (h : Inv g) : BoardInv g :=
  ⟨h.dims, h.owner_le, fun p hp hpn => (h.players p hp hpn).toRInv.toRegionInv⟩

theorem RegionInv.adj_same {g : gamma_t} {p : Nat} (h : RegionInv g p) {u v : Cell}
    (hu : Own g p u) (hv : Own g p v) (ha : adj u v) : area g u = area g v :=
  (h.region u v hu hv).2 (Path.single ha hv)

/-- Invariant 4 follows from invariant 2 and the size of the table. -/
theorem RegionInv.count_le {g : gamma_t} {p : Nat} (h : RegionInv g p) :
    (g.playerlist p).no_areas_used ≤ g.max_no_areas := by
  rw [h.areas_count]
  exact in_use_card_le g p

theorem RegionInv.area_below {g : gamma_t} {p : Nat} (h : RegionInv g p) {v : Cell}
    (hv : Own g p v) : area g v < g.max_no_areas :=
  h.exist_lt _ ((h.exist_iff _).2 ⟨v, hv, rfl⟩)

/-- Along a path through the cells of one player the region id is constant. -/
theorem RegionInv.path_same {g : gamma_t} {p : Nat} (h : RegionInv g p) {u v : Cell}
    (hu : Own g p u) (hp : Path (Own g p) u v) : area g u = area g v :=
  (h.region u v hu (Path.end_mem hu hp)).2 hp

theorem RInv.adj_area {g : gamma_t} {p : Nat} (h : RInv g p) {u v : Cell} (hu : Own g p u)
    (hv : Own g p v) (ha : adj u v) : area g u = area g v :=
  h.toRegionInv.adj_same hu hv ha

theorem RInv.areas_le {g : gamma_t} {p : Nat} (h : RInv g p) :
    (g.playerlist p).no_areas_used ≤ g.max_no_areas :=
  h.toRegionInv.count_le

theorem RInv.area_lt {g : gamma_t} {p : Nat} (h : RInv g p) {v : Cell} (hv : Own g p v) :
    area g v < g.max_no_areas :=
  h.toRegionInv.area_below hv

theorem RInv.path_area {g : gamma_t} {p : Nat} (h : RInv g p) {u v : Cell} (hu : Own g p u)
    (hp : Path (Own g p) u v) : area g u = area g v :=
  h.toRegionInv.path_same hu hp

/-- The region property follows from its two halves. -/
theorem region_of {g : gamma_t} {p : Nat}
    (hadj : ∀ u v, Own g p u → Own g p v → adj u v → area g u = area g v)
    (hconn : ∀ u v, Own g p u → Own g p v → area g u = area g v → Path (Own g p) u v) :
    ∀ u v, Own g p u → Own g p v → (area g u = area g v ↔ Path (Own g p) u v) := by
  intro u v hu hv
  refine ⟨hconn u v hu hv, fun hp => ?_⟩
  clear hv
  induction hp with
  | refl => rfl
  | tail hab hbc ih =>
    exact ih.trans (hadj _ _ (Path.end_mem hu hab) hbc.2 hbc.1)

theorem mem_in_use {g : gamma_t} {p r : Nat} :
    r ∈ in_use g p ↔ r < g.max_no_areas ∧ (g.playerlist p).does_area_exist r = true := by
  simp [in_use]

/-! ## Transporting the invariants -/

theorem own_congr {g g' : gamma_t} {p : Nat} (hw : g'.width = g.width)
    (hh : g'.height = g.height) (ho : ∀ v, inb g v → (owner g' v = p ↔ owner g v = p))
    (v : Cell) : Own g' p v ↔ Own g p v := by
  unfold Own inb
  rw [hw, hh]
  constructor
  · rintro ⟨h1, h2⟩; exact ⟨h1, (ho v h1).1 h2⟩
  · rintro ⟨h1, h2⟩; exact ⟨h1, (ho v h1).2 h2⟩

theorem owned_congr {g g' : gamma_t} {p : Nat} (h : ∀ v, Own g' p v ↔ Own g p v) :
    owned g' p = owned g p := by
  ext v
  rw [mem_owned, mem_owned, h]

theorem in_use_congr {g g' : gamma_t} {p : Nat} (hm : g'.max_no_areas = g.max_no_areas)
    (hr : ∀ r, r < g.max_no_areas →
      (g'.playerlist p).does_area_exist r = (g.playerlist p).does_area_exist r) :
    in_use g' p = in_use g p := by
  ext r
  rw [mem_in_use, mem_in_use, hm]
  constructor
  · rintro ⟨h1, h2⟩; exact ⟨h1, (hr r h1) ▸ h2⟩
  · rintro ⟨h1, h2⟩; exact ⟨h1, (hr r h1).symm ▸ h2⟩

/-- The region invariants of `p` only depend on the cells of `p` and on the
region part of the record of `p`. -/
theorem RInv.congr {g g' : gamma_t} {p : Nat} (h : RInv g p)
    (hw : g'.width = g.width) (hh : g'.height = g.height)
    (hm : g'.max_no_areas = g.max_no_areas)
    (ho : ∀ v, inb g v → (owner g' v = p ↔ owner g v = p))
    (ha : ∀ v, Own g p v → area g' v = area g v)
    (hr : (g'.playerlist p).does_area_exist = (g.playerlist p).does_area_exist)
    (hn : (g'.playerlist p).no_areas_used = (g.playerlist p).no_areas_used)
    (hf : (g'.playerlist p).first_free_colour = (g.playerlist p).first_free_colour) :
    RInv g' p := by
  have hown := own_congr hw hh ho
  refine ⟨by rw [hf, hm]; exact h.cursor_lt, ?_, ?_, ?_, ?_, ?_⟩
  · rw [hn, hm, hr, hf]; exact h.cursor_free
  · rw [hr, hm]; exact h.exist_lt
  · intro r
    rw [hr, h.exist_iff]
    constructor
    · rintro ⟨v, hv, hvr⟩; exact ⟨v, (hown v).2 hv, (ha v hv).trans hvr⟩
    · rintro ⟨v, hv, hvr⟩; exact ⟨v, (hown v).1 hv, (ha v ((hown v).1 hv)).symm.trans hvr⟩
  · rw [hn, h.areas_count, in_use_congr hm (fun r _ => by rw [hr])]
  · intro u v hu hv
    have hu' := (hown u).1 hu
    have hv' := (hown v).1 hv
    rw [ha u hu', ha v hv', h.region u v hu' hv']
    exact ⟨Path.mono fun b hb => (hown b).2 hb, Path.mono fun b hb => (hown b).1 hb⟩

/-- The same for the invariants of the data model. -/
theorem RegionInv.transport {g g' : gamma_t} {p : Nat} (h : RegionInv g p)
    (hw : g'.width = g.width) (hh : g'.height = g.height)
    (hm : g'.max_no_areas = g.max_no_areas)
    (ho : ∀ v, inb g v → (owner g' v = p ↔ owner g v = p))
    (ha : ∀ v, Own g p v → area g' v = area g v)
    (hp : g'.playerlist p = g.playerlist p) : RegionInv g' p := by
  have hown := own_congr hw hh ho
  refine ⟨by rw [hp, hm]; exact h.cursor_lt, by rw [hp, hm]; exact h.exist_lt, ?_, ?_, ?_⟩
  · intro r
    rw [hp, h.exist_iff]
    constructor
    · rintro ⟨v, hv, hvr⟩; exact ⟨v, (hown v).2 hv, (ha v hv).trans hvr⟩
    · rintro ⟨v, hv, hvr⟩; exact ⟨v, (hown v).1 hv, (ha v ((hown v).1 hv)).symm.trans hvr⟩
  · rw [hp, h.areas_count, in_use_congr hm (fun r _ => by rw [hp])]
  · intro u v hu hv
    have hu' := (hown u).1 hu
    have hv' := (hown v).1 hv
    rw [ha u hu', ha v hv', h.region u v hu' hv']
    exact ⟨Path.mono fun b hb => (hown b).2 hb, Path.mono fun b hb => (hown b).1 hb⟩

theorem PInv.congr_record {g g' : gamma_t} {p : Nat} (h : PInv g p)
    (hw : g'.width = g.width) (hh : g'.height = g.height)
    (hm : g'.max_no_areas = g.max_no_areas)
    (ho : ∀ v, inb g v → (owner g' v = p ↔ owner g v = p))
    (ha : ∀ v, Own g p v → area g' v = area g v)
    (hp : g'.playerlist p = g.playerlist p) : PInv g' p := by
  refine ⟨h.toRInv.congr hw hh hm ho ha (by rw [hp]) (by rw [hp]) (by rw [hp]), ?_⟩
  rw [hp, h.busy_count, owned_congr (own_congr hw hh ho)]

/-- The region invariants after a stone was placed away from the player's other
stones and given a region id that was free. -/
theorem rinv_isolated {g g' : gamma_t} {q f : Nat} {s : Cell} (h : RInv g q)
    (hs : inb g s) (ho : owner g s ≠ q)
    (hnb : ∀ b, adj s b → inb g b → owner g b ≠ q)
    (hff : (g.playerlist q).does_area_exist f = false) (hfl : f < g.max_no_areas)
    (hw : g'.width = g.width) (hh : g'.height = g.height)
    (hm : g'.max_no_areas = g.max_no_areas)
    (hown : ∀ v, owner g' v = if v = s then q else owner g v)
    (harea : ∀ v, area g' v = if v = s then f else area g v)
    (hex : ∀ r, (g'.playerlist q).does_area_exist r =
      if r = f then true else (g.playerlist q).does_area_exist r)
    (hn : (g'.playerlist q).no_areas_used = (g.playerlist q).no_areas_used + 1)
    (hc1 : (g'.playerlist q).first_free_colour < g.max_no_areas)
    (hc2 : (g'.playerlist q).no_areas_used < g.max_no_areas →
      (g'.playerlist q).does_area_exist (g'.playerlist q).first_free_colour = false) :
    RInv g' q := by
  have hOwn : ∀ v, Own g' q v ↔ v = s ∨ Own g q v := by
    intro v
    unfold Own inb
    rw [hw, hh, hown]
    by_cases hv : v = s
    · subst hv; simp; exact hs
    · simp [hv]
  have hfree : ∀ v, Own g q v → area g v ≠ f := by
    intro v hv e
    have := (h.exist_iff f).2 ⟨v, hv, e⟩
    rw [hff] at this
    exact absurd this (by simp)
  have hsn : ¬ Own g q s := fun hq => ho hq.2
  have hne : ∀ v, Own g q v → v ≠ s := fun v hv e => hsn (e ▸ hv)
  refine ⟨by rw [hm]; exact hc1, by rw [hm]; exact hc2, ?_, ?_, ?_, ?_⟩
  · intro r hr
    rw [hex] at hr
    rw [hm]
    by_cases hrf : r = f
    · rw [hrf]; exact hfl
    · rw [if_neg hrf] at hr; exact h.exist_lt r hr
  · intro r
    rw [hex]
    by_cases hrf : r = f
    · subst hrf
      simp only [if_true, true_iff]
      exact ⟨s, (hOwn s).2 (Or.inl rfl), by rw [harea]; simp⟩
    · rw [if_neg hrf, h.exist_iff]
      constructor
      · rintro ⟨v, hv, hvr⟩
        refine ⟨v, (hOwn v).2 (Or.inr hv), ?_⟩
        rw [harea, if_neg (hne _ hv)]
        exact hvr
      · rintro ⟨v, hv, hvr⟩
        rcases (hOwn v).1 hv with e | hv'
        · subst e; rw [harea] at hvr; simp at hvr; exact absurd hvr.symm hrf
        · refine ⟨v, hv', ?_⟩
          rw [harea, if_neg (hne _ hv')] at hvr
          exact hvr
  · rw [hn, h.areas_count]
    have : in_use g' q = insert f (in_use g q) := by
      ext r
      rw [Finset.mem_insert, mem_in_use, mem_in_use, hm, hex]
      by_cases hrf : r = f
      · subst hrf; simp [hfl]
      · simp [hrf]
    rw [this, Finset.card_insert_of_not_mem]
    rw [mem_in_use, hff]
    simp
  · apply region_of
    · intro u v hu hv ha
      rcases (hOwn u).1 hu with eu | hu'
      · subst eu
        rcases (hOwn v).1 hv with ev | hv'
        · rw [ev]
        · exact absurd hv'.2 (hnb v ha hv'.1)
      · rcases (hOwn v).1 hv with ev | hv'
        · subst ev
          exact absurd hu'.2 (hnb u (adj_symm ha) hu'.1)
        · rw [harea, harea, if_neg (hne _ hu'), if_neg (hne _ hv')]
          exact h.adj_area hu' hv' ha
    · intro u v hu hv ha
      rcases (hOwn u).1 hu with eu | hu'
      · subst eu
        rcases (hOwn v).1 hv with ev | hv'
        · rw [ev]; exact Relation.ReflTransGen.refl
        · rw [harea, harea, if_pos rfl, if_neg (hne _ hv')] at ha
          exact absurd ha.symm (hfree v hv')
      · rcases (hOwn v).1 hv with ev | hv'
        · subst ev
          rw [harea, harea, if_pos rfl, if_neg (hne _ hu')] at ha
          exact absurd ha (hfree u hu')
        · rw [harea, harea, if_neg (hne _ hu'), if_neg (hne _ hv')]
            at ha
          exact Path.mono (fun b hb => (hOwn b).2 (Or.inr hb))
            ((h.region u v hu' hv').1 ha)

theorem no_neighbour_of_nearby {g : gamma_t} {q x y : Nat}
    (h : are_player_areas_nearby g q x y = false) :
    ∀ b, adj (x, y) b → inb g b → owner g b ≠ q := by
  intro b hb hinb hown
  obtain ⟨i, hi, rfl⟩ := adj_exists_dir hb hinb
  have ht := (nearby_iff g q x y i).2 ⟨hi, hown⟩
  have hlt := valid_dir_lt hi
  unfold are_player_areas_nearby at h
  simp only [List.foldl_cons, List.foldl_nil, Bool.false_or, Bool.or_eq_false_iff] at h
  interval_cases i <;> simp_all

theorem neighbour_of_nearby {g : gamma_t} {q x y : Nat}
    (h : are_player_areas_nearby g q x y = true) :
    ∃ i, valid_dir g x y i ∧ owner g (nbr x y i) = q := by
  unfold are_player_areas_nearby at h
  simp only [List.foldl_cons, List.foldl_nil, Bool.false_or, Bool.or_eq_true] at h
  rcases h with ((h | h) | h) | h
  · exact ⟨0, (nearby_iff _ _ _ _ _).1 h⟩
  · exact ⟨1, (nearby_iff _ _ _ _ _).1 h⟩
  · exact ⟨2, (nearby_iff _ _ _ _ _).1 h⟩
  · exact ⟨3, (nearby_iff _ _ _ _ _).1 h⟩

theorem nearby_set_player_id {g : gamma_t} {q x y : Nat} (hs : inb g (x, y)) (i : Nat) :
    player_areas_nearby (set_player_id g x y q) q x y i = player_areas_nearby g q x y i := by
  rw [Bool.eq_iff_iff, nearby_iff, nearby_iff]
  have hv : valid_dir (set_player_id g x y q) x y i ↔ valid_dir g x y i := Iff.rfl
  rw [hv]
  constructor
  · rintro ⟨h1, h2⟩
    refine ⟨h1, ?_⟩
    rw [owner_set_player_id] at h2
    have := (valid_dir_adj hs h1).1
    rw [if_neg] at h2
    · exact h2
    · intro e; rw [e] at this; unfold adj at this; omega
  · rintro ⟨h1, h2⟩
    refine ⟨h1, ?_⟩
    rw [owner_set_player_id]
    have := (valid_dir_adj hs h1).1
    rw [if_neg]
    · exact h2
    · intro e; rw [e] at this; unfold adj at this; omega

theorem colour_new_spec (g : gamma_t) (q x y : Nat) (hd : Dims g) (h : RInv g q)
    (hs : inb g (x, y)) (ho : owner g (x, y) ≠ q)
    (hnb : ∀ b, adj (x, y) b → inb g b → owner g b ≠ q)
    (hn : (g.playerlist q).no_areas_used ≠ g.max_no_areas) :
    ∃ g', colour_new (set_player_id g x y q) q x y = some g' ∧ Made g q (x, y) g' := by
  have hle := h.areas_le
  have hlt : (g.playerlist q).no_areas_used < g.max_no_areas := by omega
  have hmax := hd.areas_lt
  have hw : ((g.playerlist q).no_areas_used + 1) % 4294967296 =
      (g.playerlist q).no_areas_used + 1 := Nat.mod_eq_of_lt (by omega)
  have hff := h.cursor_free hlt
  have hfl := h.cursor_lt
  -- the state before the cursor is moved
  obtain ⟨gc, hgc⟩ : ∃ gc, gc = set_player_does_area_exist
      (set_area_id (increase_player_no_areas_used (set_player_id g x y q) q) x y
        (g.playerlist q).first_free_colour) q (g.playerlist q).first_free_colour true :=
    ⟨_, rfl⟩
  have hcn : colour_new (set_player_id g x y q) q x y =
      if !player_all_areas_used gc q then move_player_first_free_colour gc q else some gc := by
    rw [hgc]
    simp [colour_new, get_player_first_free_colour, increase_player_no_areas_used]
  have e_w : gc.width = g.width := by rw [hgc]; rfl
  have e_h : gc.height = g.height := by rw [hgc]; rfl
  have e_p : gc.no_players = g.no_players := by rw [hgc]; rfl
  have e_m : gc.max_no_areas = g.max_no_areas := by rw [hgc]; rfl
  have e_own : ∀ v, owner gc v = if v = (x, y) then q else owner g v := by
    intro v; rw [hgc]
    simp [set_player_does_area_exist, increase_player_no_areas_used]
  have e_area : ∀ v, area gc v =
      if v = (x, y) then (g.playerlist q).first_free_colour else area g v := by
    intro v; rw [hgc]
    simp [set_player_does_area_exist, increase_player_no_areas_used]
  have e_oth : ∀ p, p ≠ q → gc.playerlist p = g.playerlist p := by
    intro p hp; rw [hgc]
    simp [set_player_does_area_exist, increase_player_no_areas_used, hp]
  have e_ex : ∀ r, (gc.playerlist q).does_area_exist r =
      if r = (g.playerlist q).first_free_colour then true
      else (g.playerlist q).does_area_exist r := by
    intro r; rw [hgc]
    simp [set_player_does_area_exist, increase_player_no_areas_used]
  have e_n : (gc.playerlist q).no_areas_used = (g.playerlist q).no_areas_used + 1 := by
    rw [hgc]
    simp [set_player_does_area_exist, increase_player_no_areas_used, hw]
  have e_f : (gc.playerlist q).first_free_colour = (g.playerlist q).first_free_colour := by
    rw [hgc]
    simp [set_player_does_area_exist, increase_player_no_areas_used]
  have e_g : (gc.playerlist q).golden_move_used = (g.playerlist q).golden_move_used := by
    rw [hgc]
    simp [set_player_does_area_exist, increase_player_no_areas_used]
  have e_b : (gc.playerlist q).no_busy_fields = (g.playerlist q).no_busy_fields := by
    rw [hgc]
    simp [set_player_does_area_exist, increase_player_no_areas_used]
  clear hgc
  by_cases hfull : (gc.playerlist q).no_areas_used = gc.max_no_areas
  · refine ⟨gc, ?_, e_w, e_h, e_p, e_m, e_own, ?_, e_oth, e_g, e_b, ?_⟩
    · rw [hcn]; simp [player_all_areas_used, hfull]
    · intro v hv _; rw [e_area, if_neg hv]
    · refine rinv_isolated h hs ho hnb hff hfl e_w e_h e_m e_own e_area e_ex e_n
        (by rw [e_f]; exact hfl) ?_
      intro hc; rw [hfull, e_m] at hc; omega
  · have hcard : (in_use gc q).card < gc.max_no_areas := by
      have : in_use gc q = insert (g.playerlist q).first_free_colour (in_use g q) := by
        ext r
        rw [Finset.mem_insert, mem_in_use, mem_in_use, e_m, e_ex]
        by_cases hrf : r = (g.playerlist q).first_free_colour
        · subst hrf; simp [hfl]
        · simp [hrf]
      rw [this, Finset.card_insert_of_not_mem (by rw [mem_in_use, hff]; simp),
        ← h.areas_count, ← e_n]
      rw [e_n, e_m] at hfull ⊢
      omega
    obtain ⟨f', hf', hfl', hff'⟩ := move_cursor_some gc q (by rw [e_f, e_m]; exact hfl)
      (in_use_free_slot gc q hcard) hfull
    refine ⟨set_player_first_free_colour gc q f', ?_, e_w, e_h, e_p, e_m, ?_, ?_, ?_, ?_, ?_, ?_⟩
    · rw [hcn]; simp [player_all_areas_used, hfull, hf']
    · intro v; simpa [set_player_first_free_colour] using e_own v
    · intro v hv _
      simp only [set_player_first_free_colour, area_set_player]
      rw [e_area, if_neg hv]
    · intro p hp
      simp [set_player_first_free_colour, hp, e_oth p hp]
    · simpa [set_player_first_free_colour] using e_g
    · simpa [set_player_first_free_colour] using e_b
    · refine rinv_isolated h hs ho hnb hff hfl e_w e_h e_m
        (fun v => by simpa [set_player_first_free_colour] using e_own v)
        (fun v => by simpa [set_player_first_free_colour] using e_area v)
        (fun r => by simpa [set_player_first_free_colour] using e_ex r)
        (by simpa [set_player_first_free_colour] using e_n)
        (by simpa [set_player_first_free_colour, e_m] using hfl') ?_
      intro _
      simpa [set_player_first_free_colour] using hff'

/-- The region invariants of the data model once the merge is complete. -/
theorem regioninv_merged {g g' : gamma_t} {q c : Nat} {s : Cell} {A : Nat → Prop}
    (h : RegionInv g q) (hs : inb g s) (ho : owner g s ≠ q)
    (M : MergeInv g q s c A g')
    (hA : ∀ a, A a → a ≠ c ∧ ∃ b, adj s b ∧ Own g q b ∧ area g b = a)
    (hN : ∀ b, adj s b → Own g q b → area g b = c ∨ A (area g b))
    (hc : ∃ b, adj s b ∧ Own g q b ∧ area g b = c) : RegionInv g' q := by
  have hOwn : ∀ v, Own g' q v ↔ v = s ∨ Own g q v := by
    intro v
    unfold Own inb
    rw [M.width, M.height, M.owners]
    by_cases hv : v = s
    · subst hv; simp; exact hs
    · simp [hv]
  have hsn : ¬ Own g q s := fun hq => ho hq.2
  have hne : ∀ v, Own g q v → v ≠ s := fun v hv e => hsn (e ▸ hv)
  have hmono : ∀ {u v}, Path (Own g q) u v → Path (Own g' q) u v :=
    fun hp => Path.mono (fun b hb => (hOwn b).2 (Or.inr hb)) hp
  have hOs : Own g' q s := (hOwn s).2 (Or.inl rfl)
  -- every cell of the merged region is linked to the new stone
  have hlink : ∀ v, Own g' q v → area g' v = c → Path (Own g' q) v s := by
    intro v hv hvc
    rcases (hOwn v).1 hv with e | hv'
    · rw [e]; exact Relation.ReflTransGen.refl
    · have : ∃ b, adj s b ∧ Own g q b ∧ area g b = area g v := by
        by_cases hAv : A (area g v)
        · exact (hA _ hAv).2
        · rw [M.area_keep v (hne v hv') (fun hh => hAv hh.2)] at hvc
          rw [hvc]; exact hc
      obtain ⟨b, hb1, hb2, hb3⟩ := this
      have hp := (h.region v b hv' hb2).1 hb3.symm
      exact Relation.ReflTransGen.tail (hmono hp) ⟨adj_symm hb1, hOs⟩
  have harea : ∀ v, Own g q v → area g' v = c ∨ (area g' v = area g v ∧ ¬ A (area g v)) := by
    intro v hv
    by_cases hAv : A (area g v)
    · exact Or.inl (M.area_abs v hv hAv)
    · exact Or.inr ⟨M.area_keep v (hne v hv) (fun hh => hAv hh.2), hAv⟩
  refine ⟨by rw [M.max_no_areas]; exact M.cursor_lt, ?_, ?_, M.count, ?_⟩
  · intro r hr
    rw [M.max_no_areas]
    exact h.exist_lt r ((M.exist r).1 hr).1
  · intro r
    rw [M.exist, h.exist_iff]
    constructor
    · rintro ⟨⟨v, hv, hvr⟩, hAr⟩
      refine ⟨v, (hOwn v).2 (Or.inr hv), ?_⟩
      rw [M.area_keep v (hne v hv) (fun hh => hAr (hvr ▸ hh.2))]
      exact hvr
    · rintro ⟨v, hv, hvr⟩
      obtain ⟨b0, hb1, hb2, hb3⟩ := hc
      have hcc : (∃ v, Own g q v ∧ area g v = c) ∧ ¬ A c :=
        ⟨⟨b0, hb2, hb3⟩, fun hAc => (hA c hAc).1 rfl⟩
      rcases (hOwn v).1 hv with e | hv'
      · subst e; rw [M.area_s] at hvr; rw [← hvr]; exact hcc
      · rcases harea v hv' with e | ⟨e, hAv⟩
        · rw [e] at hvr; rw [← hvr]; exact hcc
        · rw [e] at hvr
          exact ⟨⟨v, hv', hvr⟩, hvr ▸ hAv⟩
  · apply region_of
    · intro u v hu hv ha
      -- a neighbour of the new stone has colour `c`
      have hnb : ∀ b, Own g q b → adj s b → area g' b = c := by
        intro b hb hab
        rcases hN b hab hb with e | e
        · rcases harea b hb with e' | ⟨e', _⟩
          · exact e'
          · rw [e', e]
        · exact M.area_abs b hb e
      rcases (hOwn u).1 hu with eu | hu'
      · subst eu
        rcases (hOwn v).1 hv with ev | hv'
        · rw [ev]
        · rw [M.area_s, hnb v hv' ha]
      · rcases (hOwn v).1 hv with ev | hv'
        · subst ev
          rw [M.area_s, hnb u hu' (adj_symm ha)]
        · have e := h.adj_same hu' hv' ha
          rcases harea u hu' with e1 | ⟨e1, hA1⟩
          · rcases harea v hv' with e2 | ⟨e2, hA2⟩
            · rw [e1, e2]
            · by_cases hAu : A (area g u)
              · exact absurd (e ▸ hAu) hA2
              · rw [e2, ← e, ← M.area_keep u (hne u hu') (fun hh => hAu hh.2)]
          · rcases harea v hv' with e2 | ⟨e2, hA2⟩
            · by_cases hAv : A (area g v)
              · exact absurd (e.symm ▸ hAv) hA1
              · rw [e1, e, ← M.area_keep v (hne v hv') (fun hh => hAv hh.2)]
            · rw [e1, e2, e]
    · intro u v hu hv ha
      by_cases huc : area g' u = c
      · exact (hlink u hu huc).trans ((hlink v hv (ha ▸ huc)).symm hv)
      · have hvc : area g' v ≠ c := fun e => huc (ha.trans e)
        rcases (hOwn u).1 hu with eu | hu'
        · subst eu; exact absurd M.area_s huc
        · rcases (hOwn v).1 hv with ev | hv'
          · subst ev; exact absurd M.area_s hvc
          · rcases harea u hu' with e1 | ⟨e1, _⟩
            · exact absurd e1 huc
            · rcases harea v hv' with e2 | ⟨e2, _⟩
              · exact absurd e2 hvc
              · rw [e1, e2] at ha
                exact hmono ((h.region u v hu' hv').1 ha)

/-- The region invariants once the merge is complete. -/
theorem rinv_merged {g g' : gamma_t} {q c : Nat} {s : Cell} {A : Nat → Prop}
    (h : RInv g q) (hs : inb g s) (ho : owner g s ≠ q)
    (M : MergeInv g q s c A g')
    (hA : ∀ a, A a → a ≠ c ∧ ∃ b, adj s b ∧ Own g q b ∧ area g b = a)
    (hN : ∀ b, adj s b → Own g q b → area g b = c ∨ A (area g b))
    (hc : ∃ b, adj s b ∧ Own g q b ∧ area g b = c) : RInv g' q := by
  have R := regioninv_merged h.toRegionInv hs ho M hA hN hc
  exact ⟨R.cursor_lt, by rw [M.max_no_areas]; exact M.cursor_free h.cursor_free,
    R.exist_lt, R.exist_iff, R.areas_count, R.region⟩

theorem perform_area_colouring_eq (g : gamma_t) (q x y c : Nat) :
    perform_area_colouring g q x y c =
      [0, 1, 2, 3].foldlM (fun gi i =>
        if player_areas_nearby (set_area_id g x y c) q x y i then
          if c ≠ area gi (nbr x y i) then
            (colour_area
              (set_player_does_area_exist (decrease_player_no_areas_used gi q) q
                (area gi (nbr x y i)) false) q (nbr x y i).1 (nbr x y i).2 c).bind
              fun g => move_player_first_free_colour g q
          else some gi
        else some gi) (set_area_id g x y c) := rfl

/-- One absorption of the merge: the region with id `a` around the neighbour `n`
is repainted to `c` and its id is released. -/
theorem merge_step {g gi : gamma_t} {q x y c a : Nat} {A : Nat → Prop} (hd : Dims g)
    (h : RegionInv g q) (ho : owner g (x, y) ≠ q)
    (M : MergeInv g q (x, y) c A gi) (n : Cell) (hn : Own g q n) (hna : area g n = a)
    (hac : a ≠ c) (hnA : ¬ A a) :
    ∃ g', (colour_area (set_player_does_area_exist (decrease_player_no_areas_used gi q) q
        a false) q n.1 n.2 c).bind (fun g => move_player_first_free_colour g q) = some g' ∧
      MergeInv g q (x, y) c (fun r => A r ∨ r = a) g' := by
  have hsn : ¬ Own g q (x, y) := fun hq => ho hq.2
  have hne : ∀ v, Own g q v → v ≠ (x, y) := fun v hv e => hsn (e ▸ hv)
  obtain ⟨gd, hgd⟩ : ∃ gd, gd =
      set_player_does_area_exist (decrease_player_no_areas_used gi q) q a false := ⟨_, rfl⟩
  rw [← hgd]
  have d_w : gd.width = gi.width := by rw [hgd]; rfl
  have d_h : gd.height = gi.height := by rw [hgd]; rfl
  have d_p : gd.no_players = gi.no_players := by rw [hgd]; rfl
  have d_m : gd.max_no_areas = gi.max_no_areas := by rw [hgd]; rfl
  have d_own : ∀ v, owner gd v = owner gi v := by intro v; rw [hgd]; rfl
  have d_area : ∀ v, area gd v = area gi v := by intro v; rw [hgd]; rfl
  have d_oth : ∀ p, p ≠ q → gd.playerlist p = gi.playerlist p := by
    intro p hp; rw [hgd]
    simp [set_player_does_area_exist, decrease_player_no_areas_used, hp]
  have d_ex : ∀ r, (gd.playerlist q).does_area_exist r =
      if r = a then false else (gi.playerlist q).does_area_exist r := by
    intro r; rw [hgd]
    simp [set_player_does_area_exist, decrease_player_no_areas_used]
  have d_n : (gd.playerlist q).no_areas_used =
      ((gi.playerlist q).no_areas_used + 4294967295) % 4294967296 := by
    rw [hgd]; simp [set_player_does_area_exist, decrease_player_no_areas_used]
  have d_f : (gd.playerlist q).first_free_colour = (gi.playerlist q).first_free_colour := by
    rw [hgd]; simp [set_player_does_area_exist, decrease_player_no_areas_used]
  have d_g : (gd.playerlist q).golden_move_used = (gi.playerlist q).golden_move_used := by
    rw [hgd]; simp [set_player_does_area_exist, decrease_player_no_areas_used]
  have d_b : (gd.playerlist q).no_busy_fields = (gi.playerlist q).no_busy_fields := by
    rw [hgd]; simp [set_player_does_area_exist, decrease_player_no_areas_used]
  clear hgd
  have hinb : inb gd (n.1, n.2) := by
    unfold inb; rw [d_w, d_h, M.width, M.height]; exact hn.1
  obtain ⟨g1, hg1, F⟩ := colour_area_filled gd q n.1 n.2 c hinb
  rw [hg1, Option.some_bind]
  -- the cells of `g` with colour `a` keep it until now
  have hkeep : ∀ v, Own g q v → area g v = a → Fillable gd q c v := by
    intro v hv hva
    refine ⟨by unfold inb; rw [d_w, d_h, M.width, M.height]; exact hv.1, ?_, ?_⟩
    · rw [d_own, M.owners, if_neg (hne v hv)]; exact hv.2
    · rw [d_area, M.area_keep v (hne v hv) (fun hh => hnA (hva ▸ hh.2)), hva]; exact hac
  have hR : ∀ v, Own g q v → area g v = a → Path (Fillable gd q c) (n.1, n.2) v := by
    intro v hv hva
    have hp := (h.region n v hn hv).1 (hna.trans hva.symm)
    exact Path.restrict (fun b hb hb' => hkeep b hb' ((h.path_same hn hb).symm.trans hna)) hp
  have hU : ∀ v, Path (Fillable gd q c) (n.1, n.2) v → Own g q v ∧ area g v = a := by
    intro v hp
    induction hp with
    | refl => exact ⟨hn, hna⟩
    | tail _ hbc ih =>
      obtain ⟨hadj, hb1, hb2, hb3⟩ := hbc
      rename_i b' _
      have hbs : b' ≠ (x, y) := by
        intro e; rw [e, d_area, M.area_s] at hb3; exact hb3 rfl
      rw [d_own, M.owners, if_neg hbs] at hb2
      have hb' : Own g q b' := by
        refine ⟨?_, hb2⟩
        unfold inb at hb1 ⊢; rw [d_w, d_h, M.width, M.height] at hb1; exact hb1
      exact ⟨hb', (h.adj_same ih.1 hb' hadj).symm.trans ih.2⟩
  have hpl : g1.playerlist = gd.playerlist := F.frame.playerlist
  have hmax : g1.max_no_areas = g.max_no_areas := by
    rw [F.frame.max_no_areas, d_m, M.max_no_areas]
  -- the counter and the table
  have ha_lt : a < g.max_no_areas := hna ▸ h.area_below hn
  have ha_ex : (gi.playerlist q).does_area_exist a = true :=
    (M.exist a).2 ⟨(h.exist_iff a).2 ⟨n, hn, hna⟩, hnA⟩
  have ha_mem : a ∈ in_use gi q := by
    rw [mem_in_use, M.max_no_areas]; exact ⟨ha_lt, ha_ex⟩
  have hin : in_use g1 q = (in_use gi q).erase a := by
    ext r
    rw [Finset.mem_erase, mem_in_use, mem_in_use, hmax, M.max_no_areas, hpl, d_ex]
    by_cases hra : r = a
    · simp [hra]
    · simp [hra]
  have hcard_pos : 0 < (in_use gi q).card := Finset.card_pos.2 ⟨a, ha_mem⟩
  have hcard_le := in_use_card_le gi q
  rw [M.max_no_areas] at hcard_le
  have hlt := hd.areas_lt
  have hn1 : (g1.playerlist q).no_areas_used = (in_use g1 q).card := by
    rw [hin, Finset.card_erase_of_mem ha_mem, hpl, d_n, M.count]
    omega
  have hn1_lt : (g1.playerlist q).no_areas_used < g.max_no_areas := by
    rw [hn1, hin, Finset.card_erase_of_mem ha_mem]; omega
  obtain ⟨f', hf', hfl', hff'⟩ := move_cursor_some g1 q
    (by rw [hpl, d_f, hmax]; exact M.cursor_lt)
    ⟨a, by rw [hmax]; exact ha_lt, by rw [hpl, d_ex]; simp⟩
    (by rw [hmax]; omega)
  refine ⟨_, hf', ?_⟩
  have e_pl : (set_player_first_free_colour g1 q f').playerlist q =
      { gd.playerlist q with first_free_colour := f' } := by
    simp [set_player_first_free_colour, hpl]
  refine ⟨?_, ?_, ?_, ?_, ?_, ?_, ?_, ?_, ?_, ?_, ?_, ?_, ?_, ?_, ?_⟩
  · show g1.width = g.width
    rw [F.frame.width, d_w, M.width]
  · show g1.height = g.height
    rw [F.frame.height, d_h, M.height]
  · show g1.no_players = g.no_players
    rw [F.frame.no_players, d_p, M.no_players]
  · exact hmax
  · intro v
    show owner g1 v = _
    rw [F.frame.owner, d_own, M.owners]
  · show area g1 (x, y) = c
    exact F.keeps (by rw [d_area]; exact M.area_s)
  · intro v hv hA
    show area g1 v = c
    rcases hA with hA | hA
    · exact F.keeps (by rw [d_area]; exact M.area_abs v hv hA)
    · exact F.reached (hR v hv hA)
  · intro v hvs hA
    show area g1 v = area g v
    have hnp : ¬ Path (Fillable gd q c) (n.1, n.2) v := by
      intro hp
      obtain ⟨h1, h2⟩ := hU v hp
      exact hA ⟨h1, Or.inr h2⟩
    rw [F.unreached hnp, d_area]
    exact M.area_keep v hvs (fun hh => hA ⟨hh.1, Or.inl hh.2⟩)
  · intro p hp
    show (set_player_first_free_colour g1 q f').playerlist p = _
    simp only [set_player_first_free_colour, set_player_playerlist, if_neg hp]
    rw [hpl, d_oth p hp, M.players_other p hp]
  · rw [e_pl]; show (gd.playerlist q).golden_move_used = _
    rw [d_g, M.golden]
  · rw [e_pl]; show (gd.playerlist q).no_busy_fields = _
    rw [d_b, M.busy]
  · intro r
    rw [e_pl]; show (gd.playerlist q).does_area_exist r = true ↔ _
    rw [d_ex]
    by_cases hra : r = a
    · simp [hra]
    · simp only [if_neg hra, M.exist r]
      tauto
  · rw [e_pl]; show (gd.playerlist q).no_areas_used = _
    have : in_use (set_player_first_free_colour g1 q f') q = in_use g1 q :=
      in_use_congr rfl (fun r _ => by rw [e_pl, hpl])
    rw [this, ← hn1, hpl]
  · rw [e_pl]; show f' < g.max_no_areas
    rw [← hmax]; exact hfl'
  · intro _ _
    rw [e_pl]; show (gd.playerlist q).does_area_exist f' = false
    rw [← hpl]; exact hff'

theorem absorbed_zero (g : gamma_t) (q x y c a : Nat) : ¬ absorbed g q x y c 0 a := by
  rintro ⟨_, j, hj, _⟩; omega

theorem absorbed_succ (g : gamma_t) (q x y c i a : Nat) :
    absorbed g q x y c (i + 1) a ↔ absorbed g q x y c i a ∨
      (a ≠ c ∧ valid_dir g x y i ∧ owner g (nbr x y i) = q ∧ area g (nbr x y i) = a) := by
  unfold absorbed
  constructor
  · rintro ⟨h1, j, hj, h2⟩
    by_cases hji : j = i
    · subst hji; exact Or.inr ⟨h1, h2⟩
    · exact Or.inl ⟨h1, j, by omega, h2⟩
  · rintro (⟨h1, j, hj, h2⟩ | ⟨h1, h2⟩)
    · exact ⟨h1, j, by omega, h2⟩
    · exact ⟨h1, i, by omega, h2⟩

theorem nbr_ne_self {g : gamma_t} {x y i : Nat} (hs : inb g (x, y)) (hv : valid_dir g x y i) :
    nbr x y i ≠ (x, y) := by
  have := (valid_dir_adj hs hv).1
  intro e; rw [e] at this; unfold adj at this; omega

theorem nearby_placed {g : gamma_t} {q x y c : Nat} (hs : inb g (x, y)) (i : Nat) :
    player_areas_nearby (set_area_id (set_player_id g x y q) x y c) q x y i = true ↔
      valid_dir g x y i ∧ owner g (nbr x y i) = q := by
  rw [nearby_iff]
  have hv : valid_dir (set_area_id (set_player_id g x y q) x y c) x y i ↔ valid_dir g x y i :=
    Iff.rfl
  rw [hv]
  constructor
  · rintro ⟨h1, h2⟩
    rw [owner_set_area_id, owner_set_player_id, if_neg (nbr_ne_self hs h1)] at h2
    exact ⟨h1, h2⟩
  · rintro ⟨h1, h2⟩
    rw [owner_set_area_id, owner_set_player_id, if_neg (nbr_ne_self hs h1)]
    exact ⟨h1, h2⟩

/-- The merge returns, and leaves the state in which the region ids of the
neighbours other than `c` are absorbed into `c`. -/
theorem perform_area_colouring_merge (g : gamma_t) (q x y c : Nat) (hd : Dims g)
    (h : RegionInv g q) (hs : inb g (x, y)) (ho : owner g (x, y) ≠ q) :
    ∃ g', perform_area_colouring (set_player_id g x y q) q x y c = some g' ∧
      MergeInv g q (x, y) c (absorbed g q x y c 4) g' := by
  rw [perform_area_colouring_eq]
  refine loop4_total
    (fun gi i =>
        if player_areas_nearby (set_area_id (set_player_id g x y q) x y c) q x y i then
          if c ≠ area gi (nbr x y i) then
            (colour_area
              (set_player_does_area_exist (decrease_player_no_areas_used gi q) q
                (area gi (nbr x y i)) false) q (nbr x y i).1 (nbr x y i).2 c).bind
              fun g => move_player_first_free_colour g q
          else some gi
        else some gi)
    (fun i gi => MergeInv g q (x, y) c (absorbed g q x y c i) gi)
    (set_area_id (set_player_id g x y q) x y c) ?_ ?_
  · refine ⟨rfl, rfl, rfl, rfl, ?_, by simp, ?_, ?_, ?_, rfl, rfl, ?_, ?_, h.cursor_lt,
      fun hcf => hcf⟩
    · intro v; simp
    · intro v _ hA; exact absurd hA (absorbed_zero _ _ _ _ _ _)
    · intro v hv _; simp [hv]
    · intro p _; rfl
    · intro r
      constructor
      · intro hr; exact ⟨hr, absorbed_zero _ _ _ _ _ _⟩
      · intro hr; exact hr.1
    · exact h.areas_count
  · intro i gi _ M
    beta_reduce
    by_cases htab : player_areas_nearby (set_area_id (set_player_id g x y q) x y c) q x y i
        = true
    · rw [if_pos htab]
      obtain ⟨hval, hown⟩ := (nearby_placed hs i).1 htab
      have hn : Own g q (nbr x y i) := ⟨(valid_dir_adj hs hval).2, hown⟩
      by_cases hcol : c ≠ area gi (nbr x y i)
      · rw [if_pos hcol]
        have hnA : ¬ absorbed g q x y c i (area g (nbr x y i)) := by
          intro hA; exact hcol (M.area_abs _ hn hA).symm
        have hkeep := M.area_keep _ (nbr_ne_self hs hval) (fun hh => hnA hh.2)
        rw [hkeep] at hcol ⊢
        obtain ⟨g', hg', M'⟩ := merge_step hd h ho M (nbr x y i) hn rfl
          (fun e => hcol e.symm) hnA
        refine ⟨g', hg', ?_⟩
        have : absorbed g q x y c (i + 1) =
            fun r => absorbed g q x y c i r ∨ r = area g (nbr x y i) := by
          funext r
          apply propext
          rw [absorbed_succ]
          constructor
          · rintro (h1 | ⟨_, _, _, h4⟩)
            · exact Or.inl h1
            · exact Or.inr h4.symm
          · rintro (h1 | h1)
            · exact Or.inl h1
            · exact Or.inr ⟨by rw [h1]; exact fun e => hcol e.symm, hval, hown, h1.symm⟩
        rw [this]; exact M'
      · rw [if_neg hcol]
        refine ⟨gi, rfl, ?_⟩
        have : absorbed g q x y c (i + 1) = absorbed g q x y c i := by
          funext r
          apply propext
          rw [absorbed_succ]
          constructor
          · rintro (h1 | ⟨h1, _, _, h4⟩)
            · exact h1
            · by_contra hnA
              have hkeep := M.area_keep _ (nbr_ne_self hs hval)
                (fun hh => hnA (h4 ▸ hh.2))
              rw [hkeep, h4] at hcol
              exact hcol (fun e => h1 e.symm)
          · exact Or.inl
        rw [this]; exact M
    · rw [if_neg htab]
      refine ⟨gi, rfl, ?_⟩
      have : absorbed g q x y c (i + 1) = absorbed g q x y c i := by
        funext r
        apply propext
        rw [absorbed_succ]
        constructor
        · rintro (h1 | ⟨_, h2, h3, _⟩)
          · exact h1
          · exact absurd ((nearby_placed hs i).2 ⟨h2, h3⟩) htab
        · exact Or.inl
      rw [this]; exact M

/-- What the absorbed ids are: the ids other than `c` met on the neighbours. -/
theorem absorbed_four {g : gamma_t} {q x y c : Nat} (hs : inb g (x, y)) (a : Nat) :
    absorbed g q x y c 4 a ↔ a ≠ c ∧ ∃ b, adj (x, y) b ∧ Own g q b ∧ area g b = a := by
  constructor
  · rintro ⟨h1, j, _, hj1, hj2, hj3⟩
    exact ⟨h1, nbr x y j, (valid_dir_adj hs hj1).1, ⟨(valid_dir_adj hs hj1).2, hj2⟩, hj3⟩
  · rintro ⟨h1, b, hb, hbo, hba⟩
    obtain ⟨j, hj, rfl⟩ := adj_exists_dir hb hbo.1
    exact ⟨h1, j, valid_dir_lt hj, hj, hbo.2, hba⟩

theorem perform_area_colouring_spec (g : gamma_t) (q x y c : Nat) (hd : Dims g)
    (h : RInv g q) (hs : inb g (x, y)) (ho : owner g (x, y) ≠ q)
    (hc : ∃ j, valid_dir g x y j ∧ owner g (nbr x y j) = q ∧ area g (nbr x y j) = c) :
    ∃ g', perform_area_colouring (set_player_id g x y q) q x y c = some g' ∧
      Made g q (x, y) g' := by
  obtain ⟨g', hg', M⟩ := perform_area_colouring_merge g q x y c hd h.toRegionInv hs ho
  refine ⟨g', hg', M.width, M.height, M.no_players, M.max_no_areas, M.owners, ?_,
    M.players_other, M.golden, M.busy, ?_⟩
  · intro v hv hvo
    exact M.area_keep v hv (fun hh => hvo hh.1.2)
  · refine rinv_merged h hs ho M ?_ ?_ ?_
    · intro a ha
      exact (absorbed_four hs a).1 ha
    · intro b hb hbo
      by_cases e : area g b = c
      · exact Or.inl e
      · exact Or.inr ((absorbed_four hs _).2 ⟨e, b, hb, hbo, rfl⟩)
    · obtain ⟨j, hj1, hj2, hj3⟩ := hc
      exact ⟨nbr x y j, (valid_dir_adj hs hj1).1, ⟨(valid_dir_adj hs hj1).2, hj2⟩, hj3⟩

theorem choice_spec (tab : Nat → Bool) (col : Nat → Nat) :
    (([0, 1, 2, 3].foldl (fun (ch : Nat × Bool) i => if tab i then (col i, true) else ch)
        (0, false)).2 = true →
      ∃ j, tab j = true ∧
        ([0, 1, 2, 3].foldl (fun (ch : Nat × Bool) i => if tab i then (col i, true) else ch)
          (0, false)).1 = col j) ∧
    (([0, 1, 2, 3].foldl (fun (ch : Nat × Bool) i => if tab i then (col i, true) else ch)
        (0, false)).2 = false → tab 0 = false ∧ tab 1 = false ∧ tab 2 = false ∧ tab 3 = false) := by
  simp only [List.foldl_cons, List.foldl_nil]
  rcases h0 : tab 0 <;> rcases h1 : tab 1 <;> rcases h2 : tab 2 <;> rcases h3 : tab 3 <;>
    simp <;> first
      | exact ⟨3, h3, rfl⟩
      | exact ⟨2, h2, rfl⟩
      | exact ⟨1, h1, rfl⟩
      | exact ⟨0, h0, rfl⟩

theorem gamma_make_move_eq (g : gamma_t) (q x y : Nat) :
    gamma_make_move g q x y =
      if ([0, 1, 2, 3].foldl (fun (ch : Nat × Bool) i =>
          if player_areas_nearby (set_player_id g x y q) q x y i then
            (area (set_player_id g x y q) (nbr x y i), true) else ch) (0, false)).2 = true
      then perform_area_colouring (set_player_id g x y q) q x y
        ([0, 1, 2, 3].foldl (fun (ch : Nat × Bool) i =>
          if player_areas_nearby (set_player_id g x y q) q x y i then
            (area (set_player_id g x y q) (nbr x y i), true) else ch) (0, false)).1
      else colour_new (set_player_id g x y q) q x y := rfl

theorem gamma_make_move_spec (g : gamma_t) (q x y : Nat) (hd : Dims g) (h : RInv g q)
    (hs : inb g (x, y)) (ho : owner g (x, y) ≠ q)
    (hcan : (g.playerlist q).no_areas_used ≠ g.max_no_areas ∨
      are_player_areas_nearby g q x y = true) :
    ∃ g', gamma_make_move g q x y = some g' ∧ Made g q (x, y) g' := by
  rw [gamma_make_move_eq]
  obtain ⟨c1, c2⟩ := choice_spec (player_areas_nearby (set_player_id g x y q) q x y)
    (fun i => area (set_player_id g x y q) (nbr x y i))
  split
  · rename_i hch
    obtain ⟨j, hj, hcol⟩ := c1 hch
    rw [hcol]
    rw [nearby_set_player_id hs, nearby_iff] at hj
    exact perform_area_colouring_spec g q x y _ hd h hs ho
      ⟨j, hj.1, hj.2, by simp⟩
  · rename_i hch
    have hch' := c2 (by simpa using hch)
    simp only [nearby_set_player_id hs] at hch'
    have hnear : are_player_areas_nearby g q x y = false := by
      unfold are_player_areas_nearby
      simp [hch'.1, hch'.2.1, hch'.2.2.1, hch'.2.2.2]
    rw [hnear] at hcan
    simp only [Bool.false_eq_true, or_false] at hcan
    exact colour_new_spec g q x y hd h hs ho (no_neighbour_of_nearby hnear) hcan

/-! ## `gamma_move` -/

/-- The pre-check of `gamma_move`, spelled out. -/
theorem gamma_move_valid_input_iff (g : gamma_t) (q x y : Nat) :
    gamma_move_valid_input g q x y = true ↔
      (0 < q ∧ q ≤ g.no_players) ∧ inb g (x, y) ∧ owner g (x, y) = 0 ∧
      ((g.playerlist q).no_areas_used ≠ g.max_no_areas ∨
        are_player_areas_nearby g q x y = true) := by
  simp [gamma_move_valid_input, player_fit_the_range, x_y_fit_the_board,
    player_all_areas_used, get_no_players, inb, owner, and_assoc]

theorem owned_insert {g g' : gamma_t} {q : Nat} {s : Cell} (hw : g'.width = g.width)
    (hh : g'.height = g.height) (hs : inb g s)
    (ho : ∀ v, owner g' v = if v = s then q else owner g v) :
    owned g' q = insert s (owned g q) := by
  ext v
  rw [Finset.mem_insert, mem_owned, mem_owned]
  unfold Own inb
  rw [hw, hh, ho]
  by_cases hv : v = s
  · subst hv; simp; exact hs
  · simp [hv]

theorem gamma_move_spec (g : gamma_t) (q x y : Nat) (hd : Dims g) (h : PInv g q)
    (hv : gamma_move_valid_input g q x y = true) :
    ∃ g', gamma_move g q x y = some (true, g') ∧ Placed g q (x, y) g' := by
  obtain ⟨⟨hq0, _⟩, hs, hown, hcan⟩ := (gamma_move_valid_input_iff g q x y).1 hv
  have ho : owner g (x, y) ≠ q := by omega
  obtain ⟨g1, hg1, M⟩ := gamma_make_move_spec g q x y hd h.toRInv hs ho hcan
  refine ⟨increase_player_no_busy_fields g1 q, ?_, M.width, M.height, M.no_players,
    M.max_no_areas, M.owners, M.area_other, ?_, ?_, ?_, ?_⟩
  · simp [gamma_move, hv, hg1]
  · intro p hp
    simp [increase_player_no_busy_fields, hp, M.players_other p hp]
  · simpa [increase_player_no_busy_fields] using M.golden
  · exact M.rinv.congr rfl rfl rfl (fun v _ => Iff.rfl) (fun v _ => rfl)
      (by simp [increase_player_no_busy_fields])
      (by simp [increase_player_no_busy_fields])
      (by simp [increase_player_no_busy_fields])
  · have hins : owned (increase_player_no_busy_fields g1 q) q = insert (x, y) (owned g q) :=
      owned_insert M.width M.height hs M.owners
    have hnot : (x, y) ∉ owned g q := by
      rw [mem_owned]; exact fun hh => ho hh.2
    rw [hins, Finset.card_insert_of_not_mem hnot]
    have hb := owned_card_le g q
    have hbd := board_lt_of_dims hd
    simp only [increase_player_no_busy_fields, set_player_playerlist, if_true]
    rw [M.busy, h.busy_count]
    omega

theorem Placed.framed {g g' : gamma_t} {q : Nat} {s : Cell} (P : Placed g q s g') :
    Framed g q s g' :=
  ⟨P.width, P.height, P.no_players, P.max_no_areas, P.owners, P.area_other, P.players_other⟩

theorem Framed.with_cursor {g g' : gamma_t} {q f : Nat} {s : Cell} (F : Framed g q s g') :
    Framed g q s (set_player_first_free_colour g' q f) := by
  refine ⟨F.width, F.height, F.no_players, F.max_no_areas, ?_, ?_, ?_⟩
  · intro v; simpa [set_player_first_free_colour] using F.owners v
  · intro v hv hq
    simp only [set_player_first_free_colour, area_set_player]
    exact F.area_other v hv hq
  · intro p hp
    simp [set_player_first_free_colour, hp, F.players_other p hp]

/-- A stone placed away from the stones of `q`: `colour_new` returns, whatever
slot the cursor of `q` points to. -/
theorem colour_new_framed (g : gamma_t) (q x y : Nat) (hd : Dims g) (h : RegionInv g q)
    (hn : (g.playerlist q).no_areas_used ≠ g.max_no_areas) :
    ∃ g', colour_new (set_player_id g x y q) q x y = some g' ∧ Framed g q (x, y) g' := by
  have hle := h.count_le
  have hmax := hd.areas_lt
  have hw : ((g.playerlist q).no_areas_used + 1) % 4294967296 =
      (g.playerlist q).no_areas_used + 1 := Nat.mod_eq_of_lt (by omega)
  have hfl := h.cursor_lt
  obtain ⟨gc, hgc⟩ : ∃ gc, gc = set_player_does_area_exist
      (set_area_id (increase_player_no_areas_used (set_player_id g x y q) q) x y
        (g.playerlist q).first_free_colour) q (g.playerlist q).first_free_colour true :=
    ⟨_, rfl⟩
  have hcn : colour_new (set_player_id g x y q) q x y =
      if !player_all_areas_used gc q then move_player_first_free_colour gc q else some gc := by
    rw [hgc]
    simp [colour_new, get_player_first_free_colour, increase_player_no_areas_used]
  have e_m : gc.max_no_areas = g.max_no_areas := by rw [hgc]; rfl
  have e_ex : ∀ r, (gc.playerlist q).does_area_exist r =
      if r = (g.playerlist q).first_free_colour then true
      else (g.playerlist q).does_area_exist r := by
    intro r; rw [hgc]
    simp [set_player_does_area_exist, increase_player_no_areas_used]
  have e_n : (gc.playerlist q).no_areas_used = (g.playerlist q).no_areas_used + 1 := by
    rw [hgc]
    simp [set_player_does_area_exist, increase_player_no_areas_used, hw]
  have e_f : (gc.playerlist q).first_free_colour = (g.playerlist q).first_free_colour := by
    rw [hgc]
    simp [set_player_does_area_exist, increase_player_no_areas_used]
  have F : Framed g q (x, y) gc := by
    refine ⟨by rw [hgc]; rfl, by rw [hgc]; rfl, by rw [hgc]; rfl, e_m, ?_, ?_, ?_⟩
    · intro v; rw [hgc]
      simp [set_player_does_area_exist, increase_player_no_areas_used]
    · intro v hv _; rw [hgc]
      simp [set_player_does_area_exist, increase_player_no_areas_used, hv]
    · intro p hp; rw [hgc]
      simp [set_player_does_area_exist, increase_player_no_areas_used, hp]
  clear hgc
  by_cases hfull : (gc.playerlist q).no_areas_used = gc.max_no_areas
  · refine ⟨gc, ?_, F⟩
    rw [hcn]; simp [player_all_areas_used, hfull]
  · have hcard : (in_use gc q).card < gc.max_no_areas := by
      have hsub : in_use gc q ⊆ insert (g.playerlist q).first_free_colour (in_use g q) := by
        intro r hr
        rw [mem_in_use, e_m, e_ex] at hr
        rw [Finset.mem_insert, mem_in_use]
        by_cases hrf : r = (g.playerlist q).first_free_colour
        · exact Or.inl hrf
        · rw [if_neg hrf] at hr; exact Or.inr hr
      have h1 := Finset.card_le_card hsub
      have h2 := Finset.card_insert_le (g.playerlist q).first_free_colour (in_use g q)
      rw [← h.areas_count] at h2
      rw [e_n, e_m] at hfull
      rw [e_m]
      omega
    obtain ⟨f, hf, _, _⟩ := move_cursor_some gc q (by rw [e_f, e_m]; exact hfl)
      (in_use_free_slot gc q hcard) hfull
    refine ⟨set_player_first_free_colour gc q f, ?_, F.with_cursor⟩
    rw [hcn]; simp [player_all_areas_used, hfull, hf]

/-- One absorption of the merge returns and keeps the rest of the state. -/
theorem merge_framed_step {g gi : gamma_t} {q x y c : Nat} (hs : inb g (x, y))
    (hc : c < g.max_no_areas) (M : MergeFrame g q (x, y) gi) (i : Nat)
    (hv : valid_dir g x y i) (ho : owner g (nbr x y i) = q) :
    ∃ g', (colour_area (set_player_does_area_exist (decrease_player_no_areas_used gi q) q
        (area gi (nbr x y i)) false) q (nbr x y i).1 (nbr x y i).2 c).bind
        (fun g => move_player_first_free_colour g q) = some g' ∧
      MergeFrame g q (x, y) g' := by
  have hinb := (valid_dir_adj hs hv).2
  have hoi : owner gi (nbr x y i) = q := by
    rw [M.frame.owners]; split
    · rfl
    · exact ho
  have ha := M.area_lt _ hinb hoi
  obtain ⟨ga, hga⟩ : ∃ ga, ga = set_player_does_area_exist
      (decrease_player_no_areas_used gi q) q (area gi (nbr x y i)) false := ⟨_, rfl⟩
  rw [← hga]
  have a_w : ga.width = gi.width := by rw [hga]; rfl
  have a_h : ga.height = gi.height := by rw [hga]; rfl
  have a_p : ga.no_players = gi.no_players := by rw [hga]; rfl
  have a_m : ga.max_no_areas = gi.max_no_areas := by rw [hga]; rfl
  have a_own : ∀ v, owner ga v = owner gi v := by
    intro v; rw [hga]; simp [set_player_does_area_exist, decrease_player_no_areas_used]
  have a_area : ∀ v, area ga v = area gi v := by
    intro v; rw [hga]; simp [set_player_does_area_exist, decrease_player_no_areas_used]
  have a_oth : ∀ p, p ≠ q → ga.playerlist p = gi.playerlist p := by
    intro p hp; rw [hga]
    simp [set_player_does_area_exist, decrease_player_no_areas_used, hp]
  have a_ex : (ga.playerlist q).does_area_exist (area gi (nbr x y i)) = false := by
    rw [hga]; simp [set_player_does_area_exist, decrease_player_no_areas_used]
  have a_f : (ga.playerlist q).first_free_colour = (gi.playerlist q).first_free_colour := by
    rw [hga]; simp [set_player_does_area_exist, decrease_player_no_areas_used]
  clear hga
  have hinba : inb ga (nbr x y i) := by
    unfold inb at hinb ⊢
    rw [a_w, a_h, M.frame.width, M.frame.height]; exact hinb
  obtain ⟨gb, hgb, F⟩ := colour_area_filled ga q (nbr x y i).1 (nbr x y i).2 c hinba
  rw [hgb, Option.some_bind]
  have hstay : ∀ v, area gb v ≠ area ga v → area gb v = c ∧ owner ga v = q := by
    intro v hch
    obtain ⟨h1, h2⟩ := F.changed v hch
    refine ⟨h1, ?_⟩
    have h3 : Path (fun b => owner ga b = q) (nbr x y i) v :=
      Path.mono (fun b hb => hb.2.1) h2
    exact Path.end_mem (P := fun b => owner ga b = q) ((a_own _).trans hoi) h3
  have MB : MergeFrame g q (x, y) gb := by
    refine ⟨⟨?_, ?_, ?_, ?_, ?_, ?_, ?_⟩, ?_, ?_⟩
    · rw [F.frame.width, a_w, M.frame.width]
    · rw [F.frame.height, a_h, M.frame.height]
    · rw [F.frame.no_players, a_p, M.frame.no_players]
    · rw [F.frame.max_no_areas, a_m, M.frame.max_no_areas]
    · intro v; rw [F.frame.owner, a_own, M.frame.owners]
    · intro v hvs hvq
      by_cases hch : area gb v = area ga v
      · rw [hch, a_area, M.frame.area_other v hvs hvq]
      · have := (hstay v hch).2
        rw [a_own, M.frame.owners, if_neg hvs] at this
        exact absurd this hvq
    · intro p hp
      rw [F.frame.playerlist, a_oth p hp, M.frame.players_other p hp]
    · rw [F.frame.playerlist, a_f]; exact M.cursor_lt
    · intro v hvb hvq
      by_cases hch : area gb v = area ga v
      · rw [hch, a_area]
        exact M.area_lt v hvb (by rw [← a_own, ← F.frame.owner]; exact hvq)
      · rw [(hstay v hch).1]; exact hc
  by_cases hfull : (gb.playerlist q).no_areas_used = gb.max_no_areas
  · exact ⟨gb, move_cursor_full gb q hfull, MB⟩
  · obtain ⟨f, hf, hflt, _⟩ := move_cursor_some gb q
      (by rw [MB.frame.max_no_areas]; exact MB.cursor_lt)
      ⟨area gi (nbr x y i), by rw [MB.frame.max_no_areas]; exact ha,
        by rw [F.frame.playerlist]; exact a_ex⟩ hfull
    refine ⟨_, hf, MB.frame.with_cursor, ?_, ?_⟩
    · rw [MB.frame.max_no_areas] at hflt
      simpa [set_player_first_free_colour] using hflt
    · intro v hvb hvq
      simp only [set_player_first_free_colour, area_set_player, owner_set_player] at hvq ⊢
      exact MB.area_lt v hvb hvq

/-- A stone placed next to stones of `q`: the merge returns, whatever slot the
cursor of `q` points to. -/
theorem perform_area_colouring_framed (g : gamma_t) (q x y c : Nat)
    (h : RegionInv g q) (hs : inb g (x, y)) (hc : c < g.max_no_areas) :
    ∃ g', perform_area_colouring (set_player_id g x y q) q x y c = some g' ∧
      Framed g q (x, y) g' := by
  rw [perform_area_colouring_eq]
  have key := loop4_total
    (fun gi i =>
        if player_areas_nearby (set_area_id (set_player_id g x y q) x y c) q x y i then
          if c ≠ area gi (nbr x y i) then
            (colour_area
              (set_player_does_area_exist (decrease_player_no_areas_used gi q) q
                (area gi (nbr x y i)) false) q (nbr x y i).1 (nbr x y i).2 c).bind
              fun g => move_player_first_free_colour g q
          else some gi
        else some gi)
    (fun _ gi => MergeFrame g q (x, y) gi)
    (set_area_id (set_player_id g x y q) x y c) ?_ ?_
  · obtain ⟨g', hg', M⟩ := key
    exact ⟨g', hg', M.frame⟩
  · refine ⟨⟨rfl, rfl, rfl, rfl, ?_, ?_, ?_⟩, h.cursor_lt, ?_⟩
    · intro v; simp
    · intro v hv _; simp [hv]
    · intro p _; rfl
    · intro v hvb hvq
      rw [area_set_area_id, area_set_player_id]
      rw [owner_set_area_id, owner_set_player_id] at hvq
      by_cases hvs : v = (x, y)
      · rw [if_pos hvs]; exact hc
      · rw [if_neg hvs] at hvq ⊢
        exact h.area_below ⟨hvb, hvq⟩
  · intro i gi _ M
    beta_reduce
    by_cases htab : player_areas_nearby (set_area_id (set_player_id g x y q) x y c) q x y i
        = true
    · rw [if_pos htab]
      obtain ⟨hv, ho⟩ := (nearby_placed hs i).1 htab
      by_cases hcol : c ≠ area gi (nbr x y i)
      · rw [if_pos hcol]
        exact merge_framed_step hs hc M i hv ho
      · rw [if_neg hcol]; exact ⟨gi, rfl, M⟩
    · rw [if_neg htab]; exact ⟨gi, rfl, M⟩

/-- In a state where the regions of `q` satisfy the invariants of the data
model, `gamma_make_move` returns and leaves the rest of the state alone. -/
theorem gamma_make_move_framed (g : gamma_t) (q x y : Nat) (hd : Dims g)
    (h : RegionInv g q) (hs : inb g (x, y))
    (hcan : (g.playerlist q).no_areas_used ≠ g.max_no_areas ∨
      are_player_areas_nearby g q x y = true) :
    ∃ g', gamma_make_move g q x y = some g' ∧ Framed g q (x, y) g' := by
  rw [gamma_make_move_eq]
  obtain ⟨c1, c2⟩ := choice_spec (player_areas_nearby (set_player_id g x y q) q x y)
    (fun i => area (set_player_id g x y q) (nbr x y i))
  split
  · rename_i hch
    obtain ⟨j, hj, hcol⟩ := c1 hch
    rw [hcol]
    rw [nearby_set_player_id hs, nearby_iff] at hj
    refine perform_area_colouring_framed g q x y _ h hs ?_
    rw [area_set_player_id]
    exact h.area_below ⟨(valid_dir_adj hs hj.1).2, hj.2⟩
  · rename_i hch
    have hch' := c2 (by simpa using hch)
    simp only [nearby_set_player_id hs] at hch'
    have hnear : are_player_areas_nearby g q x y = false := by
      unfold are_player_areas_nearby
      simp [hch'.1, hch'.2.1, hch'.2.2.1, hch'.2.2.2]
    rw [hnear] at hcan
    simp only [Bool.false_eq_true, or_false] at hcan
    exact colour_new_framed g q x y hd h hcan

/-- In a state where the regions of `q` satisfy the invariants of the data
model, a `gamma_move` that passes its pre-check returns `true`. -/
theorem gamma_move_framed (g : gamma_t) (q x y : Nat) (hd : Dims g) (h : RegionInv g q)
    (hv : gamma_move_valid_input g q x y = true) :
    ∃ g', gamma_move g q x y = some (true, g') ∧ Framed g q (x, y) g' := by
  obtain ⟨_, hs, _, hcan⟩ := (gamma_move_valid_input_iff g q x y).1 hv
  obtain ⟨g1, hg1, M⟩ := gamma_make_move_framed g q x y hd h hs hcan
  refine ⟨increase_player_no_busy_fields g1 q, ?_, M.width, M.height, M.no_players,
    M.max_no_areas, M.owners, M.area_other, ?_⟩
  · simp [gamma_move, hv, hg1]
  · intro p hp
    simp [increase_player_no_busy_fields, hp, M.players_other p hp]

theorem NewRegion.with_new_cursor {g g' : gamma_t} {q f : Nat} {s : Cell}
    (N : NewRegion g q s g') : NewRegion g q s (set_player_first_free_colour g' q f) := by
  refine ⟨N.frame.with_cursor, ?_, ?_, ?_, ?_, ?_⟩
  · intro v; simpa [set_player_first_free_colour] using N.areas v
  · intro r; simpa [set_player_first_free_colour] using N.exist r
  · simpa [set_player_first_free_colour] using N.count
  · simpa [set_player_first_free_colour] using N.golden
  · simpa [set_player_first_free_colour] using N.busy

/-- A stone placed away from the stones of `q` starts a region with the id the
cursor of `q` points to. -/
theorem colour_new_result (g : gamma_t) (q x y : Nat) (hd : Dims g) (h : RegionInv g q)
    (hn : (g.playerlist q).no_areas_used ≠ g.max_no_areas) :
    ∃ g', colour_new (set_player_id g x y q) q x y = some g' ∧ NewRegion g q (x, y) g' := by
  have hle := h.count_le
  have hmax := hd.areas_lt
  have hw : ((g.playerlist q).no_areas_used + 1) % 4294967296 =
      (g.playerlist q).no_areas_used + 1 := Nat.mod_eq_of_lt (by omega)
  have hfl := h.cursor_lt
  obtain ⟨gc, hgc⟩ : ∃ gc, gc = set_player_does_area_exist
      (set_area_id (increase_player_no_areas_used (set_player_id g x y q) q) x y
        (g.playerlist q).first_free_colour) q (g.playerlist q).first_free_colour true :=
    ⟨_, rfl⟩
  have hcn : colour_new (set_player_id g x y q) q x y =
      if !player_all_areas_used gc q then move_player_first_free_colour gc q else some gc := by
    rw [hgc]
    simp [colour_new, get_player_first_free_colour, increase_player_no_areas_used]
  have e_m : gc.max_no_areas = g.max_no_areas := by rw [hgc]; rfl
  have e_ex : ∀ r, (gc.playerlist q).does_area_exist r =
      if r = (g.playerlist q).first_free_colour then true
      else (g.playerlist q).does_area_exist r := by
    intro r; rw [hgc]
    simp [set_player_does_area_exist, increase_player_no_areas_used]
  have e_n : (gc.playerlist q).no_areas_used = (g.playerlist q).no_areas_used + 1 := by
    rw [hgc]
    simp [set_player_does_area_exist, increase_player_no_areas_used, hw]
  have e_f : (gc.playerlist q).first_free_colour = (g.playerlist q).first_free_colour := by
    rw [hgc]
    simp [set_player_does_area_exist, increase_player_no_areas_used]
  have N : NewRegion g q (x, y) gc := by
    refine ⟨⟨by rw [hgc]; rfl, by rw [hgc]; rfl, by rw [hgc]; rfl, e_m, ?_, ?_, ?_⟩,
      ?_, e_ex, e_n, ?_, ?_⟩
    · intro v; rw [hgc]
      simp [set_player_does_area_exist, increase_player_no_areas_used]
    · intro v hv _; rw [hgc]
      simp [set_player_does_area_exist, increase_player_no_areas_used, hv]
    · intro p hp; rw [hgc]
      simp [set_player_does_area_exist, increase_player_no_areas_used, hp]
    · intro v; rw [hgc]
      simp [set_player_does_area_exist, increase_player_no_areas_used]
    · rw [hgc]
      simp [set_player_does_area_exist, increase_player_no_areas_used]
    · rw [hgc]
      simp [set_player_does_area_exist, increase_player_no_areas_used]
  clear hgc
  by_cases hfull : (gc.playerlist q).no_areas_used = gc.max_no_areas
  · refine ⟨gc, ?_, N⟩
    rw [hcn]; simp [player_all_areas_used, hfull]
  · have hcard : (in_use gc q).card < gc.max_no_areas := by
      have hsub : in_use gc q ⊆ insert (g.playerlist q).first_free_colour (in_use g q) := by
        intro r hr
        rw [mem_in_use, e_m, e_ex] at hr
        rw [Finset.mem_insert, mem_in_use]
        by_cases hrf : r = (g.playerlist q).first_free_colour
        · exact Or.inl hrf
        · rw [if_neg hrf] at hr; exact Or.inr hr
      have h1 := Finset.card_le_card hsub
      have h2 := Finset.card_insert_le (g.playerlist q).first_free_colour (in_use g q)
      rw [← h.areas_count] at h2
      rw [e_n, e_m] at hfull
      rw [e_m]
      omega
    obtain ⟨f, hf, _, _⟩ := move_cursor_some gc q (by rw [e_f, e_m]; exact hfl)
      (in_use_free_slot gc q hcard) hfull
    refine ⟨set_player_first_free_colour gc q f, ?_, N.with_new_cursor⟩
    rw [hcn]; simp [player_all_areas_used, hfull, hf]

/-- The two cases of `gamma_make_move`, in a state where the regions of `q`
satisfy the invariants of the data model: away from the stones of `q` a new
region is started; next to them the regions met are merged into the region of
the neighbour scanned last. -/
theorem gamma_make_move_cases (g : gamma_t) (q x y : Nat) (hd : Dims g)
    (h : RegionInv g q) (hs : inb g (x, y)) (ho : owner g (x, y) ≠ q)
    (hcan : (g.playerlist q).no_areas_used ≠ g.max_no_areas ∨
      are_player_areas_nearby g q x y = true) :
    ∃ g', gamma_make_move g q x y = some g' ∧
      (((∀ b, adj (x, y) b → inb g b → owner g b ≠ q) ∧ NewRegion g q (x, y) g') ∨
       ∃ c, (∃ b, adj (x, y) b ∧ Own g q b ∧ area g b = c) ∧
         MergeInv g q (x, y) c (absorbed g q x y c 4) g') := by
  rw [gamma_make_move_eq]
  obtain ⟨c1, c2⟩ := choice_spec (player_areas_nearby (set_player_id g x y q) q x y)
    (fun i => area (set_player_id g x y q) (nbr x y i))
  split
  · rename_i hch
    obtain ⟨j, hj, hcol⟩ := c1 hch
    rw [hcol]
    rw [nearby_set_player_id hs, nearby_iff] at hj
    obtain ⟨g', hg', M⟩ := perform_area_colouring_merge g q x y
      (area (set_player_id g x y q) (nbr x y j)) hd h hs ho
    refine ⟨g', hg', Or.inr ⟨_, ⟨nbr x y j, (valid_dir_adj hs hj.1).1,
      ⟨(valid_dir_adj hs hj.1).2, hj.2⟩, ?_⟩, M⟩⟩
    rw [area_set_player_id]
  · rename_i hch
    have hch' := c2 (by simpa using hch)
    simp only [nearby_set_player_id hs] at hch'
    have hnear : are_player_areas_nearby g q x y = false := by
      unfold are_player_areas_nearby
      simp [hch'.1, hch'.2.1, hch'.2.2.1, hch'.2.2.2]
    rw [hnear] at hcan
    simp only [Bool.false_eq_true, or_false] at hcan
    obtain ⟨g', hg', N⟩ := colour_new_result g q x y hd h hcan
    exact ⟨g', hg', Or.inl ⟨no_neighbour_of_nearby hnear, N⟩⟩

/-- A `gamma_move` that passes its pre-check returns `true`, with the state of
`gamma_make_move` and one more busy field for `q`. -/
theorem gamma_move_cases (g : gamma_t) (q x y : Nat) (hd : Dims g) (h : RegionInv g q)
    (hv : gamma_move_valid_input g q x y = true) :
    ∃ g1, gamma_move g q x y = some (true, increase_player_no_busy_fields g1 q) ∧
      (((∀ b, adj (x, y) b → inb g b → owner g b ≠ q) ∧ NewRegion g q (x, y) g1) ∨
       ∃ c, (∃ b, adj (x, y) b ∧ Own g q b ∧ area g b = c) ∧
         MergeInv g q (x, y) c (absorbed g q x y c 4) g1) := by
  obtain ⟨⟨hq0, _⟩, hs, hown, hcan⟩ := (gamma_move_valid_input_iff g q x y).1 hv
  have ho : owner g (x, y) ≠ q := by omega
  obtain ⟨g1, hg1, hc⟩ := gamma_make_move_cases g q x y hd h hs ho hcan
  exact ⟨g1, by simp [gamma_move, hv, hg1], hc⟩

theorem marked_zero (g : gamma_t) (p x y : Nat) (v : Cell) : ¬ marked g p x y 0 v := by
  rintro ⟨j, hj, _⟩; omega

theorem marked_succ (g : gamma_t) (p x y i : Nat) (v : Cell) :
    marked g p x y (i + 1) v ↔ marked g p x y i v ∨
      (valid_dir g x y i ∧ owner g (nbr x y i) = p ∧ Path (Rest g p (x, y)) (nbr x y i) v) := by
  unfold marked
  constructor
  · rintro ⟨j, hj, h2⟩
    by_cases hji : j = i
    · subst hji; exact Or.inr h2
    · exact Or.inl ⟨j, by omega, h2⟩
  · rintro (⟨j, hj, h2⟩ | h2)
    · exact ⟨j, by omega, h2⟩
    · exact ⟨i, by omega, h2⟩

theorem marked_mono {g : gamma_t} {p x y i k : Nat} {v : Cell} (hik : i ≤ k)
    (h : marked g p x y i v) : marked g p x y k v := by
  obtain ⟨j, hj, h2⟩ := h
  exact ⟨j, by omega, h2⟩

theorem rest_nbr {g : gamma_t} {p x y j : Nat} (hs : inb g (x, y)) (hv : valid_dir g x y j)
    (ho : owner g (nbr x y j) = p) : Rest g p (x, y) (nbr x y j) :=
  ⟨⟨(valid_dir_adj hs hv).2, ho⟩, nbr_ne_self hs hv⟩

theorem marked_rest {g : gamma_t} {p x y i : Nat} {v : Cell} (hs : inb g (x, y))
    (h : marked g p x y i v) : Rest g p (x, y) v := by
  obtain ⟨j, _, hv, ho, hp⟩ := h
  exact Path.end_mem (rest_nbr hs hv ho) hp

/-- Being marked is inherited along the pieces. -/
theorem marked_of_path {g : gamma_t} {p x y i : Nat} {u v : Cell}
    (h : marked g p x y i u) (hp : Path (Rest g p (x, y)) u v) : marked g p x y i v := by
  obtain ⟨j, hj, hv, ho, hpu⟩ := h
  exact ⟨j, hj, hv, ho, hpu.trans hp⟩

/-- A marked cell belongs to the region of the vacated cell. -/
theorem marked_area {g : gamma_t} {p x y i : Nat} {v : Cell} (h : RegionInv g p)
    (hs : Own g p (x, y)) (hm : marked g p x y i v) : area g v = area g (x, y) := by
  obtain ⟨j, _, hv, ho, hp⟩ := hm
  have hn : Own g p (nbr x y j) := ⟨(valid_dir_adj hs.1 hv).2, ho⟩
  have h1 := h.adj_same hs hn (valid_dir_adj hs.1 hv).1
  have h2 := h.path_same hn (Path.mono (fun b hb => hb.1) hp)
  exact (h1.trans h2).symm

/-- A path that leaves `s` can be cut at its last visit of `s`. -/
theorem Path.leave {P : Cell → Prop} {s v : Cell} (hp : Path P s v) (hv : v ≠ s) :
    ∃ b, adj s b ∧ P b ∧ b ≠ s ∧ Path (fun c => P c ∧ c ≠ s) b v := by
  induction hp with
  | refl => exact absurd rfl hv
  | tail hab hbc ih =>
    rename_i b c
    by_cases hb : b = s
    · subst hb
      exact ⟨c, hbc.1, hbc.2, hv, Relation.ReflTransGen.refl⟩
    · obtain ⟨b0, h1, h2, h3, h4⟩ := ih hb
      exact ⟨b0, h1, h2, h3, Relation.ReflTransGen.tail h4 ⟨hbc.1, hbc.2, hv⟩⟩

/-- Every other cell of the region of the vacated cell is marked in the end. -/
theorem marked_of_area {g : gamma_t} {p x y : Nat} {v : Cell} (h : RegionInv g p)
    (hs : Own g p (x, y)) (hv : Rest g p (x, y) v) (ha : area g v = area g (x, y)) :
    marked g p x y 4 v := by
  have hp := (h.region (x, y) v hs hv.1).1 ha.symm
  obtain ⟨b, hb1, hb2, _, hb4⟩ := hp.leave hv.2
  obtain ⟨j, hj, rfl⟩ := adj_exists_dir hb1 hb2.1
  exact ⟨j, valid_dir_lt hj, hj, hb2.2, hb4⟩

theorem area_mem_in_use {g : gamma_t} {p : Nat} {v : Cell} (h : RegionInv g p) (hv : Own g p v) :
    area g v ∈ in_use g p := by
  rw [mem_in_use]
  exact ⟨h.area_below hv, (h.exist_iff _).2 ⟨v, hv, rfl⟩⟩

theorem vacate_first (g : gamma_t) (x y : Nat) (hd : Dims g)
    (h : RegionInv g (owner g (x, y))) (hs : inb g (x, y)) :
    ∃ g5, move_player_first_free_colour
        (decrease_player_no_areas_used
          (set_player_does_area_exist (set_player_id (set_area_id g x y 0) x y 0)
            (owner g (x, y)) (area g (x, y)) false) (owner g (x, y))) (owner g (x, y))
        = some g5 ∧ Vacated g x y g5 := by
  have hso : Own g (owner g (x, y)) (x, y) := ⟨hs, rfl⟩
  have hmem := area_mem_in_use h hso
  have hpos : 0 < (in_use g (owner g (x, y))).card := Finset.card_pos.2 ⟨_, hmem⟩
  have hle := in_use_card_le g (owner g (x, y))
  have hlt := hd.areas_lt
  have hcnt := h.areas_count
  obtain ⟨g4, hg4⟩ : ∃ g4, g4 = decrease_player_no_areas_used
      (set_player_does_area_exist (set_player_id (set_area_id g x y 0) x y 0)
        (owner g (x, y)) (area g (x, y)) false) (owner g (x, y)) := ⟨_, rfl⟩
  rw [← hg4]
  have e_pl : g4.playerlist (owner g (x, y)) =
      { g.playerlist (owner g (x, y)) with
        does_area_exist := fun r => if r = area g (x, y) then false
          else (g.playerlist (owner g (x, y))).does_area_exist r
        no_areas_used :=
          ((g.playerlist (owner g (x, y))).no_areas_used + 4294967295) % 4294967296 } := by
    rw [hg4]
    simp [decrease_player_no_areas_used, set_player_does_area_exist]
  have e_oth : ∀ r, r ≠ owner g (x, y) → g4.playerlist r = g.playerlist r := by
    intro r hr; rw [hg4]
    simp [decrease_player_no_areas_used, set_player_does_area_exist, hr]
  have e_own : ∀ v, owner g4 v = if v = (x, y) then 0 else owner g v := by
    intro v; rw [hg4]
    simp [decrease_player_no_areas_used, set_player_does_area_exist]
  have e_area : ∀ v, area g4 v = if v = (x, y) then 0 else area g v := by
    intro v; rw [hg4]
    simp [decrease_player_no_areas_used, set_player_does_area_exist]
  have e_w : g4.width = g.width := by rw [hg4]; rfl
  have e_h : g4.height = g.height := by rw [hg4]; rfl
  have e_p : g4.no_players = g.no_players := by rw [hg4]; rfl
  have e_m : g4.max_no_areas = g.max_no_areas := by rw [hg4]; rfl
  clear hg4
  obtain ⟨f', hf', hfl', hff'⟩ := move_cursor_some g4 (owner g (x, y))
    (by rw [e_pl, e_m]; exact h.cursor_lt)
    ⟨area g (x, y), by rw [e_m]; exact h.area_below hso, by rw [e_pl]; simp⟩
    (by rw [e_pl, e_m]; simp only; omega)
  refine ⟨_, hf', e_w, e_h, e_p, e_m, e_own, e_area, ?_, ?_, ?_, ?_, ?_, ?_, ?_⟩
  · intro r hr
    simp [set_player_first_free_colour, hr, e_oth r hr]
  · simp [set_player_first_free_colour, e_pl]
  · simp [set_player_first_free_colour, e_pl]
  · intro r
    simp [set_player_first_free_colour, e_pl]
  · simp only [set_player_first_free_colour, set_player_playerlist, if_true, e_pl]
    omega
  · simp only [set_player_first_free_colour, set_player_playerlist, if_true]
    rw [← e_m]; exact hfl'
  · simp only [set_player_first_free_colour, set_player_playerlist, if_true]
    exact hff'

theorem golden_vacate_eq (g : gamma_t) (x y : Nat) :
    golden_vacate g x y =
      (move_player_first_free_colour
        (decrease_player_no_areas_used
          (set_player_does_area_exist (set_player_id (set_area_id g x y 0) x y 0)
            (owner g (x, y)) (area g (x, y)) false) (owner g (x, y))) (owner g (x, y))).bind
        fun g5 => [0, 1, 2, 3].foldlM (fun (s : gamma_t × Nat) i =>
          if player_areas_nearby g (owner g (x, y)) x y i then
            if area s.1 (nbr x y i) ≠ TRANSPARENT then
              (colour_area s.1 (owner g (x, y)) (nbr x y i).1 (nbr x y i).2 TRANSPARENT).map
                fun g' => (g', (s.2 + 1) % 4294967296)
            else some s
          else some s) (g5, 0) := rfl

theorem VacInv.next_same {g g5 : gamma_t} {x y i : Nat} {reps : List Cell}
    {st : gamma_t × Nat} (V : VacInv g x y g5 reps i st)
    (hn : valid_dir g x y i → owner g (nbr x y i) = owner g (x, y) →
      marked g (owner g (x, y)) x y i (nbr x y i)) :
    VacInv g x y g5 reps (i + 1) st := by
  have hm : ∀ v, marked g (owner g (x, y)) x y (i + 1) v →
      marked g (owner g (x, y)) x y i v := by
    intro v hv
    rcases (marked_succ _ _ _ _ _ _).1 hv with h1 | ⟨h1, h2, h3⟩
    · exact h1
    · exact marked_of_path (hn h1 h2) h3
  refine ⟨V.frame, fun v hv => V.mark_T v (hm v hv),
    fun v hv => V.mark_keep v (fun h' => hv (marked_mono (by omega) h')), V.count,
    by have := V.length_le; omega, V.pairwise, ?_, ?_⟩
  · intro r hr
    obtain ⟨j, hj, h2⟩ := V.reps_nbr r hr
    exact ⟨j, by omega, h2⟩
  · intro j hj hv ho
    by_cases hji : j = i
    · subst hji
      obtain ⟨j', hj', hv', ho', hp'⟩ := hn hv ho
      obtain ⟨r, hr, hpr⟩ := V.cover j' hj' hv' ho'
      exact ⟨r, hr, hpr.trans hp'⟩
    · exact V.cover j (by omega) hv ho

theorem transparent_ne_area {g : gamma_t} {p : Nat} {v : Cell} (hd : Dims g) (h : RegionInv g p)
    (hv : Own g p v) : area g v ≠ TRANSPARENT := by
  have h1 := h.area_below hv
  have h2 := hd.areas_lt
  unfold TRANSPARENT
  omega

theorem golden_vacate_spec (g : gamma_t) (x y : Nat) (hd : Dims g)
    (h : RegionInv g (owner g (x, y))) (hs : inb g (x, y)) (hp0 : owner g (x, y) ≠ 0) :
    ∃ g5 gm cnt reps, golden_vacate g x y = some (gm, cnt) ∧ Vacated g x y g5 ∧
      VacInv g x y g5 reps 4 (gm, cnt) := by
  rw [golden_vacate_eq]
  obtain ⟨g5, hg5, V5⟩ := vacate_first g x y hd h hs
  rw [hg5, Option.some_bind]
  have key := loop4_total
    (fun (s : gamma_t × Nat) i =>
          if player_areas_nearby g (owner g (x, y)) x y i then
            if area s.1 (nbr x y i) ≠ TRANSPARENT then
              (colour_area s.1 (owner g (x, y)) (nbr x y i).1 (nbr x y i).2 TRANSPARENT).map
                fun g' => (g', (s.2 + 1) % 4294967296)
            else some s
          else some s)
    (fun i st => ∃ reps, VacInv g x y g5 reps i st) (g5, 0) ?_ ?_
  · obtain ⟨⟨gm, cnt⟩, hl, reps, V⟩ := key
    exact ⟨g5, gm, cnt, reps, hl, V5, V⟩
  · refine ⟨[], SameButAreas.refl _, fun v hv => absurd hv (marked_zero _ _ _ _ _),
      fun v _ => rfl, rfl, by simp, List.Pairwise.nil, by simp, ?_⟩
    intro j hj; omega
  · rintro i ⟨gi, cnt⟩ hi ⟨reps, V⟩
    beta_reduce
    by_cases htab : player_areas_nearby g (owner g (x, y)) x y i = true
    · rw [if_pos htab]
      obtain ⟨hval, hown⟩ := (nearby_iff _ _ _ _ _).1 htab
      have hrn := rest_nbr hs hval hown
      by_cases hT : area gi (nbr x y i) ≠ TRANSPARENT
      · rw [if_pos hT]
        have hnm : ¬ marked g (owner g (x, y)) x y i (nbr x y i) :=
          fun hm => hT (V.mark_T _ hm)
        have hinb : inb gi ((nbr x y i).1, (nbr x y i).2) := by
          unfold inb; rw [V.frame.width, V.frame.height, V5.width, V5.height]
          exact hrn.1.1
        obtain ⟨g', hg', F⟩ := colour_area_filled gi (owner g (x, y)) _ _ TRANSPARENT hinb
        rw [hg']
        refine ⟨_, rfl, reps ++ [nbr x y i], ?_⟩
        have hto : ∀ b, Fillable gi (owner g (x, y)) TRANSPARENT b →
            Rest g (owner g (x, y)) (x, y) b := by
          rintro b ⟨hb1, hb2, _⟩
          rw [V.frame.owner, V5.owners] at hb2
          by_cases hbs : b = (x, y)
          · rw [if_pos hbs] at hb2; exact absurd hb2.symm hp0
          · rw [if_neg hbs] at hb2
            refine ⟨⟨?_, hb2⟩, hbs⟩
            unfold inb at hb1 ⊢
            rw [V.frame.width, V.frame.height, V5.width, V5.height] at hb1
            exact hb1
        have hfrom : ∀ b, Path (Rest g (owner g (x, y)) (x, y)) (nbr x y i) b →
            Rest g (owner g (x, y)) (x, y) b → Fillable gi (owner g (x, y)) TRANSPARENT b := by
          intro b hpb hb
          refine ⟨?_, ?_, ?_⟩
          · unfold inb; rw [V.frame.width, V.frame.height, V5.width, V5.height]
            exact hb.1.1
          · rw [V.frame.owner, V5.owners, if_neg hb.2]; exact hb.1.2
          · have hnb : ¬ marked g (owner g (x, y)) x y i b :=
              fun hm => hnm (marked_of_path hm (hpb.symm hrn))
            rw [V.mark_keep b hnb, V5.areas, if_neg hb.2]
            exact transparent_ne_area hd h hb.1
        refine ⟨V.frame.trans F.frame, ?_, ?_, ?_, ?_, ?_, ?_, ?_⟩
        · intro v hv
          rcases (marked_succ _ _ _ _ _ _).1 hv with h1 | ⟨_, _, h3⟩
          · exact F.keeps (V.mark_T v h1)
          · exact F.reached (Path.restrict hfrom h3)
        · intro v hv
          have h1 : ¬ marked g (owner g (x, y)) x y i v :=
            fun h' => hv (marked_mono (by omega) h')
          have h2 : ¬ Path (Fillable gi (owner g (x, y)) TRANSPARENT)
              ((nbr x y i).1, (nbr x y i).2) v := by
            intro hp
            exact hv ((marked_succ _ _ _ _ _ _).2 (Or.inr ⟨hval, hown, Path.mono hto hp⟩))
          show area g' v = area g5 v
          rw [F.unreached h2]
          exact V.mark_keep v h1
        · show (cnt + 1) % 4294967296 = (reps ++ [nbr x y i]).length
          have h1 := V.count
          have h2 := V.length_le
          simp only at h1
          rw [List.length_append, List.length_singleton, ← h1]
          omega
        · have := V.length_le
          rw [List.length_append, List.length_singleton]; omega
        · rw [List.pairwise_append]
          refine ⟨V.pairwise, List.pairwise_singleton _ _, ?_⟩
          intro r hr r' hr'
          rw [List.mem_singleton] at hr'
          subst hr'
          intro hp
          obtain ⟨j, hj, hjv, hjo, rfl⟩ := V.reps_nbr r hr
          exact hnm ⟨j, hj, hjv, hjo, hp⟩
        · intro r hr
          rw [List.mem_append, List.mem_singleton] at hr
          rcases hr with hr | hr
          · obtain ⟨j, hj, h2⟩ := V.reps_nbr r hr
            exact ⟨j, by omega, h2⟩
          · exact ⟨i, by omega, hval, hown, hr⟩
        · intro j hj hv ho
          by_cases hji : j = i
          · subst hji
            exact ⟨nbr x y j, by simp, Relation.ReflTransGen.refl⟩
          · obtain ⟨r, hr, hp⟩ := V.cover j (by omega) hv ho
            exact ⟨r, by simp [hr], hp⟩
      · rw [if_neg hT]
        refine ⟨_, rfl, reps, V.next_same ?_⟩
        intro _ _
        by_contra hnm
        apply hT
        show area gi (nbr x y i) ≠ TRANSPARENT
        rw [V.mark_keep _ hnm, V5.areas, if_neg hrn.2]
        exact transparent_ne_area hd h hrn.1
    · rw [if_neg htab]
      refine ⟨_, rfl, reps, V.next_same ?_⟩
      intro hv ho
      exact absurd ((nearby_iff _ _ _ _ _).2 ⟨hv, ho⟩) htab

/-! ## The golden move: undoing the vacation -/

theorem set_cursor_self (g : gamma_t) (p : Nat) :
    set_player_first_free_colour g p (g.playerlist p).first_free_colour = g := by
  apply gamma_t.ext <;> try rfl
  funext j
  simp only [set_player_first_free_colour, set_player_playerlist]
  split
  · rename_i hj; subst hj; rfl
  · rfl

theorem golden_undo_eq (g : gamma_t) (x y p a : Nat) :
    golden_undo g x y p a =
      (move_player_first_free_colour
        (increase_player_no_areas_used
          (set_player_does_area_exist (set_player_id (set_area_id g x y a) x y p) p a true)
          p) p).bind fun g' => colour_area g' p x y a := rfl

/-- The undo block restores the state, the cursor of the owner of the cell
apart. -/
theorem golden_undo_spec (g : gamma_t) (x y : Nat) (hd : Dims g)
    (h : RegionInv g (owner g (x, y))) (hs : inb g (x, y))
    {g5 gm : gamma_t} {cnt : Nat} {reps : List Cell}
    (V5 : Vacated g x y g5) (V : VacInv g x y g5 reps 4 (gm, cnt)) :
    ∃ f, golden_undo gm x y (owner g (x, y)) (area g (x, y)) =
        some (set_player_first_free_colour g (owner g (x, y)) f) ∧
      f < g.max_no_areas ∧
      ((g.playerlist (owner g (x, y))).no_areas_used < g.max_no_areas →
        (g.playerlist (owner g (x, y))).does_area_exist f = false) := by
  have hso : Own g (owner g (x, y)) (x, y) := ⟨hs, rfl⟩
  have haex : (g.playerlist (owner g (x, y))).does_area_exist (area g (x, y)) = true :=
    (h.exist_iff _).2 ⟨_, hso, rfl⟩
  have hnle := h.count_le
  have hlt := hd.areas_lt
  have hcount := V5.count
  have hgm : gm.playerlist = g5.playerlist := V.frame.playerlist
  rw [golden_undo_eq]
  obtain ⟨u4, hu4⟩ : ∃ u4, u4 = increase_player_no_areas_used
      (set_player_does_area_exist
        (set_player_id (set_area_id gm x y (area g (x, y))) x y (owner g (x, y)))
        (owner g (x, y)) (area g (x, y)) true) (owner g (x, y)) := ⟨_, rfl⟩
  rw [← hu4]
  have e_w : u4.width = g.width := by
    rw [hu4]; show gm.width = _; rw [V.frame.width, V5.width]
  have e_h : u4.height = g.height := by
    rw [hu4]; show gm.height = _; rw [V.frame.height, V5.height]
  have e_p : u4.no_players = g.no_players := by
    rw [hu4]; show gm.no_players = _; rw [V.frame.no_players, V5.no_players]
  have e_m : u4.max_no_areas = g.max_no_areas := by
    rw [hu4]; show gm.max_no_areas = _; rw [V.frame.max_no_areas, V5.max_no_areas]
  have e_own : ∀ v, owner u4 v = owner g v := by
    intro v; rw [hu4]
    simp only [increase_player_no_areas_used, set_player_does_area_exist, owner_set_player,
      owner_set_player_id, owner_set_area_id]
    have e : owner gm v = owner g5 v := V.frame.owner v
    rw [e, V5.owners]
    split
    · rename_i hv; rw [hv]
    · rfl
  have e_area : ∀ v, area u4 v = if v = (x, y) then area g (x, y) else area gm v := by
    intro v; rw [hu4]
    simp [increase_player_no_areas_used, set_player_does_area_exist]
  have e_oth : ∀ r, r ≠ owner g (x, y) → u4.playerlist r = g.playerlist r := by
    intro r hr; rw [hu4]
    simp [increase_player_no_areas_used, set_player_does_area_exist, hr, hgm,
      V5.players_other r hr]
  have e_ex : (u4.playerlist (owner g (x, y))).does_area_exist =
      (g.playerlist (owner g (x, y))).does_area_exist := by
    funext r; rw [hu4]
    simp only [increase_player_no_areas_used, set_player_does_area_exist,
      set_player_playerlist, if_true, set_player_id_playerlist, set_area_id_playerlist, hgm,
      V5.exist]
    split
    · rename_i hr; rw [hr, haex]
    · rfl
  have e_n : (u4.playerlist (owner g (x, y))).no_areas_used =
      (g.playerlist (owner g (x, y))).no_areas_used := by
    rw [hu4]
    simp only [increase_player_no_areas_used, set_player_does_area_exist,
      set_player_playerlist, if_true, set_player_id_playerlist, set_area_id_playerlist, hgm]
    omega
  have e_f : (u4.playerlist (owner g (x, y))).first_free_colour =
      (g5.playerlist (owner g (x, y))).first_free_colour := by
    rw [hu4]
    simp [increase_player_no_areas_used, set_player_does_area_exist, hgm]
  have e_g : (u4.playerlist (owner g (x, y))).golden_move_used =
      (g.playerlist (owner g (x, y))).golden_move_used := by
    rw [hu4]
    simp [increase_player_no_areas_used, set_player_does_area_exist, hgm, V5.golden]
  have e_b : (u4.playerlist (owner g (x, y))).no_busy_fields =
      (g.playerlist (owner g (x, y))).no_busy_fields := by
    rw [hu4]
    simp [increase_player_no_areas_used, set_player_does_area_exist, hgm, V5.busy]
  clear hu4
  -- the cursor after the scan
  obtain ⟨f, hmove, hfl, hff⟩ : ∃ f, move_player_first_free_colour u4 (owner g (x, y)) =
      some (set_player_first_free_colour u4 (owner g (x, y)) f) ∧ f < g.max_no_areas ∧
      ((g.playerlist (owner g (x, y))).no_areas_used < g.max_no_areas →
        (g.playerlist (owner g (x, y))).does_area_exist f = false) := by
    by_cases hfull : (g.playerlist (owner g (x, y))).no_areas_used = g.max_no_areas
    · refine ⟨(u4.playerlist (owner g (x, y))).first_free_colour, ?_, ?_, ?_⟩
      · rw [set_cursor_self]
        exact move_cursor_full u4 _ (by rw [e_n, e_m]; exact hfull)
      · rw [e_f]; exact V5.cursor_lt
      · intro hh; omega
    · have hcard : (in_use g (owner g (x, y))).card < g.max_no_areas := by
        rw [← h.areas_count]; omega
      obtain ⟨r, hr1, hr2⟩ := in_use_free_slot g _ hcard
      obtain ⟨f, hf, hfl, hff⟩ := move_cursor_some u4 (owner g (x, y))
        (by rw [e_f, e_m]; exact V5.cursor_lt) ⟨r, by rw [e_m]; exact hr1, by rw [e_ex]; exact hr2⟩
        (by rw [e_n, e_m]; exact hfull)
      exact ⟨f, hf, by rw [← e_m]; exact hfl, fun _ => by rw [← e_ex]; exact hff⟩
  rw [hmove, Option.some_bind]
  obtain ⟨g', hg', F⟩ := colour_area_filled (set_player_first_free_colour u4 (owner g (x, y)) f)
    (owner g (x, y)) x y (area g (x, y)) (by unfold inb at hs ⊢; rw [← e_w, ← e_h] at hs; exact hs)
  refine ⟨f, ?_, hfl, hff⟩
  rw [hg']
  congr 1
  have haT : area g (x, y) ≠ TRANSPARENT := transparent_ne_area hd h hso
  have hfill_own : ∀ b, Fillable (set_player_first_free_colour u4 (owner g (x, y)) f)
      (owner g (x, y)) (area g (x, y)) b → Own g (owner g (x, y)) b := by
    rintro b ⟨hb1, hb2, _⟩
    refine ⟨?_, (e_own b) ▸ hb2⟩
    unfold inb at hb1 ⊢
    rw [← e_w, ← e_h]; exact hb1
  have hmarked_fill : ∀ b, marked g (owner g (x, y)) x y 4 b →
      Fillable (set_player_first_free_colour u4 (owner g (x, y)) f)
        (owner g (x, y)) (area g (x, y)) b := by
    intro b hb
    have hr := marked_rest hs hb
    refine ⟨?_, ?_, ?_⟩
    · unfold inb; show b.1 < u4.width ∧ b.2 < u4.height
      rw [e_w, e_h]; exact hr.1.1
    · show owner u4 b = _
      rw [e_own]; exact hr.1.2
    · show area u4 b ≠ _
      rw [e_area, if_neg hr.2]
      have e : area gm b = TRANSPARENT := V.mark_T b hb
      rw [e]
      exact fun e' => haT e'.symm
  have harea : ∀ v, area g' v = area g v := by
    intro v
    by_cases hm : marked g (owner g (x, y)) x y 4 v
    · obtain ⟨j, hj, hjv, hjo, hp⟩ := hm
      have hn : marked g (owner g (x, y)) x y 4 (nbr x y j) :=
        ⟨j, hj, hjv, hjo, Relation.ReflTransGen.refl⟩
      have hp' : Path (Fillable (set_player_first_free_colour u4 (owner g (x, y)) f)
          (owner g (x, y)) (area g (x, y))) (x, y) v :=
        Relation.ReflTransGen.head ⟨(valid_dir_adj hs hjv).1, hmarked_fill _ hn⟩
          (Path.restrict (fun b hb _ => hmarked_fill b (marked_of_path hn hb)) hp)
      rw [F.reached hp', marked_area h hso ⟨j, hj, hjv, hjo, hp⟩]
    · by_cases hp : Path (Fillable (set_player_first_free_colour u4 (owner g (x, y)) f)
          (owner g (x, y)) (area g (x, y))) (x, y) v
      · rw [F.reached hp]
        exact h.path_same hso (Path.mono hfill_own hp)
      · rw [F.unreached hp]
        show area u4 v = _
        rw [e_area]
        split
        · rename_i hv; rw [hv]
        · rename_i hv
          have e : area gm v = area g5 v := V.mark_keep v hm
          rw [e, V5.areas, if_neg hv]
  apply gamma_t.ext
  · funext j i
    apply field.ext
    · have := F.frame.owner (i, j)
      have e2 := e_own (i, j)
      exact this.trans e2
    · exact harea (i, j)
  · rw [F.frame.width]; exact e_w
  · rw [F.frame.height]; exact e_h
  · rw [F.frame.no_players]; exact e_p
  · rw [F.frame.max_no_areas]; exact e_m
  · rw [F.frame.playerlist]
    funext r
    simp only [set_player_first_free_colour, set_player_playerlist]
    split
    · rename_i hr
      subst hr
      apply player.ext
      · exact e_ex
      · exact e_b
      · exact e_g
      · exact e_n
      · rfl
    · rename_i hr
      exact e_oth r hr

/-! ## The golden move: committing -/

theorem VacInv.reps_rest {g g5 : gamma_t} {x y i : Nat} {reps : List Cell}
    {st : gamma_t × Nat} (V : VacInv g x y g5 reps i st) (hs : inb g (x, y)) {r : Cell}
    (hr : r ∈ reps) : Rest g (owner g (x, y)) (x, y) r := by
  obtain ⟨j, _, hv, ho, rfl⟩ := V.reps_nbr r hr
  exact rest_nbr hs hv ho

theorem VacInv.reps_marked {g g5 : gamma_t} {x y i : Nat} {reps : List Cell}
    {st : gamma_t × Nat} (V : VacInv g x y g5 reps i st) {r : Cell}
    (hr : r ∈ reps) : marked g (owner g (x, y)) x y i r := by
  obtain ⟨j, hj, hv, ho, rfl⟩ := V.reps_nbr r hr
  exact ⟨j, hj, hv, ho, Relation.ReflTransGen.refl⟩

/-- Two counted neighbours in the same piece are the same neighbour. -/
theorem VacInv.reps_unique {g g5 : gamma_t} {x y i : Nat} {reps : List Cell}
    {st : gamma_t × Nat} (V : VacInv g x y g5 reps i st) (hs : inb g (x, y)) {r r' : Cell}
    (hr : r ∈ reps) (hr' : r' ∈ reps) (hp : Path (Rest g (owner g (x, y)) (x, y)) r r') :
    r = r' := by
  by_contra hne
  have hsym : reps.Pairwise fun a b =>
      ¬ Path (Rest g (owner g (x, y)) (x, y)) a b ∧
      ¬ Path (Rest g (owner g (x, y)) (x, y)) b a := by
    refine List.Pairwise.imp_of_mem ?_ V.pairwise
    intro a b ha hb hab
    exact ⟨hab, fun hba => hab (hba.symm (V.reps_rest hs hb))⟩
  have := List.Pairwise.forall (fun a b hab => ⟨hab.2, hab.1⟩) hsym hr hr' hne
  exact this.1 hp

theorem VacInv.reps_nodup {g g5 : gamma_t} {x y i : Nat} {reps : List Cell}
    {st : gamma_t × Nat} (V : VacInv g x y g5 reps i st) : reps.Nodup := by
  refine List.Pairwise.imp ?_ V.pairwise
  intro a b hab e
  exact hab (e ▸ Relation.ReflTransGen.refl)

theorem CommitInv.step_same {g g5 g6 gi : gamma_t} {x y q cnt i : Nat} {reps : List Cell}
    (C : CommitInv g x y q g5 g6 reps cnt i gi)
    (hn : valid_dir g x y i → owner g (nbr x y i) = owner g (x, y) →
      marked g (owner g (x, y)) x y i (nbr x y i)) :
    CommitInv g x y q g5 g6 reps cnt (i + 1) gi := by
  have hm : ∀ v, marked g (owner g (x, y)) x y (i + 1) v ↔
      marked g (owner g (x, y)) x y i v := by
    intro v
    constructor
    · intro hv
      rcases (marked_succ _ _ _ _ _ _).1 hv with h1 | ⟨h1, h2, h3⟩
      · exact h1
      · exact marked_of_path (hn h1 h2) h3
    · exact marked_mono (by omega)
  refine ⟨C.width, C.height, C.no_players, C.max_no_areas, C.owners, C.area_out,
    C.players_other, C.golden, C.busy, ?_, C.cursor_lt, C.cursor_free, C.exist_lt,
    C.exist_iff, C.count, C.region, ?_⟩
  · intro v hv; rw [hm]; exact C.tmark v hv
  · obtain ⟨todo, h1, h2, h3⟩ := C.todo
    exact ⟨todo, h1, fun r => by rw [hm]; exact h2 r, h3⟩

theorem perform_transparent_colouring_eq (g : gamma_t) (p nx ny : Nat) :
    perform_transparent_colouring g p nx ny =
      (colour_area
        (set_player_does_area_exist (increase_player_no_areas_used g p) p
          (get_player_first_free_colour (increase_player_no_areas_used g p) p) true)
        p nx ny (get_player_first_free_colour (increase_player_no_areas_used g p) p)).bind
        fun g' => move_player_first_free_colour g' p := rfl

theorem cursor_increase (g : gamma_t) (p : Nat) :
    get_player_first_free_colour (increase_player_no_areas_used g p) p =
      (g.playerlist p).first_free_colour := by
  simp [get_player_first_free_colour, increase_player_no_areas_used]

/-- With every region id taken, giving a piece a fresh id never returns: the
cursor scan finds no free slot. -/
theorem perform_transparent_colouring_none (g : gamma_t) (p : Nat) (n : Cell)
    (hn : inb g n)
    (hc : (g.playerlist p).first_free_colour < g.max_no_areas)
    (hfull : (g.playerlist p).no_areas_used = g.max_no_areas)
    (hall : ∀ r, r < g.max_no_areas → (g.playerlist p).does_area_exist r = true) :
    perform_transparent_colouring g p n.1 n.2 = none := by
  rw [perform_transparent_colouring_eq, cursor_increase]
  obtain ⟨gE, hgE⟩ : ∃ gE, gE = set_player_does_area_exist
      (increase_player_no_areas_used g p) p (g.playerlist p).first_free_colour true := ⟨_, rfl⟩
  rw [← hgE]
  obtain ⟨gC, hgC, F⟩ := colour_area_filled gE p n.1 n.2 (g.playerlist p).first_free_colour
    (by rw [hgE]; exact hn)
  rw [hgC, Option.some_bind]
  have hpl : gC.playerlist = gE.playerlist := F.frame.playerlist
  have hm : gC.max_no_areas = g.max_no_areas := by
    rw [F.frame.max_no_areas, hgE]; rfl
  apply move_cursor_none
  · rw [hpl, hm, hgE]
    simpa [set_player_does_area_exist, increase_player_no_areas_used] using hc
  · intro r hr
    rw [hm] at hr
    rw [hpl, hgE]
    simp only [set_player_does_area_exist, increase_player_no_areas_used,
      set_player_playerlist, if_true]
    split
    · rfl
    · exact hall r hr
  · rw [hpl, hm, hgE]
    simp only [set_player_does_area_exist, increase_player_no_areas_used,
      set_player_playerlist, if_true, hfull]
    omega

/-- One step of the commit: the piece of the neighbour `nbr x y i`, still
`TRANSPARENT`, receives the region id under the cursor. -/
theorem commit_step {g g5 g6 gi gm : gamma_t} {x y q cnt i : Nat} {reps : List Cell}
    (hd : Dims g) (hs : inb g (x, y)) (hqp : q ≠ owner g (x, y))
    (V : VacInv g x y g5 reps 4 (gm, cnt))
    (C : CommitInv g x y q g5 g6 reps cnt i gi) (hi : i < 4)
    (hval : valid_dir g x y i) (hown : owner g (nbr x y i) = owner g (x, y))
    (hT : area gi (nbr x y i) = TRANSPARENT)
    (hlt : (gi.playerlist (owner g (x, y))).no_areas_used < g.max_no_areas) :
    ∃ g', perform_transparent_colouring gi (owner g (x, y)) (nbr x y i).1 (nbr x y i).2
        = some g' ∧ CommitInv g x y q g5 g6 reps cnt (i + 1) g' := by
  have hmaxlt := hd.areas_lt
  have hRn := rest_nbr hs hval hown
  have hm4 : marked g (owner g (x, y)) x y 4 (nbr x y i) :=
    ⟨i, hi, hval, hown, Relation.ReflTransGen.refl⟩
  have hnm : ¬ marked g (owner g (x, y)) x y i (nbr x y i) := ((C.tmark _ hRn).1 hT).2
  have hff := C.cursor_free hlt
  have hfl := C.cursor_lt
  have hfT : (gi.playerlist (owner g (x, y))).first_free_colour ≠ TRANSPARENT := by
    unfold TRANSPARENT; omega
  rw [perform_transparent_colouring_eq, cursor_increase]
  obtain ⟨gE, hgE⟩ : ∃ gE, gE = set_player_does_area_exist
      (increase_player_no_areas_used gi (owner g (x, y))) (owner g (x, y))
      (gi.playerlist (owner g (x, y))).first_free_colour true := ⟨_, rfl⟩
  rw [← hgE]
  have e_w : gE.width = g.width := by rw [hgE]; exact C.width
  have e_h : gE.height = g.height := by rw [hgE]; exact C.height
  have e_p : gE.no_players = g.no_players := by rw [hgE]; exact C.no_players
  have e_m : gE.max_no_areas = g.max_no_areas := by rw [hgE]; exact C.max_no_areas
  have e_own : ∀ v, owner gE v = owner gi v := by intro v; rw [hgE]; rfl
  have e_area : ∀ v, area gE v = area gi v := by intro v; rw [hgE]; rfl
  have e_oth : ∀ r, r ≠ owner g (x, y) → gE.playerlist r = gi.playerlist r := by
    intro r hr; rw [hgE]
    simp [set_player_does_area_exist, increase_player_no_areas_used, hr]
  have e_ex : ∀ r, (gE.playerlist (owner g (x, y))).does_area_exist r =
      if r = (gi.playerlist (owner g (x, y))).first_free_colour then true
      else (gi.playerlist (owner g (x, y))).does_area_exist r := by
    intro r; rw [hgE]
    simp [set_player_does_area_exist, increase_player_no_areas_used]
  have e_n : (gE.playerlist (owner g (x, y))).no_areas_used =
      (gi.playerlist (owner g (x, y))).no_areas_used + 1 := by
    rw [hgE]
    simp only [set_player_does_area_exist, increase_player_no_areas_used,
      set_player_playerlist, if_true]
    omega
  have e_f : (gE.playerlist (owner g (x, y))).first_free_colour =
      (gi.playerlist (owner g (x, y))).first_free_colour := by
    rw [hgE]; simp [set_player_does_area_exist, increase_player_no_areas_used]
  have e_g : (gE.playerlist (owner g (x, y))).golden_move_used =
      (gi.playerlist (owner g (x, y))).golden_move_used := by
    rw [hgE]; simp [set_player_does_area_exist, increase_player_no_areas_used]
  have e_b : (gE.playerlist (owner g (x, y))).no_busy_fields =
      (gi.playerlist (owner g (x, y))).no_busy_fields := by
    rw [hgE]; simp [set_player_does_area_exist, increase_player_no_areas_used]
  clear hgE
  obtain ⟨gC, hgC, F⟩ := colour_area_filled gE (owner g (x, y)) (nbr x y i).1 (nbr x y i).2
    (gi.playerlist (owner g (x, y))).first_free_colour
    (by unfold inb; rw [e_w, e_h]; exact hRn.1.1)
  rw [hgC, Option.some_bind]
  have hpl : gC.playerlist = gE.playerlist := F.frame.playerlist
  have hmax : gC.max_no_areas = g.max_no_areas := by rw [F.frame.max_no_areas, e_m]
  -- the piece that is painted
  have hto : ∀ b, Fillable gE (owner g (x, y))
      (gi.playerlist (owner g (x, y))).first_free_colour b →
      Rest g (owner g (x, y)) (x, y) b := by
    rintro b ⟨hb1, hb2, _⟩
    rw [e_own, C.owners] at hb2
    by_cases hbs : b = (x, y)
    · rw [if_pos hbs] at hb2; exact absurd hb2 hqp
    · rw [if_neg hbs] at hb2
      refine ⟨⟨?_, hb2⟩, hbs⟩
      unfold inb at hb1 ⊢; rw [e_w, e_h] at hb1; exact hb1
  have hpiece : ∀ b, Path (Rest g (owner g (x, y)) (x, y)) (nbr x y i) b →
      area gi b = TRANSPARENT := by
    intro b hpb
    have hb := Path.end_mem hRn hpb
    refine (C.tmark b hb).2 ⟨marked_of_path hm4 hpb, ?_⟩
    exact fun hm => hnm (marked_of_path hm (hpb.symm hRn))
  have hfrom : ∀ b, Path (Rest g (owner g (x, y)) (x, y)) (nbr x y i) b →
      Rest g (owner g (x, y)) (x, y) b →
      Fillable gE (owner g (x, y)) (gi.playerlist (owner g (x, y))).first_free_colour b := by
    intro b hpb hb
    refine ⟨by unfold inb; rw [e_w, e_h]; exact hb.1.1, ?_, ?_⟩
    · rw [e_own, C.owners, if_neg hb.2]; exact hb.1.2
    · rw [e_area, hpiece b hpb]; exact fun e => hfT e.symm
  have hin : ∀ v, Path (Rest g (owner g (x, y)) (x, y)) (nbr x y i) v →
      area gC v = (gi.playerlist (owner g (x, y))).first_free_colour :=
    fun v hp => F.reached (Path.restrict hfrom hp)
  have hout : ∀ v, ¬ Path (Rest g (owner g (x, y)) (x, y)) (nbr x y i) v →
      area gC v = area gi v := by
    intro v hp
    rw [F.unreached (fun hp' => hp (Path.mono hto hp')), e_area]
  have hmk : ∀ v, marked g (owner g (x, y)) x y (i + 1) v ↔
      marked g (owner g (x, y)) x y i v ∨ Path (Rest g (owner g (x, y)) (x, y)) (nbr x y i) v := by
    intro v
    rw [marked_succ]
    constructor
    · rintro (h1 | ⟨_, _, h3⟩)
      · exact Or.inl h1
      · exact Or.inr h3
    · rintro (h1 | h3)
      · exact Or.inl h1
      · exact Or.inr ⟨hval, hown, h3⟩
  -- a visible cell of the old state does not carry the fresh id
  have hvis : ∀ v, Rest g (owner g (x, y)) (x, y) v → area gi v ≠ TRANSPARENT →
      area gi v ≠ (gi.playerlist (owner g (x, y))).first_free_colour := by
    intro v hv hvT e
    have := (C.exist_iff _).2 ⟨v, hv, hvT, e⟩
    rw [hff] at this
    exact absurd this (by simp)
  -- the table and the counter
  have hinu : in_use gC (owner g (x, y)) =
      insert (gi.playerlist (owner g (x, y))).first_free_colour
        (in_use gi (owner g (x, y))) := by
    ext r
    rw [Finset.mem_insert, mem_in_use, mem_in_use, hmax, C.max_no_areas, hpl, e_ex]
    by_cases hrf : r = (gi.playerlist (owner g (x, y))).first_free_colour
    · subst hrf; simp [hfl]
    · simp [hrf]
  have hnotin : (gi.playerlist (owner g (x, y))).first_free_colour ∉
      in_use gi (owner g (x, y)) := by
    rw [mem_in_use, hff]; simp
  have hcardC : (gC.playerlist (owner g (x, y))).no_areas_used =
      (in_use gC (owner g (x, y))).card := by
    rw [hinu, Finset.card_insert_of_not_mem hnotin, hpl, e_n, C.count]
  -- the cursor after the scan
  obtain ⟨f, hmove, hfl', hff'⟩ : ∃ f, move_player_first_free_colour gC (owner g (x, y)) =
      some (set_player_first_free_colour gC (owner g (x, y)) f) ∧ f < g.max_no_areas ∧
      ((gC.playerlist (owner g (x, y))).no_areas_used < g.max_no_areas →
        (gC.playerlist (owner g (x, y))).does_area_exist f = false) := by
    by_cases hfull : (gC.playerlist (owner g (x, y))).no_areas_used = gC.max_no_areas
    · refine ⟨(gC.playerlist (owner g (x, y))).first_free_colour, ?_, ?_, ?_⟩
      · rw [set_cursor_self]; exact move_cursor_full gC _ hfull
      · rw [hpl, e_f]; exact hfl
      · intro hh; rw [hmax] at hfull; omega
    · have hcard : (in_use gC (owner g (x, y))).card < gC.max_no_areas := by
        have := in_use_card_le gC (owner g (x, y))
        rw [← hcardC] at this ⊢
        omega
      obtain ⟨f, hf, hfl', hff'⟩ := move_cursor_some gC (owner g (x, y))
        (by rw [hpl, e_f, hmax]; exact hfl) (in_use_free_slot gC _ hcard) hfull
      exact ⟨f, hf, by rw [← hmax]; exact hfl', fun _ => hff'⟩
  refine ⟨_, hmove, ?_⟩
  have e_pl : (set_player_first_free_colour gC (owner g (x, y)) f).playerlist (owner g (x, y)) =
      { gE.playerlist (owner g (x, y)) with first_free_colour := f } := by
    simp [set_player_first_free_colour, hpl]
  obtain ⟨todo, ht1, ht2, ht3⟩ := C.todo
  obtain ⟨r0, hr0, hpr0⟩ := V.cover i hi hval hown
  have hr0m : ¬ marked g (owner g (x, y)) x y i r0 :=
    fun hm => hnm (marked_of_path hm hpr0)
  have hr0t : r0 ∈ todo := (ht2 r0).2 ⟨hr0, hr0m⟩
  refine ⟨?_, ?_, ?_, hmax, ?_, ?_, ?_, ?_, ?_, ?_, ?_, ?_, ?_, ?_, ?_, ?_, ?_⟩
  · show gC.width = g.width
    rw [F.frame.width, e_w]
  · show gC.height = g.height
    rw [F.frame.height, e_h]
  · show gC.no_players = g.no_players
    rw [F.frame.no_players, e_p]
  · intro v
    show owner gC v = _
    rw [F.frame.owner, e_own, C.owners]
  · intro v hv
    show area gC v = _
    rw [hout v (fun hp => hv (Path.end_mem hRn hp))]
    exact C.area_out v hv
  · intro r hr
    show (set_player_first_free_colour gC (owner g (x, y)) f).playerlist r = _
    simp only [set_player_first_free_colour, set_player_playerlist, if_neg hr]
    rw [hpl, e_oth r hr, C.players_other r hr]
  · rw [e_pl]; show (gE.playerlist (owner g (x, y))).golden_move_used = _
    rw [e_g, C.golden]
  · rw [e_pl]; show (gE.playerlist (owner g (x, y))).no_busy_fields = _
    rw [e_b, C.busy]
  · intro v hv
    show area gC v = TRANSPARENT ↔ _
    rw [hmk]
    by_cases hp : Path (Rest g (owner g (x, y)) (x, y)) (nbr x y i) v
    · rw [hin v hp]
      constructor
      · intro e; exact absurd e hfT
      · rintro ⟨_, h2⟩; exact absurd (Or.inr hp) h2
    · rw [hout v hp, C.tmark v hv]
      constructor
      · rintro ⟨h1, h2⟩
        exact ⟨h1, fun h' => h'.elim h2 hp⟩
      · rintro ⟨h1, h2⟩
        exact ⟨h1, fun h' => h2 (Or.inl h')⟩
  · rw [e_pl]; exact hfl'
  · intro hh
    rw [e_pl] at hh ⊢
    rw [← hpl]
    exact hff' (by rw [hpl]; exact hh)
  · intro r hr
    rw [e_pl] at hr
    have hr' : (gE.playerlist (owner g (x, y))).does_area_exist r = true := hr
    rw [e_ex] at hr'
    by_cases hrf : r = (gi.playerlist (owner g (x, y))).first_free_colour
    · rw [hrf]; exact hfl
    · rw [if_neg hrf] at hr'; exact C.exist_lt r hr'
  · intro r
    rw [e_pl]
    show (gE.playerlist (owner g (x, y))).does_area_exist r = true ↔
      ∃ v, Rest g (owner g (x, y)) (x, y) v ∧ area gC v ≠ TRANSPARENT ∧ area gC v = r
    rw [e_ex]
    constructor
    · intro hr
      by_cases hrf : r = (gi.playerlist (owner g (x, y))).first_free_colour
      · refine ⟨nbr x y i, hRn, ?_, ?_⟩
        · rw [hin _ Relation.ReflTransGen.refl]; exact hfT
        · rw [hin _ Relation.ReflTransGen.refl, hrf]
      · rw [if_neg hrf] at hr
        obtain ⟨v, hv, hvT, hvr⟩ := (C.exist_iff r).1 hr
        have hp : ¬ Path (Rest g (owner g (x, y)) (x, y)) (nbr x y i) v :=
          fun hp => hvT (hpiece v hp)
        exact ⟨v, hv, by rw [hout v hp]; exact hvT, by rw [hout v hp]; exact hvr⟩
    · rintro ⟨v, hv, hvT, hvr⟩
      by_cases hp : Path (Rest g (owner g (x, y)) (x, y)) (nbr x y i) v
      · rw [hin v hp] at hvr
        rw [if_pos hvr.symm]
      · rw [hout v hp] at hvT hvr
        have := (C.exist_iff r).2 ⟨v, hv, hvT, hvr⟩
        split
        · rfl
        · exact this
  · rw [e_pl]; show (gE.playerlist (owner g (x, y))).no_areas_used = _
    have : in_use (set_player_first_free_colour gC (owner g (x, y)) f) (owner g (x, y)) =
        in_use gC (owner g (x, y)) :=
      in_use_congr rfl (fun r _ => by rw [e_pl, hpl])
    rw [this, ← hcardC, hpl]
  · intro u v hu hv huT hvT
    have huT' : area gC u ≠ TRANSPARENT := huT
    have hvT' : area gC v ≠ TRANSPARENT := hvT
    show area gC u = area gC v ↔ _
    by_cases hpu : Path (Rest g (owner g (x, y)) (x, y)) (nbr x y i) u
    · by_cases hpv : Path (Rest g (owner g (x, y)) (x, y)) (nbr x y i) v
      · rw [hin u hpu, hin v hpv]
        exact ⟨fun _ => (hpu.symm hRn).trans hpv, fun _ => rfl⟩
      · rw [hout v hpv] at hvT' ⊢
        rw [hin u hpu]
        constructor
        · intro e; exact absurd e.symm (hvis v hv hvT')
        · intro hp; exact absurd (hpu.trans hp) hpv
    · by_cases hpv : Path (Rest g (owner g (x, y)) (x, y)) (nbr x y i) v
      · rw [hout u hpu] at huT' ⊢
        rw [hin v hpv]
        constructor
        · intro e; exact absurd e (hvis u hu huT')
        · intro hp; exact absurd (hpv.trans (hp.symm hu)) hpu
      · rw [hout u hpu] at huT' ⊢
        rw [hout v hpv] at hvT' ⊢
        exact C.region u v hu hv huT' hvT'
  · refine ⟨todo.erase r0, ht1.erase r0, ?_, ?_⟩
    · intro r
      rw [ht1.mem_erase_iff, ht2, hmk]
      constructor
      · rintro ⟨h1, h2, h3⟩
        refine ⟨h2, ?_⟩
        rintro (h4 | h4)
        · exact h3 h4
        · exact h1 (V.reps_unique hs hr0 h2 (hpr0.trans h4)).symm
      · rintro ⟨h1, h2⟩
        refine ⟨?_, h1, fun h' => h2 (Or.inl h')⟩
        intro e
        subst e
        exact h2 (Or.inr (hpr0.symm (V.reps_rest hs hr0)))
    · rw [e_pl]
      show (gE.playerlist (owner g (x, y))).no_areas_used + _ = _
      rw [e_n, List.length_erase_of_mem hr0t]
      have : 0 < todo.length := List.length_pos_of_mem hr0t
      omega

theorem nearby_congr {g g' : gamma_t} {q x y : Nat} (hw : g'.width = g.width)
    (hh : g'.height = g.height) (hs : inb g (x, y))
    (ho : ∀ v, v ≠ (x, y) → owner g' v = owner g v) (i : Nat) :
    player_areas_nearby g' q x y i = player_areas_nearby g q x y i := by
  rw [Bool.eq_iff_iff, nearby_iff, nearby_iff]
  have hv : valid_dir g' x y i ↔ valid_dir g x y i := by
    unfold valid_dir; rw [hw, hh]
  rw [hv]
  constructor
  · rintro ⟨h1, h2⟩; exact ⟨h1, by rw [← ho _ (nbr_ne_self hs h1)]; exact h2⟩
  · rintro ⟨h1, h2⟩; exact ⟨h1, by rw [ho _ (nbr_ne_self hs h1)]; exact h2⟩

theorem are_nearby_congr {g g' : gamma_t} {q x y : Nat} (hw : g'.width = g.width)
    (hh : g'.height = g.height) (hs : inb g (x, y))
    (ho : ∀ v, v ≠ (x, y) → owner g' v = owner g v) :
    are_player_areas_nearby g' q x y = are_player_areas_nearby g q x y := by
  unfold are_player_areas_nearby
  simp only [List.foldl_cons, List.foldl_nil, nearby_congr hw hh hs ho]

/-- The pre-check of `gamma_golden_move`, spelled out. -/
theorem gamma_golden_move_valid_input_iff (g : gamma_t) (q x y : Nat) :
    gamma_golden_move_valid_input g q x y = true ↔
      (0 < q ∧ q ≤ g.no_players) ∧ (g.playerlist q).golden_move_used = false ∧
      inb g (x, y) ∧
      ((g.playerlist q).no_areas_used ≠ g.max_no_areas ∨
        are_player_areas_nearby g q x y = true) ∧
      owner g (x, y) ≠ 0 ∧ owner g (x, y) ≠ q := by
  unfold gamma_golden_move_valid_input
  simp only [player_fit_the_range, get_player_golden_move_used, x_y_fit_the_board,
    player_all_areas_used, field_belongs_to_other_player, get_no_players, get_field, inb, owner,
    Bool.true_and]
  split
  · rename_i hfl
    have hfl' := hfl
    simp only [Bool.and_eq_true, Bool.not_eq_true', decide_eq_true_eq, gt_iff_lt] at hfl'
    simp only [hfl, Bool.true_and, Bool.and_eq_true, Bool.or_eq_true, Bool.not_eq_true',
      decide_eq_true_eq, decide_eq_false_iff_not, ne_eq]
    tauto
  · rename_i hfl
    simp only [Bool.and_eq_true, Bool.not_eq_true', decide_eq_true_eq, gt_iff_lt] at hfl ⊢
    constructor
    · intro h; exact absurd h hfl
    · intro h; exact absurd ⟨⟨h.1, h.2.1⟩, h.2.2.1⟩ hfl

theorem gamma_make_golden_move_eq (g : gamma_t) (q p x y : Nat) :
    gamma_make_golden_move g q p x y =
      (gamma_move (set_player_id (set_area_id g x y 0) x y 0) q x y).bind fun r =>
        ([0, 1, 2, 3].foldlM (fun gi i =>
          if player_areas_nearby r.2 p x y i then
            if area gi (nbr x y i) = TRANSPARENT then
              perform_transparent_colouring gi p (nbr x y i).1 (nbr x y i).2
            else some gi
          else some gi) r.2).map fun g' =>
            decrease_player_no_busy_fields (set_player_golden_move_used g' q true) p := rfl

/-- The capturing stone is placed, and the commit loop starts in a state that
satisfies its invariant. -/
theorem commit_start {g g5 gm : gamma_t} {x y q cnt : Nat} {reps : List Cell}
    (hd : Dims g) (hs : inb g (x, y)) (h : RegionInv g (owner g (x, y)))
    (hq : RegionInv g q) (hq0 : 0 < q) (hqn : q ≤ g.no_players) (hqp : q ≠ owner g (x, y))
    (hcan : (g.playerlist q).no_areas_used ≠ g.max_no_areas ∨
      are_player_areas_nearby g q x y = true)
    (V5 : Vacated g x y g5) (V : VacInv g x y g5 reps 4 (gm, cnt)) :
    ∃ g6, gamma_move (set_player_id (set_area_id gm x y 0) x y 0) q x y = some (true, g6) ∧
      Framed (set_player_id (set_area_id gm x y 0) x y 0) q (x, y) g6 ∧
      (PInv g q → Placed (set_player_id (set_area_id gm x y 0) x y 0) q (x, y) g6) ∧
      CommitInv g x y q g5 g6 reps cnt 0 g6 ∧
      (∀ v, v ≠ (x, y) → owner g v ≠ owner g (x, y) → owner g v ≠ q → area g6 v = area g v) ∧
      (∀ r, r ≠ q → r ≠ owner g (x, y) → g6.playerlist r = g.playerlist r) ∧
      (g6.playerlist q).golden_move_used = (g.playerlist q).golden_move_used ∧
      (g6.playerlist q).no_busy_fields =
        ((g.playerlist q).no_busy_fields + 1) % 18446744073709551616 := by
  have hso : Own g (owner g (x, y)) (x, y) := ⟨hs, rfl⟩
  obtain ⟨c2, hc2⟩ : ∃ c2, c2 = set_player_id (set_area_id gm x y 0) x y 0 := ⟨_, rfl⟩
  rw [← hc2]
  have e_w : c2.width = g.width := by
    rw [hc2]; show gm.width = _; rw [V.frame.width, V5.width]
  have e_h : c2.height = g.height := by
    rw [hc2]; show gm.height = _; rw [V.frame.height, V5.height]
  have e_p : c2.no_players = g.no_players := by
    rw [hc2]; show gm.no_players = _; rw [V.frame.no_players, V5.no_players]
  have e_m : c2.max_no_areas = g.max_no_areas := by
    rw [hc2]; show gm.max_no_areas = _; rw [V.frame.max_no_areas, V5.max_no_areas]
  have e_pl : c2.playerlist = g5.playerlist := by
    rw [hc2]; show gm.playerlist = _; exact V.frame.playerlist
  have e_own : ∀ v, owner c2 v = if v = (x, y) then 0 else owner g v := by
    intro v; rw [hc2]
    simp only [owner_set_player_id, owner_set_area_id]
    have e : owner gm v = owner g5 v := V.frame.owner v
    rw [e, V5.owners]
    split <;> rfl
  have e_area : ∀ v, area c2 v = if v = (x, y) then 0 else area gm v := by
    intro v; rw [hc2]; simp
  clear hc2
  have hgmarea : ∀ v, v ≠ (x, y) → ¬ marked g (owner g (x, y)) x y 4 v →
      area gm v = area g v := by
    intro v hv hm
    have e : area gm v = area g5 v := V.mark_keep v hm
    rw [e, V5.areas, if_neg hv]
  have hdc : Dims c2 := by
    refine ⟨?_, ?_, ?_, ?_, ?_, ?_, ?_, ?_⟩
    · rw [e_w]; exact hd.width_pos
    · rw [e_w]; exact hd.width_lt
    · rw [e_h]; exact hd.height_pos
    · rw [e_h]; exact hd.height_lt
    · rw [e_p]; exact hd.players_pos
    · rw [e_p]; exact hd.players_lt
    · rw [e_m]; exact hd.areas_pos
    · rw [e_m]; exact hd.areas_lt
  have hco : ∀ v, inb g v → (owner c2 v = q ↔ owner g v = q) := by
    intro v _
    rw [e_own]
    split
    · rename_i hv; rw [hv]
      constructor
      · intro e; omega
      · intro e; exact absurd e.symm hqp
    · rfl
  have hca : ∀ v, Own g q v → area c2 v = area g v := by
    intro v hv
    have hvs : v ≠ (x, y) := by
      intro e; rw [e] at hv; exact hqp hv.2.symm
    rw [e_area, if_neg hvs]
    apply hgmarea v hvs
    intro hm
    exact hqp ((marked_rest hs hm).1.2.symm.trans hv.2).symm
  have hcp : c2.playerlist q = g.playerlist q := by
    rw [e_pl]; exact V5.players_other q hqp
  have hqc : RegionInv c2 q := hq.transport e_w e_h e_m hco hca hcp
  have hvalid : gamma_move_valid_input c2 q x y = true := by
    rw [gamma_move_valid_input_iff]
    refine ⟨⟨hq0, by rw [e_p]; exact hqn⟩, by unfold inb; rw [e_w, e_h]; exact hs, ?_, ?_⟩
    · rw [e_own, if_pos rfl]
    · rw [e_pl, V5.players_other q hqp, e_m,
        are_nearby_congr e_w e_h hs (fun v hv => by rw [e_own, if_neg hv])]
      exact hcan
  obtain ⟨g6, hg6, P⟩ := gamma_move_framed c2 q x y hdc hqc hvalid
  have hrec : (g6.playerlist q).golden_move_used = (g.playerlist q).golden_move_used ∧
      (g6.playerlist q).no_busy_fields =
        ((g.playerlist q).no_busy_fields + 1) % 18446744073709551616 := by
    obtain ⟨g1, hg1, hcase⟩ := gamma_move_cases c2 q x y hdc hqc hvalid
    rw [hg6] at hg1
    have e6 : g6 = increase_player_no_busy_fields g1 q := by
      simpa using hg1
    have hgb : (g1.playerlist q).golden_move_used = (c2.playerlist q).golden_move_used ∧
        (g1.playerlist q).no_busy_fields = (c2.playerlist q).no_busy_fields := by
      rcases hcase with ⟨_, N⟩ | ⟨c, _, M⟩
      · exact ⟨N.golden, N.busy⟩
      · exact ⟨M.golden, M.busy⟩
    rw [e6]
    simp only [increase_player_no_busy_fields, set_player_playerlist, if_true]
    rw [hgb.1, hgb.2, hcp]
    exact ⟨rfl, rfl⟩
  refine ⟨g6, hg6, P, ?_, ?_, ?_, ?_, hrec⟩
  · intro hq'
    obtain ⟨g6', hg6', P'⟩ :=
      gamma_move_spec c2 q x y hdc (hq'.congr_record e_w e_h e_m hco hca hcp) hvalid
    rw [hg6] at hg6'
    cases hg6'
    exact P'
  rotate_left
  · intro v hv hvp hvq
    rw [P.area_other v hv (by rw [e_own, if_neg hv]; exact hvq), e_area, if_neg hv]
    exact hgmarea v hv (fun hm => hvp (marked_rest hs hm).1.2)
  · intro r hrq hrp
    rw [P.players_other r hrq, e_pl, V5.players_other r hrp]
  have hown6 : ∀ v, owner g6 v = if v = (x, y) then q else owner g v := by
    intro v
    rw [P.owners, e_own]
    split <;> rfl
  have hpl6 : g6.playerlist (owner g (x, y)) = g5.playerlist (owner g (x, y)) := by
    rw [P.players_other _ (Ne.symm hqp), e_pl]
  have harea6 : ∀ v, Rest g (owner g (x, y)) (x, y) v → area g6 v = area gm v := by
    intro v hv
    rw [P.area_other v hv.2 (by rw [e_own, if_neg hv.2, hv.1.2]; exact Ne.symm hqp), e_area,
      if_neg hv.2]
  have hT6 : ∀ v, Rest g (owner g (x, y)) (x, y) v →
      (area g6 v = TRANSPARENT ↔ marked g (owner g (x, y)) x y 4 v) := by
    intro v hv
    rw [harea6 v hv]
    constructor
    · intro e
      by_contra hm
      rw [hgmarea v hv.2 hm] at e
      exact transparent_ne_area hd h hv.1 e
    · exact V.mark_T v
  have hvis6 : ∀ v, Rest g (owner g (x, y)) (x, y) v → area g6 v ≠ TRANSPARENT →
      area g6 v = area g v ∧ area g v ≠ area g (x, y) := by
    intro v hv hvT
    have hm : ¬ marked g (owner g (x, y)) x y 4 v := fun hm => hvT ((hT6 v hv).2 hm)
    refine ⟨by rw [harea6 v hv, hgmarea v hv.2 hm], ?_⟩
    intro e
    exact hm (marked_of_area h hso hv e)
  have hmemA := area_mem_in_use h hso
  refine ⟨P.width.trans e_w, P.height.trans e_h, P.no_players.trans e_p,
    P.max_no_areas.trans e_m, hown6, fun _ _ => rfl, fun _ _ => rfl, ?_, ?_, ?_, ?_, ?_, ?_,
    ?_, ?_, ?_, ?_⟩
  · rw [hpl6]; exact V5.golden
  · rw [hpl6]; exact V5.busy
  · intro v hv
    rw [hT6 v hv]
    exact ⟨fun hm => ⟨hm, marked_zero _ _ _ _ _⟩, fun hm => hm.1⟩
  · rw [hpl6]; exact V5.cursor_lt
  · intro _; rw [hpl6]; exact V5.cursor_free
  · intro r hr
    rw [hpl6, V5.exist] at hr
    split at hr
    · exact absurd hr (by simp)
    · exact h.exist_lt r hr
  · intro r
    rw [hpl6, V5.exist]
    constructor
    · intro hr
      split at hr
      · exact absurd hr (by simp)
      · rename_i hra
        obtain ⟨v, hv, hvr⟩ := (h.exist_iff r).1 hr
        have hvs : v ≠ (x, y) := by
          intro e; rw [e] at hvr; exact hra hvr.symm
        have hm : ¬ marked g (owner g (x, y)) x y 4 v := by
          intro hm; exact hra ((marked_area h hso hm).symm.trans hvr).symm
        have e1 : area g6 v = area g v := by rw [harea6 v ⟨hv, hvs⟩, hgmarea v hvs hm]
        refine ⟨v, ⟨hv, hvs⟩, ?_, e1.trans hvr⟩
        rw [e1]; exact transparent_ne_area hd h hv
    · rintro ⟨v, hv, hvT, hvr⟩
      obtain ⟨e1, e2⟩ := hvis6 v hv hvT
      rw [if_neg (by rw [← hvr, e1]; exact e2)]
      exact (h.exist_iff r).2 ⟨v, hv.1, e1.symm.trans hvr⟩
  · rw [hpl6]
    have hin : in_use g6 (owner g (x, y)) = (in_use g (owner g (x, y))).erase (area g (x, y)) := by
      ext r
      rw [Finset.mem_erase, mem_in_use, mem_in_use, P.max_no_areas, e_m, hpl6, V5.exist]
      by_cases hra : r = area g (x, y)
      · simp [hra]
      · simp [hra]
    rw [hin, Finset.card_erase_of_mem hmemA, ← h.areas_count]
    have := V5.count
    omega
  · intro u v hu hv huT hvT
    obtain ⟨eu1, eu2⟩ := hvis6 u hu huT
    obtain ⟨ev1, _⟩ := hvis6 v hv hvT
    rw [eu1, ev1, h.region u v hu.1 hv.1]
    constructor
    · intro hp
      refine Path.restrict ?_ hp
      intro b hb hb'
      refine ⟨hb', ?_⟩
      intro e
      rw [e] at hb
      exact eu2 (h.path_same hu.1 hb)
    · exact Path.mono fun b hb => hb.1
  · refine ⟨reps, V.reps_nodup, ?_, ?_⟩
    · intro r
      exact ⟨fun hr => ⟨hr, marked_zero _ _ _ _ _⟩, fun hr => hr.1⟩
    · rw [hpl6]
      have : cnt = reps.length := V.count
      rw [this]

theorem CommitInv.tab_iff {g g5 g6 gi : gamma_t} {x y q cnt i : Nat} {reps : List Cell}
    (C : CommitInv g x y q g5 g6 reps cnt 0 g6) (hs : inb g (x, y)) (j : Nat)
    (_ : CommitInv g x y q g5 g6 reps cnt i gi) :
    player_areas_nearby g6 (owner g (x, y)) x y j = true ↔
      valid_dir g x y j ∧ owner g (nbr x y j) = owner g (x, y) := by
  rw [nearby_iff]
  have hv : valid_dir g6 x y j ↔ valid_dir g x y j := by
    unfold valid_dir; rw [C.width, C.height]
  rw [hv]
  constructor
  · rintro ⟨h1, h2⟩
    rw [C.owners, if_neg (nbr_ne_self hs h1)] at h2
    exact ⟨h1, h2⟩
  · rintro ⟨h1, h2⟩
    rw [C.owners, if_neg (nbr_ne_self hs h1)]
    exact ⟨h1, h2⟩

theorem CommitInv.count_le_max {g g5 g6 gi : gamma_t} {x y q cnt i : Nat} {reps : List Cell}
    (C : CommitInv g x y q g5 g6 reps cnt i gi) :
    (gi.playerlist (owner g (x, y))).no_areas_used ≤ g.max_no_areas := by
  rw [C.count, ← C.max_no_areas]
  exact in_use_card_le gi _

/-- A step of the commit loop that returns has kept the invariant. -/
theorem commit_loop_step_some {g g5 g6 gi gm g1 : gamma_t} {x y q cnt i : Nat}
    {reps : List Cell} (hd : Dims g) (hs : inb g (x, y)) (hqp : q ≠ owner g (x, y))
    (V : VacInv g x y g5 reps 4 (gm, cnt))
    (C0 : CommitInv g x y q g5 g6 reps cnt 0 g6)
    (C : CommitInv g x y q g5 g6 reps cnt i gi) (hi : i < 4)
    (hstep : (if player_areas_nearby g6 (owner g (x, y)) x y i then
        if area gi (nbr x y i) = TRANSPARENT then
          perform_transparent_colouring gi (owner g (x, y)) (nbr x y i).1 (nbr x y i).2
        else some gi
      else some gi) = some g1) :
    CommitInv g x y q g5 g6 reps cnt (i + 1) g1 := by
  by_cases htab : player_areas_nearby g6 (owner g (x, y)) x y i = true
  · rw [if_pos htab] at hstep
    obtain ⟨hval, hown⟩ := (C0.tab_iff hs i C).1 htab
    have hRn := rest_nbr hs hval hown
    have hm4 : marked g (owner g (x, y)) x y 4 (nbr x y i) :=
      ⟨i, hi, hval, hown, Relation.ReflTransGen.refl⟩
    by_cases hT : area gi (nbr x y i) = TRANSPARENT
    · rw [if_pos hT] at hstep
      by_cases hfull : (gi.playerlist (owner g (x, y))).no_areas_used = g.max_no_areas
      · have hnone := perform_transparent_colouring_none gi (owner g (x, y)) (nbr x y i)
          (by unfold inb; rw [C.width, C.height]; exact hRn.1.1)
          (by rw [C.max_no_areas]; exact C.cursor_lt)
          (by rw [C.max_no_areas]; exact hfull)
          (in_use_all_of_card gi _ (by rw [← C.count, C.max_no_areas]; exact hfull))
        rw [hnone] at hstep
        exact absurd hstep (by simp)
      · have hle := C.count_le_max
        obtain ⟨g', hg', C'⟩ := commit_step hd hs hqp V C hi hval hown hT (by omega)
        rw [hg'] at hstep
        cases hstep
        exact C'
    · rw [if_neg hT] at hstep
      cases hstep
      refine C.step_same (fun _ _ => ?_)
      by_contra hnm
      exact hT ((C.tmark _ hRn).2 ⟨hm4, hnm⟩)
  · rw [if_neg htab] at hstep
    cases hstep
    refine C.step_same (fun hv ho => ?_)
    exact absurd ((C0.tab_iff hs i C).2 ⟨hv, ho⟩) htab

/-- When the region ids suffice, every step of the commit loop returns. -/
theorem commit_loop_step_total {g g5 g6 gi gm : gamma_t} {x y q cnt i : Nat}
    {reps : List Cell} (hd : Dims g) (hs : inb g (x, y)) (hqp : q ≠ owner g (x, y))
    (V : VacInv g x y g5 reps 4 (gm, cnt))
    (C0 : CommitInv g x y q g5 g6 reps cnt 0 g6)
    (C : CommitInv g x y q g5 g6 reps cnt i gi) (hi : i < 4)
    (hfit : (g5.playerlist (owner g (x, y))).no_areas_used + cnt ≤ g.max_no_areas) :
    ∃ g1, (if player_areas_nearby g6 (owner g (x, y)) x y i then
        if area gi (nbr x y i) = TRANSPARENT then
          perform_transparent_colouring gi (owner g (x, y)) (nbr x y i).1 (nbr x y i).2
        else some gi
      else some gi) = some g1 := by
  by_cases htab : player_areas_nearby g6 (owner g (x, y)) x y i = true
  · rw [if_pos htab]
    obtain ⟨hval, hown⟩ := (C0.tab_iff hs i C).1 htab
    have hRn := rest_nbr hs hval hown
    by_cases hT : area gi (nbr x y i) = TRANSPARENT
    · rw [if_pos hT]
      have hnm : ¬ marked g (owner g (x, y)) x y i (nbr x y i) := ((C.tmark _ hRn).1 hT).2
      obtain ⟨todo, _, ht2, ht3⟩ := C.todo
      obtain ⟨r0, hr0, hpr0⟩ := V.cover i hi hval hown
      have hr0t : r0 ∈ todo := (ht2 r0).2 ⟨hr0, fun hm => hnm (marked_of_path hm hpr0)⟩
      have : 0 < todo.length := List.length_pos_of_mem hr0t
      obtain ⟨g', hg', _⟩ := commit_step hd hs hqp V C hi hval hown hT (by omega)
      exact ⟨g', hg'⟩
    · rw [if_neg hT]; exact ⟨gi, rfl⟩
  · rw [if_neg htab]; exact ⟨gi, rfl⟩

/-- Once the commit loop is over every piece has its region id, and as many ids
were handed out as pieces were counted. -/
theorem commit_done_count {g g5 g6 gL gm : gamma_t} {x y q cnt : Nat} {reps : List Cell}
    (V : VacInv g x y g5 reps 4 (gm, cnt))
    (C : CommitInv g x y q g5 g6 reps cnt 4 gL) :
    (gL.playerlist (owner g (x, y))).no_areas_used =
      (g5.playerlist (owner g (x, y))).no_areas_used + cnt := by
  obtain ⟨todo, _, ht2, ht3⟩ := C.todo
  have : todo = [] := by
    apply List.eq_nil_iff_forall_not_mem.2
    intro r hr
    exact ((ht2 r).1 hr).2 (V.reps_marked ((ht2 r).1 hr).1)
  rw [this] at ht3
  simpa using ht3

theorem PInv.congr_fields {g g' : gamma_t} {p : Nat} (h : PInv g p)
    (hw : g'.width = g.width) (hh : g'.height = g.height)
    (hm : g'.max_no_areas = g.max_no_areas)
    (ho : ∀ v, inb g v → (owner g' v = p ↔ owner g v = p))
    (ha : ∀ v, Own g p v → area g' v = area g v)
    (hr : (g'.playerlist p).does_area_exist = (g.playerlist p).does_area_exist)
    (hn : (g'.playerlist p).no_areas_used = (g.playerlist p).no_areas_used)
    (hf : (g'.playerlist p).first_free_colour = (g.playerlist p).first_free_colour)
    (hb : (g'.playerlist p).no_busy_fields = (g.playerlist p).no_busy_fields) :
    PInv g' p := by
  refine ⟨h.toRInv.congr hw hh hm ho ha hr hn hf, ?_⟩
  rw [hb, h.busy_count, owned_congr (own_congr hw hh ho)]

theorem owned_erase {g g' : gamma_t} {p : Nat} {s : Cell} (hw : g'.width = g.width)
    (hh : g'.height = g.height)
    (ho : ∀ v, owner g' v = p ↔ (v ≠ s ∧ owner g v = p)) :
    owned g' p = (owned g p).erase s := by
  ext v
  rw [Finset.mem_erase, mem_owned, mem_owned]
  unfold Own inb
  rw [hw, hh, ho]
  tauto

/-- The state left by a committed golden move satisfies the invariants. -/
theorem commit_final {g g5 g6 gL gm : gamma_t} {x y q cnt : Nat} {reps : List Cell}
    (hI : Inv g) (hs : inb g (x, y)) (hp0 : owner g (x, y) ≠ 0)
    (hq0 : 0 < q) (hqn : q ≤ g.no_players) (hqp : q ≠ owner g (x, y))
    (P : Placed (set_player_id (set_area_id gm x y 0) x y 0) q (x, y) g6)
    (C0 : CommitInv g x y q g5 g6 reps cnt 0 g6)
    (hout6 : ∀ v, v ≠ (x, y) → owner g v ≠ owner g (x, y) → owner g v ≠ q →
      area g6 v = area g v)
    (hpl6 : ∀ r, r ≠ q → r ≠ owner g (x, y) → g6.playerlist r = g.playerlist r)
    (C : CommitInv g x y q g5 g6 reps cnt 4 gL) :
    Inv (decrease_player_no_busy_fields (set_player_golden_move_used gL q true)
      (owner g (x, y))) := by
  have hd := hI.dims
  obtain ⟨gF, hgF⟩ : ∃ gF, gF = decrease_player_no_busy_fields
      (set_player_golden_move_used gL q true) (owner g (x, y)) := ⟨_, rfl⟩
  rw [← hgF]
  have f_w : gF.width = g.width := by rw [hgF]; exact C.width
  have f_h : gF.height = g.height := by rw [hgF]; exact C.height
  have f_p : gF.no_players = g.no_players := by rw [hgF]; exact C.no_players
  have f_m : gF.max_no_areas = g.max_no_areas := by rw [hgF]; exact C.max_no_areas
  have f_own : ∀ v, owner gF v = if v = (x, y) then q else owner g v := by
    intro v; rw [hgF]; exact C.owners v
  have f_area : ∀ v, area gF v = area gL v := by intro v; rw [hgF]; rfl
  have f_plp : gF.playerlist (owner g (x, y)) =
      { gL.playerlist (owner g (x, y)) with
        no_busy_fields := ((gL.playerlist (owner g (x, y))).no_busy_fields
          + 18446744073709551615) % 18446744073709551616 } := by
    rw [hgF]
    simp [decrease_player_no_busy_fields, set_player_golden_move_used, Ne.symm hqp]
  have f_plq : gF.playerlist q = { gL.playerlist q with golden_move_used := true } := by
    rw [hgF]
    simp [decrease_player_no_busy_fields, set_player_golden_move_used, hqp]
  have f_plo : ∀ r, r ≠ q → r ≠ owner g (x, y) → gF.playerlist r = gL.playerlist r := by
    intro r h1 h2; rw [hgF]
    simp [decrease_player_no_busy_fields, set_player_golden_move_used, h1, h2]
  clear hgF
  have hinbF : ∀ v, inb gF v ↔ inb g v := by
    intro v; unfold inb; rw [f_w, f_h]
  have hnotrest : ∀ v, owner g v ≠ owner g (x, y) → ¬ Rest g (owner g (x, y)) (x, y) v :=
    fun v hv hr => hv hr.1.2
  refine ⟨⟨?_, ?_, ?_, ?_, ?_, ?_, ?_, ?_⟩, ?_, ?_, ?_⟩
  · rw [f_w]; exact hd.width_pos
  · rw [f_w]; exact hd.width_lt
  · rw [f_h]; exact hd.height_pos
  · rw [f_h]; exact hd.height_lt
  · rw [f_p]; exact hd.players_pos
  · rw [f_p]; exact hd.players_lt
  · rw [f_m]; exact hd.areas_pos
  · rw [f_m]; exact hd.areas_lt
  · intro v hv hov
    rw [f_own] at hov
    by_cases hvs : v = (x, y)
    · rw [if_pos hvs] at hov; omega
    · rw [if_neg hvs] at hov
      rw [f_area, C.area_out v (hnotrest v (by rw [hov]; exact Ne.symm hp0)),
        hout6 v hvs (by rw [hov]; exact Ne.symm hp0) (by rw [hov]; omega)]
      exact hI.empty_area v ((hinbF v).1 hv) hov
  · intro v hv
    rw [f_own, f_p]
    split
    · exact hqn
    · exact hI.owner_le v ((hinbF v).1 hv)
  · intro r hr0 hrn
    rw [f_p] at hrn
    by_cases hrp : r = owner g (x, y)
    · -- the victim
      subst hrp
      have hOwn : ∀ v, Own gF (owner g (x, y)) v ↔ Rest g (owner g (x, y)) (x, y) v := by
        intro v
        unfold Rest Own
        rw [hinbF, f_own]
        by_cases hvs : v = (x, y)
        · simp [hvs, hqp]
        · simp [hvs]
      have hnoT : ∀ v, Rest g (owner g (x, y)) (x, y) v → area gL v ≠ TRANSPARENT := by
        intro v hv e
        exact ((C.tmark v hv).1 e).2 ((C.tmark v hv).1 e).1
      have hpath : ∀ u v, Path (Own gF (owner g (x, y))) u v ↔
          Path (Rest g (owner g (x, y)) (x, y)) u v :=
        fun u v => ⟨Path.mono fun b hb => (hOwn b).1 hb, Path.mono fun b hb => (hOwn b).2 hb⟩
      refine ⟨⟨?_, ?_, ?_, ?_, ?_, ?_⟩, ?_⟩
      · rw [f_plp, f_m]; exact C.cursor_lt
      · rw [f_plp, f_m]; exact C.cursor_free
      · rw [f_plp, f_m]; exact C.exist_lt
      · intro c
        rw [f_plp]
        show (gL.playerlist (owner g (x, y))).does_area_exist c = true ↔ _
        rw [C.exist_iff]
        constructor
        · rintro ⟨v, hv, _, hvc⟩
          exact ⟨v, (hOwn v).2 hv, (f_area v).trans hvc⟩
        · rintro ⟨v, hv, hvc⟩
          exact ⟨v, (hOwn v).1 hv, hnoT v ((hOwn v).1 hv), (f_area v).symm.trans hvc⟩
      · rw [f_plp]
        show (gL.playerlist (owner g (x, y))).no_areas_used = _
        rw [C.count]
        congr 1
        exact (in_use_congr (f_m.trans C.max_no_areas.symm) (fun c _ => by rw [f_plp])).symm
      · intro u v hu hv
        rw [f_area, f_area, hpath]
        exact C.region u v ((hOwn u).1 hu) ((hOwn v).1 hv) (hnoT u ((hOwn u).1 hu))
          (hnoT v ((hOwn v).1 hv))
      · rw [f_plp]
        show ((gL.playerlist (owner g (x, y))).no_busy_fields + 18446744073709551615)
          % 18446744073709551616 = _
        have hers : owned gF (owner g (x, y)) = (owned g (owner g (x, y))).erase (x, y) := by
          apply owned_erase f_w f_h
          intro v
          rw [f_own]
          by_cases hvs : v = (x, y)
          · simp [hvs, hqp]
          · simp [hvs]
        have hmem : (x, y) ∈ owned g (owner g (x, y)) := mem_owned.2 ⟨hs, rfl⟩
        have hpos : 0 < (owned g (owner g (x, y))).card := Finset.card_pos.2 ⟨_, hmem⟩
        have hb := owned_card_le g (owner g (x, y))
        have hbd := board_lt_of_dims hd
        have hbusy := (hI.players _ (by omega) (hI.owner_le _ hs)).busy_count
        rw [hers, Finset.card_erase_of_mem hmem, C.busy, hbusy]
        omega
    · by_cases hrq : r = q
      · -- the capturing player
        subst hrq
        refine P.pinv.congr_fields (f_w.trans C0.width.symm) (f_h.trans C0.height.symm)
          (f_m.trans C0.max_no_areas.symm) ?_ ?_ ?_ ?_ ?_ ?_
        · intro v _; rw [f_own, C0.owners]
        · intro v hv
          rw [f_area]
          apply C.area_out
          intro hr'
          have := hv.2
          rw [C0.owners, if_neg hr'.2, hr'.1.2] at this
          exact hrp this.symm
        · rw [f_plq]; show (gL.playerlist r).does_area_exist = _
          rw [C.players_other r hrp]
        · rw [f_plq]; show (gL.playerlist r).no_areas_used = _
          rw [C.players_other r hrp]
        · rw [f_plq]; show (gL.playerlist r).first_free_colour = _
          rw [C.players_other r hrp]
        · rw [f_plq]; show (gL.playerlist r).no_busy_fields = _
          rw [C.players_other r hrp]
      · -- everybody else
        have hpl : gF.playerlist r = g.playerlist r := by
          rw [f_plo r hrq hrp, C.players_other r hrp, hpl6 r hrq hrp]
        refine (hI.players r hr0 hrn).congr_record f_w f_h f_m ?_ ?_ hpl
        · intro v _
          rw [f_own]
          by_cases hvs : v = (x, y)
          · rw [if_pos hvs, hvs]
            exact ⟨fun e => absurd e.symm hrq, fun e => absurd e.symm hrp⟩
          · rw [if_neg hvs]
        · intro v hv
          have hvs : v ≠ (x, y) := by
            intro e; rw [e] at hv; exact hrp hv.2.symm
          rw [f_area, C.area_out v (hnotrest v (by rw [hv.2]; exact hrp)),
            hout6 v hvs (by rw [hv.2]; exact hrp) (by rw [hv.2]; exact hrq)]

/-- The commit of a golden move returns exactly when the region ids suffice
for the pieces that were counted.  Only the invariants of the data model are
asked of the regions of the two players. -/
theorem gamma_make_golden_move_returns {g g5 gm : gamma_t} {x y q cnt : Nat}
    {reps : List Cell} (hd : Dims g) (hs : inb g (x, y))
    (hp : RegionInv g (owner g (x, y))) (hq : RegionInv g q)
    (hq0 : 0 < q) (hqn : q ≤ g.no_players) (hqp : q ≠ owner g (x, y))
    (hcan : (g.playerlist q).no_areas_used ≠ g.max_no_areas ∨
      are_player_areas_nearby g q x y = true)
    (V5 : Vacated g x y g5) (V : VacInv g x y g5 reps 4 (gm, cnt)) :
    ((g5.playerlist (owner g (x, y))).no_areas_used + cnt ≤ g.max_no_areas →
      ∃ g', gamma_make_golden_move gm q (owner g (x, y)) x y = some g') ∧
    (∀ g', gamma_make_golden_move gm q (owner g (x, y)) x y = some g' →
      (g5.playerlist (owner g (x, y))).no_areas_used + cnt ≤ g.max_no_areas) := by
  obtain ⟨g6, hg6, _, _, C0, _, _, _⟩ := commit_start hd hs hp hq hq0 hqn hqp hcan V5 V
  rw [gamma_make_golden_move_eq, hg6, Option.some_bind]
  constructor
  · intro hfit
    obtain ⟨gL, hgL, _⟩ := loop4_total
      (fun gi i =>
          if player_areas_nearby g6 (owner g (x, y)) x y i then
            if area gi (nbr x y i) = TRANSPARENT then
              perform_transparent_colouring gi (owner g (x, y)) (nbr x y i).1 (nbr x y i).2
            else some gi
          else some gi)
      (fun i gi => CommitInv g x y q g5 g6 reps cnt i gi) g6 C0
      (by
        intro i gi hi C
        obtain ⟨g1, hg1⟩ := commit_loop_step_total hd hs hqp V C0 C hi hfit
        exact ⟨g1, hg1, commit_loop_step_some hd hs hqp V C0 C hi hg1⟩)
    refine ⟨decrease_player_no_busy_fields (set_player_golden_move_used gL q true)
      (owner g (x, y)), ?_⟩
    show Option.map _ ([0, 1, 2, 3].foldlM _ g6) = _
    rw [hgL]; rfl
  · intro g' hg'
    have hg'' : Option.map (fun g' => decrease_player_no_busy_fields
        (set_player_golden_move_used g' q true) (owner g (x, y)))
        ([0, 1, 2, 3].foldlM (fun gi i =>
          if player_areas_nearby g6 (owner g (x, y)) x y i then
            if area gi (nbr x y i) = TRANSPARENT then
              perform_transparent_colouring gi (owner g (x, y)) (nbr x y i).1 (nbr x y i).2
            else some gi
          else some gi) g6) = some g' := hg'
    rw [Option.map_eq_some'] at hg''
    obtain ⟨gL, hgL, rfl⟩ := hg''
    have C := loop4_inv _ (fun i gi => CommitInv g x y q g5 g6 reps cnt i gi) _ _ C0
      (fun i gi g1 hi C hstep => commit_loop_step_some hd hs hqp V C0 C hi hstep) hgL
    rw [← commit_done_count V C]
    exact C.count_le_max

/-- The commit of a golden move: it returns exactly when the region ids
suffice for the pieces that were counted, and then leaves a state that satisfies
the invariants. -/
theorem gamma_make_golden_move_spec {g g5 gm : gamma_t} {x y q cnt : Nat} {reps : List Cell}
    (hI : Inv g) (hs : inb g (x, y)) (hp0 : owner g (x, y) ≠ 0)
    (hq0 : 0 < q) (hqn : q ≤ g.no_players) (hqp : q ≠ owner g (x, y))
    (hcan : (g.playerlist q).no_areas_used ≠ g.max_no_areas ∨
      are_player_areas_nearby g q x y = true)
    (V5 : Vacated g x y g5) (V : VacInv g x y g5 reps 4 (gm, cnt)) :
    ((g5.playerlist (owner g (x, y))).no_areas_used + cnt ≤ g.max_no_areas →
      ∃ g', gamma_make_golden_move gm q (owner g (x, y)) x y = some g' ∧ Inv g') ∧
    (∀ g', gamma_make_golden_move gm q (owner g (x, y)) x y = some g' →
      Inv g' ∧ (g5.playerlist (owner g (x, y))).no_areas_used + cnt ≤ g.max_no_areas) := by
  have hd := hI.dims
  have hp : RInv g (owner g (x, y)) :=
    (hI.players _ (by omega) (hI.owner_le _ hs)).toRInv
  obtain ⟨g6, hg6, _, hP, C0, hout6, hpl6, _⟩ :=
    commit_start hd hs hp.toRegionInv (hI.players q hq0 hqn).toRInv.toRegionInv hq0 hqn hqp hcan V5 V
  have P := hP (hI.players q hq0 hqn)
  rw [gamma_make_golden_move_eq, hg6, Option.some_bind]
  constructor
  · intro hfit
    obtain ⟨gL, hgL, C⟩ := loop4_total
      (fun gi i =>
          if player_areas_nearby g6 (owner g (x, y)) x y i then
            if area gi (nbr x y i) = TRANSPARENT then
              perform_transparent_colouring gi (owner g (x, y)) (nbr x y i).1 (nbr x y i).2
            else some gi
          else some gi)
      (fun i gi => CommitInv g x y q g5 g6 reps cnt i gi) g6 C0
      (by
        intro i gi hi C
        obtain ⟨g1, hg1⟩ := commit_loop_step_total hd hs hqp V C0 C hi hfit
        exact ⟨g1, hg1, commit_loop_step_some hd hs hqp V C0 C hi hg1⟩)
    refine ⟨_, ?_, commit_final hI hs hp0 hq0 hqn hqp P C0 hout6 hpl6 C⟩
    show Option.map _ ([0, 1, 2, 3].foldlM _ g6) = _
    rw [hgL]; rfl
  · intro g' hg'
    have hg'' : Option.map (fun g' => decrease_player_no_busy_fields
        (set_player_golden_move_used g' q true) (owner g (x, y)))
        ([0, 1, 2, 3].foldlM (fun gi i =>
          if player_areas_nearby g6 (owner g (x, y)) x y i then
            if area gi (nbr x y i) = TRANSPARENT then
              perform_transparent_colouring gi (owner g (x, y)) (nbr x y i).1 (nbr x y i).2
            else some gi
          else some gi) g6) = some g' := hg'
    rw [Option.map_eq_some'] at hg''
    obtain ⟨gL, hgL, rfl⟩ := hg''
    have C := loop4_inv _ (fun i gi => CommitInv g x y q g5 g6 reps cnt i gi) _ _ C0
      (fun i gi g1 hi C hstep => commit_loop_step_some hd hs hqp V C0 C hi hstep) hgL
    refine ⟨commit_final hI hs hp0 hq0 hqn hqp P C0 hout6 hpl6 C, ?_⟩
    rw [← commit_done_count V C]
    exact C.count_le_max

theorem gamma_try_golden_move_eq (g : gamma_t) (q x y : Nat) :
    gamma_try_golden_move g q x y =
      (golden_vacate g x y).bind fun s =>
        if (get_player_no_areas_used s.1 (owner g (x, y)) + s.2) % 4294967296
            ≤ get_max_no_areas s.1 then
          (gamma_make_golden_move s.1 q (owner g (x, y)) x y).map fun g' => (true, g')
        else
          (golden_undo s.1 x y (owner g (x, y)) (area g (x, y))).map fun g' => (false, g') :=
  rfl

theorem gamma_try_golden_move_no_sideeffect_eq (g : gamma_t) (x y : Nat) :
    gamma_try_golden_move_no_sideeffect g x y =
      (golden_vacate g x y).bind fun s =>
        (golden_undo s.1 x y (owner g (x, y)) (area g (x, y))).map fun g' =>
          (decide ((get_player_no_areas_used s.1 (owner g (x, y)) + s.2) % 4294967296
            ≤ get_max_no_areas s.1), g') := rfl

/-- The outcome of `gamma_try_golden_move` after a passed pre-check, in terms
of the number `cnt` of pieces counted by the vacation. -/
theorem gamma_try_golden_move_spec (g : gamma_t) (q x y : Nat) (hI : Inv g)
    (hv : gamma_golden_move_valid_input g q x y = true) :
    ∃ g5 gm cnt reps, golden_vacate g x y = some (gm, cnt) ∧ Vacated g x y g5 ∧
      VacInv g x y g5 reps 4 (gm, cnt) ∧
      ((g5.playerlist (owner g (x, y))).no_areas_used + cnt ≤ g.max_no_areas →
        ∃ g', gamma_try_golden_move g q x y = some (true, g') ∧ Inv g') ∧
      (¬ (g5.playerlist (owner g (x, y))).no_areas_used + cnt ≤ g.max_no_areas →
        (((g5.playerlist (owner g (x, y))).no_areas_used + cnt) % 4294967296
            ≤ g.max_no_areas → gamma_try_golden_move g q x y = none) ∧
        (¬ ((g5.playerlist (owner g (x, y))).no_areas_used + cnt) % 4294967296
            ≤ g.max_no_areas →
          ∃ f, gamma_try_golden_move g q x y =
              some (false, set_player_first_free_colour g (owner g (x, y)) f) ∧
            f < g.max_no_areas ∧
            ((g.playerlist (owner g (x, y))).no_areas_used < g.max_no_areas →
              (g.playerlist (owner g (x, y))).does_area_exist f = false))) := by
  obtain ⟨⟨hq0, hqn⟩, _, hs, hcan, hp0, hpq⟩ := (gamma_golden_move_valid_input_iff g q x y).1 hv
  have hd := hI.dims
  have hp : RInv g (owner g (x, y)) :=
    (hI.players _ (by omega) (hI.owner_le _ hs)).toRInv
  obtain ⟨g5, gm, cnt, reps, hvac, V5, V⟩ := golden_vacate_spec g x y hd hp.toRegionInv hs hp0
  obtain ⟨hm1, hm2⟩ := gamma_make_golden_move_spec hI hs hp0 hq0 hqn (Ne.symm hpq) hcan V5 V
  have hn : get_player_no_areas_used gm (owner g (x, y)) =
      (g5.playerlist (owner g (x, y))).no_areas_used := by
    unfold get_player_no_areas_used
    have e : gm.playerlist = g5.playerlist := V.frame.playerlist
    rw [e]
  have hmx : get_max_no_areas gm = g.max_no_areas := by
    unfold get_max_no_areas
    have e : gm.max_no_areas = g5.max_no_areas := V.frame.max_no_areas
    rw [e, V5.max_no_areas]
  have hlt := hd.areas_lt
  refine ⟨g5, gm, cnt, reps, hvac, V5, V, ?_, ?_⟩
  · intro hfit
    obtain ⟨g', hg', hI'⟩ := hm1 hfit
    refine ⟨g', ?_, hI'⟩
    rw [gamma_try_golden_move_eq, hvac, Option.some_bind]
    simp only [hn, hmx]
    rw [if_pos (by omega), hg']; rfl
  · intro hfit
    rw [gamma_try_golden_move_eq, hvac, Option.some_bind]
    simp only [hn, hmx]
    constructor
    · intro hwrap
      rw [if_pos hwrap]
      rcases hres : gamma_make_golden_move gm q (owner g (x, y)) x y with _ | g'
      · rfl
      · exact absurd (hm2 g' hres).2 hfit
    · intro hwrap
      rw [if_neg hwrap]
      obtain ⟨f, hf, hfl, hff⟩ := golden_undo_spec g x y hd hp.toRegionInv hs V5 V
      exact ⟨f, by rw [hf]; rfl, hfl, hff⟩

/-- The outcome of `gamma_try_golden_move` after a passed pre-check, for a
state of which only the invariants of the data model are asked. -/
theorem gamma_try_golden_move_returns (g : gamma_t) (q x y : Nat) (hI : BoardInv g)
    (hv : gamma_golden_move_valid_input g q x y = true) :
    ∃ g5 gm cnt reps, golden_vacate g x y = some (gm, cnt) ∧ Vacated g x y g5 ∧
      VacInv g x y g5 reps 4 (gm, cnt) ∧
      ((g5.playerlist (owner g (x, y))).no_areas_used + cnt ≤ g.max_no_areas →
        ∃ g', gamma_try_golden_move g q x y = some (true, g')) ∧
      (¬ (g5.playerlist (owner g (x, y))).no_areas_used + cnt ≤ g.max_no_areas →
        (((g5.playerlist (owner g (x, y))).no_areas_used + cnt) % 4294967296
            ≤ g.max_no_areas → gamma_try_golden_move g q x y = none) ∧
        (¬ ((g5.playerlist (owner g (x, y))).no_areas_used + cnt) % 4294967296
            ≤ g.max_no_areas →
          ∃ f, gamma_try_golden_move g q x y =
              some (false, set_player_first_free_colour g (owner g (x, y)) f) ∧
            f < g.max_no_areas ∧
            ((g.playerlist (owner g (x, y))).no_areas_used < g.max_no_areas →
              (g.playerlist (owner g (x, y))).does_area_exist f = false))) := by
  obtain ⟨⟨hq0, hqn⟩, _, hs, hcan, hp0, hpq⟩ := (gamma_golden_move_valid_input_iff g q x y).1 hv
  have hd := hI.dims
  have hp : RegionInv g (owner g (x, y)) :=
    hI.players _ (Nat.pos_of_ne_zero hp0) (hI.owner_le _ hs)
  obtain ⟨g5, gm, cnt, reps, hvac, V5, V⟩ := golden_vacate_spec g x y hd hp hs hp0
  obtain ⟨hm1, hm2⟩ := gamma_make_golden_move_returns hd hs hp (hI.players q hq0 hqn)
    hq0 hqn (Ne.symm hpq) hcan V5 V
  have hn : get_player_no_areas_used gm (owner g (x, y)) =
      (g5.playerlist (owner g (x, y))).no_areas_used := by
    unfold get_player_no_areas_used
    have e : gm.playerlist = g5.playerlist := V.frame.playerlist
    rw [e]
  have hmx : get_max_no_areas gm = g.max_no_areas := by
    unfold get_max_no_areas
    have e : gm.max_no_areas = g5.max_no_areas := V.frame.max_no_areas
    rw [e, V5.max_no_areas]
  have hlt := hd.areas_lt
  refine ⟨g5, gm, cnt, reps, hvac, V5, V, ?_, ?_⟩
  · intro hfit
    obtain ⟨g', hg'⟩ := hm1 hfit
    refine ⟨g', ?_⟩
    rw [gamma_try_golden_move_eq, hvac, Option.some_bind]
    simp only [hn, hmx]
    rw [if_pos (by omega), hg']; rfl
  · intro hfit
    rw [gamma_try_golden_move_eq, hvac, Option.some_bind]
    simp only [hn, hmx]
    constructor
    · intro hwrap
      rw [if_pos hwrap]
      rcases hres : gamma_make_golden_move gm q (owner g (x, y)) x y with _ | g'
      · rfl
      · exact absurd (hm2 g' hres) hfit
    · intro hwrap
      rw [if_neg hwrap]
      obtain ⟨f, hf, hfl, hff⟩ := golden_undo_spec g x y hd hp hs V5 V
      exact ⟨f, by rw [hf]; rfl, hfl, hff⟩

/-- The simulation used by `gamma_golden_possible` always returns and restores
the state, the cursor of the owner of the cell apart. -/
theorem gamma_try_golden_move_no_sideeffect_spec (g : gamma_t) (x y : Nat) (hd : Dims g)
    (hp : RegionInv g (owner g (x, y))) (hs : inb g (x, y)) (hp0 : owner g (x, y) ≠ 0) :
    ∃ g5 gm cnt reps f, golden_vacate g x y = some (gm, cnt) ∧ Vacated g x y g5 ∧
      VacInv g x y g5 reps 4 (gm, cnt) ∧
      gamma_try_golden_move_no_sideeffect g x y =
        some (decide (((g5.playerlist (owner g (x, y))).no_areas_used + cnt) % 4294967296
            ≤ g.max_no_areas),
          set_player_first_free_colour g (owner g (x, y)) f) ∧
      f < g.max_no_areas ∧
      ((g.playerlist (owner g (x, y))).no_areas_used < g.max_no_areas →
        (g.playerlist (owner g (x, y))).does_area_exist f = false) := by
  obtain ⟨g5, gm, cnt, reps, hvac, V5, V⟩ := golden_vacate_spec g x y hd hp hs hp0
  obtain ⟨f, hf, hfl, hff⟩ := golden_undo_spec g x y hd hp hs V5 V
  have hn : get_player_no_areas_used gm (owner g (x, y)) =
      (g5.playerlist (owner g (x, y))).no_areas_used := by
    unfold get_player_no_areas_used
    have e : gm.playerlist = g5.playerlist := V.frame.playerlist
    rw [e]
  have hmx : get_max_no_areas gm = g.max_no_areas := by
    unfold get_max_no_areas
    have e : gm.max_no_areas = g5.max_no_areas := V.frame.max_no_areas
    rw [e, V5.max_no_areas]
  refine ⟨g5, gm, cnt, reps, f, hvac, V5, V, ?_, hfl, hff⟩
  rw [gamma_try_golden_move_no_sideeffect_eq, hvac, Option.some_bind, hf]
  simp only [hn, hmx]
  rfl

/-- The state a commit returns, when it returns. -/
theorem gamma_make_golden_move_captured {g g5 gm : gamma_t} {x y q cnt : Nat}
    {reps : List Cell} (hd : Dims g) (hs : inb g (x, y))
    (hp : RegionInv g (owner g (x, y))) (hq : RegionInv g q)
    (hq0 : 0 < q) (hqn : q ≤ g.no_players) (hqp : q ≠ owner g (x, y))
    (hcan : (g.playerlist q).no_areas_used ≠ g.max_no_areas ∨
      are_player_areas_nearby g q x y = true)
    (V5 : Vacated g x y g5) (V : VacInv g x y g5 reps 4 (gm, cnt)) (g' : gamma_t)
    (hg' : gamma_make_golden_move gm q (owner g (x, y)) x y = some g') :
    Captured g q (x, y) g' := by
  obtain ⟨g6, hg6, _, _, C0, _, hpl6, hgold6, hbusy6⟩ :=
    commit_start hd hs hp hq hq0 hqn hqp hcan V5 V
  rw [gamma_make_golden_move_eq, hg6, Option.some_bind] at hg'
  have hg'' : Option.map (fun g' => decrease_player_no_busy_fields
      (set_player_golden_move_used g' q true) (owner g (x, y)))
      ([0, 1, 2, 3].foldlM (fun gi i =>
        if player_areas_nearby g6 (owner g (x, y)) x y i then
          if area gi (nbr x y i) = TRANSPARENT then
            perform_transparent_colouring gi (owner g (x, y)) (nbr x y i).1 (nbr x y i).2
          else some gi
        else some gi) g6) = some g' := hg'
  rw [Option.map_eq_some'] at hg''
  obtain ⟨gL, hgL, rfl⟩ := hg''
  have C := loop4_inv _ (fun i gi => CommitInv g x y q g5 g6 reps cnt i gi) _ _ C0
    (fun i gi g1 hi C hstep => commit_loop_step_some hd hs hqp V C0 C hi hstep) hgL
  have hLq : gL.playerlist q = g6.playerlist q := C.players_other q hqp
  refine ⟨?_, ?_, ?_, ?_, ?_, ?_⟩
  · intro v
    simp only [decrease_player_no_busy_fields, set_player_golden_move_used, owner_set_player]
    exact C.owners v
  · simp only [decrease_player_no_busy_fields, set_player_golden_move_used,
      set_player_playerlist, if_true, if_neg (Ne.symm hqp)]
    rw [C.busy]
  · simp only [decrease_player_no_busy_fields, set_player_golden_move_used,
      set_player_playerlist, if_true, if_neg hqp]
    rw [hLq, hbusy6]
  · simp only [decrease_player_no_busy_fields, set_player_golden_move_used,
      set_player_playerlist, if_true, if_neg hqp]
  · intro r hrq
    by_cases hrp : r = owner g (x, y)
    · subst hrp
      simp only [decrease_player_no_busy_fields, set_player_golden_move_used,
        set_player_playerlist, if_true, if_neg hrq]
      exact C.golden
    · simp only [decrease_player_no_busy_fields, set_player_golden_move_used,
        set_player_playerlist, if_neg hrp, if_neg hrq]
      rw [C.players_other r hrp, hpl6 r hrq hrp]
  · intro r hrq hrp
    simp only [decrease_player_no_busy_fields, set_player_golden_move_used,
      set_player_playerlist, if_neg hrp, if_neg hrq]
    rw [C.players_other r hrp, hpl6 r hrq hrp]

/-! ## Every operation keeps the invariants -/

/-- Moving the cursor of a player to a slot that is free (when one exists)
keeps the invariants. -/
theorem Inv.set_cursor {g : gamma_t} (hI : Inv g) (p f : Nat) (hp0 : 0 < p)
    (hpn : p ≤ g.no_players) (hfl : f < g.max_no_areas)
    (hff : (g.playerlist p).no_areas_used < g.max_no_areas →
      (g.playerlist p).does_area_exist f = false) :
    Inv (set_player_first_free_colour g p f) := by
  have e_pl : (set_player_first_free_colour g p f).playerlist p =
      { g.playerlist p with first_free_colour := f } := by
    simp [set_player_first_free_colour]
  have hd : Dims (set_player_first_free_colour g p f) :=
    ⟨hI.dims.width_pos, hI.dims.width_lt, hI.dims.height_pos, hI.dims.height_lt,
      hI.dims.players_pos, hI.dims.players_lt, hI.dims.areas_pos, hI.dims.areas_lt⟩
  refine ⟨hd, hI.empty_area, hI.owner_le, ?_⟩
  intro r hr0 hrn
  by_cases hrp : r = p
  · subst hrp
    have h := hI.players r hp0 hpn
    refine ⟨⟨?_, ?_, ?_, ?_, ?_, ?_⟩, ?_⟩
    · rw [e_pl]; exact hfl
    · rw [e_pl]; exact hff
    · rw [e_pl]; exact h.exist_lt
    · rw [e_pl]; exact h.exist_iff
    · rw [e_pl]
      show (g.playerlist r).no_areas_used = _
      rw [h.areas_count]
      congr 1
      exact (@in_use_congr g (set_player_first_free_colour g r f) r rfl
        (fun c _ => by rw [e_pl])).symm
    · exact h.region
    · rw [e_pl]; exact h.busy_count
  · exact (hI.players r hr0 hrn).congr_record rfl rfl rfl (fun _ _ => Iff.rfl) (fun _ _ => rfl)
      (by simp [set_player_first_free_colour, hrp])

/-- A placed stone keeps the invariants. -/
theorem inv_of_placed {g g' : gamma_t} {q x y : Nat} (hI : Inv g) (hq0 : 0 < q)
    (hqn : q ≤ g.no_players) (hown : owner g (x, y) = 0)
    (P : Placed g q (x, y) g') : Inv g' := by
  have hd := hI.dims
  have hinb : ∀ v, inb g' v ↔ inb g v := by
    intro v; unfold inb; rw [P.width, P.height]
  refine ⟨⟨?_, ?_, ?_, ?_, ?_, ?_, ?_, ?_⟩, ?_, ?_, ?_⟩
  · rw [P.width]; exact hd.width_pos
  · rw [P.width]; exact hd.width_lt
  · rw [P.height]; exact hd.height_pos
  · rw [P.height]; exact hd.height_lt
  · rw [P.no_players]; exact hd.players_pos
  · rw [P.no_players]; exact hd.players_lt
  · rw [P.max_no_areas]; exact hd.areas_pos
  · rw [P.max_no_areas]; exact hd.areas_lt
  · intro v hv hov
    rw [P.owners] at hov
    by_cases hvs : v = (x, y)
    · rw [if_pos hvs] at hov; omega
    · rw [if_neg hvs] at hov
      rw [P.area_other v hvs (by rw [hov]; omega)]
      exact hI.empty_area v ((hinb v).1 hv) hov
  · intro v hv
    rw [P.owners, P.no_players]
    split
    · exact hqn
    · exact hI.owner_le v ((hinb v).1 hv)
  · intro r hr0 hrn
    rw [P.no_players] at hrn
    by_cases hrq : r = q
    · subst hrq; exact P.pinv
    · refine (hI.players r hr0 hrn).congr_record P.width P.height P.max_no_areas ?_ ?_
        (P.players_other r hrq)
      · intro v _
        rw [P.owners]
        by_cases hvs : v = (x, y)
        · rw [if_pos hvs, hvs, hown]
          exact ⟨fun e => absurd e.symm hrq, fun e => by omega⟩
        · rw [if_neg hvs]
      · intro v hv
        have hvs : v ≠ (x, y) := by
          intro e
          have h2 := hv.2
          rw [e, hown] at h2
          omega
        exact P.area_other v hvs (by rw [hv.2]; exact hrq)

/-- `gamma_move` always returns; it returns `true` exactly when its pre-check
holds, and the state it leaves satisfies the invariants. -/
theorem gamma_move_total (g : gamma_t) (q x y : Nat) (hI : Inv g) :
    ∃ g', gamma_move g q x y = some (gamma_move_valid_input g q x y, g') ∧ Inv g' := by
  by_cases hv : gamma_move_valid_input g q x y = true
  · obtain ⟨⟨hq0, hqn⟩, _, hown, _⟩ := (gamma_move_valid_input_iff g q x y).1 hv
    obtain ⟨g', hg', P⟩ := gamma_move_spec g q x y hI.dims (hI.players q hq0 hqn) hv
    exact ⟨g', by rw [hv]; exact hg', inv_of_placed hI hq0 hqn hown P⟩
  · refine ⟨g, ?_, hI⟩
    simp only [Bool.not_eq_true] at hv
    rw [hv]
    simp [gamma_move, hv]

theorem gamma_move_inv {g g' : gamma_t} {q x y : Nat} {b : Bool} (hI : Inv g)
    (h : gamma_move g q x y = some (b, g')) : Inv g' := by
  obtain ⟨g'', hg'', hI''⟩ := gamma_move_total g q x y hI
  rw [hg''] at h
  cases h
  exact hI''

theorem gamma_golden_move_eq (g : gamma_t) (q x y : Nat) :
    gamma_golden_move g q x y =
      if gamma_golden_move_valid_input g q x y = true then gamma_try_golden_move g q x y
      else some (false, g) := rfl

theorem gamma_golden_move_inv {g g' : gamma_t} {q x y : Nat} {b : Bool} (hI : Inv g)
    (h : gamma_golden_move g q x y = some (b, g')) : Inv g' := by
  rw [gamma_golden_move_eq] at h
  by_cases hv : gamma_golden_move_valid_input g q x y = true
  · rw [if_pos hv] at h
    obtain ⟨_, _, hs, _, hp0, _⟩ := (gamma_golden_move_valid_input_iff g q x y).1 hv
    obtain ⟨g5, gm, cnt, reps, _, _, _, h1, h2⟩ := gamma_try_golden_move_spec g q x y hI hv
    by_cases hfit : (g5.playerlist (owner g (x, y))).no_areas_used + cnt ≤ g.max_no_areas
    · obtain ⟨g'', hg'', hI''⟩ := h1 hfit
      rw [hg''] at h
      cases h
      exact hI''
    · by_cases hwrap : ((g5.playerlist (owner g (x, y))).no_areas_used + cnt) % 4294967296
          ≤ g.max_no_areas
      · rw [(h2 hfit).1 hwrap] at h; exact absurd h (by simp)
      · obtain ⟨f, hf, hfl, hff⟩ := (h2 hfit).2 hwrap
        rw [hf] at h
        cases h
        exact hI.set_cursor _ f (Nat.pos_of_ne_zero hp0) (hI.owner_le _ hs) hfl hff
  · rw [if_neg hv] at h
    cases h
    exact hI

theorem is_golden_move_makable_loop_spec (q : Nat) : ∀ (l : List (Nat × Nat)) (g : gamma_t),
    Inv g → ∃ b g', is_golden_move_makable_loop q l g = some (b, g') ∧ Inv g' := by
  intro l
  induction l with
  | nil => intro g hI; exact ⟨false, g, rfl, hI⟩
  | cons c rest ih =>
    intro g hI
    obtain ⟨x, y⟩ := c
    unfold is_golden_move_makable_loop
    by_cases hv : gamma_golden_move_valid_input g q x y = true
    · rw [if_pos hv]
      obtain ⟨_, _, hs, _, hp0, _⟩ := (gamma_golden_move_valid_input_iff g q x y).1 hv
      have hpn := hI.owner_le _ hs
      obtain ⟨g5, gm, cnt, reps, f, _, _, _, hres, hfl, hff⟩ :=
        gamma_try_golden_move_no_sideeffect_spec g x y hI.dims
          (hI.players _ (by omega) hpn).toRInv.toRegionInv hs hp0
      have hI' := hI.set_cursor _ f (by omega) hpn hfl hff
      rw [hres, Option.some_bind]
      split
      · exact ⟨true, _, rfl, hI'⟩
      · exact ih _ hI'
    · rw [if_neg hv]
      exact ih g hI

/-- `gamma_golden_possible` always returns, and the state it leaves satisfies
the invariants. -/
theorem gamma_golden_possible_total (g : gamma_t) (q : Nat) (hI : Inv g) :
    ∃ b g', gamma_golden_possible g q = some (b, g') ∧ Inv g' := by
  unfold gamma_golden_possible
  split
  · simp only
    split
    · exact is_golden_move_makable_loop_spec q _ g hI
    · exact ⟨_, g, rfl, hI⟩
  · exact ⟨false, g, rfl, hI⟩

theorem gamma_golden_possible_inv {g g' : gamma_t} {q : Nat} {b : Bool} (hI : Inv g)
    (h : gamma_golden_possible g q = some (b, g')) : Inv g' := by
  obtain ⟨b', g'', hg'', hI''⟩ := gamma_golden_possible_total g q hI
  rw [hg''] at h
  cases h
  exact hI''

/-- The loops of `make_playerlist` are left when the number of players is
below `UINT32_MAX`. -/
theorem make_playerlist_loop_true (players : Nat) (hp : players < 4294967295) :
    ∀ (fuel i : Nat), i ≤ players + 1 → players + 1 - i < fuel →
      make_playerlist_loop fuel players i = true := by
  intro fuel
  induction fuel with
  | zero => intro i _ h; omega
  | succ fuel ih =>
    intro i hi hf
    unfold make_playerlist_loop
    by_cases hle : i ≤ players
    · rw [if_pos hle, Nat.mod_eq_of_lt (by omega)]
      exact ih (i + 1) (by omega) (by omega)
    · rw [if_neg hle]

/-- The loops of `make_playerlist` are never left when the number of players
is `UINT32_MAX`. -/
theorem make_playerlist_loop_false :
    ∀ (fuel i : Nat), i < 4294967296 → make_playerlist_loop fuel 4294967295 i = false := by
  intro fuel
  induction fuel with
  | zero => intro i _; rfl
  | succ fuel ih =>
    intro i hi
    unfold make_playerlist_loop
    rw [if_pos (by omega)]
    exact ih _ (Nat.mod_lt _ (by decide))

theorem make_game_state_eq (w h p a : Nat) (hp : p < 4294967295) :
    make_game_state w h p a = some (new_game w h p a) := by
  unfold make_game_state make_playerlist
  rw [make_playerlist_loop_true p hp _ 0 (by omega) (by omega)]
  rfl

theorem make_game_state_some {w h p a : Nat} {g : gamma_t}
    (hg : make_game_state w h p a = some g) : g = new_game w h p a := by
  unfold make_game_state make_playerlist at hg
  by_cases hl : make_playerlist_loop 4294967297 p 0 = true
  · rw [if_pos hl] at hg
    exact (Option.some.inj hg).symm
  · rw [if_neg hl] at hg
    exact absurd hg (by simp)

theorem gamma_new_some {w h p a : Nat} {g : gamma_t}
    (hg : gamma_new w h p a = some (some g)) :
    gamma_new_valid_input w h p a = true ∧ g = new_game w h p a := by
  unfold gamma_new at hg
  by_cases hv : gamma_new_valid_input w h p a = true
  · rw [if_pos hv] at hg
    refine ⟨hv, ?_⟩
    cases hm : make_game_state w h p a with
    | none => rw [hm] at hg; exact absurd hg (by simp)
    | some gs =>
      rw [hm] at hg
      have := make_game_state_some hm
      simp only [Option.some.injEq] at hg
      rw [← hg]; exact this
  · rw [if_neg hv] at hg
    exact absurd hg (by simp)

theorem gamma_new_eq (w h p a : Nat) (hw : 0 < w) (hh : 0 < h) (hp0 : 0 < p) (ha : 0 < a)
    (hp : p < 4294967295) : gamma_new w h p a = some (some (new_game w h p a)) := by
  have hv : gamma_new_valid_input w h p a = true := by
    simp only [gamma_new_valid_input, Bool.true_and, Bool.and_eq_true, decide_eq_true_eq]
    omega
  unfold gamma_new
  rw [if_pos hv, make_game_state_eq w h p a hp]

/-- A fresh game satisfies the invariants. -/
theorem gamma_new_inv {w h p a : Nat} {g : gamma_t} (hw : w < 4294967296)
    (hh : h < 4294967296) (hp : p < 4294967296) (ha : a < 4294967296)
    (hg : gamma_new w h p a = some (some g)) : Inv g := by
  obtain ⟨hv, hg⟩ := gamma_new_some hg
  subst hg
  simp only [gamma_new_valid_input, Bool.true_and, Bool.and_eq_true, decide_eq_true_eq,
    gt_iff_lt] at hv
  obtain ⟨⟨⟨hw0, hh0⟩, hp0⟩, ha0⟩ := hv
  have hno : ∀ r v, 0 < r → ¬ Own (new_game w h p a) r v := by
    intro r v hr hv
    have h1 : owner (new_game w h p a) v = 0 := rfl
    have h2 : owner (new_game w h p a) v = r := hv.2
    omega
  refine ⟨⟨hw0, hw, hh0, hh, hp0, hp, ha0, ha⟩, fun _ _ _ => rfl, fun _ _ => Nat.zero_le _, ?_⟩
  intro r hr0 _
  refine ⟨⟨ha0, fun _ => rfl, ?_, ?_, ?_, ?_⟩, ?_⟩
  · intro c hc
    exact absurd hc (by simp [new_game, set_player_to_default])
  · intro c
    constructor
    · intro hc
      exact absurd hc (by simp [new_game, set_player_to_default])
    · rintro ⟨v, hv, _⟩
      exact absurd hv (hno r v hr0)
  · have : in_use (new_game w h p a) r = ∅ := by
      ext c
      simp [mem_in_use, new_game, set_player_to_default]
    rw [this]; rfl
  · intro u v hu
    exact absurd hu (hno r u hr0)
  · have : owned (new_game w h p a) r = ∅ := by
      ext v
      rw [mem_owned]
      simp only [Finset.not_mem_empty, iff_false]
      exact hno r v hr0
    rw [this]; rfl

/-- Every reachable state satisfies the invariants. -/
theorem inv_of_reachable {g : gamma_t} (h : Reachable g) : Inv g := by
  induction h with
  | new hw hh hp ha hg => exact gamma_new_inv hw hh hp ha hg
  | move _ hm ih => exact gamma_move_inv ih hm
  | golden_move _ hm ih => exact gamma_golden_move_inv ih hm
  | golden_possible _ hm ih => exact gamma_golden_possible_inv ih hm

/-- A golden move that returns `true` has passed its pre-check. -/
theorem gamma_golden_move_true_valid {g g' : gamma_t} {q x y : Nat}
    (h : gamma_golden_move g q x y = some (true, g')) :
    gamma_golden_move_valid_input g q x y = true := by
  by_contra hv
  rw [gamma_golden_move_eq, if_neg hv] at h
  simp at h

/-- In a well-typed state that satisfies invariants 2 to 4, a golden move
that returns `true` changes the owners, the busy fields and the golden flags as
`Captured` says. -/
theorem gamma_golden_move_captured {g g' : gamma_t} {q x y : Nat} (hI : BoardInv g)
    (h : gamma_golden_move g q x y = some (true, g')) : Captured g q (x, y) g' := by
  have hv := gamma_golden_move_true_valid h
  obtain ⟨⟨hq0, hqn⟩, _, hs, hcan, hp0, hpq⟩ := (gamma_golden_move_valid_input_iff g q x y).1 hv
  have hd := hI.dims
  have hp : RegionInv g (owner g (x, y)) :=
    hI.players _ (Nat.pos_of_ne_zero hp0) (hI.owner_le _ hs)
  obtain ⟨g5, gm, cnt, reps, hvac, V5, V⟩ := golden_vacate_spec g x y hd hp hs hp0
  rw [gamma_golden_move_eq, if_pos hv, gamma_try_golden_move_eq, hvac, Option.some_bind] at h
  split at h
  · rw [Option.map_eq_some'] at h
    obtain ⟨g1, hg1, e⟩ := h
    have e' : g1 = g' := by simpa using e
    subst e'
    exact gamma_make_golden_move_captured hd hs hp (hI.players q hq0 hqn) hq0 hqn
      (Ne.symm hpq) hcan V5 V g1 hg1
  · rw [Option.map_eq_some'] at h
    obtain ⟨g1, _, e⟩ := h
    simp at e

theorem IsComponentReps.unique {g : gamma_t} {s : Cell} {L : List Cell}
    (hL : IsComponentReps g s L) {r r' : Cell} (hr : r ∈ L) (hr' : r' ∈ L)
    (hp : Path (InPiece g s) r r') : r = r' := by
  by_contra hne
  have hsym : L.Pairwise fun a b =>
      ¬ Path (InPiece g s) a b ∧ ¬ Path (InPiece g s) b a := by
    refine List.Pairwise.imp_of_mem ?_ hL.2.1
    intro a b _ hb hab
    exact ⟨hab, fun hba => hab (hba.symm (hL.1 b hb))⟩
  exact (List.Pairwise.forall (fun a b hab => ⟨hab.2, hab.1⟩) hsym hr hr' hne).1 hp

theorem IsComponentReps.nodup {g : gamma_t} {s : Cell} {L : List Cell}
    (hL : IsComponentReps g s L) : L.Nodup := by
  refine List.Pairwise.imp ?_ hL.2.1
  intro a b hab e
  exact hab (e ▸ Relation.ReflTransGen.refl)

theorem IsComponentReps.length_le {g : gamma_t} {s : Cell} {L L' : List Cell}
    (hL : IsComponentReps g s L) (hL' : IsComponentReps g s L') : L.length ≤ L'.length := by
  have hc : ∀ r, r ∈ L → ∃ r', r' ∈ L' ∧ Path (InPiece g s) r' r :=
    fun r hr => hL'.2.2 r (hL.1 r hr)
  choose! f hf using hc
  rw [← List.toFinset_card_of_nodup hL.nodup, ← List.toFinset_card_of_nodup hL'.nodup]
  apply Finset.card_le_card_of_injOn f
  · intro r hr
    simp only [Finset.mem_coe, List.mem_toFinset] at hr ⊢
    exact (hf r hr).1
  · intro r1 h1 r2 h2 e
    simp only [Finset.mem_coe, List.mem_toFinset] at h1 h2
    have p1 := (hf r1 h1).2
    have p2 := (hf r2 h2).2
    rw [← e] at p2
    exact hL.unique h1 h2 ((p1.symm (hL'.1 _ (hf r1 h1).1)).trans p2)

/-- Any two ways of naming the components name equally many. -/
theorem IsComponentReps.length_eq {g : gamma_t} {s : Cell} {L L' : List Cell}
    (hL : IsComponentReps g s L) (hL' : IsComponentReps g s L') : L.length = L'.length :=
  Nat.le_antisymm (hL.length_le hL') (hL'.length_le hL)

theorem path_piece_of_rest {g : gamma_t} {x y : Nat} (h : RegionInv g (owner g (x, y)))
    {u v : Cell} (hu : InPiece g (x, y) u)
    (hp : Path (Rest g (owner g (x, y)) (x, y)) u v) : Path (InPiece g (x, y)) u v := by
  refine Path.restrict ?_ hp
  intro b hb hb'
  have hub : area g u = area g b :=
    h.path_same ⟨hu.1, hu.2.1⟩ (Path.mono (fun c hc => hc.1) hb)
  exact ⟨hb'.1.1, hb'.1.2, hub.symm.trans hu.2.2.1, hb'.2⟩

theorem path_rest_of_piece {g : gamma_t} {x y : Nat} {u v : Cell}
    (hp : Path (InPiece g (x, y)) u v) : Path (Rest g (owner g (x, y)) (x, y)) u v :=
  Path.mono (fun _ hb => ⟨⟨hb.1, hb.2.1⟩, hb.2.2.2⟩) hp

/-- The neighbours counted by the vacation name the components of the region
around the vacated cell. -/
theorem VacInv.isComponentReps {g g5 gm : gamma_t} {x y cnt : Nat} {reps : List Cell}
    (V : VacInv g x y g5 reps 4 (gm, cnt)) (h : RegionInv g (owner g (x, y)))
    (hs : inb g (x, y)) : IsComponentReps g (x, y) reps := by
  have hso : Own g (owner g (x, y)) (x, y) := ⟨hs, rfl⟩
  have hin : ∀ r, r ∈ reps → InPiece g (x, y) r := by
    intro r hr
    have hR := V.reps_rest hs hr
    exact ⟨hR.1.1, hR.1.2, marked_area h hso (V.reps_marked hr), hR.2⟩
  refine ⟨hin, ?_, ?_⟩
  · refine List.Pairwise.imp ?_ V.pairwise
    intro a b hab hp
    exact hab (path_rest_of_piece hp)
  · intro v hv
    obtain ⟨j, hj, hjv, hjo, hp⟩ :=
      marked_of_area h hso ⟨⟨hv.1, hv.2.1⟩, hv.2.2.2⟩ hv.2.2.1
    obtain ⟨r, hr, hpr⟩ := V.cover j hj hjv hjo
    exact ⟨r, hr, path_piece_of_rest h (hin r hr) (hpr.trans hp)⟩

theorem corner_game_3_reachable : Reachable corner_game_3 :=
  Reachable.move (b := true) (q := 1) (x := 1) (y := 0)
    (Reachable.move (b := true) (q := 2) (x := 3) (y := 3)
      (Reachable.move (b := true) (q := 1) (x := 0) (y := 0)
        (Reachable.new (w := 4) (h := 4) (p := 2) (a := 1)
          (by decide) (by decide) (by decide) (by decide) rfl)
        rfl)
      rfl)
    rfl

theorem row_game_3_reachable : Reachable row_game_3 :=
  Reachable.move (b := true) (q := 1) (x := 2) (y := 0)
    (Reachable.move (b := true) (q := 1) (x := 1) (y := 0)
      (Reachable.move (b := true) (q := 1) (x := 0) (y := 0)
        (Reachable.new (w := 3) (h := 1) (p := 2) (a := 1)
          (by decide) (by decide) (by decide) (by decide) rfl)
        rfl)
      rfl)
    rfl

theorem split_game_4_reachable : Reachable split_game_4 :=
  Reachable.move (b := true) (q := 1) (x := 0) (y := 2)
    (Reachable.move (b := true) (q := 1) (x := 2) (y := 0)
      (Reachable.move (b := true) (q := 1) (x := 1) (y := 0)
        (Reachable.move (b := true) (q := 1) (x := 0) (y := 0)
          (Reachable.new (w := 3) (h := 3) (p := 2) (a := 2)
            (by decide) (by decide) (by decide) (by decide) rfl)
          rfl)
        rfl)
      rfl)
    rfl

theorem split_game_5_eq : gamma_golden_move split_game_4 2 1 0 = some (false, split_game_5) :=
  rfl

theorem CursorsMoved.same (g : gamma_t) : CursorsMoved g g :=
  ⟨rfl, rfl, rfl, rfl, rfl, fun _ => rfl, fun _ => rfl, fun _ => rfl, fun _ => rfl,
    fun _ h => h⟩

theorem CursorsMoved.followed {g g' g'' : gamma_t} (h : CursorsMoved g g')
    (h' : CursorsMoved g' g'') : CursorsMoved g g'' := by
  refine ⟨h'.width.trans h.width, h'.height.trans h.height,
    h'.no_players.trans h.no_players, h'.max_no_areas.trans h.max_no_areas,
    h'.board.trans h.board, fun r => (h'.busy r).trans (h.busy r),
    fun r => (h'.count r).trans (h.count r), fun r => (h'.exist r).trans (h.exist r),
    fun r => (h'.golden r).trans (h.golden r), ?_⟩
  intro r hr
  have := h'.cursor_lt r (by rw [h.max_no_areas]; exact h.cursor_lt r hr)
  rw [h.max_no_areas] at this
  exact this

theorem CursorsMoved.of_set_cursor (g : gamma_t) (p f : Nat) (hf : f < g.max_no_areas) :
    CursorsMoved g (set_player_first_free_colour g p f) := by
  refine ⟨rfl, rfl, rfl, rfl, rfl, ?_, ?_, ?_, ?_, ?_⟩
  · intro r; simp only [set_player_first_free_colour, set_player_playerlist]; split <;> simp_all
  · intro r; simp only [set_player_first_free_colour, set_player_playerlist]; split <;> simp_all
  · intro r; simp only [set_player_first_free_colour, set_player_playerlist]; split <;> simp_all
  · intro r; simp only [set_player_first_free_colour, set_player_playerlist]; split <;> simp_all
  · intro r hr
    simp only [set_player_first_free_colour, set_player_playerlist]
    split
    · exact hf
    · exact hr

theorem CursorsMoved.owner_eq {g g' : gamma_t} (h : CursorsMoved g g') (v : Cell) :
    owner g' v = owner g v := by
  unfold owner; rw [h.board]

theorem CursorsMoved.area_eq {g g' : gamma_t} (h : CursorsMoved g g') (v : Cell) :
    area g' v = area g v := by
  unfold area; rw [h.board]

theorem CursorsMoved.inb_iff {g g' : gamma_t} (h : CursorsMoved g g') (v : Cell) :
    inb g' v ↔ inb g v := by
  unfold inb; rw [h.width, h.height]

theorem CursorsMoved.regionInv {g g' : gamma_t} (h : CursorsMoved g g') {p : Nat}
    (R : RegionInv g p) : RegionInv g' p := by
  have hown : ∀ v, Own g' p v ↔ Own g p v := by
    intro v; unfold Own; rw [h.inb_iff, h.owner_eq]
  refine ⟨?_, ?_, ?_, ?_, ?_⟩
  · rw [h.max_no_areas]; exact h.cursor_lt p R.cursor_lt
  · rw [h.exist, h.max_no_areas]; exact R.exist_lt
  · intro r
    rw [h.exist, R.exist_iff]
    constructor
    · rintro ⟨v, hv, hvr⟩; exact ⟨v, (hown v).2 hv, (h.area_eq v).trans hvr⟩
    · rintro ⟨v, hv, hvr⟩; exact ⟨v, (hown v).1 hv, (h.area_eq v).symm.trans hvr⟩
  · rw [h.count, R.areas_count, in_use_congr h.max_no_areas (fun r _ => by rw [h.exist])]
  · intro u v hu hv
    rw [h.area_eq, h.area_eq, R.region u v ((hown u).1 hu) ((hown v).1 hv)]
    exact ⟨Path.mono fun b hb => (hown b).2 hb, Path.mono fun b hb => (hown b).1 hb⟩

theorem CursorsMoved.boardInv {g g' : gamma_t} (h : CursorsMoved g g') (hI : BoardInv g) :
    BoardInv g' := by
  refine ⟨⟨?_, ?_, ?_, ?_, ?_, ?_, ?_, ?_⟩, ?_, ?_⟩
  · rw [h.width]; exact hI.dims.width_pos
  · rw [h.width]; exact hI.dims.width_lt
  · rw [h.height]; exact hI.dims.height_pos
  · rw [h.height]; exact hI.dims.height_lt
  · rw [h.no_players]; exact hI.dims.players_pos
  · rw [h.no_players]; exact hI.dims.players_lt
  · rw [h.max_no_areas]; exact hI.dims.areas_pos
  · rw [h.max_no_areas]; exact hI.dims.areas_lt
  · intro v hv
    rw [h.owner_eq, h.no_players]
    exact hI.owner_le v ((h.inb_iff v).1 hv)
  · intro p hp hpn
    exact h.regionInv (hI.players p hp (by rw [← h.no_players]; exact hpn))

theorem CursorsMoved.valid_input {g g' : gamma_t} (h : CursorsMoved g g') (q x y : Nat) :
    gamma_golden_move_valid_input g' q x y = gamma_golden_move_valid_input g q x y := by
  rw [Bool.eq_iff_iff, gamma_golden_move_valid_input_iff, gamma_golden_move_valid_input_iff,
    h.no_players, h.golden, h.count, h.max_no_areas, h.owner_eq, h.inb_iff]
  constructor
  · rintro ⟨h1, h2, hs, h4, h5⟩
    refine ⟨h1, h2, hs, ?_, h5⟩
    rw [are_nearby_congr h.width h.height hs (fun v _ => h.owner_eq v)] at h4
    exact h4
  · rintro ⟨h1, h2, hs, h4, h5⟩
    refine ⟨h1, h2, hs, ?_, h5⟩
    rw [are_nearby_congr h.width h.height hs (fun v _ => h.owner_eq v)]
    exact h4

theorem CursorsMoved.inPiece {g g' : gamma_t} (h : CursorsMoved g g') (s : Cell) :
    InPiece g' s = InPiece g s := by
  funext b
  unfold InPiece
  rw [h.owner_eq, h.owner_eq, h.area_eq, h.area_eq, propext (h.inb_iff b)]

theorem CursorsMoved.goldenFits {g g' : gamma_t} (h : CursorsMoved g g') (x y : Nat) :
    GoldenFits g' x y ↔ GoldenFits g x y := by
  unfold GoldenFits IsComponentReps
  rw [h.inPiece, h.owner_eq, h.count, h.max_no_areas]

/-- The simulation of a capture returns, moves at most the cursor of the owner
of the cell, and answers what `GoldenFits` says. -/
theorem gamma_try_golden_move_no_sideeffect_fits (g : gamma_t) (x y : Nat) (hd : Dims g)
    (hp : RegionInv g (owner g (x, y))) (hs : inb g (x, y)) (hp0 : owner g (x, y) ≠ 0) :
    ∃ b g', gamma_try_golden_move_no_sideeffect g x y = some (b, g') ∧ CursorsMoved g g' ∧
      (b = true ↔ GoldenFits g x y) := by
  obtain ⟨g5, gm, cnt, reps, f, _, V5, V, hres, hfl, _⟩ :=
    gamma_try_golden_move_no_sideeffect_spec g x y hd hp hs hp0
  have hreps := V.isComponentReps hp hs
  have hcnt : cnt = reps.length := V.count
  have hn := V5.count
  have hsum : (g5.playerlist (owner g (x, y))).no_areas_used + cnt =
      (g.playerlist (owner g (x, y))).no_areas_used - 1 + reps.length := by omega
  refine ⟨_, _, hres, CursorsMoved.of_set_cursor g _ f hfl, ?_⟩
  rw [decide_eq_true_iff, hsum]
  constructor
  · intro hle; exact ⟨reps, hreps, hle⟩
  · rintro ⟨L, hL, hle⟩
    rw [hreps.length_eq hL]; exact hle

/-- The scan of the board: it returns, moves at most cursors, and answers
whether some cell of the list passes the pre-check and the test. -/
theorem is_golden_move_makable_loop_moved (q : Nat) : ∀ (l : List (Nat × Nat)) (g : gamma_t),
    BoardInv g → ∃ b g', is_golden_move_makable_loop q l g = some (b, g') ∧
      CursorsMoved g g' ∧
      (b = true ↔ ∃ c, c ∈ l ∧ gamma_golden_move_valid_input g q c.1 c.2 = true ∧
        GoldenFits g c.1 c.2) := by
  intro l
  induction l with
  | nil =>
    intro g _
    exact ⟨false, g, rfl, CursorsMoved.same g, by simp⟩
  | cons c rest ih =>
    intro g hI
    obtain ⟨x, y⟩ := c
    unfold is_golden_move_makable_loop
    by_cases hv : gamma_golden_move_valid_input g q x y = true
    · rw [if_pos hv]
      obtain ⟨_, _, hs, _, hp0, _⟩ := (gamma_golden_move_valid_input_iff g q x y).1 hv
      obtain ⟨b0, g1, hres, hM, hb0⟩ := gamma_try_golden_move_no_sideeffect_fits g x y hI.dims
        (hI.players _ (Nat.pos_of_ne_zero hp0) (hI.owner_le _ hs)) hs hp0
      rw [hres, Option.some_bind]
      by_cases hb : b0 = true
      · rw [if_pos hb]
        refine ⟨true, g1, rfl, hM, ?_⟩
        simp only [true_iff]
        exact ⟨(x, y), List.mem_cons_self _ _, hv, hb0.1 hb⟩
      · rw [if_neg hb]
        obtain ⟨b, g', hg', hM', hb'⟩ := ih g1 (hM.boardInv hI)
        refine ⟨b, g', hg', hM.followed hM', ?_⟩
        rw [hb']
        constructor
        · rintro ⟨c, hc, h1, h2⟩
          exact ⟨c, List.mem_cons_of_mem _ hc, by rw [← hM.valid_input]; exact h1,
            (hM.goldenFits _ _).1 h2⟩
        · rintro ⟨c, hc, h1, h2⟩
          rcases List.mem_cons.1 hc with e | hc'
          · subst e; exact absurd (hb0.2 h2) hb
          · exact ⟨c, hc', by rw [hM.valid_input]; exact h1, (hM.goldenFits _ _).2 h2⟩
    · rw [if_neg hv]
      obtain ⟨b, g', hg', hM', hb'⟩ := ih g hI
      refine ⟨b, g', hg', hM', ?_⟩
      rw [hb']
      constructor
      · rintro ⟨c, hc, h1, h2⟩
        exact ⟨c, List.mem_cons_of_mem _ hc, h1, h2⟩
      · rintro ⟨c, hc, h1, h2⟩
        rcases List.mem_cons.1 hc with e | hc'
        · subst e; exact absurd h1 hv
        · exact ⟨c, hc', h1, h2⟩

/-- In a well-typed state that satisfies invariants 2 to 4,
`gamma_golden_possible` returns, moves at most cursors, and answers `true`
exactly when the player is valid, has its golden move left, another player has
a busy field, and some cell of the board passes the pre-check and the test of
the golden move. -/
theorem gamma_golden_possible_moved (g : gamma_t) (q : Nat) (hI : BoardInv g) :
    ∃ b g', gamma_golden_possible g q = some (b, g') ∧ CursorsMoved g g' ∧
      (b = true ↔ (0 < q ∧ q ≤ g.no_players) ∧ (g.playerlist q).golden_move_used = false ∧
        other_players_have_busy_fields g q = true ∧
        ∃ x y, x < g.width ∧ y < g.height ∧
          gamma_golden_move_valid_input g q x y = true ∧ GoldenFits g x y) := by
  unfold gamma_golden_possible
  by_cases hq : gamma_golden_possible_valid_input g q = true
  · rw [if_pos hq]
    have hq' : 0 < q ∧ q ≤ g.no_players := by
      simpa [gamma_golden_possible_valid_input, player_fit_the_range, get_no_players] using hq
    simp only [Bool.true_and]
    by_cases hfl : (!get_player_golden_move_used g q && other_players_have_busy_fields g q)
        = true
    · rw [if_pos hfl]
      simp only [Bool.and_eq_true, Bool.not_eq_true', get_player_golden_move_used] at hfl
      obtain ⟨b, g', hg', hM, hb⟩ := is_golden_move_makable_loop_moved q _ g hI
      refine ⟨b, g', hg', hM, ?_⟩
      rw [hb]
      constructor
      · rintro ⟨c, hc, h1, h2⟩
        simp only [List.mem_flatMap, List.mem_map, List.mem_range, get_width, get_height] at hc
        obtain ⟨a, ha, b', hb', rfl⟩ := hc
        exact ⟨hq', hfl.1, hfl.2, a, b', ha, hb', h1, h2⟩
      · rintro ⟨_, _, _, a, b', ha, hb', h1, h2⟩
        refine ⟨(a, b'), ?_, h1, h2⟩
        simp only [List.mem_flatMap, List.mem_map, List.mem_range, get_width, get_height]
        exact ⟨a, ha, b', hb', rfl⟩
    · rw [if_neg hfl]
      refine ⟨_, g, rfl, CursorsMoved.same g, ?_⟩
      simp only [Bool.and_eq_true, Bool.not_eq_true', get_player_golden_move_used,
        not_and, Bool.not_eq_true] at hfl
      constructor
      · intro hb
        simp only [Bool.and_eq_true, Bool.not_eq_true', get_player_golden_move_used] at hb
        exact absurd hb.2 (by rw [hfl hb.1]; simp)
      · rintro ⟨_, h2, h3, _⟩
        rw [hfl h2] at h3
        exact absurd h3 (by simp)
  · rw [if_neg hq]
    refine ⟨false, g, rfl, CursorsMoved.same g, ?_⟩
    constructor
    · intro h; exact absurd h (by simp)
    · rintro ⟨hq', _⟩
      exact absurd (by simpa [gamma_golden_possible_valid_input, player_fit_the_range,
        get_no_players] using hq') hq

/-! ## The contract of `gamma_move` -/

/-- In a well-typed state that satisfies invariants 2 to 4, `gamma_move`
returns, and what it returns is the outcome of its pre-check. -/
theorem gamma_move_returns (g : gamma_t) (hI : BoardInv g) (q x y : Nat) :
    ∃ g', gamma_move g q x y = some (gamma_move_valid_input g q x y, g') := by
  by_cases hv : gamma_move_valid_input g q x y = true
  · obtain ⟨⟨h1, h2⟩, _⟩ := (gamma_move_valid_input_iff g q x y).1 hv
    obtain ⟨g', hg', _⟩ := gamma_move_framed g q x y hI.dims (hI.players q h1 h2) hv
    exact ⟨g', by rw [hg', hv]⟩
  · refine ⟨g, ?_⟩
    simp only [Bool.not_eq_true] at hv
    simp [gamma_move, hv]

/-- C1. On every game state (a well-typed state that satisfies invariants 2
to 4 of the data model, as every state of a game does) and for all arguments,
`gamma_move` returns, and it returns `true` if and only if
`1 ≤ player ≤ no_players`, `x < width`, `y < height`, the cell `(x, y)` is
unowned, and the player has fewer than `max_no_areas` regions or owns a
4-neighbour of `(x, y)`. -/
theorem gamma_move_true_iff (g : gamma_t) (hI : BoardInv g) (player x y : Nat) :
    ∃ b g', gamma_move g player x y = some (b, g') ∧
      (b = true ↔
        1 ≤ player ∧ player ≤ g.no_players ∧ x < g.width ∧ y < g.height ∧
        owner g (x, y) = 0 ∧
        ((g.playerlist player).no_areas_used < g.max_no_areas ∨
          ∃ v, adj (x, y) v ∧ inb g v ∧ owner g v = player)) := by
  obtain ⟨g', hg'⟩ := gamma_move_returns g hI player x y
  refine ⟨_, g', hg', ?_⟩
  rw [gamma_move_valid_input_iff]
  constructor
  · rintro ⟨⟨h1, h2⟩, hs, ho, hcan⟩
    refine ⟨h1, h2, hs.1, hs.2, ho, ?_⟩
    rcases hcan with hn | hn
    · have := (hI.players player h1 h2).count_le
      exact Or.inl (by omega)
    · obtain ⟨i, hi, hio⟩ := neighbour_of_nearby hn
      exact Or.inr ⟨_, (valid_dir_adj hs hi).1, (valid_dir_adj hs hi).2, hio⟩
  · rintro ⟨h1, h2, hx, hy, ho, hcan⟩
    refine ⟨⟨h1, h2⟩, ⟨hx, hy⟩, ho, ?_⟩
    rcases hcan with hn | ⟨v, hv1, hv2, hv3⟩
    · exact Or.inl (by omega)
    · right
      by_contra hnear
      simp only [Bool.not_eq_true] at hnear
      exact no_neighbour_of_nearby hnear v hv1 hv2 hv3

/-- C1, on the 4x4 board of the specification: after P1 `(0,0)`, P2 `(3,3)`,
P1 `(1,0)`, the move of P1 to `(3,0)` returns `false`. -/
theorem gamma_move_true_iff_witness :
    BoardInv corner_game_3 ∧
    gamma_move corner_game_3 1 3 0 = some (false, corner_game_3) ∧
    ∃ b g', gamma_move corner_game_3 1 3 0 = some (b, g') ∧
      (b = true ↔
        1 ≤ 1 ∧ 1 ≤ corner_game_3.no_players ∧ 3 < corner_game_3.width ∧
        0 < corner_game_3.height ∧ owner corner_game_3 (3, 0) = 0 ∧
        ((corner_game_3.playerlist 1).no_areas_used < corner_game_3.max_no_areas ∨
          ∃ v, adj (3, 0) v ∧ inb corner_game_3 v ∧ owner corner_game_3 v = 1)) :=
  ⟨(inv_of_reachable corner_game_3_reachable).toBoardInv, rfl,
    gamma_move_true_iff corner_game_3 (inv_of_reachable corner_game_3_reachable).toBoardInv 1 3 0⟩

/-- C2. Whenever `gamma_move` returns `false`, the state it leaves is the state
it was called on. -/
theorem gamma_move_false_unchanged (g g' : gamma_t) (player x y : Nat)
    (h : gamma_move g player x y = some (false, g')) : g' = g := by
  unfold gamma_move at h
  split at h
  · rw [Option.map_eq_some'] at h
    obtain ⟨_, _, h2⟩ := h
    cases h2
  · cases h
    rfl

/-- C2 on the 4x4 board: the refused move of P1 to `(3,0)`. -/
theorem gamma_move_false_unchanged_witness :
    gamma_move corner_game_3 1 3 0 = some (false, corner_game_3) ∧
    corner_game_3 = corner_game_3 :=
  ⟨rfl, gamma_move_false_unchanged corner_game_3 corner_game_3 1 3 0 rfl⟩

/-! ## The contract of `gamma_golden_move` -/

/-- C3. On a well-typed state that satisfies invariants 2 to 4 of the data
model (so on every state that satisfies invariants 1 to 5), after a passed
pre-check, `gamma_golden_move` returns `true` if and only if
`no_areas_used[victim] - 1 + c ≤ max_no_areas`, where `victim` owns `(x, y)` and
`c` is the number of 4-connected components into which the region of `(x, y)`
falls when `(x, y)` is removed (the length of any list naming one cell per
component). -/
theorem gamma_golden_move_true_iff (g : gamma_t) (hI : BoardInv g) (p x y : Nat)
    (hv : gamma_golden_move_valid_input g p x y = true) (L : List Cell)
    (hL : IsComponentReps g (x, y) L) :
    (∃ g', gamma_golden_move g p x y = some (true, g')) ↔
      (g.playerlist (owner g (x, y))).no_areas_used - 1 + L.length ≤ g.max_no_areas := by
  obtain ⟨_, _, hs, _, hp0, _⟩ := (gamma_golden_move_valid_input_iff g p x y).1 hv
  have hvic : RegionInv g (owner g (x, y)) :=
    hI.players _ (Nat.pos_of_ne_zero hp0) (hI.owner_le _ hs)
  obtain ⟨g5, gm, cnt, reps, _, V5, V, h1, h2⟩ := gamma_try_golden_move_returns g p x y hI hv
  have hlen : cnt = L.length := by
    have e : cnt = reps.length := V.count
    rw [e]
    exact (V.isComponentReps hvic hs).length_eq hL
  have hcount := V5.count
  rw [gamma_golden_move_eq, if_pos hv]
  constructor
  · rintro ⟨g', hg'⟩
    by_contra hfit
    have hfit' : ¬ (g5.playerlist (owner g (x, y))).no_areas_used + cnt ≤ g.max_no_areas := by
      omega
    by_cases hwrap : ((g5.playerlist (owner g (x, y))).no_areas_used + cnt) % 4294967296
        ≤ g.max_no_areas
    · rw [(h2 hfit').1 hwrap] at hg'
      exact absurd hg' (by simp)
    · obtain ⟨f, hf, _⟩ := (h2 hfit').2 hwrap
      rw [hf] at hg'
      simp at hg'
  · intro hfit
    exact h1 (by omega)

theorem split_game_4_reps : IsComponentReps split_game_4 (0, 0) [(1, 0)] := by
  refine ⟨?_, List.pairwise_singleton _ _, ?_⟩
  · intro r hr
    rw [List.mem_singleton] at hr
    subst hr
    exact ⟨⟨by decide, by decide⟩, by decide, by decide, by decide⟩
  · rintro ⟨a, b⟩ ⟨⟨ha, hb⟩, h2, h3, h4⟩
    refine ⟨(1, 0), by simp, ?_⟩
    have ha' : a < 3 := ha
    have hb' : b < 3 := hb
    have h10 : InPiece split_game_4 (0, 0) (1, 0) :=
      ⟨⟨by decide, by decide⟩, by decide, by decide, by decide⟩
    have h20 : InPiece split_game_4 (0, 0) (2, 0) :=
      ⟨⟨by decide, by decide⟩, by decide, by decide, by decide⟩
    interval_cases a <;> interval_cases b
    · exact absurd rfl h4
    · exact absurd h2 (by decide)
    · exact absurd h3 (by decide)
    · exact Relation.ReflTransGen.refl
    · exact absurd h2 (by decide)
    · exact absurd h2 (by decide)
    · exact Path.single (by unfold adj; decide) h20
    · exact absurd h2 (by decide)
    · exact absurd h2 (by decide)

/-- C3 on the 3x3 board: P2 captures the end `(0,0)` of the row of P1, whose
region stays in one piece. -/
theorem gamma_golden_move_true_iff_witness :
    BoardInv split_game_4 ∧ gamma_golden_move_valid_input split_game_4 2 0 0 = true ∧
    IsComponentReps split_game_4 (0, 0) [(1, 0)] ∧
    ((∃ g', gamma_golden_move split_game_4 2 0 0 = some (true, g')) ↔
      (split_game_4.playerlist (owner split_game_4 (0, 0))).no_areas_used - 1
        + [((1, 0) : Cell)].length ≤ split_game_4.max_no_areas) :=
  ⟨(inv_of_reachable split_game_4_reachable).toBoardInv, by decide, split_game_4_reps,
    gamma_golden_move_true_iff split_game_4 (inv_of_reachable split_game_4_reachable).toBoardInv 2 0 0
      (by decide) [(1, 0)] split_game_4_reps⟩

/-- C4. On a well-typed state that satisfies invariants 2 to 4 of the data
model (so on every state that satisfies invariants 1 to 5), when
`gamma_golden_move` passes its pre-check and returns `false`, the board is as before (every cell
has its owner and its region id), every player's `no_busy_fields`,
`no_areas_used` and `does_area_exist` are as before, and the golden move of the
attacker is still unused. -/
theorem gamma_golden_move_rollback (g g' : gamma_t) (hI : BoardInv g) (p x y : Nat)
    (hv : gamma_golden_move_valid_input g p x y = true)
    (h : gamma_golden_move g p x y = some (false, g')) :
    g'.board = g.board ∧
    (∀ r, (g'.playerlist r).no_busy_fields = (g.playerlist r).no_busy_fields ∧
      (g'.playerlist r).no_areas_used = (g.playerlist r).no_areas_used ∧
      (g'.playerlist r).does_area_exist = (g.playerlist r).does_area_exist) ∧
    (g'.playerlist p).golden_move_used = false := by
  obtain ⟨_, hgold, _, _, _, _⟩ := (gamma_golden_move_valid_input_iff g p x y).1 hv
  obtain ⟨g5, gm, cnt, reps, _, _, _, h1, h2⟩ := gamma_try_golden_move_returns g p x y hI hv
  rw [gamma_golden_move_eq, if_pos hv] at h
  have key : ∃ f, g' = set_player_first_free_colour g (owner g (x, y)) f := by
    by_cases hfit : (g5.playerlist (owner g (x, y))).no_areas_used + cnt ≤ g.max_no_areas
    · obtain ⟨g'', hg''⟩ := h1 hfit
      rw [hg''] at h
      simp at h
    · by_cases hwrap : ((g5.playerlist (owner g (x, y))).no_areas_used + cnt) % 4294967296
          ≤ g.max_no_areas
      · rw [(h2 hfit).1 hwrap] at h
        exact absurd h (by simp)
      · obtain ⟨f, hf, _⟩ := (h2 hfit).2 hwrap
        rw [hf] at h
        cases h
        exact ⟨f, rfl⟩
  obtain ⟨f, rfl⟩ := key
  refine ⟨rfl, ?_, ?_⟩
  · intro r
    simp only [set_player_first_free_colour, set_player_playerlist]
    split
    · rename_i hr; subst hr; exact ⟨rfl, rfl, rfl⟩
    · exact ⟨rfl, rfl, rfl⟩
  · simp only [set_player_first_free_colour, set_player_playerlist]
    split
    · rename_i hr; rw [← hr]; exact hgold
    · exact hgold

/-- C4 on the 3x1 board: the victim may hold one region and its single region
would be split in two. -/
theorem gamma_golden_move_rollback_witness :
    BoardInv row_game_3 ∧ gamma_golden_move_valid_input row_game_3 2 1 0 = true ∧
    gamma_golden_move row_game_3 2 1 0
      = some (false, state_after (gamma_golden_move row_game_3 2 1 0) row_game_3) ∧
    ((state_after (gamma_golden_move row_game_3 2 1 0) row_game_3).board = row_game_3.board ∧
    (∀ r, ((state_after (gamma_golden_move row_game_3 2 1 0) row_game_3).playerlist r
          ).no_busy_fields = (row_game_3.playerlist r).no_busy_fields ∧
      ((state_after (gamma_golden_move row_game_3 2 1 0) row_game_3).playerlist r
          ).no_areas_used = (row_game_3.playerlist r).no_areas_used ∧
      ((state_after (gamma_golden_move row_game_3 2 1 0) row_game_3).playerlist r
          ).does_area_exist = (row_game_3.playerlist r).does_area_exist) ∧
    ((state_after (gamma_golden_move row_game_3 2 1 0) row_game_3).playerlist 2
      ).golden_move_used = false) :=
  ⟨(inv_of_reachable row_game_3_reachable).toBoardInv, by decide, rfl,
    gamma_golden_move_rollback row_game_3 _ (inv_of_reachable row_game_3_reachable).toBoardInv 2 1 0
      (by decide) rfl⟩

theorem set_cursor_twice (g : gamma_t) (p f f' : Nat) :
    set_player_first_free_colour (set_player_first_free_colour g p f) p f' =
      set_player_first_free_colour g p f' := by
  apply gamma_t.ext <;> try rfl
  funext j
  simp only [set_player_first_free_colour, set_player_playerlist]
  split <;> rfl

theorem golden_valid_input_set_cursor (g : gamma_t) (v f p x y : Nat) (hvp : v ≠ p) :
    gamma_golden_move_valid_input (set_player_first_free_colour g v f) p x y =
      gamma_golden_move_valid_input g p x y := by
  have e : (set_player_first_free_colour g v f).playerlist p = g.playerlist p := by
    simp [set_player_first_free_colour, Ne.symm hvp]
  rw [Bool.eq_iff_iff, gamma_golden_move_valid_input_iff, gamma_golden_move_valid_input_iff, e]
  exact Iff.rfl

/-- C5, refuted as stated: a golden move that fails can leave another state
than the one it was called on. On the 3x3 board, P1 holds both of its region
ids and its cursor is 1; after the failed golden move of P2 on `(1,0)` the
cursor of P1 is 0. -/
theorem gamma_golden_move_failure_not_identity :
    ¬ ∀ (g g' : gamma_t) (p x y : Nat), Reachable g →
      gamma_golden_move g p x y = some (false, g') → g' = g := by
  intro h
  have e := h split_game_4 split_game_5 2 1 0 split_game_4_reachable split_game_5_eq
  have e' : (split_game_5.playerlist 1).first_free_colour =
      (split_game_4.playerlist 1).first_free_colour := by rw [e]
  exact absurd e' (by decide)

/-- C5, amended. In every reachable state, when `gamma_golden_move` returns
`false`, the state it leaves equals the state it was called on except, at most,
for the `first_free_colour` cursor of the owner of `(x, y)`; and a second call
with the same arguments returns `false` again and leaves a state that equals
the state before both calls except, at most, for that cursor. -/
theorem gamma_golden_move_failure (g g1 : gamma_t) (hR : Reachable g) (p x y : Nat)
    (h : gamma_golden_move g p x y = some (false, g1)) :
    (∃ f, g1 = set_player_first_free_colour g (owner g (x, y)) f) ∧
    ∃ g2 f, gamma_golden_move g1 p x y = some (false, g2) ∧
      g2 = set_player_first_free_colour g (owner g (x, y)) f := by
  have hI := inv_of_reachable hR
  rw [gamma_golden_move_eq] at h
  by_cases hv : gamma_golden_move_valid_input g p x y = true
  · rw [if_pos hv] at h
    obtain ⟨_, _, hs, _, hp0, hpq⟩ := (gamma_golden_move_valid_input_iff g p x y).1 hv
    have hvic : RegionInv g (owner g (x, y)) :=
      (hI.players _ (Nat.pos_of_ne_zero hp0) (hI.owner_le _ hs)).toRInv.toRegionInv
    obtain ⟨g5, gm, cnt, reps, _, V5, V, h1, h2⟩ := gamma_try_golden_move_spec g p x y hI hv
    have hfit : ¬ (g5.playerlist (owner g (x, y))).no_areas_used + cnt ≤ g.max_no_areas := by
      intro hfit
      obtain ⟨g'', hg'', _⟩ := h1 hfit
      rw [hg''] at h
      simp at h
    have hwrap : ¬ ((g5.playerlist (owner g (x, y))).no_areas_used + cnt) % 4294967296
        ≤ g.max_no_areas := by
      intro hwrap
      rw [(h2 hfit).1 hwrap] at h
      exact absurd h (by simp)
    obtain ⟨f, hf, hfl, hff⟩ := (h2 hfit).2 hwrap
    rw [hf] at h
    cases h
    refine ⟨⟨f, rfl⟩, ?_⟩
    -- the second call
    have hI1 : Inv (set_player_first_free_colour g (owner g (x, y)) f) :=
      hI.set_cursor _ f (Nat.pos_of_ne_zero hp0) (hI.owner_le _ hs) hfl hff
    have hv1 : gamma_golden_move_valid_input
        (set_player_first_free_colour g (owner g (x, y)) f) p x y = true := by
      rw [golden_valid_input_set_cursor g _ f p x y hpq]; exact hv
    have hvic1 : RegionInv (set_player_first_free_colour g (owner g (x, y)) f)
        (owner g (x, y)) :=
      (hI1.players _ (Nat.pos_of_ne_zero hp0) (hI.owner_le _ hs)).toRInv.toRegionInv
    obtain ⟨g5', gm', cnt', reps', _, V5', V', _, h2'⟩ :=
      gamma_try_golden_move_spec _ p x y hI1 hv1
    have hreps : IsComponentReps g (x, y) reps' := V'.isComponentReps hvic1 hs
    have hcnt : cnt' = cnt := by
      have e : cnt = reps.length := V.count
      have e' : cnt' = reps'.length := V'.count
      rw [e, e']
      exact hreps.length_eq (V.isComponentReps hvic hs)
    have hn : (g5'.playerlist (owner g (x, y))).no_areas_used =
        (g5.playerlist (owner g (x, y))).no_areas_used := by
      have c := V5.count
      have c' : (g5'.playerlist (owner g (x, y))).no_areas_used + 1 =
          ((set_player_first_free_colour g (owner g (x, y)) f).playerlist
            (owner g (x, y))).no_areas_used := V5'.count
      simp only [set_player_first_free_colour, set_player_playerlist, if_true] at c'
      omega
    have hfit' : ¬ (g5'.playerlist (owner g (x, y))).no_areas_used + cnt' ≤ g.max_no_areas := by
      rw [hn, hcnt]; exact hfit
    have hwrap' : ¬ ((g5'.playerlist (owner g (x, y))).no_areas_used + cnt') % 4294967296
        ≤ g.max_no_areas := by
      rw [hn, hcnt]; exact hwrap
    obtain ⟨f', hf', _⟩ := (h2' hfit').2 hwrap'
    refine ⟨set_player_first_free_colour g (owner g (x, y)) f', f', ?_, rfl⟩
    rw [gamma_golden_move_eq, if_pos hv1, hf']
    exact congrArg (fun s => some (false, s)) (set_cursor_twice g (owner g (x, y)) f f')
  · rw [if_neg hv] at h
    cases h
    refine ⟨⟨_, (set_cursor_self g _).symm⟩, g, _, ?_, (set_cursor_self g _).symm⟩
    rw [gamma_golden_move_eq, if_neg hv]

/-- C5, amended, on the 3x3 board. -/
theorem gamma_golden_move_failure_witness :
    Reachable split_game_4 ∧
    gamma_golden_move split_game_4 2 1 0 = some (false, split_game_5) ∧
    ((∃ f, split_game_5 = set_player_first_free_colour split_game_4
        (owner split_game_4 (1, 0)) f) ∧
    ∃ g2 f, gamma_golden_move split_game_5 2 1 0 = some (false, g2) ∧
      g2 = set_player_first_free_colour split_game_4 (owner split_game_4 (1, 0)) f) :=
  ⟨split_game_4_reachable, split_game_5_eq,
    gamma_golden_move_failure split_game_4 split_game_5 split_game_4_reachable 2 1 0
      split_game_5_eq⟩

/-! ## The invariants in every reachable state -/

/-- C6. In every reachable state, two 4-adjacent cells of the board with the
same non-zero owner have the same region id. -/
theorem adjacent_cells_share_region (g : gamma_t) (hR : Reachable g) (u v : Cell)
    (hu : inb g u) (hv : inb g v) (ha : adj u v) (ho : owner g u = owner g v)
    (h0 : owner g u ≠ 0) : area g u = area g v :=
  ((inv_of_reachable hR).players _ (Nat.pos_of_ne_zero h0)
    ((inv_of_reachable hR).owner_le u hu)).toRInv.adj_area ⟨hu, rfl⟩ ⟨hv, ho.symm⟩ ha

/-- C6 on the 4x4 board: the two stones of P1. -/
theorem adjacent_cells_share_region_witness :
    Reachable corner_game_3 ∧ inb corner_game_3 (0, 0) ∧ inb corner_game_3 (1, 0) ∧
    adj (0, 0) (1, 0) ∧ owner corner_game_3 (0, 0) = owner corner_game_3 (1, 0) ∧
    owner corner_game_3 (0, 0) ≠ 0 ∧ area corner_game_3 (0, 0) = area corner_game_3 (1, 0) :=
  ⟨corner_game_3_reachable, ⟨by decide, by decide⟩, ⟨by decide, by decide⟩,
    by unfold adj; decide, by decide, by decide,
    adjacent_cells_share_region corner_game_3 corner_game_3_reachable (0, 0) (1, 0)
      ⟨by decide, by decide⟩ ⟨by decide, by decide⟩ (by unfold adj; decide) (by decide)
      (by decide)⟩

/-- C7. In every reachable state, two cells of the board with the same
non-zero owner and the same region id are joined by a walk of 4-adjacent cells
of that owner and that region id. -/
theorem region_cells_connected (g : gamma_t) (hR : Reachable g) (u v : Cell)
    (hu : inb g u) (hv : inb g v) (ho : owner g u = owner g v) (h0 : owner g u ≠ 0)
    (ha : area g u = area g v) :
    Path (fun b => inb g b ∧ owner g b = owner g u ∧ area g b = area g u) u v := by
  have h := ((inv_of_reachable hR).players _ (Nat.pos_of_ne_zero h0)
    ((inv_of_reachable hR).owner_le u hu)).toRInv
  have hp := (h.region u v ⟨hu, rfl⟩ ⟨hv, ho.symm⟩).1 ha
  refine Path.restrict ?_ hp
  intro b hb hb'
  exact ⟨hb'.1, hb'.2, (h.path_area ⟨hu, rfl⟩ hb).symm⟩

/-- C7 on the 4x4 board: the two stones of P1. -/
theorem region_cells_connected_witness :
    Reachable corner_game_3 ∧ inb corner_game_3 (0, 0) ∧ inb corner_game_3 (1, 0) ∧
    owner corner_game_3 (0, 0) = owner corner_game_3 (1, 0) ∧
    owner corner_game_3 (0, 0) ≠ 0 ∧ area corner_game_3 (0, 0) = area corner_game_3 (1, 0) ∧
    Path (fun b => inb corner_game_3 b ∧ owner corner_game_3 b = owner corner_game_3 (0, 0) ∧
      area corner_game_3 b = area corner_game_3 (0, 0)) (0, 0) (1, 0) :=
  ⟨corner_game_3_reachable, ⟨by decide, by decide⟩, ⟨by decide, by decide⟩, by decide,
    by decide, by decide,
    region_cells_connected corner_game_3 corner_game_3_reachable (0, 0) (1, 0)
      ⟨by decide, by decide⟩ ⟨by decide, by decide⟩ (by decide) (by decide) (by decide)⟩

/-- C8. In every reachable state and for every player `p`, `no_areas_used`
equals the number of ids marked `true` in `does_area_exist` (an array of
`max_no_areas` entries), and the ids marked are exactly the region ids carried
by the cells of `p` on the board. -/
theorem region_count_matches_table (g : gamma_t) (hR : Reachable g) (p : Nat)
    (hp1 : 1 ≤ p) (hp2 : p ≤ g.no_players) :
    (g.playerlist p).no_areas_used =
      ((Finset.range g.max_no_areas).filter
        fun r => (g.playerlist p).does_area_exist r = true).card ∧
    ∀ r, (r < g.max_no_areas ∧ (g.playerlist p).does_area_exist r = true) ↔
      ∃ v, inb g v ∧ owner g v = p ∧ area g v = r := by
  have h := (inv_of_reachable hR).players p hp1 hp2
  refine ⟨h.areas_count, fun r => ?_⟩
  constructor
  · rintro ⟨_, hr⟩
    obtain ⟨v, hv, hvr⟩ := (h.exist_iff r).1 hr
    exact ⟨v, hv.1, hv.2, hvr⟩
  · rintro ⟨v, hv1, hv2, hvr⟩
    have hr := (h.exist_iff r).2 ⟨v, ⟨hv1, hv2⟩, hvr⟩
    exact ⟨h.exist_lt r hr, hr⟩

/-- C8 on the 3x3 board, for P1. -/
theorem region_count_matches_table_witness :
    Reachable split_game_4 ∧ 1 ≤ 1 ∧ 1 ≤ split_game_4.no_players ∧
    ((split_game_4.playerlist 1).no_areas_used =
      ((Finset.range split_game_4.max_no_areas).filter
        fun r => (split_game_4.playerlist 1).does_area_exist r = true).card ∧
    ∀ r, (r < split_game_4.max_no_areas ∧ (split_game_4.playerlist 1).does_area_exist r = true) ↔
      ∃ v, inb split_game_4 v ∧ owner split_game_4 v = 1 ∧ area split_game_4 v = r) :=
  ⟨split_game_4_reachable, by decide, by decide,
    region_count_matches_table split_game_4 split_game_4_reachable 1 (by decide) (by decide)⟩

/-- C9. In every reachable state, every player's `no_areas_used` is at most
`max_no_areas`. -/
theorem region_count_le_max (g : gamma_t) (hR : Reachable g) (p : Nat)
    (hp1 : 1 ≤ p) (hp2 : p ≤ g.no_players) :
    (g.playerlist p).no_areas_used ≤ g.max_no_areas :=
  ((inv_of_reachable hR).players p hp1 hp2).toRInv.areas_le

/-- C9 on the 3x3 board, for P1, after the failed golden move. -/
theorem region_count_le_max_witness :
    Reachable split_game_5 ∧ 1 ≤ 1 ∧ 1 ≤ split_game_5.no_players ∧
    (split_game_5.playerlist 1).no_areas_used ≤ split_game_5.max_no_areas :=
  ⟨Reachable.golden_move split_game_4_reachable split_game_5_eq, by decide, by decide,
    region_count_le_max split_game_5
      (Reachable.golden_move split_game_4_reachable split_game_5_eq) 1 (by decide)
      (by decide)⟩

/-- C10. In every reachable state and for every player `p` in
`1..no_players`, `gamma_busy_fields g p` is the number of cells of the board
whose owner is `p`. -/
theorem busy_fields_counts_cells (g : gamma_t) (hR : Reachable g) (p : Nat)
    (hp1 : 1 ≤ p) (hp2 : p ≤ g.no_players) :
    gamma_busy_fields g p =
      ((Finset.range g.width ×ˢ Finset.range g.height).filter
        fun v => owner g v = p).card := by
  have h := ((inv_of_reachable hR).players p hp1 hp2).busy_count
  have hv : gamma_busy_fields_valid_input g p = true := by
    simp [gamma_busy_fields_valid_input, player_fit_the_range, get_no_players]
    omega
  unfold gamma_busy_fields
  rw [if_pos hv]
  exact h

/-- C10 on the 4x4 board, for P1. -/
theorem busy_fields_counts_cells_witness :
    Reachable corner_game_3 ∧ 1 ≤ 1 ∧ 1 ≤ corner_game_3.no_players ∧
    gamma_busy_fields corner_game_3 1 =
      ((Finset.range corner_game_3.width ×ˢ Finset.range corner_game_3.height).filter
        fun v => owner corner_game_3 v = 1).card :=
  ⟨corner_game_3_reachable, by decide, by decide,
    busy_fields_counts_cells corner_game_3 corner_game_3_reachable 1 (by decide) (by decide)⟩

theorem Inv.toSpecInv {g : gamma_t} (h : Inv g) : SpecInv g :=
  ⟨h.toBoardInv, h.empty_area, fun p hp hpn => (h.players p hp hpn).busy_count⟩

theorem split_game_3_reachable : Reachable split_game_3 :=
  Reachable.move (b := true) (q := 1) (x := 2) (y := 0)
    (Reachable.move (b := true) (q := 1) (x := 1) (y := 0)
      (Reachable.move (b := true) (q := 1) (x := 0) (y := 0)
        (Reachable.new (w := 3) (h := 3) (p := 2) (a := 2) (by decide) (by decide)
          (by decide) (by decide) rfl) rfl) rfl) rfl

theorem split_game_4_eq : gamma_move split_game_3 1 0 2 = some (true, split_game_4) := rfl

theorem split_game_6_eq : gamma_move split_game_4 1 0 1 = some (true, split_game_6) := rfl

theorem split_game_3_lonely :
    ∀ v, adj (0, 2) v → inb split_game_3 v → owner split_game_3 v ≠ 1 := by
  rintro ⟨a, b⟩ hadj ⟨ha, hb⟩ ho
  have ha' : a < 3 := ha
  have hb' : b < 3 := hb
  interval_cases a <;> interval_cases b <;>
    first
      | exact absurd ho (by decide)
      | (unfold adj at hadj; simp at hadj)

theorem split_game_4_touched (r : Nat) :
    r ∈ ({0, 1} : Finset Nat) ↔
      ∃ v, adj (0, 1) v ∧ inb split_game_4 v ∧ owner split_game_4 v = 1 ∧
        area split_game_4 v = r := by
  constructor
  · intro hr
    simp only [Finset.mem_insert, Finset.mem_singleton] at hr
    rcases hr with rfl | rfl
    · exact ⟨(0, 0), by unfold adj; decide, ⟨by decide, by decide⟩, by decide, by decide⟩
    · exact ⟨(0, 2), by unfold adj; decide, ⟨by decide, by decide⟩, by decide, by decide⟩
  · rintro ⟨⟨a, b⟩, hadj, ⟨ha, hb⟩, ho, hr⟩
    have ha' : a < 3 := ha
    have hb' : b < 3 := hb
    subst hr
    interval_cases a <;> interval_cases b <;> decide

/-! ## The cells between two operations -/

/-- C11. After every public operation (`gamma_move`, `gamma_golden_move`,
`gamma_golden_possible`, whatever it returns) on a reachable state, no cell of
the board carries `TRANSPARENT`, every unowned cell has region id 0, and every
owned cell has a region id below `max_no_areas` that is marked in use for its
owner. -/
theorem cells_clean_after_operation (g g' : gamma_t) (hR : Reachable g) (p x y : Nat)
    (b : Bool)
    (hop : gamma_move g p x y = some (b, g') ∨ gamma_golden_move g p x y = some (b, g') ∨
      gamma_golden_possible g p = some (b, g')) :
    ∀ v, inb g' v → area g' v ≠ TRANSPARENT ∧ (owner g' v = 0 → area g' v = 0) ∧
      (owner g' v ≠ 0 → area g' v < g'.max_no_areas ∧
        (g'.playerlist (owner g' v)).does_area_exist (area g' v) = true) := by
  have hR' : Reachable g' := by
    rcases hop with h | h | h
    · exact Reachable.move hR h
    · exact Reachable.golden_move hR h
    · exact Reachable.golden_possible hR h
  have hI := inv_of_reachable hR'
  intro v hv
  have hmax := hI.dims.areas_lt
  have hown : owner g' v ≠ 0 → area g' v < g'.max_no_areas ∧
      (g'.playerlist (owner g' v)).does_area_exist (area g' v) = true := by
    intro ho
    have h := (hI.players _ (Nat.pos_of_ne_zero ho) (hI.owner_le v hv)).toRInv
    exact ⟨h.area_lt ⟨hv, rfl⟩, (h.exist_iff _).2 ⟨v, ⟨hv, rfl⟩, rfl⟩⟩
  refine ⟨?_, hI.empty_area v hv, hown⟩
  by_cases ho : owner g' v = 0
  · rw [hI.empty_area v hv ho]; unfold TRANSPARENT; omega
  · have := (hown ho).1
    unfold TRANSPARENT; omega

/-- C11 on the 4x4 board, after the refused move of P1 to `(3,0)`. -/
theorem cells_clean_after_operation_witness :
    Reachable corner_game_3 ∧
    (gamma_move corner_game_3 1 3 0 = some (false, corner_game_3) ∨
      gamma_golden_move corner_game_3 1 3 0 = some (false, corner_game_3) ∨
      gamma_golden_possible corner_game_3 1 = some (false, corner_game_3)) ∧
    ∀ v, inb corner_game_3 v → area corner_game_3 v ≠ TRANSPARENT ∧
      (owner corner_game_3 v = 0 → area corner_game_3 v = 0) ∧
      (owner corner_game_3 v ≠ 0 → area corner_game_3 v < corner_game_3.max_no_areas ∧
        (corner_game_3.playerlist (owner corner_game_3 v)).does_area_exist
          (area corner_game_3 v) = true) :=
  ⟨corner_game_3_reachable, Or.inl rfl,
    cells_clean_after_operation corner_game_3 corner_game_3 corner_game_3_reachable 1 3 0
      false (Or.inl rfl)⟩

/-! ## What a successful `gamma_move` changes -/

/-- C12. On a well-typed state that satisfies invariants 1 to 5, whenever
`gamma_move g p x y` returns `true`, afterwards `(x, y)` is owned by `p`, every
other cell has its owner, `no_busy_fields` of `p` has grown by exactly 1, no
golden flag has changed, the record of every other player is unchanged, and so
is the region id of every cell that `p` does not own. -/
theorem gamma_move_true_frame (g g' : gamma_t) (hI : SpecInv g) (p x y : Nat)
    (h : gamma_move g p x y = some (true, g')) :
    owner g' (x, y) = p ∧ (∀ v, v ≠ (x, y) → owner g' v = owner g v) ∧
    (g'.playerlist p).no_busy_fields = (g.playerlist p).no_busy_fields + 1 ∧
    (∀ r, (g'.playerlist r).golden_move_used = (g.playerlist r).golden_move_used) ∧
    (∀ r, r ≠ p → g'.playerlist r = g.playerlist r) ∧
    (∀ v, owner g' v ≠ p → area g' v = area g v) := by
  have hv : gamma_move_valid_input g p x y = true := by
    by_contra hv
    simp only [Bool.not_eq_true] at hv
    simp [gamma_move, hv] at h
  obtain ⟨⟨hp0, hpn⟩, hs, hown, _⟩ := (gamma_move_valid_input_iff g p x y).1 hv
  obtain ⟨g1, hg1, hcase⟩ := gamma_move_cases g p x y hI.dims (hI.players p hp0 hpn) hv
  rw [hg1] at h
  have e : increase_player_no_busy_fields g1 p = g' := by simpa using h
  subst e
  -- what both cases share
  have key : (∀ v, owner g1 v = if v = (x, y) then p else owner g v) ∧
      (∀ v, v ≠ (x, y) → owner g v ≠ p → area g1 v = area g v) ∧
      (∀ r, r ≠ p → g1.playerlist r = g.playerlist r) ∧
      (g1.playerlist p).golden_move_used = (g.playerlist p).golden_move_used ∧
      (g1.playerlist p).no_busy_fields = (g.playerlist p).no_busy_fields := by
    rcases hcase with ⟨_, N⟩ | ⟨c, _, M⟩
    · exact ⟨N.frame.owners, N.frame.area_other, N.frame.players_other, N.golden, N.busy⟩
    · exact ⟨M.owners, fun v hv hvo => M.area_keep v hv (fun hh => hvo hh.1.2),
        M.players_other, M.golden, M.busy⟩
  obtain ⟨k1, k2, k3, k4, k5⟩ := key
  have hbusy := hI.busy_count p hp0 hpn
  have hcard := owned_card_le g p
  have hbd := board_lt_of_dims hI.dims
  refine ⟨?_, ?_, ?_, ?_, ?_, ?_⟩
  · simp only [increase_player_no_busy_fields, owner_set_player]
    rw [k1, if_pos rfl]
  · intro v hvs
    simp only [increase_player_no_busy_fields, owner_set_player]
    rw [k1, if_neg hvs]
  · simp only [increase_player_no_busy_fields, set_player_playerlist, if_true]
    rw [k5]
    have hnot : (x, y) ∉ owned g p := by
      rw [mem_owned]; intro hh; have := hh.2; omega
    have hlt : (owned g p).card < g.width * g.height := by
      have hsub : insert (x, y) (owned g p) ⊆ cells g := by
        intro v hv
        rcases Finset.mem_insert.1 hv with e | hv'
        · rw [e]; simp only [cells, Finset.mem_product, Finset.mem_range]; exact hs
        · exact (Finset.mem_filter.1 hv').1
      have := Finset.card_le_card hsub
      rw [Finset.card_insert_of_not_mem hnot] at this
      simp only [cells, Finset.card_product, Finset.card_range] at this
      omega
    omega
  · intro r
    by_cases hr : r = p
    · subst hr
      simp only [increase_player_no_busy_fields, set_player_playerlist, if_true]
      exact k4
    · simp only [increase_player_no_busy_fields, set_player_playerlist, if_neg hr]
      rw [k3 r hr]
  · intro r hr
    simp only [increase_player_no_busy_fields, set_player_playerlist, if_neg hr]
    exact k3 r hr
  · intro v hvo
    simp only [increase_player_no_busy_fields, owner_set_player, area_set_player] at hvo ⊢
    rw [k1] at hvo
    by_cases hvs : v = (x, y)
    · rw [if_pos hvs] at hvo; exact absurd rfl hvo
    · rw [if_neg hvs] at hvo
      exact k2 v hvs hvo

/-- C12 on the 3x3 board: the fourth stone of P1, on `(0, 2)`. -/
theorem gamma_move_true_frame_witness :
    SpecInv split_game_3 ∧ gamma_move split_game_3 1 0 2 = some (true, split_game_4) ∧
    (owner split_game_4 (0, 2) = 1 ∧
    (∀ v, v ≠ (0, 2) → owner split_game_4 v = owner split_game_3 v) ∧
    (split_game_4.playerlist 1).no_busy_fields = (split_game_3.playerlist 1).no_busy_fields + 1 ∧
    (∀ r, (split_game_4.playerlist r).golden_move_used =
      (split_game_3.playerlist r).golden_move_used) ∧
    (∀ r, r ≠ 1 → split_game_4.playerlist r = split_game_3.playerlist r) ∧
    (∀ v, owner split_game_4 v ≠ 1 → area split_game_4 v = area split_game_3 v)) :=
  ⟨(inv_of_reachable split_game_3_reachable).toSpecInv, split_game_4_eq,
    gamma_move_true_frame split_game_3 split_game_4
      (inv_of_reachable split_game_3_reachable).toSpecInv 1 0 2 split_game_4_eq⟩

/-- C13. For every reachable state, when `gamma_move g p x y` succeeds and no
4-neighbour of `(x, y)` is owned by `p`, the new cell receives a region id that
was not marked in use for `p` before the call, that id is marked in use
afterwards, `no_areas_used` of `p` grows by exactly 1, and the region ids of
all other cells are unchanged. -/
theorem gamma_move_new_region (g g' : gamma_t) (hR : Reachable g) (p x y : Nat)
    (h : gamma_move g p x y = some (true, g'))
    (hnb : ∀ v, adj (x, y) v → inb g v → owner g v ≠ p) :
    (g.playerlist p).does_area_exist (area g' (x, y)) = false ∧
    (g'.playerlist p).does_area_exist (area g' (x, y)) = true ∧
    (g'.playerlist p).no_areas_used = (g.playerlist p).no_areas_used + 1 ∧
    (∀ v, v ≠ (x, y) → area g' v = area g v) := by
  have hI := inv_of_reachable hR
  have hv : gamma_move_valid_input g p x y = true := by
    by_contra hv
    simp only [Bool.not_eq_true] at hv
    simp [gamma_move, hv] at h
  obtain ⟨⟨hp0, hpn⟩, hs, hown, hcan⟩ := (gamma_move_valid_input_iff g p x y).1 hv
  have hP := (hI.players p hp0 hpn).toRInv
  obtain ⟨g1, hg1, hcase⟩ := gamma_move_cases g p x y hI.dims hP.toRegionInv hv
  rw [hg1] at h
  have e : increase_player_no_busy_fields g1 p = g' := by simpa using h
  subst e
  rcases hcase with ⟨_, N⟩ | ⟨c, ⟨b, hb1, hb2, _⟩, _⟩
  · have hn : (g.playerlist p).no_areas_used < g.max_no_areas := by
      rcases hcan with hn | hn
      · have := hP.areas_le; omega
      · obtain ⟨i, hi, hio⟩ := neighbour_of_nearby hn
        exact absurd hio (hnb _ (valid_dir_adj hs hi).1 (valid_dir_adj hs hi).2)
    have harea : area (increase_player_no_busy_fields g1 p) (x, y) =
        (g.playerlist p).first_free_colour := by
      simp only [increase_player_no_busy_fields, area_set_player]
      rw [N.areas, if_pos rfl]
    rw [harea]
    refine ⟨hP.cursor_free hn, ?_, ?_, ?_⟩
    · simp only [increase_player_no_busy_fields, set_player_playerlist, if_true]
      rw [N.exist, if_pos rfl]
    · simp only [increase_player_no_busy_fields, set_player_playerlist, if_true]
      exact N.count
    · intro v hvs
      simp only [increase_player_no_busy_fields, area_set_player]
      rw [N.areas, if_neg hvs]
  · exact absurd hb2.2 (hnb b hb1 hb2.1)

/-- C13 on the 3x3 board: the stone of P1 on `(0, 2)`, away from its row. -/
theorem gamma_move_new_region_witness :
    Reachable split_game_3 ∧ gamma_move split_game_3 1 0 2 = some (true, split_game_4) ∧
    (∀ v, adj (0, 2) v → inb split_game_3 v → owner split_game_3 v ≠ 1) ∧
    ((split_game_3.playerlist 1).does_area_exist (area split_game_4 (0, 2)) = false ∧
    (split_game_4.playerlist 1).does_area_exist (area split_game_4 (0, 2)) = true ∧
    (split_game_4.playerlist 1).no_areas_used = (split_game_3.playerlist 1).no_areas_used + 1 ∧
    (∀ v, v ≠ (0, 2) → area split_game_4 v = area split_game_3 v)) :=
  ⟨split_game_3_reachable, split_game_4_eq, split_game_3_lonely,
    gamma_move_new_region split_game_3 split_game_4 split_game_3_reachable 1 0 2
      split_game_4_eq split_game_3_lonely⟩

/-- C14. On a well-typed state that satisfies invariants 2 to 4 (so on every
state that satisfies invariants 1 to 5), when `gamma_move g p x y` succeeds and
the 4-neighbours of `(x, y)` owned by `p` carry the `k ≥ 1` distinct region ids
of the set `T`, then afterwards `no_areas_used` of `p` has decreased by exactly
`k - 1`, the new cell and every cell of a touched region carry one region id
`c`, which is in `T` and still marked in use, the other ids of `T` are no
longer marked in use, and the cells of the untouched regions of `p` keep their
ids. -/
theorem gamma_move_merge (g g' : gamma_t) (hI : BoardInv g) (p x y : Nat)
    (h : gamma_move g p x y = some (true, g')) (T : Finset Nat)
    (hT : ∀ r, r ∈ T ↔ ∃ v, adj (x, y) v ∧ inb g v ∧ owner g v = p ∧ area g v = r)
    (hk : 1 ≤ T.card) :
    (g'.playerlist p).no_areas_used + (T.card - 1) = (g.playerlist p).no_areas_used ∧
    ∃ c, c ∈ T ∧ area g' (x, y) = c ∧ (g'.playerlist p).does_area_exist c = true ∧
      (∀ v, inb g v → owner g v = p → area g v ∈ T → area g' v = c) ∧
      (∀ r, r ∈ T → r ≠ c → (g'.playerlist p).does_area_exist r = false) ∧
      (∀ v, inb g v → owner g v = p → area g v ∉ T → area g' v = area g v) := by
  have hv : gamma_move_valid_input g p x y = true := by
    by_contra hv
    simp only [Bool.not_eq_true] at hv
    simp [gamma_move, hv] at h
  obtain ⟨⟨hp0, hpn⟩, hs, hown, _⟩ := (gamma_move_valid_input_iff g p x y).1 hv
  have hP := hI.players p hp0 hpn
  obtain ⟨g1, hg1, hcase⟩ := gamma_move_cases g p x y hI.dims hP hv
  rw [hg1] at h
  have e : increase_player_no_busy_fields g1 p = g' := by simpa using h
  subst e
  obtain ⟨r0, hr0⟩ := Finset.card_pos.1 hk
  rcases hcase with ⟨hlone, _⟩ | ⟨c, ⟨b, hb1, hb2, hb3⟩, M⟩
  · obtain ⟨v, hv1, hv2, hv3, _⟩ := (hT r0).1 hr0
    exact absurd hv3 (hlone v hv1 hv2)
  have hcT : c ∈ T := (hT c).2 ⟨b, hb1, hb2.1, hb2.2, hb3⟩
  have hA : ∀ a, absorbed g p x y c 4 a ↔ a ∈ T.erase c := by
    intro a
    rw [absorbed_four hs, Finset.mem_erase, hT]
    constructor
    · rintro ⟨h1, v, hv1, hv2, hv3⟩; exact ⟨h1, v, hv1, hv2.1, hv2.2, hv3⟩
    · rintro ⟨h1, v, hv1, hv2, hv3, hv4⟩; exact ⟨h1, v, hv1, ⟨hv2, hv3⟩, hv4⟩
  have hne : ∀ v, inb g v → owner g v = p → v ≠ (x, y) := by
    intro v _ hvo e; rw [e] at hvo; omega
  have hTin : T ⊆ in_use g p := by
    intro r hr
    obtain ⟨v, _, hv2, hv3, hv4⟩ := (hT r).1 hr
    rw [mem_in_use]
    exact ⟨hv4 ▸ hP.area_below ⟨hv2, hv3⟩, (hP.exist_iff r).2 ⟨v, ⟨hv2, hv3⟩, hv4⟩⟩
  have hin : in_use g1 p = in_use g p \ T.erase c := by
    ext r
    rw [Finset.mem_sdiff, mem_in_use, mem_in_use, M.max_no_areas, M.exist, hA]
    tauto
  refine ⟨?_, c, hcT, ?_, ?_, ?_, ?_, ?_⟩
  · simp only [increase_player_no_busy_fields, set_player_playerlist, if_true]
    rw [M.count, hin, hP.areas_count]
    have hsub : T.erase c ⊆ in_use g p := fun r hr => hTin (Finset.mem_of_mem_erase hr)
    rw [Finset.card_sdiff hsub, Finset.card_erase_of_mem hcT]
    have := Finset.card_le_card hsub
    rw [Finset.card_erase_of_mem hcT] at this
    omega
  · simp only [increase_player_no_busy_fields, area_set_player]
    exact M.area_s
  · simp only [increase_player_no_busy_fields, set_player_playerlist, if_true]
    rw [M.exist, hA]
    exact ⟨(mem_in_use.1 (hTin hcT)).2, by simp⟩
  · intro v hv1 hv2 hv3
    simp only [increase_player_no_busy_fields, area_set_player]
    by_cases hvc : area g v = c
    · rw [M.area_keep v (hne v hv1 hv2) (fun hh => ((hA _).1 hh.2 |> Finset.ne_of_mem_erase) hvc)]
      exact hvc
    · exact M.area_abs v ⟨hv1, hv2⟩ ((hA _).2 (Finset.mem_erase.2 ⟨hvc, hv3⟩))
  · intro r hr hrc
    simp only [increase_player_no_busy_fields, set_player_playerlist, if_true]
    have : ¬ ((g1.playerlist p).does_area_exist r = true) := by
      rw [M.exist, hA]
      exact fun hh => hh.2 (Finset.mem_erase.2 ⟨hrc, hr⟩)
    simpa using this
  · intro v hv1 hv2 hv3
    simp only [increase_player_no_busy_fields, area_set_player]
    exact M.area_keep v (hne v hv1 hv2)
      (fun hh => hv3 (Finset.mem_of_mem_erase ((hA _).1 hh.2)))

/-- C14 on the 3x3 board: the stone of P1 on `(0, 1)` joins its two regions. -/
theorem gamma_move_merge_witness :
    BoardInv split_game_4 ∧ gamma_move split_game_4 1 0 1 = some (true, split_game_6) ∧
    (∀ r, r ∈ ({0, 1} : Finset Nat) ↔
      ∃ v, adj (0, 1) v ∧ inb split_game_4 v ∧ owner split_game_4 v = 1 ∧
        area split_game_4 v = r) ∧
    1 ≤ ({0, 1} : Finset Nat).card ∧
    ((split_game_6.playerlist 1).no_areas_used + (({0, 1} : Finset Nat).card - 1) =
      (split_game_4.playerlist 1).no_areas_used ∧
    ∃ c, c ∈ ({0, 1} : Finset Nat) ∧ area split_game_6 (0, 1) = c ∧
      (split_game_6.playerlist 1).does_area_exist c = true ∧
      (∀ v, inb split_game_4 v → owner split_game_4 v = 1 →
        area split_game_4 v ∈ ({0, 1} : Finset Nat) → area split_game_6 v = c) ∧
      (∀ r, r ∈ ({0, 1} : Finset Nat) → r ≠ c →
        (split_game_6.playerlist 1).does_area_exist r = false) ∧
      (∀ v, inb split_game_4 v → owner split_game_4 v = 1 →
        area split_game_4 v ∉ ({0, 1} : Finset Nat) → area split_game_6 v = area split_game_4 v)) :=
  ⟨(inv_of_reachable split_game_4_reachable).toBoardInv, split_game_6_eq,
    split_game_4_touched, by decide,
    gamma_move_merge split_game_4 split_game_6
      (inv_of_reachable split_game_4_reachable).toBoardInv 1 0 1 split_game_6_eq {0, 1}
      split_game_4_touched (by decide)⟩

theorem split_game_7_eq : gamma_golden_move split_game_4 2 0 0 = some (true, split_game_7) :=
  rfl

theorem split_game_7_reachable : Reachable split_game_7 :=
  Reachable.golden_move split_game_4_reachable split_game_7_eq

/-! ## What a successful `gamma_golden_move` changes -/

/-- C15. On a well-typed state that satisfies invariants 1 to 5, whenever
`gamma_golden_move g p x y` returns `true`, afterwards `(x, y)` is owned by `p`,
every other cell has its owner, `no_busy_fields` of the previous owner has
decreased by exactly 1, `no_busy_fields` of `p` has increased by exactly 1,
`golden_move_used` of `p` is `true`, and no other player's golden flag or busy
fields have changed. -/
theorem gamma_golden_move_true_frame (g g' : gamma_t) (hI : SpecInv g) (p x y : Nat)
    (h : gamma_golden_move g p x y = some (true, g')) :
    owner g' (x, y) = p ∧ (∀ v, v ≠ (x, y) → owner g' v = owner g v) ∧
    (g'.playerlist (owner g (x, y))).no_busy_fields + 1 =
      (g.playerlist (owner g (x, y))).no_busy_fields ∧
    (g'.playerlist p).no_busy_fields = (g.playerlist p).no_busy_fields + 1 ∧
    (g'.playerlist p).golden_move_used = true ∧
    (∀ r, r ≠ p → (g'.playerlist r).golden_move_used = (g.playerlist r).golden_move_used) ∧
    (∀ r, r ≠ p → r ≠ owner g (x, y) →
      (g'.playerlist r).no_busy_fields = (g.playerlist r).no_busy_fields) := by
  have hv := gamma_golden_move_true_valid h
  obtain ⟨⟨hq0, hqn⟩, _, hs, _, hp0, hpq⟩ := (gamma_golden_move_valid_input_iff g p x y).1 hv
  have C := gamma_golden_move_captured hI.toBoardInv h
  have hbd := board_lt_of_dims hI.dims
  have hvic := hI.busy_count _ (Nat.pos_of_ne_zero hp0) (hI.owner_le _ hs)
  have hatt := hI.busy_count p hq0 hqn
  have hvpos : 0 < (owned g (owner g (x, y))).card :=
    Finset.card_pos.2 ⟨(x, y), mem_owned.2 ⟨hs, rfl⟩⟩
  have hvle := owned_card_le g (owner g (x, y))
  have halt : (owned g p).card < g.width * g.height := by
    have hnot : (x, y) ∉ owned g p := by
      rw [mem_owned]; intro hh; exact hpq hh.2
    have hsub : insert (x, y) (owned g p) ⊆ cells g := by
      intro v hv
      rcases Finset.mem_insert.1 hv with e | hv'
      · rw [e]; simp only [cells, Finset.mem_product, Finset.mem_range]; exact hs
      · exact (Finset.mem_filter.1 hv').1
    have := Finset.card_le_card hsub
    rw [Finset.card_insert_of_not_mem hnot] at this
    simp only [cells, Finset.card_product, Finset.card_range] at this
    omega
  refine ⟨?_, ?_, ?_, ?_, C.golden_attacker, C.golden_other, C.busy_other⟩
  · rw [C.owners, if_pos rfl]
  · intro v hvs; rw [C.owners, if_neg hvs]
  · rw [C.busy_victim]; omega
  · rw [C.busy_attacker]; omega

/-- C15 on the 3x3 board: P2 captures `(0, 0)` from P1. -/
theorem gamma_golden_move_true_frame_witness :
    SpecInv split_game_4 ∧ gamma_golden_move split_game_4 2 0 0 = some (true, split_game_7) ∧
    (owner split_game_7 (0, 0) = 2 ∧
    (∀ v, v ≠ (0, 0) → owner split_game_7 v = owner split_game_4 v) ∧
    (split_game_7.playerlist (owner split_game_4 (0, 0))).no_busy_fields + 1 =
      (split_game_4.playerlist (owner split_game_4 (0, 0))).no_busy_fields ∧
    (split_game_7.playerlist 2).no_busy_fields = (split_game_4.playerlist 2).no_busy_fields + 1 ∧
    (split_game_7.playerlist 2).golden_move_used = true ∧
    (∀ r, r ≠ 2 → (split_game_7.playerlist r).golden_move_used =
      (split_game_4.playerlist r).golden_move_used) ∧
    (∀ r, r ≠ 2 → r ≠ owner split_game_4 (0, 0) →
      (split_game_7.playerlist r).no_busy_fields = (split_game_4.playerlist r).no_busy_fields)) :=
  ⟨(inv_of_reachable split_game_4_reachable).toSpecInv, split_game_7_eq,
    gamma_golden_move_true_frame split_game_4 split_game_7
      (inv_of_reachable split_game_4_reachable).toSpecInv 2 0 0 split_game_7_eq⟩

/-! ## The golden move is one-shot -/

/-- C16. The golden move is one-shot. In a game state (well-typed, invariants
2 to 4) in which `golden_move_used` of `p` is `true`, no operation, of any
player and with any arguments, leaves a state in which it is `false`; and (in
any state at all in which the flag is `true`) `gamma_golden_move g p x y`
returns `false` for all `x`, `y`, and `gamma_golden_possible g p` returns
`false`, both leaving the state as it is. -/
theorem golden_flag_one_shot (g : gamma_t) (p : Nat)
    (hused : (g.playerlist p).golden_move_used = true) :
    (BoardInv g → ∀ q x y b g',
      (gamma_move g q x y = some (b, g') ∨ gamma_golden_move g q x y = some (b, g') ∨
        gamma_golden_possible g q = some (b, g')) →
      (g'.playerlist p).golden_move_used = true) ∧
    (∀ x y, gamma_golden_move g p x y = some (false, g)) ∧
    gamma_golden_possible g p = some (false, g) := by
  refine ⟨?_, ?_, ?_⟩
  · intro hI q x y b g' hop
    rcases hop with h | h | h
    · by_cases hv : gamma_move_valid_input g q x y = true
      · obtain ⟨⟨hq0, hqn⟩, _⟩ := (gamma_move_valid_input_iff g q x y).1 hv
        obtain ⟨g1, hg1, hcase⟩ := gamma_move_cases g q x y hI.dims (hI.players q hq0 hqn) hv
        rw [hg1] at h
        have e : increase_player_no_busy_fields g1 q = g' := by
          have := Option.some.inj h
          exact (Prod.mk.inj this).2
        subst e
        have key : (∀ r, r ≠ q → g1.playerlist r = g.playerlist r) ∧
            (g1.playerlist q).golden_move_used = (g.playerlist q).golden_move_used := by
          rcases hcase with ⟨_, N⟩ | ⟨c, _, M⟩
          · exact ⟨N.frame.players_other, N.golden⟩
          · exact ⟨M.players_other, M.golden⟩
        by_cases hpq : p = q
        · subst hpq
          simp only [increase_player_no_busy_fields, set_player_playerlist, if_true]
          rw [key.2]; exact hused
        · simp only [increase_player_no_busy_fields, set_player_playerlist, if_neg hpq]
          rw [key.1 p hpq]; exact hused
      · simp only [Bool.not_eq_true] at hv
        simp only [gamma_move, hv, Bool.false_eq_true, if_false] at h
        have e : g = g' := (Prod.mk.inj (Option.some.inj h)).2
        rw [← e]; exact hused
    · rcases b with _ | _
      · by_cases hv : gamma_golden_move_valid_input g q x y = true
        · obtain ⟨g5, gm, cnt, reps, _, _, _, h1, h2⟩ :=
            gamma_try_golden_move_returns g q x y hI hv
          rw [gamma_golden_move_eq, if_pos hv] at h
          by_cases hfit : (g5.playerlist (owner g (x, y))).no_areas_used + cnt ≤ g.max_no_areas
          · obtain ⟨g'', hg''⟩ := h1 hfit
            rw [hg''] at h
            simp at h
          · by_cases hwrap : ((g5.playerlist (owner g (x, y))).no_areas_used + cnt)
                % 4294967296 ≤ g.max_no_areas
            · rw [(h2 hfit).1 hwrap] at h
              exact absurd h (by simp)
            · obtain ⟨f, hf, _⟩ := (h2 hfit).2 hwrap
              rw [hf] at h
              have e := (Prod.mk.inj (Option.some.inj h)).2
              rw [← e]
              simp only [set_player_first_free_colour, set_player_playerlist]
              split
              · rename_i hr; rw [← hr]; exact hused
              · exact hused
        · rw [gamma_golden_move_eq, if_neg hv] at h
          have e : g = g' := (Prod.mk.inj (Option.some.inj h)).2
          rw [← e]; exact hused
      · have C := gamma_golden_move_captured hI h
        by_cases hpq : p = q
        · rw [hpq]; exact C.golden_attacker
        · rw [C.golden_other p hpq]; exact hused
    · obtain ⟨b', g'', hg'', hM, _⟩ := gamma_golden_possible_moved g q hI
      rw [hg''] at h
      have e := (Prod.mk.inj (Option.some.inj h)).2
      rw [← e, hM.golden]; exact hused
  · intro x y
    have hv : ¬ gamma_golden_move_valid_input g p x y = true := by
      intro hv
      obtain ⟨_, hg, _⟩ := (gamma_golden_move_valid_input_iff g p x y).1 hv
      rw [hused] at hg
      exact absurd hg (by simp)
    rw [gamma_golden_move_eq, if_neg hv]
  · unfold gamma_golden_possible
    by_cases hq : gamma_golden_possible_valid_input g p = true
    · simp [hq, get_player_golden_move_used, hused]
    · simp [hq]

/-- C16 on the 3x3 board, after the golden move of P2. -/
theorem golden_flag_one_shot_witness :
    (split_game_7.playerlist 2).golden_move_used = true ∧ BoardInv split_game_7 ∧
    ((BoardInv split_game_7 → ∀ q x y b g',
      (gamma_move split_game_7 q x y = some (b, g') ∨
        gamma_golden_move split_game_7 q x y = some (b, g') ∨
        gamma_golden_possible split_game_7 q = some (b, g')) →
      (g'.playerlist 2).golden_move_used = true) ∧
    (∀ x y, gamma_golden_move split_game_7 2 x y = some (false, split_game_7)) ∧
    gamma_golden_possible split_game_7 2 = some (false, split_game_7)) :=
  ⟨by decide, (inv_of_reachable split_game_7_reachable).toBoardInv,
    golden_flag_one_shot split_game_7 2 (by decide)⟩

/-! ## A refused golden move -/

/-- C17. `gamma_golden_move g p x y` returns `false` and leaves the state as it
is whenever its pre-check fails: `p` is 0 or greater than `no_players`, or
`golden_move_used` of `p` is `true`, or `x ≥ width` or `y ≥ height`, or the
cell `(x, y)` is unowned or owned by `p`, or `p` has used all its regions and no
4-neighbour of `(x, y)` is owned by `p`. -/
theorem gamma_golden_move_refused (g : gamma_t) (p x y : Nat)
    (h : p = 0 ∨ g.no_players < p ∨ (g.playerlist p).golden_move_used = true ∨
      g.width ≤ x ∨ g.height ≤ y ∨ owner g (x, y) = 0 ∨ owner g (x, y) = p ∨
      ((g.playerlist p).no_areas_used = g.max_no_areas ∧
        ∀ v, adj (x, y) v → inb g v → owner g v ≠ p)) :
    gamma_golden_move g p x y = some (false, g) := by
  have hv : ¬ gamma_golden_move_valid_input g p x y = true := by
    intro hv
    obtain ⟨⟨hq0, hqn⟩, hg, hs, hcan, hp0, hpq⟩ :=
      (gamma_golden_move_valid_input_iff g p x y).1 hv
    rcases h with h | h | h | h | h | h | h | ⟨h1, h2⟩
    · omega
    · omega
    · rw [h] at hg; exact absurd hg (by simp)
    · have := hs.1; omega
    · have := hs.2; omega
    · exact hp0 h
    · exact hpq h
    · rcases hcan with hn | hn
      · exact hn h1
      · obtain ⟨i, hi, hio⟩ := neighbour_of_nearby hn
        exact h2 _ (valid_dir_adj hs hi).1 (valid_dir_adj hs hi).2 hio
  rw [gamma_golden_move_eq, if_neg hv]

/-- C17 on the 4x4 board: P1 holds its one region and `(3, 3)`, the stone of
P2, has no neighbour of P1. -/
theorem gamma_golden_move_refused_witness :
    (1 = 0 ∨ corner_game_3.no_players < 1 ∨
      (corner_game_3.playerlist 1).golden_move_used = true ∨
      corner_game_3.width ≤ 3 ∨ corner_game_3.height ≤ 3 ∨ owner corner_game_3 (3, 3) = 0 ∨
      owner corner_game_3 (3, 3) = 1 ∨
      ((corner_game_3.playerlist 1).no_areas_used = corner_game_3.max_no_areas ∧
        ∀ v, adj (3, 3) v → inb corner_game_3 v → owner corner_game_3 v ≠ 1)) ∧
    gamma_golden_move corner_game_3 1 3 3 = some (false, corner_game_3) :=
  ⟨Or.inr (Or.inr (Or.inr (Or.inr (Or.inr (Or.inr (Or.inr ⟨by decide, by
      rintro ⟨a, b⟩ hadj ⟨ha, hb⟩ ho
      have ha' : a < 4 := ha
      have hb' : b < 4 := hb
      interval_cases a <;> interval_cases b <;>
        first
          | exact absurd ho (by decide)
          | (unfold adj at hadj; simp at hadj)⟩)))))),
    gamma_golden_move_refused corner_game_3 1 3 3
      (Or.inr (Or.inr (Or.inr (Or.inr (Or.inr (Or.inr (Or.inr ⟨by decide, by
        rintro ⟨a, b⟩ hadj ⟨ha, hb⟩ ho
        have ha' : a < 4 := ha
        have hb' : b < 4 := hb
        interval_cases a <;> interval_cases b <;>
          first
            | exact absurd ho (by decide)
            | (unfold adj at hadj; simp at hadj)⟩)))))))⟩

/-! ## `gamma_golden_possible` -/

/-- C19, refuted on the code. On the 4x4 board after P1 `(0,0)`, P2 `(3,3)`,
P1 `(1,0)`, player 1 has not made a golden move and player 2 occupies a field,
yet `gamma_golden_possible` returns `false` for player 1: the body also asks
`is_golden_move_makable_anywhere`, and player 1 holds its one region away from
the stone of player 2. -/
theorem gamma_golden_possible_not_as_documented :
    Reachable corner_game_3 ∧ 1 ≤ 1 ∧ 1 ≤ corner_game_3.no_players ∧
    (corner_game_3.playerlist 1).golden_move_used = false ∧
    inb corner_game_3 (3, 3) ∧ owner corner_game_3 (3, 3) = 2 ∧
    other_players_have_busy_fields corner_game_3 1 = true ∧
    gamma_golden_possible corner_game_3 1 = some (false, corner_game_3) :=
  ⟨corner_game_3_reachable, by decide, by decide, by decide, ⟨by decide, by decide⟩,
    by decide, by decide, rfl⟩

/-- C20. `gamma_golden_possible` is a pure query with respect to the observable
state: on a well-typed state that satisfies invariants 2 to 4 (so on every
state that satisfies invariants 1 to 5) and for every player argument, the call
returns, and afterwards every cell has its owner and its region id and every
player's `no_busy_fields`, `no_areas_used`, `does_area_exist` and
`golden_move_used` are as before. -/
theorem gamma_golden_possible_pure (g : gamma_t) (hI : BoardInv g) (p : Nat) :
    ∃ b g', gamma_golden_possible g p = some (b, g') ∧
      (∀ v, owner g' v = owner g v ∧ area g' v = area g v) ∧
      ∀ r, (g'.playerlist r).no_busy_fields = (g.playerlist r).no_busy_fields ∧
        (g'.playerlist r).no_areas_used = (g.playerlist r).no_areas_used ∧
        (g'.playerlist r).does_area_exist = (g.playerlist r).does_area_exist ∧
        (g'.playerlist r).golden_move_used = (g.playerlist r).golden_move_used := by
  obtain ⟨b, g', hg', hM, _⟩ := gamma_golden_possible_moved g p hI
  exact ⟨b, g', hg', fun v => ⟨hM.owner_eq v, hM.area_eq v⟩,
    fun r => ⟨hM.busy r, hM.count r, hM.exist r, hM.golden r⟩⟩

/-- C20 on the 3x3 board, where the captures of player 2 are simulated. -/
theorem gamma_golden_possible_pure_witness :
    BoardInv split_game_4 ∧
    gamma_golden_possible split_game_4 2 =
      some (true, state_after (gamma_golden_possible split_game_4 2) split_game_4) ∧
    ∃ b g', gamma_golden_possible split_game_4 2 = some (b, g') ∧
      (∀ v, owner g' v = owner split_game_4 v ∧ area g' v = area split_game_4 v) ∧
      ∀ r, (g'.playerlist r).no_busy_fields = (split_game_4.playerlist r).no_busy_fields ∧
        (g'.playerlist r).no_areas_used = (split_game_4.playerlist r).no_areas_used ∧
        (g'.playerlist r).does_area_exist = (split_game_4.playerlist r).does_area_exist ∧
        (g'.playerlist r).golden_move_used = (split_game_4.playerlist r).golden_move_used :=
  ⟨(inv_of_reachable split_game_4_reachable).toBoardInv, rfl,
    gamma_golden_possible_pure split_game_4
      (inv_of_reachable split_game_4_reachable).toBoardInv 2⟩

/-! ## `gamma_golden_possible` against `gamma_golden_move` -/

/-- When `gamma_golden_move` returns `true`: the pre-check passes and the region
count of the owner, less one, plus the number of pieces, is at most
`max_no_areas`. -/
theorem gamma_golden_move_true_fits (g : gamma_t) (hI : BoardInv g) (q x y : Nat) :
    (∃ g', gamma_golden_move g q x y = some (true, g')) ↔
      gamma_golden_move_valid_input g q x y = true ∧
      ∃ L, IsComponentReps g (x, y) L ∧
        (g.playerlist (owner g (x, y))).no_areas_used - 1 + L.length ≤ g.max_no_areas := by
  constructor
  · rintro ⟨g', hg'⟩
    have hv := gamma_golden_move_true_valid hg'
    refine ⟨hv, ?_⟩
    obtain ⟨_, _, hs, _, hp0, _⟩ := (gamma_golden_move_valid_input_iff g q x y).1 hv
    have hvic := hI.players _ (Nat.pos_of_ne_zero hp0) (hI.owner_le _ hs)
    obtain ⟨g5, gm, cnt, reps, _, V5, V, _, h2⟩ := gamma_try_golden_move_returns g q x y hI hv
    have e : cnt = reps.length := V.count
    have hcount := V5.count
    refine ⟨reps, V.isComponentReps hvic hs, ?_⟩
    by_contra hfit
    have hfit' : ¬ (g5.playerlist (owner g (x, y))).no_areas_used + cnt ≤ g.max_no_areas := by
      omega
    rw [gamma_golden_move_eq, if_pos hv] at hg'
    by_cases hwrap : ((g5.playerlist (owner g (x, y))).no_areas_used + cnt) % 4294967296
        ≤ g.max_no_areas
    · rw [(h2 hfit').1 hwrap] at hg'
      exact absurd hg' (by simp)
    · obtain ⟨f, hf, _⟩ := (h2 hfit').2 hwrap
      rw [hf] at hg'
      simp at hg'
  · rintro ⟨hv, L, hL, hfit⟩
    obtain ⟨_, _, hs, _, hp0, _⟩ := (gamma_golden_move_valid_input_iff g q x y).1 hv
    have hvic := hI.players _ (Nat.pos_of_ne_zero hp0) (hI.owner_le _ hs)
    obtain ⟨g5, gm, cnt, reps, _, V5, V, h1, _⟩ := gamma_try_golden_move_returns g q x y hI hv
    have e : cnt = reps.length := V.count
    have hlen := (V.isComponentReps hvic hs).length_eq hL
    have hcount := V5.count
    rw [gamma_golden_move_eq, if_pos hv]
    exact h1 (by omega)

/-- The region of a cell falls into at most four pieces. -/
theorem pieces_le_four {g : gamma_t} (hI : BoardInv g) {x y : Nat} (hs : inb g (x, y))
    (hp0 : owner g (x, y) ≠ 0) {L : List Cell} (hL : IsComponentReps g (x, y) L) :
    L.length ≤ 4 := by
  have hvic := hI.players _ (Nat.pos_of_ne_zero hp0) (hI.owner_le _ hs)
  obtain ⟨g5, gm, cnt, reps, _, _, V⟩ := golden_vacate_spec g x y hI.dims hvic hs hp0
  have := (V.isComponentReps hvic hs).length_eq hL
  have := V.length_le
  omega

/-- A cell that passes the pre-check of the golden move is a busy field of
another player. -/
theorem other_busy_of_valid {g : gamma_t} (hI : SpecInv g) {q x y : Nat}
    (hv : gamma_golden_move_valid_input g q x y = true) :
    other_players_have_busy_fields g q = true := by
  obtain ⟨_, _, hs, _, hp0, hpq⟩ := (gamma_golden_move_valid_input_iff g q x y).1 hv
  have hle := hI.owner_le _ hs
  have hb := hI.busy_count _ (Nat.pos_of_ne_zero hp0) hle
  have hpos : 0 < (owned g (owner g (x, y))).card :=
    Finset.card_pos.2 ⟨(x, y), mem_owned.2 ⟨hs, rfl⟩⟩
  unfold other_players_have_busy_fields
  rw [List.any_eq_true]
  refine ⟨owner g (x, y) - 1, ?_, ?_⟩
  · rw [List.mem_range, get_no_players]; omega
  · have e : owner g (x, y) - 1 + 1 = owner g (x, y) := by omega
    rw [e]
    simp only [Bool.and_eq_true, decide_eq_true_eq, get_player_no_busy_fields]
    exact ⟨hpq, by omega⟩

/-- While `max_no_areas` is at most `2^32 - 4` the tally of a golden move cannot
wrap, and `gamma_golden_possible` answers `true` exactly when some
`gamma_golden_move` of the player would return `true`. -/
theorem gamma_golden_possible_iff_small (g : gamma_t) (hR : Reachable g) (p : Nat)
    (hsmall : g.max_no_areas + 3 < 4294967296) :
    (∃ g', gamma_golden_possible g p = some (true, g')) ↔
      ∃ x y g', gamma_golden_move g p x y = some (true, g') := by
  have hI := inv_of_reachable hR
  have hB := hI.toBoardInv
  obtain ⟨b, g1, hg1, _, hb⟩ := gamma_golden_possible_moved g p hB
  have hL : (∃ g', gamma_golden_possible g p = some (true, g')) ↔ b = true := by
    rw [hg1]
    constructor
    · rintro ⟨g', e⟩; exact (Prod.mk.inj (Option.some.inj e)).1
    · intro e; exact ⟨g1, by rw [e]⟩
  rw [hL, hb]
  have hfits : ∀ x y, gamma_golden_move_valid_input g p x y = true →
      (GoldenFits g x y ↔ ∃ L, IsComponentReps g (x, y) L ∧
        (g.playerlist (owner g (x, y))).no_areas_used - 1 + L.length ≤ g.max_no_areas) := by
    intro x y hv
    obtain ⟨_, _, hs, _, hp0, _⟩ := (gamma_golden_move_valid_input_iff g p x y).1 hv
    have hle := (hB.players _ (Nat.pos_of_ne_zero hp0) (hB.owner_le _ hs)).count_le
    unfold GoldenFits
    constructor
    · rintro ⟨L, hL, h⟩
      have := pieces_le_four hB hs hp0 hL
      rw [Nat.mod_eq_of_lt (by omega)] at h
      exact ⟨L, hL, h⟩
    · rintro ⟨L, hL, h⟩
      have := pieces_le_four hB hs hp0 hL
      exact ⟨L, hL, by rw [Nat.mod_eq_of_lt (by omega)]; exact h⟩
  constructor
  · rintro ⟨_, _, _, x, y, _, _, hv, hf⟩
    obtain ⟨g', hg'⟩ := (gamma_golden_move_true_fits g hB p x y).2 ⟨hv, (hfits x y hv).1 hf⟩
    exact ⟨x, y, g', hg'⟩
  · rintro ⟨x, y, g', hg'⟩
    obtain ⟨hv, hf⟩ := (gamma_golden_move_true_fits g hB p x y).1 ⟨g', hg'⟩
    obtain ⟨hq, hg, hs, _⟩ := (gamma_golden_move_valid_input_iff g p x y).1 hv
    exact ⟨hq, hg, other_busy_of_valid hI.toSpecInv hv, x, y, hs.1, hs.2, hv,
      (hfits x y hv).2 hf⟩

/-- When the tally of the one capture open to `q` wraps past `2^32`,
`gamma_golden_possible` answers `true` although no `gamma_golden_move` of `q`
returns `true`. -/
theorem golden_possible_of_wrapped_tally (g : gamma_t) (hR : Reachable g) (q x y : Nat)
    (hv : gamma_golden_move_valid_input g q x y = true) (L : List Cell)
    (hL : IsComponentReps g (x, y) L)
    (hbig : 4294967296 ≤ (g.playerlist (owner g (x, y))).no_areas_used - 1 + L.length)
    (honly : ∀ x' y', gamma_golden_move_valid_input g q x' y' = true → (x', y') = (x, y)) :
    (∃ g', gamma_golden_possible g q = some (true, g')) ∧
    ¬ ∃ x' y' g', gamma_golden_move g q x' y' = some (true, g') := by
  have hI := inv_of_reachable hR
  have hB := hI.toBoardInv
  obtain ⟨hq, hg, hs, _, hp0, _⟩ := (gamma_golden_move_valid_input_iff g q x y).1 hv
  have hle := (hB.players _ (Nat.pos_of_ne_zero hp0) (hB.owner_le _ hs)).count_le
  have hlt := hB.dims.areas_lt
  have hlen := pieces_le_four hB hs hp0 hL
  constructor
  · obtain ⟨b, g1, hg1, _, hb⟩ := gamma_golden_possible_moved g q hB
    have : b = true := by
      rw [hb]
      refine ⟨hq, hg, other_busy_of_valid hI.toSpecInv hv, x, y, hs.1, hs.2, hv, L, hL, ?_⟩
      omega
    exact ⟨g1, by rw [hg1, this]⟩
  · rintro ⟨x', y', g', hg'⟩
    obtain ⟨hv', L', hL', hfit⟩ := (gamma_golden_move_true_fits g hB q x' y').1 ⟨g', hg'⟩
    have e := honly x' y' hv'
    rw [Prod.mk.injEq] at e
    obtain ⟨rfl, rfl⟩ := e
    have := hL.length_eq hL'
    omega

/-- One stone placed on an empty cell of a reachable state: the move succeeds;
away from the stones of `q` the region count of `q` grows by one, next to a
single stone of `q` it stays. -/
theorem place_step (g : gamma_t) (hR : Reachable g) (q x y : Nat) (hq0 : 0 < q)
    (hqn : q ≤ g.no_players) (hs : inb g (x, y)) (hempty : owner g (x, y) = 0)
    (hcan : (g.playerlist q).no_areas_used < g.max_no_areas ∨
      ∃ b, adj (x, y) b ∧ inb g b ∧ owner g b = q) :
    ∃ g', Reachable g' ∧ g'.width = g.width ∧ g'.height = g.height ∧
      g'.no_players = g.no_players ∧ g'.max_no_areas = g.max_no_areas ∧
      (∀ v, owner g' v = if v = (x, y) then q else owner g v) ∧
      (∀ r, r ≠ q → g'.playerlist r = g.playerlist r) ∧
      (g'.playerlist q).golden_move_used = (g.playerlist q).golden_move_used ∧
      ((∀ b, adj (x, y) b → inb g b → owner g b ≠ q) →
        (g'.playerlist q).no_areas_used = (g.playerlist q).no_areas_used + 1) ∧
      (∀ b, adj (x, y) b → inb g b → owner g b = q →
        (∀ b', adj (x, y) b' → inb g b' → owner g b' = q → b' = b) →
        (g'.playerlist q).no_areas_used = (g.playerlist q).no_areas_used) := by
  have hI := inv_of_reachable hR
  have hP := (hI.players q hq0 hqn).toRInv.toRegionInv
  have hv : gamma_move_valid_input g q x y = true := by
    rw [gamma_move_valid_input_iff]
    refine ⟨⟨hq0, hqn⟩, hs, hempty, ?_⟩
    rcases hcan with h | ⟨b, hb1, hb2, hb3⟩
    · exact Or.inl (by omega)
    · right
      by_contra hnear
      simp only [Bool.not_eq_true] at hnear
      exact no_neighbour_of_nearby hnear b hb1 hb2 hb3
  obtain ⟨g1, hg1, hcase⟩ := gamma_move_cases g q x y hI.dims hP hv
  have key : g1.width = g.width ∧ g1.height = g.height ∧ g1.no_players = g.no_players ∧
      g1.max_no_areas = g.max_no_areas ∧
      (∀ v, owner g1 v = if v = (x, y) then q else owner g v) ∧
      (∀ r, r ≠ q → g1.playerlist r = g.playerlist r) ∧
      (g1.playerlist q).golden_move_used = (g.playerlist q).golden_move_used := by
    rcases hcase with ⟨_, N⟩ | ⟨c, _, M⟩
    · exact ⟨N.frame.width, N.frame.height, N.frame.no_players, N.frame.max_no_areas,
        N.frame.owners, N.frame.players_other, N.golden⟩
    · exact ⟨M.width, M.height, M.no_players, M.max_no_areas, M.owners, M.players_other,
        M.golden⟩
  obtain ⟨k1, k2, k3, k4, k5, k6, k7⟩ := key
  refine ⟨increase_player_no_busy_fields g1 q, Reachable.move hR hg1, k1, k2, k3, k4, ?_, ?_,
    ?_, ?_, ?_⟩
  · intro v
    simp only [increase_player_no_busy_fields, owner_set_player]
    exact k5 v
  · intro r hr
    simp only [increase_player_no_busy_fields, set_player_playerlist, if_neg hr]
    exact k6 r hr
  · simp only [increase_player_no_busy_fields, set_player_playerlist, if_true]
    exact k7
  · intro hlone
    simp only [increase_player_no_busy_fields, set_player_playerlist, if_true]
    rcases hcase with ⟨_, N⟩ | ⟨c, ⟨b, hb1, hb2, _⟩, _⟩
    · exact N.count
    · exact absurd hb2.2 (hlone b hb1 hb2.1)
  · intro b hb1 hb2 hb3 huniq
    simp only [increase_player_no_busy_fields, set_player_playerlist, if_true]
    rcases hcase with ⟨hlone, _⟩ | ⟨c, ⟨b0, h01, h02, h03⟩, M⟩
    · exact absurd hb3 (hlone b hb1 hb2)
    · have hA : ∀ a, ¬ absorbed g q x y c 4 a := by
        intro a ha
        obtain ⟨hac, b', hb'1, hb'2, hb'3⟩ := (absorbed_four hs a).1 ha
        have e1 := huniq b' hb'1 hb'2.1 hb'2.2
        have e0 := huniq b0 h01 h02.1 h02.2
        rw [e1] at hb'3
        rw [e0] at h03
        exact hac (hb'3.symm.trans h03)
      have hin : in_use g1 q = in_use g q := by
        ext r
        rw [mem_in_use, mem_in_use, M.max_no_areas, M.exist]
        constructor
        · rintro ⟨h1, h2, _⟩; exact ⟨h1, h2⟩
        · rintro ⟨h1, h2⟩; exact ⟨h1, h2, hA r⟩
      rw [M.count, hin, hP.areas_count]

theorem layout_even_succ (k m : Nat) (v : Cell) :
    layout (k + 1) m v = if v = even_cell k then 1 else layout k m v := by
  obtain ⟨a, b⟩ := v
  unfold layout even_cell cell_index
  simp only [Prod.mk.injEq]
  split_ifs <;> omega

theorem layout_odd_succ (k m : Nat) (v : Cell) :
    layout k (m + 1) v = if v = odd_cell m then 2 else layout k m v := by
  obtain ⟨a, b⟩ := v
  unfold layout odd_cell cell_index
  simp only [Prod.mk.injEq]
  split_ifs <;> omega

theorem layout_even_cell (k m : Nat) : layout k m (even_cell k) = 0 := by
  have key : ∀ a b, a = 2 * (k % 65536) → b = 2 * (k / 65536) → layout k m (a, b) = 0 := by
    intro a b ha hb
    unfold layout cell_index
    simp only [Prod.mk.injEq]
    split_ifs <;> omega
  exact key _ _ rfl rfl

theorem layout_odd_cell (k m : Nat) : layout k m (odd_cell m) = 0 := by
  have key : ∀ a b, a = 2 * (m % 65536) + 1 → b = 2 * (m / 65536) + 1 →
      layout k m (a, b) = 0 := by
    intro a b ha hb
    unfold layout cell_index
    simp only [Prod.mk.injEq]
    split_ifs <;> omega
  exact key _ _ rfl rfl

/-- Next to an even cell the only stone player 1 can have is `(1, 0)`. -/
theorem layout_near_even {k j m : Nat} {b : Cell} (hadj : adj (even_cell j) b)
    (hb : layout k m b = 1) : b = (1, 0) ∧ j < 2 := by
  obtain ⟨a, c⟩ := b
  unfold layout cell_index at hb
  unfold adj even_cell at hadj
  simp only [Prod.mk.injEq] at hb hadj ⊢
  split_ifs at hb <;> omega

/-- Next to an odd cell player 2 has no stone. -/
theorem layout_near_odd {k j m : Nat} {b : Cell} (hadj : adj (odd_cell j) b) :
    layout k m b ≠ 2 := by
  obtain ⟨a, c⟩ := b
  unfold layout cell_index
  unfold adj odd_cell at hadj
  simp only [Prod.mk.injEq] at hadj ⊢
  split_ifs <;> omega

/-- The game after the first stone, of player 1 on `(1, 0)`. -/
theorem laid_start : ∃ g, Laid 0 0 1 0 g := by
  have hR : Reachable (new_game 131072 131072 2 4294967295) :=
    Reachable.new (w := 131072) (h := 131072) (p := 2) (a := 4294967295)
      (by decide) (by decide) (by decide) (by decide) rfl
  obtain ⟨g', hR', hw, hh, hp, hm, ho, hoth, _, hn, _⟩ :=
    place_step (new_game 131072 131072 2 4294967295) hR 1 1 0 (by decide)
      (by show 1 ≤ 2; decide) ⟨by show 1 < 131072; decide, by show 0 < 131072; decide⟩ rfl
      (Or.inl (by show 0 < 4294967295; decide))
  have hlone : ∀ b, adj (1, 0) b → inb (new_game 131072 131072 2 4294967295) b →
      owner (new_game 131072 131072 2 4294967295) b ≠ 1 := by
    intro b _ _ h
    have : owner (new_game 131072 131072 2 4294967295) b = 0 := rfl
    omega
  refine ⟨g', hR', hw, hh, hp, hm, ?_, ?_, ?_, ?_⟩
  · intro v
    rw [ho]
    have : owner (new_game 131072 131072 2 4294967295) v = 0 := rfl
    rw [this]
    unfold layout
    split_ifs <;> first | rfl | omega
  · rw [hn hlone]; rfl
  · rw [hoth 2 (by decide)]; rfl
  · rw [hoth 2 (by decide)]; rfl

/-- Player 1 places its even cells one after the other: `(0, 0)` and `(2, 0)`
join the region of `(1, 0)`, every later one starts a region. -/
theorem laid_even : ∀ k, k ≤ 4294967296 →
    ∃ g, Laid k 0 (if k ≤ 2 then 1 else k - 1) 0 g := by
  intro k
  induction k with
  | zero => intro _; exact laid_start
  | succ k ih =>
    intro hk
    obtain ⟨g, L⟩ := ih (by omega)
    have e : ((even_cell k).1, (even_cell k).2) = even_cell k := rfl
    have hs : inb g ((even_cell k).1, (even_cell k).2) := by
      unfold inb even_cell
      rw [L.width, L.height]
      simp only
      omega
    obtain ⟨g', hR', hw, hh, hp, hm, ho, hoth, _, hn1, hn2⟩ :=
      place_step g L.reach 1 (even_cell k).1 (even_cell k).2 (by decide)
        (by rw [L.no_players]; decide) hs
        (by rw [e, L.owners]; exact layout_even_cell k 0)
        (by
          by_cases hk2 : k < 2
          · right
            refine ⟨(1, 0), ?_, ?_, ?_⟩
            · rw [e]; unfold adj even_cell; simp only; omega
            · unfold inb; rw [L.width, L.height]; simp only; omega
            · rw [L.owners]; rfl
          · left
            rw [L.count1, L.max_no_areas]
            split_ifs <;> omega)
    rw [e] at ho hn1 hn2
    refine ⟨g', hR', hw.trans L.width, hh.trans L.height, hp.trans L.no_players,
      hm.trans L.max_no_areas, ?_, ?_, ?_, ?_⟩
    · intro v
      rw [ho, layout_even_succ, L.owners]
    · by_cases hk2 : k < 2
      · have hone : owner g (1, 0) = 1 := by rw [L.owners]; rfl
        rw [hn2 (1, 0) (by unfold adj even_cell; simp only; omega)
          (by unfold inb; rw [L.width, L.height]; simp only; omega) hone
          (fun b' hb1 _ hb3 => (layout_near_even hb1 (by rw [← L.owners]; exact hb3)).1),
          L.count1]
        split_ifs <;> omega
      · rw [hn1 (fun b hb1 _ hb3 => hk2
          (layout_near_even hb1 (by rw [← L.owners]; exact hb3)).2), L.count1]
        split_ifs <;> omega
    · rw [hoth 2 (by decide)]; exact L.count2
    · rw [hoth 2 (by decide)]; exact L.golden2

/-- Player 2 places its odd cells one after the other; each starts a region. -/
theorem laid_odd : ∀ m, m ≤ 4294967295 → ∃ g, Laid 4294967296 m 4294967295 m g := by
  intro m
  induction m with
  | zero =>
    intro _
    obtain ⟨g, L⟩ := laid_even 4294967296 (by decide)
    exact ⟨g, L.reach, L.width, L.height, L.no_players, L.max_no_areas, L.owners,
      by rw [L.count1]; decide, L.count2, L.golden2⟩
  | succ m ih =>
    intro hm
    obtain ⟨g, L⟩ := ih (by omega)
    have e : ((odd_cell m).1, (odd_cell m).2) = odd_cell m := rfl
    have hs : inb g ((odd_cell m).1, (odd_cell m).2) := by
      unfold inb odd_cell
      rw [L.width, L.height]
      simp only
      omega
    obtain ⟨g', hR', hw, hh, hp, hmx, ho, hoth, hgold, hn1, _⟩ :=
      place_step g L.reach 2 (odd_cell m).1 (odd_cell m).2 (by decide)
        (by rw [L.no_players]) hs
        (by rw [e, L.owners]; exact layout_odd_cell 4294967296 m)
        (Or.inl (by rw [L.count2, L.max_no_areas]; omega))
    rw [e] at ho hn1
    refine ⟨g', hR', hw.trans L.width, hh.trans L.height, hp.trans L.no_players,
      hmx.trans L.max_no_areas, ?_, ?_, ?_, ?_⟩
    · intro v
      rw [ho, layout_odd_succ, L.owners]
    · rw [hoth 1 (by decide)]; exact L.count1
    · rw [hn1 (fun b hb1 _ hb3 => layout_near_odd hb1 (by rw [← L.owners]; exact hb3)),
        L.count2]
    · rw [hgold]; exact L.golden2

/-- Next to `(1, 0)` player 1 holds `(0, 0)` and `(2, 0)` only. -/
theorem layout_near_gadget {k m : Nat} {b : Cell} (hadj : adj (1, 0) b)
    (hb : layout k m b = 1) : b = (0, 0) ∨ b = (2, 0) := by
  obtain ⟨a, c⟩ := b
  unfold layout cell_index at hb
  unfold adj at hadj
  simp only [Prod.mk.injEq] at hb hadj ⊢
  split_ifs at hb <;> omega

/-- A stone of player 1 with a stone of player 2 next to it is `(1, 0)`. -/
theorem layout_capture {k m : Nat} {v b : Cell} (hadj : adj v b) (hv : layout k m v = 1)
    (hb : layout k m b = 2) : v = (1, 0) := by
  obtain ⟨a, c⟩ := b
  obtain ⟨x, y⟩ := v
  unfold layout cell_index at hb hv
  unfold adj at hadj
  simp only [Prod.mk.injEq] at hb hv hadj ⊢
  split_ifs at hb hv <;> omega

theorem layout_values (k m : Nat) (v : Cell) :
    layout k m v = 0 ∨ layout k m v = 1 ∨ layout k m v = 2 := by
  unfold layout
  split_ifs <;> simp

/-- In the game laid out in full, the region of `(1, 0)` falls into the two
pieces `(0, 0)` and `(2, 0)` when `(1, 0)` is taken away. -/
theorem laid_pieces {g : gamma_t} (L : Laid 4294967296 4294967295 4294967295 4294967295 g) :
    IsComponentReps g (1, 0) [(0, 0), (2, 0)] := by
  have hI := inv_of_reachable L.reach
  have hP := (hI.players 1 (by decide) (by rw [L.no_players]; decide)).toRInv
  have hinb : ∀ a c : Nat, a < 131072 → c < 131072 → inb g (a, c) := by
    intro a c ha hc; unfold inb; rw [L.width, L.height]; exact ⟨ha, hc⟩
  have h10 : Own g 1 (1, 0) := ⟨hinb 1 0 (by decide) (by decide), by rw [L.owners]; rfl⟩
  have h00 : Own g 1 (0, 0) := ⟨hinb 0 0 (by decide) (by decide), by rw [L.owners]; decide⟩
  have h20 : Own g 1 (2, 0) := ⟨hinb 2 0 (by decide) (by decide), by rw [L.owners]; decide⟩
  have a00 : area g (0, 0) = area g (1, 0) := hP.adj_area h00 h10 (by unfold adj; decide)
  have a20 : area g (2, 0) = area g (1, 0) := hP.adj_area h20 h10 (by unfold adj; decide)
  have p00 : InPiece g (1, 0) (0, 0) := ⟨h00.1, h00.2.trans h10.2.symm, a00, by decide⟩
  have p20 : InPiece g (1, 0) (2, 0) := ⟨h20.1, h20.2.trans h10.2.symm, a20, by decide⟩
  refine ⟨?_, ?_, ?_⟩
  · intro r hr
    simp only [List.mem_cons, List.mem_singleton, List.not_mem_nil, or_false] at hr
    rcases hr with rfl | rfl
    · exact p00
    · exact p20
  · refine List.pairwise_cons.2 ⟨?_, List.pairwise_singleton _ _⟩
    intro r hr hp
    rw [List.mem_singleton] at hr
    subst hr
    have hiso : ∀ b, adj (0, 0) b → ¬ InPiece g (1, 0) b := by
      intro b hb hpb
      have e : (0, 0) = even_cell 0 := rfl
      rw [e] at hb
      have hb1 : layout 4294967296 4294967295 b = 1 := by
        rw [← L.owners, hpb.2.1, h10.2]
      exact hpb.2.2.2 (layout_near_even hb hb1).1
    have := Path.eq_of_isolated hiso hp
    exact absurd this (by decide)
  · intro v hv
    have hvo : Own g 1 v := ⟨hv.1, hv.2.1.trans h10.2⟩
    have hpath := (hP.region (1, 0) v h10 hvo).1 hv.2.2.1.symm
    have hclosed : ∀ u, Path (Own g 1) (1, 0) u → u = (1, 0) ∨ u = (0, 0) ∨ u = (2, 0) := by
      intro u hu
      induction hu with
      | refl => exact Or.inl rfl
      | tail _ hbc ih =>
        rename_i b' c' _
        obtain ⟨hadj, hown⟩ := hbc
        have hb1 : layout 4294967296 4294967295 c' = 1 := by rw [← L.owners]; exact hown.2
        rcases ih with e | e | e
        · rw [e] at hadj
          exact Or.inr (layout_near_gadget hadj hb1)
        · rw [e] at hadj
          have e0 : (0, 0) = even_cell 0 := rfl
          rw [e0] at hadj
          exact Or.inl (layout_near_even hadj hb1).1
        · rw [e] at hadj
          have e1 : (2, 0) = even_cell 1 := rfl
          rw [e1] at hadj
          exact Or.inl (layout_near_even hadj hb1).1
    rcases hclosed v hpath with e | e | e
    · exact absurd e hv.2.2.2
    · exact ⟨(0, 0), by simp, by rw [e]; exact Relation.ReflTransGen.refl⟩
    · exact ⟨(2, 0), by simp, by rw [e]; exact Relation.ReflTransGen.refl⟩

/-- In the game laid out in full, `(1, 0)` is the one cell that passes the
pre-check of the golden move of player 2. -/
theorem laid_valid {g : gamma_t} (L : Laid 4294967296 4294967295 4294967295 4294967295 g) :
    gamma_golden_move_valid_input g 2 1 0 = true ∧
    ∀ x y, gamma_golden_move_valid_input g 2 x y = true → (x, y) = (1, 0) := by
  have hinb : ∀ a c : Nat, a < 131072 → c < 131072 → inb g (a, c) := by
    intro a c ha hc; unfold inb; rw [L.width, L.height]; exact ⟨ha, hc⟩
  have hs := hinb 1 0 (by decide) (by decide)
  have h10 : owner g (1, 0) = 1 := by rw [L.owners]; rfl
  have h11 : owner g (1, 1) = 2 := by rw [L.owners]; decide
  constructor
  · rw [gamma_golden_move_valid_input_iff]
    refine ⟨⟨by decide, by rw [L.no_players]⟩, L.golden2, hs, Or.inr ?_, by rw [h10]; decide,
      by rw [h10]; decide⟩
    by_contra hnear
    simp only [Bool.not_eq_true] at hnear
    exact no_neighbour_of_nearby hnear (1, 1) (by unfold adj; decide)
      (hinb 1 1 (by decide) (by decide)) h11
  · intro x y hv
    obtain ⟨_, _, hs', hcan, hp0, hpq⟩ := (gamma_golden_move_valid_input_iff g 2 x y).1 hv
    rcases hcan with hn | hn
    · rw [L.count2, L.max_no_areas] at hn
      exact absurd rfl hn
    · obtain ⟨i, hi, hio⟩ := neighbour_of_nearby hn
      rw [L.owners] at hp0 hpq hio
      have h1 : layout 4294967296 4294967295 (x, y) = 1 := by
        rcases layout_values 4294967296 4294967295 (x, y) with e | e | e
        · exact absurd e hp0
        · exact e
        · exact absurd e hpq
      exact layout_capture (valid_dir_adj hs' hi).1 h1 hio

/-- A reachable state in which `gamma_golden_possible` answers `true` for
player 2 although no `gamma_golden_move` of player 2 returns `true`: the one
capture open to player 2, of `(1, 0)`, would leave player 1 with `2^32` regions,
and the `uint32_t` tally of the test wraps to 0. -/
theorem golden_possible_overflow :
    ∃ g, Reachable g ∧ g.width = 131072 ∧ g.height = 131072 ∧ g.no_players = 2 ∧
      g.max_no_areas = 4294967295 ∧
      (∃ g', gamma_golden_possible g 2 = some (true, g')) ∧
      ¬ ∃ x y g', gamma_golden_move g 2 x y = some (true, g') := by
  obtain ⟨g, L⟩ := laid_odd 4294967295 (by decide)
  obtain ⟨hv, honly⟩ := laid_valid L
  have h10 : owner g (1, 0) = 1 := by rw [L.owners]; rfl
  have hbig : 4294967296 ≤
      (g.playerlist (owner g (1, 0))).no_areas_used - 1 + [((0, 0) : Cell), (2, 0)].length := by
    rw [h10, L.count1]; decide
  obtain ⟨h1, h2⟩ := golden_possible_of_wrapped_tally g L.reach 2 1 0 hv _ (laid_pieces L)
    hbig honly
  exact ⟨g, L.reach, L.width, L.height, L.no_players, L.max_no_areas, h1, h2⟩

/-- C18, refuted on the code: it is not so that in every reachable state
`gamma_golden_possible g p` returns `true` if and only if some
`gamma_golden_move g p x y` would return `true`. -/
theorem gamma_golden_possible_not_iff_golden_move :
    ¬ ∀ (g : gamma_t) (p : Nat), Reachable g →
      ((∃ g', gamma_golden_possible g p = some (true, g')) ↔
        ∃ x y g', gamma_golden_move g p x y = some (true, g')) := by
  intro h
  obtain ⟨g, hR, _, _, _, _, h1, h2⟩ := golden_possible_overflow
  exact h2 ((h g 2 hR).1 h1)

/-- On the 4x4 board with the stones of player 1 on `(0, 0)` and `(1, 0)`, that
of player 2 on `(3, 3)` and one region allowed, player 1 has three free
fields. -/
theorem gamma_free_fields_corner : gamma_free_fields corner_game_3 1 = 3 := by decide

/-- The same board as `gamma_board` prints it: the row `y = 3` first. -/
theorem gamma_board_corner :
    (gamma_board corner_game_3).map String.mk = some "...2\n....\n....\n11..\n" := by
  decide

/-! ## Queries with an invalid player, and the fresh game -/

/-- C24. For a player id that is `0` or greater than the number of players,
`gamma_busy_fields` and `gamma_free_fields` return `0` and
`gamma_golden_possible` returns `false` and leaves the state as it was; with id
`0` this is so whatever the record in slot `0` of the player list holds, so
that slot is never selected.  (A game is a value here: the `NULL` branch of the
three functions has no counterpart.) -/
theorem invalid_player_queries (g : gamma_t) (p : Nat) (h : p = 0 ∨ g.no_players < p) :
    gamma_busy_fields g p = 0 ∧ gamma_free_fields g p = 0 ∧
    gamma_golden_possible g p = some (false, g) ∧
    ∀ r : player, gamma_busy_fields (set_player g 0 r) 0 = 0 ∧
      gamma_free_fields (set_player g 0 r) 0 = 0 ∧
      gamma_golden_possible (set_player g 0 r) 0 = some (false, set_player g 0 r) := by
  have hv : player_fit_the_range g p = false := by
    simp only [player_fit_the_range, get_no_players, Bool.and_eq_false_iff,
      decide_eq_false_iff_not]
    omega
  have h0 : ∀ g0 : gamma_t, player_fit_the_range g0 0 = false := fun g0 => by
    simp [player_fit_the_range]
  refine ⟨?_, ?_, ?_, fun r => ⟨?_, ?_, ?_⟩⟩
  · simp [gamma_busy_fields, gamma_busy_fields_valid_input, hv]
  · simp [gamma_free_fields, gamma_free_fields_valid_input, hv]
  · simp [gamma_golden_possible, gamma_golden_possible_valid_input, hv]
  · simp [gamma_busy_fields, gamma_busy_fields_valid_input, h0]
  · simp [gamma_free_fields, gamma_free_fields_valid_input, h0]
  · simp [gamma_golden_possible, gamma_golden_possible_valid_input, h0]

theorem invalid_player_queries_witness :
    (3 = 0 ∨ corner_game_3.no_players < 3) ∧
    gamma_busy_fields corner_game_3 3 = 0 ∧ gamma_free_fields corner_game_3 3 = 0 ∧
    gamma_golden_possible corner_game_3 3 = some (false, corner_game_3) ∧
    ∀ r : player, gamma_busy_fields (set_player corner_game_3 0 r) 0 = 0 ∧
      gamma_free_fields (set_player corner_game_3 0 r) 0 = 0 ∧
      gamma_golden_possible (set_player corner_game_3 0 r) 0
        = some (false, set_player corner_game_3 0 r) :=
  ⟨Or.inr (by decide), invalid_player_queries corner_game_3 3 (Or.inr (by decide))⟩

theorem gamma_new_of_no_playerlist (w h p a : Nat)
    (hv : gamma_new_valid_input w h p a = true) (hl : make_playerlist p = none) :
    gamma_new w h p a = none := by
  unfold gamma_new make_game_state
  rw [if_pos hv, hl]

/-- C25 (the code departs from the claim for `UINT32_MAX` players).  The four
parameters of `gamma_new(1, 1, 4294967295, 1)` are positive, so
`gamma_new_valid_input` accepts them and the claim asks for a game of
4294967295 players.  In `make_playerlist` the length `players + 1` of the list
is `0` in `uint32_t`, so a list of no bytes is allocated, and the loops over
`i <= players` are not left after any number of rounds: `gamma_new` returns
neither a game nor `NULL`. -/
theorem gamma_new_max_players :
    gamma_new_valid_input 1 1 4294967295 1 = true ∧
    (4294967295 + 1) % 4294967296 = 0 ∧
    (∀ fuel, make_playerlist_loop fuel 4294967295 0 = false) ∧
    make_playerlist 4294967295 = none ∧
    gamma_new 1 1 4294967295 1 = none := by
  have hl : make_playerlist 4294967295 = none := by
    unfold make_playerlist
    rw [make_playerlist_loop_false 4294967297 0 (by decide)]
    rfl
  exact ⟨by decide, by decide, fun fuel => make_playerlist_loop_false fuel 0 (by decide),
    hl, gamma_new_of_no_playerlist 1 1 4294967295 1 (by decide) hl⟩

/-- The claim C25 for fewer than `UINT32_MAX` players.  `gamma_new` returns
`NULL` whenever one of its four parameters is `0`; when all four are positive
and there are fewer than `2^32 - 1` players (and the allocations succeed) it
returns a game whose getters report the given width, height and number of
players, in which every cell is unowned, and in which every player
`1, ..., players` has no busy field, no region, no region id in use and an
unused golden move. -/
theorem gamma_new_initial (width height players areas : Nat) :
    ((width = 0 ∨ height = 0 ∨ players = 0 ∨ areas = 0) →
      gamma_new width height players areas = some none) ∧
    (0 < width → 0 < height → 0 < players → 0 < areas → players < 4294967295 →
      ∃ g, gamma_new width height players areas = some (some g) ∧
        get_width g = width ∧ get_height g = height ∧ get_no_players g = players ∧
        (∀ x y, (get_field g x y).player_id = 0) ∧
        ∀ p, 1 ≤ p → p ≤ players →
          gamma_busy_fields g p = 0 ∧ get_player_no_areas_used g p = 0 ∧
          (∀ r, get_player_does_area_exist g p r = false) ∧
          get_player_golden_move_used g p = false) := by
  constructor
  · intro h
    have hv : gamma_new_valid_input width height players areas = false := by
      simp only [gamma_new_valid_input, Bool.true_and, Bool.and_eq_false_iff,
        decide_eq_false_iff_not]
      omega
    simp [gamma_new, hv]
  · intro hw hh hp ha hlt
    refine ⟨new_game width height players areas,
      gamma_new_eq width height players areas hw hh hp ha hlt, rfl, rfl, rfl,
      fun _ _ => rfl, fun p hp1 hp2 => ⟨?_, rfl, fun _ => rfl, rfl⟩⟩
    have hr : player_fit_the_range (new_game width height players areas) p = true := by
      simp only [player_fit_the_range, get_no_players, new_game, Bool.and_eq_true,
        decide_eq_true_eq]
      omega
    simp [gamma_busy_fields, gamma_busy_fields_valid_input, hr, get_player_no_busy_fields,
      new_game, set_player_to_default]

theorem gamma_new_initial_example :
    gamma_new 4 0 2 1 = some none ∧
    ∃ g, gamma_new 4 4 2 1 = some (some g) ∧
      get_width g = 4 ∧ get_height g = 4 ∧ get_no_players g = 2 ∧
      (∀ x y, (get_field g x y).player_id = 0) ∧
      ∀ p, 1 ≤ p → p ≤ 2 →
        gamma_busy_fields g p = 0 ∧ get_player_no_areas_used g p = 0 ∧
        (∀ r, get_player_does_area_exist g p r = false) ∧
        get_player_golden_move_used g p = false :=
  ⟨(gamma_new_initial 4 0 2 1).1 (Or.inr (Or.inl rfl)),
    (gamma_new_initial 4 4 2 1).2 (by decide) (by decide) (by decide) (by decide) (by decide)⟩

/-! ## The cursor discipline -/

/-- C30. In every state reachable from `gamma_new` by `gamma_move`,
`gamma_golden_move` and `gamma_golden_possible` (the other public operations
do not write to the state), the cursor `first_free_colour` of every player is
below `max_no_areas`, and for every player whose region counter is below
`max_no_areas` the cursor designates an id that is not marked in use. -/
theorem cursor_discipline (g : gamma_t) (hR : Reachable g) (p : Nat) (hp1 : 1 ≤ p)
    (hp2 : p ≤ g.no_players) :
    get_player_first_free_colour g p < g.max_no_areas ∧
    (get_player_no_areas_used g p < g.max_no_areas →
      get_player_does_area_exist g p (get_player_first_free_colour g p) = false) :=
  ⟨((inv_of_reachable hR).players p hp1 hp2).cursor_lt,
    ((inv_of_reachable hR).players p hp1 hp2).cursor_free⟩

theorem cursor_discipline_witness :
    Reachable split_game_3 ∧ 1 ≤ 1 ∧ 1 ≤ split_game_3.no_players ∧
    (get_player_first_free_colour split_game_3 1 < split_game_3.max_no_areas ∧
    (get_player_no_areas_used split_game_3 1 < split_game_3.max_no_areas →
      get_player_does_area_exist split_game_3 1 (get_player_first_free_colour split_game_3 1)
        = false)) :=
  ⟨split_game_3_reachable, by decide, by decide,
    cursor_discipline split_game_3 split_game_3_reachable 1 (by decide) (by decide)⟩

/-! ## What `gamma_free_fields` computes -/

/-- A counting loop over `0, ..., n - 1` in a machine word that does not
overflow. -/
theorem foldl_count_range (Q : Nat → Bool) (M : Nat) :
    ∀ (n c : Nat), c + n < M →
      (List.range n).foldl (fun count j => if Q j then (count + 1) % M else count) c =
        c + ((Finset.range n).filter fun j => Q j = true).card := by
  intro n
  induction n with
  | zero => intro c _; simp
  | succ n ih =>
    intro c hc
    rw [List.range_succ, List.foldl_append, ih c (by omega), Finset.range_succ,
      Finset.filter_insert]
    have hle : ((Finset.range n).filter fun j => Q j = true).card ≤ n := by
      calc _ ≤ (Finset.range n).card := Finset.card_filter_le _ _
        _ = n := by simp
    by_cases hq : Q n = true
    · rw [if_pos hq, Finset.card_insert_of_not_mem (by simp)]
      simp only [List.foldl_cons, List.foldl_nil, hq, if_true]
      rw [Nat.mod_eq_of_lt (by omega)]
      omega
    · rw [if_neg hq]
      simp only [List.foldl_cons, List.foldl_nil, hq]
      simp

/-- A summing loop over `0, ..., n - 1` in a machine word that does not
overflow. -/
theorem foldl_sum_range (a : Nat → Nat) (M : Nat) :
    ∀ n, (∑ k in Finset.range n, a k) < M →
      (List.range n).foldl (fun sum k => (sum + a k) % M) 0 = ∑ k in Finset.range n, a k := by
  intro n
  induction n with
  | zero => intro _; simp
  | succ n ih =>
    intro h
    rw [Finset.sum_range_succ] at h ⊢
    rw [List.range_succ, List.foldl_append, ih (by omega)]
    simp only [List.foldl_cons, List.foldl_nil]
    exact Nat.mod_eq_of_lt h

theorem border_card (g : gamma_t) (p : Nat) :
    (border g p).card = ∑ i in Finset.range g.height,
      ((Finset.range g.width).filter fun j =>
        (decide (owner g (j, i) = 0) && are_player_areas_nearby g p j i) = true).card := by
  unfold border cells
  rw [Finset.card_filter, Finset.sum_product_right]
  refine Finset.sum_congr rfl fun i _ => ?_
  rw [Finset.card_filter]
  refine Finset.sum_congr rfl fun j _ => ?_
  simp only [Bool.and_eq_true, decide_eq_true_eq]

theorem count_boarder_size_eq (g : gamma_t) (p : Nat)
    (h : g.width * g.height < 18446744073709551616) :
    count_boarder_size g p = (border g p).card := by
  rw [border_card]
  unfold count_boarder_size
  simp only [get_height, get_width, get_field, Bool.true_and]
  have key : ∀ H, H ≤ g.height →
      (List.range H).foldl (fun count i =>
        (List.range g.width).foldl (fun count j =>
          if (decide ((g.board i j).player_id = 0) && are_player_areas_nearby g p j i) = true
          then (count + 1) % 18446744073709551616 else count) count) 0 =
        ∑ i in Finset.range H, ((Finset.range g.width).filter fun j =>
          (decide (owner g (j, i) = 0) && are_player_areas_nearby g p j i) = true).card ∧
      (∑ i in Finset.range H, ((Finset.range g.width).filter fun j =>
          (decide (owner g (j, i) = 0) && are_player_areas_nearby g p j i) = true).card)
        ≤ g.width * H := by
    intro H
    induction H with
    | zero => intro _; simp
    | succ H ih =>
      intro hH
      obtain ⟨e, hle⟩ := ih (by omega)
      have hrow : ((Finset.range g.width).filter fun j =>
          (decide (owner g (j, H) = 0) && are_player_areas_nearby g p j H) = true).card
            ≤ g.width := by
        calc _ ≤ (Finset.range g.width).card := Finset.card_filter_le _ _
          _ = g.width := by simp
      have hbig : g.width * (H + 1) ≤ g.width * g.height := Nat.mul_le_mul_left _ hH
      rw [List.range_succ, List.foldl_append, e, Finset.sum_range_succ]
      constructor
      · simp only [List.foldl_cons, List.foldl_nil]
        exact foldl_count_range
          (fun j => decide ((g.board H j).player_id = 0) && are_player_areas_nearby g p j H)
          18446744073709551616 g.width _ (by rw [Nat.mul_succ] at hbig; omega)
      · rw [Nat.mul_succ]; omega
  exact (key g.height le_rfl).1

/-- The cells of the board are shared out among the owners `0, ..., no_players`. -/
theorem cells_card_owners (g : gamma_t) (h : ∀ v, inb g v → owner g v ≤ g.no_players) :
    g.width * g.height =
      (owned g 0).card + ∑ k in Finset.range g.no_players, (owned g (k + 1)).card := by
  have hc : (cells g).card = g.width * g.height := by simp [cells]
  have hm : ∀ v ∈ cells g, owner g v ∈ Finset.range (g.no_players + 1) := by
    intro v hv
    have hv' : inb g v := by simpa [cells, inb] using hv
    have := h v hv'
    simp only [Finset.mem_range]
    omega
  rw [← hc, Finset.card_eq_sum_card_fiberwise hm, Finset.sum_range_succ']
  unfold owned
  omega

theorem sum_of_all_players_busy_fields_eq (g : gamma_t) (hI : SpecInv g) :
    sum_of_all_players_busy_fields g =
      ∑ k in Finset.range g.no_players, (owned g (k + 1)).card := by
  have hb : ∀ k ∈ Finset.range g.no_players,
      get_player_no_busy_fields g (k + 1) = (owned g (k + 1)).card := by
    intro k hk
    simp only [Finset.mem_range] at hk
    exact hI.busy_count (k + 1) (by omega) (by omega)
  have hs := cells_card_owners g hI.owner_le
  have hlt := board_lt_of_dims hI.dims
  unfold sum_of_all_players_busy_fields
  rw [get_no_players, foldl_sum_range _ _ _ (by rw [Finset.sum_congr rfl hb]; omega)]
  exact Finset.sum_congr rfl hb

/-- On a board of fewer than `2^32` cells, in a state that satisfies
invariants 1 to 5, `gamma_free_fields` counts the unowned cells of the board
for a player that may still open a region, and the unowned cells next to a cell
of the player otherwise. -/
theorem gamma_free_fields_eq (g : gamma_t) (hI : SpecInv g)
    (hsz : g.width * g.height < 4294967296) (p : Nat) (hp1 : 1 ≤ p) (hp2 : p ≤ g.no_players) :
    gamma_free_fields g p =
      if (g.playerlist p).no_areas_used = g.max_no_areas then (border g p).card
      else (owned g 0).card := by
  have hr : player_fit_the_range g p = true := by
    simp only [player_fit_the_range, get_no_players, Bool.and_eq_true, decide_eq_true_eq]
    omega
  unfold gamma_free_fields
  simp only [gamma_free_fields_valid_input, Bool.true_and, hr, if_true, player_all_areas_used,
    decide_eq_true_eq]
  by_cases hu : (g.playerlist p).no_areas_used = g.max_no_areas
  · rw [if_pos hu, if_pos hu]
    exact count_boarder_size_eq g p (by omega)
  · rw [if_neg hu, if_neg hu, sum_of_all_players_busy_fields_eq g hI]
    have hs := cells_card_owners g hI.owner_le
    have hb : board_size g = g.width * g.height := by
      unfold board_size
      rw [get_height, get_width, Nat.mul_comm, Nat.mod_eq_of_lt hsz]
    rw [hb]
    omega

/-- C23. In every reachable state on a board of fewer than `2^32` cells, for
every valid player `p`, `gamma_free_fields g p` is the number of cells `(x, y)`
for which `gamma_move g p x y` returns `true` on that state: these cells form a
finite set `s`, and the value returned is its cardinality. -/
theorem gamma_free_fields_counts_moves (g : gamma_t) (hR : Reachable g)
    (hsz : g.width * g.height < 4294967296) (p : Nat) (hp1 : 1 ≤ p) (hp2 : p ≤ g.no_players) :
    ∃ s : Finset Cell, (∀ x y, (x, y) ∈ s ↔ ∃ g', gamma_move g p x y = some (true, g')) ∧
      gamma_free_fields g p = s.card := by
  have hI := inv_of_reachable hR
  have hmove : ∀ x y, (∃ g', gamma_move g p x y = some (true, g')) ↔
      gamma_move_valid_input g p x y = true := by
    intro x y
    obtain ⟨g1, hg1⟩ := gamma_move_returns g hI.toBoardInv p x y
    constructor
    · rintro ⟨g', hg'⟩
      rw [hg1] at hg'
      exact congrArg Prod.fst (Option.some.inj hg')
    · intro hv
      exact ⟨g1, by rw [hg1, hv]⟩
  refine ⟨if (g.playerlist p).no_areas_used = g.max_no_areas then border g p else owned g 0,
    fun x y => ?_, ?_⟩
  · rw [hmove, gamma_move_valid_input_iff]
    by_cases hu : (g.playerlist p).no_areas_used = g.max_no_areas
    · rw [if_pos hu]
      simp only [border, cells, Finset.mem_filter, Finset.mem_product, Finset.mem_range, inb]
      constructor
      · rintro ⟨hin, ho, hn⟩
        exact ⟨⟨hp1, hp2⟩, hin, ho, Or.inr hn⟩
      · rintro ⟨_, hin, ho, hn | hn⟩
        · exact absurd hu hn
        · exact ⟨hin, ho, hn⟩
    · rw [if_neg hu, mem_owned]
      constructor
      · rintro ⟨hin, ho⟩
        exact ⟨⟨hp1, hp2⟩, hin, ho, Or.inl hu⟩
      · rintro ⟨_, hin, ho, _⟩
        exact ⟨hin, ho⟩
  · rw [gamma_free_fields_eq g hI.toSpecInv hsz p hp1 hp2]
    split <;> rfl

theorem gamma_free_fields_counts_moves_witness :
    Reachable corner_game_3 ∧ corner_game_3.width * corner_game_3.height < 4294967296 ∧
    1 ≤ 1 ∧ 1 ≤ corner_game_3.no_players ∧ gamma_free_fields corner_game_3 1 = 3 ∧
    ∃ s : Finset Cell,
      (∀ x y, (x, y) ∈ s ↔ ∃ g', gamma_move corner_game_3 1 x y = some (true, g')) ∧
      gamma_free_fields corner_game_3 1 = s.card :=
  ⟨corner_game_3_reachable, by decide, by decide, by decide, by decide,
    gamma_free_fields_counts_moves corner_game_3 corner_game_3_reachable (by decide) 1
      (by decide) (by decide)⟩

/-- On a board of fewer than `2^32` cells, in a state that satisfies
invariants 1 to 5 and for a valid player `p`, `gamma_free_fields g p` is
`width * height` minus the sum of the busy fields of the players
`1, ..., no_players` when `p` has fewer than `max_no_areas` regions, and
otherwise the number of unowned cells with a 4-neighbour owned by `p`. -/
theorem gamma_free_fields_small_board (g : gamma_t) (hI : SpecInv g)
    (hsz : g.width * g.height < 4294967296) (p : Nat) (hp1 : 1 ≤ p) (hp2 : p ≤ g.no_players) :
    ((g.playerlist p).no_areas_used < g.max_no_areas →
      gamma_free_fields g p =
        g.width * g.height - ∑ k in Finset.range g.no_players, gamma_busy_fields g (k + 1)) ∧
    (¬ (g.playerlist p).no_areas_used < g.max_no_areas →
      ∃ s : Finset Cell,
        (∀ v, v ∈ s ↔ inb g v ∧ owner g v = 0 ∧ ∃ u, adj v u ∧ inb g u ∧ owner g u = p) ∧
        gamma_free_fields g p = s.card) := by
  have hle := (hI.players p hp1 hp2).count_le
  have hfree := gamma_free_fields_eq g hI hsz p hp1 hp2
  constructor
  · intro hlt
    rw [hfree, if_neg (by omega)]
    have hs := cells_card_owners g hI.owner_le
    have hb : ∀ k ∈ Finset.range g.no_players,
        gamma_busy_fields g (k + 1) = (owned g (k + 1)).card := by
      intro k hk
      simp only [Finset.mem_range] at hk
      have hr : player_fit_the_range g (k + 1) = true := by
        simp only [player_fit_the_range, get_no_players, Bool.and_eq_true, decide_eq_true_eq]
        omega
      simp only [gamma_busy_fields, gamma_busy_fields_valid_input, Bool.true_and, hr, if_true,
        get_player_no_busy_fields]
      exact hI.busy_count (k + 1) (by omega) (by omega)
    rw [Finset.sum_congr rfl hb]
    omega
  · intro hnlt
    refine ⟨border g p, fun v => ?_, by rw [hfree, if_pos (by omega)]⟩
    obtain ⟨a, b⟩ := v
    simp only [border, cells, Finset.mem_filter, Finset.mem_product, Finset.mem_range, inb]
    constructor
    · rintro ⟨hin, ho, hn⟩
      obtain ⟨i, hi, hio⟩ := neighbour_of_nearby hn
      exact ⟨hin, ho, nbr a b i, (valid_dir_adj hin hi).1, (valid_dir_adj hin hi).2, hio⟩
    · rintro ⟨hin, ho, u, hu1, hu2, hu3⟩
      refine ⟨hin, ho, ?_⟩
      by_contra hn
      simp only [Bool.not_eq_true] at hn
      exact no_neighbour_of_nearby hn u hu1 hu2 hu3

theorem wide_game_0_reachable : Reachable wide_game_0 :=
  Reachable.new (w := 65536) (h := 65536) (p := 1) (a := 2) (by decide) (by decide)
    (by decide) (by decide) rfl

theorem wide_game_1_eq : gamma_move wide_game_0 1 0 0 = some (true, wide_game_1) := rfl

theorem wide_game_1_reachable : Reachable wide_game_1 :=
  Reachable.move wide_game_0_reachable wide_game_1_eq

/-- C21, evaluated on a board of `2^32` cells.  On the fresh `65536 x 65536`
board, which is reachable and on which player 1 has used none of its two
regions, `board_size` is `0`, the 32-bit product of the two sides, so
`gamma_free_fields` returns `0`, while `width * height` minus the sum of the
busy fields of all players is `4294967296`. -/
theorem gamma_free_fields_wide_fresh :
    Reachable wide_game_0 ∧ 1 ≤ 1 ∧ 1 ≤ wide_game_0.no_players ∧
    (wide_game_0.playerlist 1).no_areas_used < wide_game_0.max_no_areas ∧
    board_size wide_game_0 = 0 ∧
    gamma_free_fields wide_game_0 1 = 0 ∧
    wide_game_0.width * wide_game_0.height
      - ∑ k in Finset.range wide_game_0.no_players, gamma_busy_fields wide_game_0 (k + 1)
      = 4294967296 :=
  ⟨wide_game_0_reachable, by decide, by decide, by decide, rfl, rfl, rfl⟩

/-- C22, evaluated on a board of `2^32` cells.  After the single move of
player 1 onto `(0, 0)` of the `65536 x 65536` board, player 1 has used one of
its two regions, and `gamma_free_fields` returns `2^64 - 1`, the 64-bit
difference `0 - 1`: together with the one busy field this is `2^64`, which is
neither equal to nor at most `width * height = 2^32`. -/
theorem gamma_free_fields_exceeds_board :
    Reachable wide_game_1 ∧ 1 ≤ 1 ∧ 1 ≤ wide_game_1.no_players ∧
    (wide_game_1.playerlist 1).no_areas_used < wide_game_1.max_no_areas ∧
    gamma_free_fields wide_game_1 1 = 18446744073709551615 ∧
    ∑ k in Finset.range wide_game_1.no_players, gamma_busy_fields wide_game_1 (k + 1) = 1 ∧
    wide_game_1.width * wide_game_1.height = 4294967296 ∧
    ¬ (gamma_free_fields wide_game_1 1
        + ∑ k in Finset.range wide_game_1.no_players, gamma_busy_fields wide_game_1 (k + 1)
      ≤ wide_game_1.width * wide_game_1.height) :=
  ⟨wide_game_1_reachable, by decide, by decide, by decide, rfl, rfl, rfl, by decide⟩

/-! ## The cursor is relied upon -/

/-- Invariants 1 to 5 do not depend on where the cursors point inside the
table. -/
theorem SpecInv.of_cursorsMoved {g g' : gamma_t} (h : CursorsMoved g g') (hI : SpecInv g) :
    SpecInv g' := by
  refine ⟨h.boardInv hI.toBoardInv, ?_, ?_⟩
  · intro v hv ho
    rw [h.area_eq]
    exact hI.empty_area v ((h.inb_iff v).1 hv) (by rw [← h.owner_eq]; exact ho)
  · intro p hp0 hpn
    rw [h.no_players] at hpn
    rw [h.busy, hI.busy_count p hp0 hpn]
    congr 1
    refine owned_congr fun v => ?_
    unfold Own
    rw [h.inb_iff, h.owner_eq]

/-- A placed stone keeps the invariants 2 to 4 of all players, when the player
who placed it satisfied the cursor discipline. -/
theorem boardInv_of_placed {g g' : gamma_t} {q x y : Nat} (hI : BoardInv g) (hq0 : 0 < q)
    (hqn : q ≤ g.no_players) (hown : owner g (x, y) = 0)
    (P : Placed g q (x, y) g') : BoardInv g' := by
  have hd := hI.dims
  have hinb : ∀ v, inb g' v ↔ inb g v := by
    intro v; unfold inb; rw [P.width, P.height]
  refine ⟨⟨?_, ?_, ?_, ?_, ?_, ?_, ?_, ?_⟩, ?_, ?_⟩
  · rw [P.width]; exact hd.width_pos
  · rw [P.width]; exact hd.width_lt
  · rw [P.height]; exact hd.height_pos
  · rw [P.height]; exact hd.height_lt
  · rw [P.no_players]; exact hd.players_pos
  · rw [P.no_players]; exact hd.players_lt
  · rw [P.max_no_areas]; exact hd.areas_pos
  · rw [P.max_no_areas]; exact hd.areas_lt
  · intro v hv
    rw [P.owners, P.no_players]
    split
    · exact hqn
    · exact hI.owner_le v ((hinb v).1 hv)
  · intro r hr0 hrn
    rw [P.no_players] at hrn
    by_cases hrq : r = q
    · subst hrq; exact P.pinv.toRInv.toRegionInv
    · refine (hI.players r hr0 hrn).transport P.width P.height P.max_no_areas ?_ ?_
        (P.players_other r hrq)
      · intro v _
        rw [P.owners]
        by_cases hvs : v = (x, y)
        · rw [if_pos hvs, hvs, hown]
          exact ⟨fun e => absurd e.symm hrq, fun e => by omega⟩
        · rw [if_neg hvs]
      · intro v hv
        have hvs : v ≠ (x, y) := by
          rintro rfl
          have := hv.2
          omega
        exact P.area_other v hvs (by rw [hv.2]; exact hrq)

theorem split_game_1_reachable : Reachable split_game_1 :=
  Reachable.move (b := true) (q := 1) (x := 0) (y := 0)
    (Reachable.new (w := 3) (h := 3) (p := 2) (a := 2) (by decide) (by decide)
      (by decide) (by decide) rfl) rfl

theorem stale_game_specInv : SpecInv stale_game :=
  SpecInv.of_cursorsMoved (CursorsMoved.of_set_cursor split_game_1 1 0 (by decide))
    (inv_of_reachable split_game_1_reachable).toSpecInv

theorem stale_game_lonely :
    ∀ v, adj (2, 2) v → inb stale_game v → owner stale_game v ≠ 1 := by
  rintro ⟨a, b⟩ hadj ⟨ha, hb⟩ ho
  have ha' : a < 3 := ha
  have hb' : b < 3 := hb
  simp only [adj] at hadj
  interval_cases a <;> interval_cases b <;> first | omega | exact absurd ho (by decide)

/-- C29 fails on a state whose cursor points to an id in use.  The state
`stale_game` satisfies invariants 1 to 5, player 1 holds one region of two
allowed, and its cursor has the value `0 < 2`, which is marked in use; the move
of player 1 onto `(2, 2)`, a cell without a neighbour of player 1, succeeds and
gives the new cell the region id `0`, which was marked in use for player 1.
Afterwards the counter says two regions while one id is in use, and the cells
`(0, 0)` and `(2, 2)` share an id without being connected. -/
theorem gamma_move_stale_cursor :
    SpecInv stale_game ∧ 1 ≤ 1 ∧ 1 ≤ stale_game.no_players ∧
    (stale_game.playerlist 1).no_areas_used < stale_game.max_no_areas ∧
    (stale_game.playerlist 1).first_free_colour < stale_game.max_no_areas ∧
    gamma_move stale_game 1 2 2 = some (true, stale_game_1) ∧
    (∀ v, adj (2, 2) v → inb stale_game v → owner stale_game v ≠ 1) ∧
    (stale_game.playerlist 1).does_area_exist (area stale_game_1 (2, 2)) = true ∧
    (stale_game_1.playerlist 1).no_areas_used = 2 ∧ (in_use stale_game_1 1).card = 1 ∧
    ¬ RegionInv stale_game_1 1 :=
  ⟨stale_game_specInv, by decide, by decide, by decide, by decide, rfl, stale_game_lonely,
    by decide, by decide, by decide, fun h => absurd h.areas_count (by decide)⟩

/-- C29, amended.  For every state satisfying invariants 1 to 5 and every
player `p` with fewer than `max_no_areas` regions whose cursor designates an id
that is not marked in use for `p` (`CursorFree`), a successful `gamma_move` by `p` onto a cell
with no neighbour of its own gives the new cell a region id (the one under the
cursor) that was not marked in use for `p`, and invariants 2 and 3 (and 4)
hold afterwards for every player. -/
theorem gamma_move_fresh_region_id (g g' : gamma_t) (hI : SpecInv g) (p x y : Nat)
    (hcnt : (g.playerlist p).no_areas_used < g.max_no_areas)
    (hfree : CursorFree g p)
    (h : gamma_move g p x y = some (true, g'))
    (hnb : ∀ v, adj (x, y) v → inb g v → owner g v ≠ p) :
    area g' (x, y) = (g.playerlist p).first_free_colour ∧
    (g.playerlist p).does_area_exist (area g' (x, y)) = false ∧ BoardInv g' := by
  have hv : gamma_move_valid_input g p x y = true := by
    by_contra hv
    simp only [Bool.not_eq_true] at hv
    simp [gamma_move, hv] at h
  obtain ⟨⟨hp0, hpn⟩, hs, hown, _⟩ := (gamma_move_valid_input_iff g p x y).1 hv
  have hR := hI.players p hp0 hpn
  have hP : PInv g p :=
    ⟨⟨hR.cursor_lt, hfree, hR.exist_lt, hR.exist_iff, hR.areas_count, hR.region⟩,
      hI.busy_count p hp0 hpn⟩
  obtain ⟨g2, hg2, P⟩ := gamma_move_spec g p x y hI.dims hP hv
  obtain ⟨g1, hg1, hcase⟩ := gamma_move_cases g p x y hI.dims hR hv
  have e2 : g2 = g' := by
    rw [hg2] at h
    simpa using h
  have e1 : increase_player_no_busy_fields g1 p = g' := by
    rw [hg1] at h
    simpa using h
  subst e2
  have harea : area g2 (x, y) = (g.playerlist p).first_free_colour := by
    rcases hcase with ⟨_, N⟩ | ⟨c, ⟨b, hb1, hb2, _⟩, _⟩
    · rw [← e1]
      simp only [increase_player_no_busy_fields, area_set_player]
      rw [N.areas, if_pos rfl]
    · exact absurd hb2.2 (hnb b hb1 hb2.1)
  refine ⟨harea, ?_, boardInv_of_placed hI.toBoardInv hp0 hpn hown P⟩
  rw [harea]
  exact hfree hcnt

theorem gamma_move_fresh_region_id_witness :
    SpecInv split_game_3 ∧
    (split_game_3.playerlist 1).no_areas_used < split_game_3.max_no_areas ∧
    CursorFree split_game_3 1 ∧
    gamma_move split_game_3 1 0 2 = some (true, split_game_4) ∧
    (∀ v, adj (0, 2) v → inb split_game_3 v → owner split_game_3 v ≠ 1) ∧
    (area split_game_4 (0, 2) = (split_game_3.playerlist 1).first_free_colour ∧
    (split_game_3.playerlist 1).does_area_exist (area split_game_4 (0, 2)) = false ∧
    BoardInv split_game_4) :=
  ⟨(inv_of_reachable split_game_3_reachable).toSpecInv, by decide, fun _ => by decide,
    split_game_4_eq,
    split_game_3_lonely,
    gamma_move_fresh_region_id split_game_3 split_game_4
      (inv_of_reachable split_game_3_reachable).toSpecInv 1 0 2 (by decide)
      (fun _ => by decide) split_game_4_eq split_game_3_lonely⟩

/-! ## The pieces of a captured region -/

/-- Moving the cursor leaves the board alone. -/
theorem move_cursor_board {g g' : gamma_t} {p : Nat}
    (h : move_player_first_free_colour g p = some g') : g'.board = g.board := by
  unfold move_player_first_free_colour at h
  split at h
  · rw [Option.map_eq_some'] at h
    obtain ⟨it, _, rfl⟩ := h
    rfl
  · cases h; rfl

/-- The painting of one piece changes no region id outside the cells of `p`
connected to the start. -/
theorem perform_transparent_colouring_keeps {g g' : gamma_t} {p : Nat} {n v : Cell}
    (hn : inb g n) (h : perform_transparent_colouring g p n.1 n.2 = some g')
    (hv : ¬ Path (fun b => inb g b ∧ owner g b = p) n v) : area g' v = area g v := by
  rw [perform_transparent_colouring_eq] at h
  obtain ⟨gC, hgC, F⟩ := colour_area_filled
    (set_player_does_area_exist (increase_player_no_areas_used g p) p
      (get_player_first_free_colour (increase_player_no_areas_used g p) p) true)
    p n.1 n.2 (get_player_first_free_colour (increase_player_no_areas_used g p) p) hn
  rw [hgC, Option.some_bind] at h
  have hb := move_cursor_board h
  have e1 : area g' v = area gC v := by unfold area; rw [hb]
  rw [e1, F.unreached (fun hp => hv (Path.mono (fun b hb => ⟨hb.1, hb.2.1⟩) hp))]
  rfl

/-- The commit loop ends in a state that satisfies its invariant, and it has
left alone the region ids of the cells outside the pieces. -/
theorem commit_keeps {g g5 g6 gm gL : gamma_t} {x y q cnt : Nat} {reps : List Cell}
    (hd : Dims g) (hs : inb g (x, y)) (hqp : q ≠ owner g (x, y))
    (V : VacInv g x y g5 reps 4 (gm, cnt))
    (C0 : CommitInv g x y q g5 g6 reps cnt 0 g6)
    (hgL : [0, 1, 2, 3].foldlM (fun gi i =>
        if player_areas_nearby g6 (owner g (x, y)) x y i then
          if area gi (nbr x y i) = TRANSPARENT then
            perform_transparent_colouring gi (owner g (x, y)) (nbr x y i).1 (nbr x y i).2
          else some gi
        else some gi) g6 = some gL) :
    CommitInv g x y q g5 g6 reps cnt 4 gL ∧
    ∀ v, ¬ marked g (owner g (x, y)) x y 4 v → area gL v = area g6 v := by
  refine loop4_inv _ (fun i gi => CommitInv g x y q g5 g6 reps cnt i gi ∧
    ∀ v, ¬ marked g (owner g (x, y)) x y 4 v → area gi v = area g6 v) _ _
    ⟨C0, fun _ _ => rfl⟩
    (fun i gi g1 hi C hstep => ⟨commit_loop_step_some hd hs hqp V C0 C.1 hi hstep, ?_⟩) hgL
  intro v hv
  rw [← C.2 v hv]
  have hstep' : (if player_areas_nearby g6 (owner g (x, y)) x y i = true then
      if area gi (nbr x y i) = TRANSPARENT then
        perform_transparent_colouring gi (owner g (x, y)) (nbr x y i).1 (nbr x y i).2
      else some gi
    else some gi) = some g1 := hstep
  by_cases ht : player_areas_nearby g6 (owner g (x, y)) x y i = true
  · rw [if_pos ht] at hstep'
    by_cases hT : area gi (nbr x y i) = TRANSPARENT
    · rw [if_pos hT] at hstep'
      obtain ⟨hval, hown⟩ := (C0.tab_iff hs i C.1).1 ht
      refine perform_transparent_colouring_keeps ?_ hstep' ?_
      · unfold inb
        rw [C.1.width, C.1.height]
        exact (valid_dir_adj hs hval).2
      · intro hp
        apply hv
        refine ⟨i, hi, hval, hown, Path.mono ?_ hp⟩
        rintro b ⟨hb1, hb2⟩
        rw [C.1.owners] at hb2
        by_cases hbs : b = (x, y)
        · rw [if_pos hbs] at hb2; exact absurd hb2 hqp
        · rw [if_neg hbs] at hb2
          refine ⟨⟨?_, hb2⟩, hbs⟩
          unfold inb at hb1 ⊢
          rw [C.1.width, C.1.height] at hb1
          exact hb1
    · rw [if_neg hT] at hstep'
      cases hstep'; rfl
  · rw [if_neg ht] at hstep'
    cases hstep'; rfl

/-- C28. On a well-typed state that satisfies invariants 2 to 4 (so on every
state that satisfies invariants 1 to 5), let `gamma_golden_move g p x y` return
`true`, and let `L` name one cell in each of the `c` components into which the
region of `(x, y)` falls when `(x, y)` is taken away.  Then `c ≤ 4`, the region
counter of the victim is its previous value minus 1 plus `c`, every component
is painted entirely with one region id, the ids of the `c` components are
pairwise distinct, none of them is the id of a cell of another region of the
victim, and each is marked in use afterwards. -/
theorem gamma_golden_move_split (g g' : gamma_t) (hI : BoardInv g) (p x y : Nat)
    (h : gamma_golden_move g p x y = some (true, g')) (L : List Cell)
    (hL : IsComponentReps g (x, y) L) :
    L.length ≤ 4 ∧
    (g'.playerlist (owner g (x, y))).no_areas_used =
      (g.playerlist (owner g (x, y))).no_areas_used - 1 + L.length ∧
    (∀ r, r ∈ L → ∀ b, Path (InPiece g (x, y)) r b → area g' b = area g' r) ∧
    (L.Pairwise fun r r' => area g' r ≠ area g' r') ∧
    (∀ r, r ∈ L → ∀ b, inb g b → owner g b = owner g (x, y) → area g b ≠ area g (x, y) →
      area g b ≠ area g' r) ∧
    (∀ r, r ∈ L → (g'.playerlist (owner g (x, y))).does_area_exist (area g' r) = true) := by
  have hv := gamma_golden_move_true_valid h
  obtain ⟨⟨hq0, hqn⟩, _, hs, hcan, hp0, hpq⟩ := (gamma_golden_move_valid_input_iff g p x y).1 hv
  have hd := hI.dims
  have hvic : RegionInv g (owner g (x, y)) :=
    hI.players _ (Nat.pos_of_ne_zero hp0) (hI.owner_le _ hs)
  have hqp : p ≠ owner g (x, y) := Ne.symm hpq
  obtain ⟨g5, gm, cnt, reps, hvac, V5, V⟩ := golden_vacate_spec g x y hd hvic hs hp0
  rw [gamma_golden_move_eq, if_pos hv, gamma_try_golden_move_eq, hvac, Option.some_bind] at h
  split at h
  swap
  · rw [Option.map_eq_some'] at h
    obtain ⟨g1, _, e⟩ := h
    simp at e
  rw [Option.map_eq_some'] at h
  obtain ⟨g1, hg1, e⟩ := h
  have e' : g1 = g' := by simpa using e
  subst e'
  obtain ⟨g6, hg6, F6, _, C0, _, _, _, _⟩ :=
    commit_start hd hs hvic (hI.players p hq0 hqn) hq0 hqn hqp hcan V5 V
  rw [gamma_make_golden_move_eq, hg6, Option.some_bind] at hg1
  have hg1' : Option.map (fun g' => decrease_player_no_busy_fields
      (set_player_golden_move_used g' p true) (owner g (x, y)))
      ([0, 1, 2, 3].foldlM (fun gi i =>
        if player_areas_nearby g6 (owner g (x, y)) x y i then
          if area gi (nbr x y i) = TRANSPARENT then
            perform_transparent_colouring gi (owner g (x, y)) (nbr x y i).1 (nbr x y i).2
          else some gi
        else some gi) g6) = some g1 := hg1
  rw [Option.map_eq_some'] at hg1'
  obtain ⟨gL, hgL, rfl⟩ := hg1'
  obtain ⟨C, K⟩ := commit_keeps hd hs hqp V C0 hgL
  -- the final bookkeeping leaves the board and the table of the victim alone
  have harea : ∀ v, area (decrease_player_no_busy_fields
      (set_player_golden_move_used gL p true) (owner g (x, y))) v = area gL v := by
    intro v
    simp only [decrease_player_no_busy_fields, set_player_golden_move_used, area_set_player]
  have hex : ∀ r, ((decrease_player_no_busy_fields (set_player_golden_move_used gL p true)
      (owner g (x, y))).playerlist (owner g (x, y))).does_area_exist r =
      (gL.playerlist (owner g (x, y))).does_area_exist r := by
    intro r
    simp only [decrease_player_no_busy_fields, set_player_golden_move_used,
      set_player_playerlist, if_true, if_neg hpq]
  have hcn : ((decrease_player_no_busy_fields (set_player_golden_move_used gL p true)
      (owner g (x, y))).playerlist (owner g (x, y))).no_areas_used =
      (gL.playerlist (owner g (x, y))).no_areas_used := by
    simp only [decrease_player_no_busy_fields, set_player_golden_move_used,
      set_player_playerlist, if_true, if_neg hpq]
  have hnoT : ∀ v, Rest g (owner g (x, y)) (x, y) v → area gL v ≠ TRANSPARENT :=
    fun v hv hT => ((C.tmark v hv).1 hT).2 ((C.tmark v hv).1 hT).1
  have hrest : ∀ r, InPiece g (x, y) r → Rest g (owner g (x, y)) (x, y) r :=
    fun r hr => ⟨⟨hr.1, hr.2.1⟩, hr.2.2.2⟩
  have hreps := V.isComponentReps hvic hs
  have hlen : reps.length = L.length := hreps.length_eq hL
  have hcount := commit_done_count V C
  have h5 := V5.count
  have hc : cnt = reps.length := V.count
  have hle := V.length_le
  refine ⟨by omega, by rw [hcn]; omega, ?_, ?_, ?_, ?_⟩
  · intro r hr b hp
    rw [harea, harea]
    have hRr := hrest r (hL.1 r hr)
    have hp' := path_rest_of_piece hp
    have hRb := Path.end_mem hRr hp'
    exact ((C.region r b hRr hRb (hnoT r hRr) (hnoT b hRb)).2 hp').symm
  · refine List.Pairwise.imp_of_mem ?_ hL.2.1
    intro a b ha hb hab e
    rw [harea, harea] at e
    have hRa := hrest a (hL.1 a ha)
    have hRb := hrest b (hL.1 b hb)
    exact hab (path_piece_of_rest hvic (hL.1 a ha)
      ((C.region a b hRa hRb (hnoT a hRa) (hnoT b hRb)).1 e))
  · intro r hr b hb ho hne e
    rw [harea] at e
    have hbs : b ≠ (x, y) := fun e' => hne (by rw [e'])
    have hRb : Rest g (owner g (x, y)) (x, y) b := ⟨⟨hb, ho⟩, hbs⟩
    have hRr := hrest r (hL.1 r hr)
    have hnm : ¬ marked g (owner g (x, y)) x y 4 b :=
      fun hm => hne (marked_area hvic ⟨hs, rfl⟩ hm)
    have e6 : area g6 b = area g b := by
      have hoc : owner (set_player_id (set_area_id gm x y 0) x y 0) b ≠ p := by
        simp only [owner_set_player_id, owner_set_area_id]
        rw [if_neg hbs]
        have e1 : owner gm b = owner g5 b := V.frame.owner b
        rw [e1, V5.owners, if_neg hbs, ho]
        exact hpq
      rw [F6.area_other b hbs hoc]
      have e2 : area (set_player_id (set_area_id gm x y 0) x y 0) b = area gm b := by
        simp [hbs]
      have e3 : area gm b = area g5 b := V.mark_keep b hnm
      rw [e2, e3, V5.areas, if_neg hbs]
    have egL : area gL b = area gL r := by rw [K b hnm, e6, e]
    have hp := (C.region b r hRb hRr (hnoT b hRb) (hnoT r hRr)).1 egL
    have := hvic.path_same hRb.1 (Path.mono (fun c hc => hc.1) hp)
    exact hne (this.trans (hL.1 r hr).2.2.1)
  · intro r hr
    rw [hex, harea]
    have hRr := hrest r (hL.1 r hr)
    exact (C.exist_iff _).2 ⟨r, hRr, hnoT r hRr, rfl⟩

theorem gamma_golden_move_split_witness :
    BoardInv split_game_4 ∧ gamma_golden_move split_game_4 2 0 0 = some (true, split_game_7) ∧
    IsComponentReps split_game_4 (0, 0) [(1, 0)] ∧
    ([((1, 0) : Cell)].length ≤ 4 ∧
    (split_game_7.playerlist (owner split_game_4 (0, 0))).no_areas_used =
      (split_game_4.playerlist (owner split_game_4 (0, 0))).no_areas_used - 1
        + [((1, 0) : Cell)].length ∧
    (∀ r, r ∈ [((1, 0) : Cell)] → ∀ b, Path (InPiece split_game_4 (0, 0)) r b →
      area split_game_7 b = area split_game_7 r) ∧
    ([((1, 0) : Cell)].Pairwise fun r r' => area split_game_7 r ≠ area split_game_7 r') ∧
    (∀ r, r ∈ [((1, 0) : Cell)] → ∀ b, inb split_game_4 b →
      owner split_game_4 b = owner split_game_4 (0, 0) →
      area split_game_4 b ≠ area split_game_4 (0, 0) → area split_game_4 b ≠ area split_game_7 r) ∧
    (∀ r, r ∈ [((1, 0) : Cell)] →
      (split_game_7.playerlist (owner split_game_4 (0, 0))).does_area_exist
        (area split_game_7 r) = true)) :=
  ⟨(inv_of_reachable split_game_4_reachable).toBoardInv, split_game_7_eq, split_game_4_reps,
    gamma_golden_move_split split_game_4 split_game_7
      (inv_of_reachable split_game_4_reachable).toBoardInv 2 0 0 split_game_7_eq [(1, 0)]
      split_game_4_reps⟩

theorem tall_game_0_reachable : Reachable tall_game_0 :=
  Reachable.new (w := 1) (h := 2147483649) (p := 10) (a := 1) (by decide) (by decide)
    (by decide) (by decide) rfl

theorem tall_game_1_eq : gamma_move tall_game_0 10 0 0 = some (true, tall_game_1) := rfl

theorem tall_game_1_reachable : Reachable tall_game_1 :=
  Reachable.move tall_game_0_reachable tall_game_1_eq

theorem tall_game_1_owner (v : Cell) :
    owner tall_game_1 v = if v = (0, 0) then 10 else 0 := by
  have hI := inv_of_reachable tall_game_0_reachable
  obtain ⟨g', hg', F⟩ := gamma_move_framed tall_game_0 10 0 0 hI.dims
    (hI.toBoardInv.players 10 (by decide) (by decide)) rfl
  rw [tall_game_1_eq] at hg'
  have e : tall_game_1 = g' := by simpa using hg'
  rw [e, F.owners]
  rfl

/-- C26, evaluated on a board of more than `2^31` rows.  On the fresh board of
width `1` and height `2^31 + 1`, which is reachable and on which no cell is
owned, the row counter `int i = h - 1` of `print_board_without_space` starts
negative, no row is written, and `gamma_board` returns the empty string, while
`height * (width + 1)` is `4294967298`. -/
theorem gamma_board_tall_empty :
    Reachable tall_game_0 ∧ (∀ v, owner tall_game_0 v = 0) ∧
    rows_down tall_game_0.height = [] ∧
    gamma_board tall_game_0 = some [] ∧
    tall_game_0.height * (tall_game_0.width + 1) = 4294967298 :=
  ⟨tall_game_0_reachable, fun _ => rfl, rfl, rfl, rfl⟩

/-- C27, evaluated on a board of more than `2^31` rows.  After the move of
player 10 onto `(0, 0)` of the board of width `1` and height `2^31 + 1`, the
highest player id that owns a field is `10`, of `d = 2` decimal digits; the row
counter `int i = h - 1` of `print_board_with_space` starts negative, no row is
written, and `gamma_board` returns the empty string, while
`height * width * (d + 1)` is `6442450947`. -/
theorem gamma_board_tall_ten :
    Reachable tall_game_1 ∧ owner tall_game_1 (0, 0) = 10 ∧ (∀ v, owner tall_game_1 v ≤ 10) ∧
    length_of_max_player_id_on_board tall_game_1 = 2 ∧
    rows_down tall_game_1.height = [] ∧
    gamma_board tall_game_1 = some [] ∧
    tall_game_1.height * tall_game_1.width * (2 + 1) = 6442450947 := by
  refine ⟨tall_game_1_reachable, rfl, fun v => ?_, rfl, rfl, rfl, rfl⟩
  rw [tall_game_1_owner]
  split <;> decide

/-! ## What `gamma_board` writes on boards of at most `2^31` rows -/

/-- A loop that writes one character per column into consecutive places of a
buffer whose bytes in front of `it` are written. -/
theorem write_row (c : Nat → Char) (M : Nat) :
    ∀ (w : Nat) (b : Nat → Char) (it : Nat), it + w < M →
      (List.range w).foldl
        (fun (s : ((Nat → Char) × Nat) × Nat) j => (write s.1 s.2 (c j), (s.2 + 1) % M))
        ((b, it), it) =
      ((fun k => if it ≤ k ∧ k < it + w then c (k - it) else b k, it + w), it + w) := by
  intro w
  induction w with
  | zero =>
    intro b it _
    simp only [List.range_zero, List.foldl_nil, Nat.add_zero]
    refine Prod.ext (Prod.ext ?_ rfl) rfl
    funext k
    simp only []
    rw [if_neg (by omega)]
  | succ w ih =>
    intro b it h
    rw [List.range_succ, List.foldl_append, ih b it (by omega)]
    simp only [List.foldl_cons, List.foldl_nil]
    rw [Nat.mod_eq_of_lt (by omega)]
    refine Prod.ext (Prod.ext ?_ (by simp only [write]; omega)) (by simp only; omega)
    funext k
    simp only [write]
    by_cases hk : k = it + w
    · subst hk
      rw [if_pos rfl, if_pos (by omega)]
      congr 1
      omega
    · rw [if_neg hk]
      by_cases hr : it ≤ k ∧ k < it + w
      · rw [if_pos hr, if_pos (by omega)]
      · rw [if_neg hr, if_neg (by omega)]

/-- The rows of `l`, each followed by a newline, written into consecutive
places. -/
theorem write_rows (ch : Nat → Nat → Char) (w M : Nat) :
    ∀ (l : List Nat) (b : Nat → Char) (it : Nat), it + l.length * (w + 1) < M →
      l.foldl (fun (s : ((Nat → Char) × Nat) × Nat) i =>
        (write ((List.range w).foldl
            (fun (s : ((Nat → Char) × Nat) × Nat) j =>
              (write s.1 s.2 (ch j i), (s.2 + 1) % M)) s).1
          ((List.range w).foldl
            (fun (s : ((Nat → Char) × Nat) × Nat) j =>
              (write s.1 s.2 (ch j i), (s.2 + 1) % M)) s).2
          '\n',
         (((List.range w).foldl
            (fun (s : ((Nat → Char) × Nat) × Nat) j =>
              (write s.1 s.2 (ch j i), (s.2 + 1) % M)) s).2
          + 1) % M)) ((b, it), it) =
      ((fun k => if it ≤ k ∧ k < it + l.length * (w + 1) then
          (if (k - it) % (w + 1) < w then ch ((k - it) % (w + 1)) (l.getD ((k - it) / (w + 1)) 0)
            else '\n')
        else b k, it + l.length * (w + 1)), it + l.length * (w + 1)) := by
  intro l
  induction l with
  | nil =>
    intro b it _
    simp only [List.foldl_nil, List.length_nil, Nat.zero_mul, Nat.add_zero]
    refine Prod.ext (Prod.ext ?_ rfl) rfl
    funext k
    simp only []
    rw [if_neg (by omega)]
  | cons i l ih =>
    intro b it h
    have hlen : (i :: l).length * (w + 1) = (w + 1) + l.length * (w + 1) := by
      rw [List.length_cons, Nat.succ_mul, Nat.add_comm]
    rw [hlen] at h ⊢
    rw [List.foldl_cons, write_row (fun j => ch j i) M w b it (by omega)]
    simp only []
    have hw1 : write (fun k => if it ≤ k ∧ k < it + w then ch (k - it) i else b k, it + w)
        (it + w) '\n' =
        (fun k => if k = it + w then '\n'
          else if it ≤ k ∧ k < it + w then ch (k - it) i else b k, it + w + 1) := by
      refine Prod.ext rfl ?_
      simp only [write]
      omega
    rw [Nat.mod_eq_of_lt (by omega), hw1, ih _ (it + w + 1) (by omega)]
    refine Prod.ext (Prod.ext ?_ (by simp only; omega)) (by simp only; omega)
    funext k
    simp only []
    by_cases h1 : it + w + 1 ≤ k ∧ k < it + w + 1 + l.length * (w + 1)
    · have hc : it ≤ k ∧ k < it + (w + 1 + l.length * (w + 1)) := by omega
      rw [if_pos h1, if_pos hc]
      have e : k - it = (k - (it + w + 1)) + (w + 1) := by omega
      rw [e, Nat.add_mod_right, Nat.add_div_right _ (by omega), List.getD_cons_succ]
    · rw [if_neg h1]
      by_cases h2 : k = it + w
      · subst h2
        have hc : it ≤ it + w ∧ it + w < it + (w + 1 + l.length * (w + 1)) := by omega
        rw [if_pos rfl, if_pos hc]
        have e : it + w - it = w := by omega
        have hw : ¬ w % (w + 1) < w := by rw [Nat.mod_eq_of_lt (by omega)]; omega
        rw [e, if_neg hw]
      · rw [if_neg h2]
        by_cases h3 : it ≤ k ∧ k < it + w
        · have hc : it ≤ k ∧ k < it + (w + 1 + l.length * (w + 1)) := by omega
          rw [if_pos h3, if_pos hc]
          have e1 : (k - it) % (w + 1) = k - it := Nat.mod_eq_of_lt (by omega)
          have e2 : (k - it) / (w + 1) = 0 := Nat.div_eq_of_lt (by omega)
          have hlt : k - it < w := by omega
          rw [e1, e2, if_pos hlt, List.getD_cons_zero]
        · have hc : ¬ (it ≤ k ∧ k < it + (w + 1 + l.length * (w + 1))) := by omega
          rw [if_neg h3, if_neg hc]

/-- The loop of `max_player_id_on_board` returns the greatest player id up to
`n` with a busy field, or `0` when there is none. -/
theorem max_player_id_loop_spec (g : gamma_t) :
    ∀ n, (max_player_id_loop g n = 0 ∨
        (1 ≤ max_player_id_loop g n ∧ max_player_id_loop g n ≤ n ∧
          gamma_busy_fields g (max_player_id_loop g n) ≠ 0)) ∧
      ∀ i, max_player_id_loop g n < i → i ≤ n → gamma_busy_fields g i = 0 := by
  intro n
  induction n with
  | zero =>
    refine ⟨Or.inl rfl, fun i h1 h2 => ?_⟩
    simp only [max_player_id_loop] at h1
    omega
  | succ n ih =>
    by_cases hb : gamma_busy_fields g (n + 1) ≠ 0
    · have e : max_player_id_loop g (n + 1) = n + 1 := by
        simp only [max_player_id_loop, if_pos hb]
      rw [e]
      exact ⟨Or.inr ⟨by omega, le_rfl, hb⟩, fun i h1 h2 => by omega⟩
    · have e : max_player_id_loop g (n + 1) = max_player_id_loop g n := by
        simp only [max_player_id_loop, if_neg hb]
      rw [e]
      refine ⟨?_, fun i h1 h2 => ?_⟩
      · rcases ih.1 with h0 | ⟨h1, h2, h3⟩
        · exact Or.inl h0
        · exact Or.inr ⟨h1, by omega, h3⟩
      · by_cases hi : i = n + 1
        · subst hi
          simpa using hb
        · exact ih.2 i h1 (by omega)

/-- In a state that satisfies invariant 5, a valid player has a busy field
exactly when it owns a cell of the board. -/
theorem gamma_busy_fields_ne_zero (g : gamma_t) (hI : SpecInv g) (p : Nat) (hp1 : 1 ≤ p)
    (hp2 : p ≤ g.no_players) :
    gamma_busy_fields g p ≠ 0 ↔ ∃ v, inb g v ∧ owner g v = p := by
  have hr : player_fit_the_range g p = true := by
    simp only [player_fit_the_range, get_no_players, Bool.and_eq_true, decide_eq_true_eq]
    omega
  simp only [gamma_busy_fields, gamma_busy_fields_valid_input, Bool.true_and, hr, if_true,
    get_player_no_busy_fields]
  rw [hI.busy_count p hp1 hp2, Finset.card_ne_zero]
  constructor
  · rintro ⟨v, hv⟩
    exact ⟨v, mem_owned.1 hv⟩
  · rintro ⟨v, hv⟩
    exact ⟨v, mem_owned.2 hv⟩

/-- In a state that satisfies invariants 1 to 5, `max_player_id_on_board` is the
highest player id that owns a cell, and `0` on the empty board. -/
theorem max_player_id_on_board_spec (g : gamma_t) (hI : SpecInv g) :
    (∀ v, inb g v → owner g v ≤ max_player_id_on_board g) ∧
    (max_player_id_on_board g = 0 ∨ ∃ v, inb g v ∧ owner g v = max_player_id_on_board g) := by
  obtain ⟨h1, h2⟩ := max_player_id_loop_spec g g.no_players
  unfold max_player_id_on_board get_no_players
  constructor
  · intro v hv
    by_contra hlt
    have hle := hI.owner_le v hv
    have h0 := h2 (owner g v) (by omega) hle
    exact (gamma_busy_fields_ne_zero g hI (owner g v) (by omega) hle).2 ⟨v, hv, rfl⟩ h0
  · rcases h1 with h0 | ⟨ha, hb, hc⟩
    · exact Or.inl h0
    · exact Or.inr ((gamma_busy_fields_ne_zero g hI _ ha hb).1 hc)

theorem len_of_le_nine (n : Nat) (h : n ≤ 9) : len n = 1 := by
  interval_cases n <;> decide

/-- On a board of at most `2^31` rows the row loop visits the rows
`h - 1, ..., 0`. -/
theorem rows_down_eq (h : Nat) (h1 : 1 ≤ h) (h2 : h ≤ 2147483648) :
    rows_down h = (List.range h).reverse := by
  unfold rows_down
  have e : (h + 4294967295) % 4294967296 = h - 1 := by omega
  rw [e, if_pos (by omega)]

theorem rows_down_length (h : Nat) (h1 : 1 ≤ h) (h2 : h ≤ 2147483648) :
    (rows_down h).length = h := by
  rw [rows_down_eq h h1 h2, List.length_reverse, List.length_range]

theorem rows_down_getD (h r : Nat) (h1 : 1 ≤ h) (h2 : h ≤ 2147483648) (hr : r < h) :
    (rows_down h).getD r 0 = h - 1 - r := by
  rw [rows_down_eq h h1 h2, List.getD_eq_getElem _ _ (by simpa using hr),
    List.getElem_reverse, List.getElem_range]
  simp

theorem c_string_length (buffer : Nat → Char) (it : Nat) : (c_string buffer it).length = it := by
  simp [c_string]

theorem c_string_get (buffer : Nat → Char) (it k : Nat) (hk : k < it) :
    (c_string buffer it)[k]? = some (buffer k) := by
  simp [c_string, List.getElem?_range hk]

theorem c_string_write (buffer : (Nat → Char) × Nat) (it : Nat) (c : Char) :
    c_string (write buffer it c).1 it = c_string buffer.1 it := by
  unfold c_string write
  apply List.map_congr_left
  intro k hk
  have : k < it := List.mem_range.1 hk
  simp only []
  rw [if_neg (by omega)]

theorem write_top (b : Nat → Char) (n : Nat) (c : Char) : (write (b, n) n c).2 = n + 1 := by
  simp only [write]
  omega

/-- What `print_board_without_space` does on a board of at most `2^31` rows.
When the board has fewer than `2^32` cells it returns the string held by a
buffer in which the row `h - 1 - r` of the board stands at the places
`r * (w + 1), ..., r * (w + 1) + w - 1`, followed by a newline; when the board
has `2^32` cells or more, the buffer of `board_size + h + 1` bytes is too short
for the `h * (w + 1) + 1` bytes written. -/
theorem print_board_without_space_eq (g : gamma_t) (hd : Dims g)
    (hh : g.height ≤ 2147483648) :
    ∃ buffer : Nat → Char,
      print_board_without_space g =
        (if g.height * g.width < 4294967296 then
          some (c_string buffer (g.height * (g.width + 1))) else none) ∧
      ∀ r c, r < g.height → c ≤ g.width →
        buffer (r * (g.width + 1) + c) =
          if c < g.width then
            (if (g.board (g.height - 1 - r) c).player_id = 0 then '.'
              else Char.ofNat (((g.board (g.height - 1 - r) c).player_id + 48) % 256))
          else '\n' := by
  have h1 := hd.height_pos
  have hw := hd.width_lt
  have hmul : g.height * (g.width + 1) ≤ 2147483648 * 4294967296 :=
    Nat.mul_le_mul hh (by omega)
  have hbound : 0 + (rows_down g.height).length * (g.width + 1) < 18446744073709551616 := by
    rw [rows_down_length _ h1 hh]
    omega
  have key := write_rows
    (fun j i => if (g.board i j).player_id = 0 then '.'
      else Char.ofNat (((g.board i j).player_id + 48) % 256))
    g.width 18446744073709551616 (rows_down g.height) (fun _ => Char.ofNat 0) 0 hbound
  rw [rows_down_length _ h1 hh] at key
  simp only [Nat.zero_le, true_and, Nat.zero_add, Nat.sub_zero] at key
  refine ⟨?buf, ?h1, ?h2⟩
  case h1 =>
    unfold print_board_without_space
    simp only [get_height, get_width, get_field]
    rw [key]
    simp only [c_string_write]
    rw [write_top]
    have hsz : g.height * (g.width + 1) = g.height * g.width + g.height := by
      rw [Nat.mul_succ]
    by_cases hfit : g.height * g.width < 4294967296
    · have hc : g.height * (g.width + 1) + 1
          ≤ (board_size g + g.height + 1) % 18446744073709551616 := by
        unfold board_size get_height get_width
        rw [Nat.mod_eq_of_lt hfit]
        omega
      rw [if_pos hc, if_pos hfit]
      exact rfl
    · have hc : ¬ g.height * (g.width + 1) + 1
          ≤ (board_size g + g.height + 1) % 18446744073709551616 := by
        unfold board_size get_height get_width
        have := Nat.mod_lt (g.height * g.width) (show 0 < 4294967296 by decide)
        omega
      rw [if_neg hc, if_neg hfit]
  case h2 =>
    intro r c hr hc
    have hlt : r * (g.width + 1) + c < g.height * (g.width + 1) := by
      have : (r + 1) * (g.width + 1) ≤ g.height * (g.width + 1) :=
        Nat.mul_le_mul_right _ (by omega)
      rw [Nat.succ_mul] at this
      omega
    have hm : (r * (g.width + 1) + c) % (g.width + 1) = c := by
      rw [Nat.add_comm, Nat.add_mul_mod_self_right, Nat.mod_eq_of_lt (by omega)]
    have hq : (r * (g.width + 1) + c) / (g.width + 1) = r := by
      rw [Nat.add_comm, Nat.add_mul_div_right _ _ (by omega), Nat.div_eq_of_lt (by omega),
        Nat.zero_add]
    rw [if_pos hlt, hm, hq, rows_down_getD _ _ h1 hh hr]

/-- The claim C26 on boards of at most `2^31` rows and fewer than `2^32`
cells.  In a state that satisfies invariants 1 to 5 on such a board, when no
owner id exceeds 9, `gamma_board` returns a string of exactly
`height * (width + 1)` characters in which, for every output row `r` and column
`c`, the character at index `r * (width + 1) + c` is a dot if the cell
`(c, height - 1 - r)` is unowned and otherwise the decimal digit of its owner,
and the character at index `r * (width + 1) + width` is a newline. -/
theorem gamma_board_small_ids (g : gamma_t) (hI : SpecInv g) (hh : g.height ≤ 2147483648)
    (hfit : g.height * g.width < 4294967296)
    (h9 : ∀ v, inb g v → owner g v ≤ 9) :
    ∃ board, gamma_board g = some board ∧
    board.length = g.height * (g.width + 1) ∧
    ∀ r c, r < g.height → c < g.width →
      board[r * (g.width + 1) + c]? =
        some (if owner g (c, g.height - 1 - r) = 0 then '.'
          else Char.ofNat (owner g (c, g.height - 1 - r) + 48)) ∧
      board[r * (g.width + 1) + g.width]? = some '\n' := by
  obtain ⟨hmax, hex⟩ := max_player_id_on_board_spec g hI
  have hm9 : max_player_id_on_board g ≤ 9 := by
    rcases hex with h0 | ⟨v, hv, hvo⟩
    · omega
    · rw [← hvo]; exact h9 v hv
  have hboard : gamma_board g = print_board_without_space g := by
    unfold gamma_board length_of_max_player_id_on_board
    simp only [len_of_le_nine _ hm9]
    rw [if_neg (by omega)]
  obtain ⟨buffer, hs, hb⟩ := print_board_without_space_eq g hI.dims hh
  rw [if_pos hfit] at hs
  refine ⟨_, by rw [hboard, hs], c_string_length _ _, fun r c hr hc => ?_⟩
  have hlt : ∀ c', c' ≤ g.width → r * (g.width + 1) + c' < g.height * (g.width + 1) := by
    intro c' hc'
    have : (r + 1) * (g.width + 1) ≤ g.height * (g.width + 1) :=
      Nat.mul_le_mul_right _ (by omega)
    rw [Nat.succ_mul] at this
    omega
  rw [c_string_get _ _ _ (hlt c (by omega)), c_string_get _ _ _ (hlt g.width le_rfl),
    hb r c hr (by omega), hb r g.width hr le_rfl]
  have hww : ¬ g.width < g.width := by omega
  constructor
  · have ho : owner g (c, g.height - 1 - r) ≤ 9 := h9 _ ⟨hc, by omega⟩
    have e : (g.board (g.height - 1 - r) c).player_id = owner g (c, g.height - 1 - r) := rfl
    rw [if_pos hc, e, Nat.mod_eq_of_lt (by omega)]
  · rw [if_neg hww]

/-- On a board of at most `2^31` rows and `2^32` cells or more, such as the
board of 65536 columns and 65536 rows, `gamma_board` in the one-character
format has no result: it writes behind the end of its buffer. -/
theorem gamma_board_small_ids_overflow (g : gamma_t) (hI : SpecInv g)
    (hh : g.height ≤ 2147483648) (hbig : 4294967296 ≤ g.height * g.width)
    (h9 : ∀ v, inb g v → owner g v ≤ 9) : gamma_board g = none := by
  obtain ⟨hmax, hex⟩ := max_player_id_on_board_spec g hI
  have hm9 : max_player_id_on_board g ≤ 9 := by
    rcases hex with h0 | ⟨v, hv, hvo⟩
    · omega
    · rw [← hvo]; exact h9 v hv
  have hboard : gamma_board g = print_board_without_space g := by
    unfold gamma_board length_of_max_player_id_on_board
    simp only [len_of_le_nine _ hm9]
    rw [if_neg (by omega)]
  obtain ⟨buffer, hs, -⟩ := print_board_without_space_eq g hI.dims hh
  rw [if_neg (by omega)] at hs
  rw [hboard, hs]

/-- The fresh board of 65536 columns and 65536 rows: `board_size` is `0` in
`uint32_t`, the buffer has 65537 bytes, and `gamma_board` writes 4295032833
bytes. -/
theorem gamma_board_wide_overflow :
    board_size wide_game_0 + get_height wide_game_0 + 1 = 65537 ∧
    wide_game_0.height * (wide_game_0.width + 1) + 1 = 4295032833 ∧
    gamma_board wide_game_0 = none :=
  ⟨rfl, rfl, gamma_board_small_ids_overflow wide_game_0
    (inv_of_reachable wide_game_0_reachable).toSpecInv (by decide) (by decide) (fun v _ => by
      have : owner wide_game_0 v = 0 := rfl
      omega)⟩

theorem gamma_board_small_ids_example :
    ∃ board, gamma_board corner_game_3 = some board ∧
    board.length = 4 * (4 + 1) ∧
    board[3 * (4 + 1) + 1]? = some '1' ∧
    board[0 * (4 + 1) + 3]? = some '2' ∧
    board[0 * (4 + 1) + 4]? = some '\n' :=
  ⟨_, rfl, by decide⟩

/-! ## The numerals written by `insert_player_id_in_buffer` -/

theorem len_loop_zero (fuel log : Nat) : len_loop fuel 0 log = log := by
  cases fuel <;> simp [len_loop]

theorem len_loop_eq : ∀ (fuel n log : Nat), 0 < n → n ≤ fuel →
    len_loop fuel n log = log + (Nat.log 10 n + 1) := by
  intro fuel
  induction fuel with
  | zero => intro n log h1 h2; omega
  | succ fuel ih =>
    intro n log h1 h2
    have hn : n ≠ 0 := by omega
    simp only [len_loop, if_neg hn]
    by_cases h10 : n < 10
    · rw [Nat.div_eq_of_lt h10, len_loop_zero, Nat.log_of_lt h10]
    · have hd : 0 < n / 10 := Nat.div_pos (by omega) (by omega)
      have hlt : n / 10 < n := Nat.div_lt_self h1 (by omega)
      rw [ih (n / 10) (log + 1) hd (by omega),
        Nat.log_of_one_lt_of_le (by omega : 1 < 10) (by omega : 10 ≤ n)]
      omega

/-- The value of `len`: the number of decimal digits. -/
theorem len_eq (n : Nat) (h : 0 < n) : len n = Nat.log 10 n + 1 := by
  unfold len
  rw [if_neg (by omega), len_loop_eq n n 0 h le_rfl, Nat.zero_add]

theorem len_pos (n : Nat) : 1 ≤ len n := by
  by_cases h : n = 0
  · subst h; decide
  · rw [len_eq n (by omega)]; omega

theorem len_mono {n m : Nat} (h : n ≤ m) : len n ≤ len m := by
  by_cases hn : n = 0
  · subst hn
    exact len_pos m
  · rw [len_eq n (by omega), len_eq m (by omega)]
    have := Nat.log_mono_right (b := 10) h
    omega

theorem write_pair (b : Nat → Char) (t i : Nat) (c : Char) :
    write (b, t) i c = (fun k => if k = i then c else b k, max t (i + 1)) := rfl

/-- The digit loop of `insert_player_id_in_buffer`, run for the places
`L - 1, ..., 0`. -/
theorem write_digits (ptr : Nat) :
    ∀ (L P : Nat) (b : Nat → Char) (t : Nat), ptr + L ≤ 4294967296 → ptr ≤ t →
      (List.range L).reverse.foldl (fun (s : ((Nat → Char) × Nat) × Nat) i =>
        (write s.1 ((ptr + i) % 4294967296) (Char.ofNat (s.2 % 10 + 48)), s.2 / 10))
        ((b, t), P) =
      ((fun k => if ptr ≤ k ∧ k < ptr + L then
          Char.ofNat (P / 10 ^ (L - 1 - (k - ptr)) % 10 + 48) else b k, max t (ptr + L)),
        P / 10 ^ L) := by
  intro L
  induction L with
  | zero =>
    intro P b t _ ht
    simp only [List.range_zero, List.reverse_nil, List.foldl_nil, pow_zero, Nat.div_one,
      Nat.add_zero]
    refine Prod.ext (Prod.ext ?_ (by simp only; omega)) rfl
    funext k
    simp only []
    rw [if_neg (by omega)]
  | succ L ih =>
    intro P b t h ht
    rw [List.range_succ, List.reverse_append, List.reverse_singleton, List.singleton_append,
      List.foldl_cons]
    simp only []
    rw [Nat.mod_eq_of_lt (by omega), write_pair, ih (P / 10) _ _ (by omega) (by omega)]
    refine Prod.ext (Prod.ext ?_ (by simp only; omega)) ?_
    · funext k
      simp only []
      by_cases h1 : ptr ≤ k ∧ k < ptr + L
      · have h2 : ptr ≤ k ∧ k < ptr + (L + 1) := by omega
        rw [if_pos h1, if_pos h2, Nat.div_div_eq_div_mul, ← pow_succ']
        have e : L - 1 - (k - ptr) + 1 = L + 1 - 1 - (k - ptr) := by omega
        rw [e]
      · rw [if_neg h1]
        by_cases h3 : k = ptr + L
        · have h2 : ptr ≤ k ∧ k < ptr + (L + 1) := by omega
          have e : L + 1 - 1 - (k - ptr) = 0 := by omega
          rw [if_pos h3, if_pos h2, e, pow_zero, Nat.div_one]
        · have h2 : ¬ (ptr ≤ k ∧ k < ptr + (L + 1)) := by omega
          rw [if_neg h3, if_neg h2]
    · simp only []
      rw [Nat.div_div_eq_div_mul, ← pow_succ']

/-- The padding loops of `insert_player_id_in_buffer`. -/
theorem write_spaces (ptr : Nat) :
    ∀ (m a : Nat) (b : Nat → Char) (t : Nat), ptr + a + m ≤ 4294967296 → ptr + a ≤ t →
      (List.range' a m).foldl (fun buffer i => write buffer ((ptr + i) % 4294967296) ' ')
        (b, t) =
      (fun k => if ptr + a ≤ k ∧ k < ptr + a + m then ' ' else b k, max t (ptr + a + m)) := by
  intro m
  induction m with
  | zero =>
    intro a b t _ ht
    simp only [List.range'_zero, List.foldl_nil]
    refine Prod.ext ?_ (by simp only; omega)
    funext k
    simp only []
    rw [if_neg (by omega)]
  | succ m ih =>
    intro a b t h ht
    rw [List.range'_succ, List.foldl_cons, Nat.mod_eq_of_lt (by omega), write_pair,
      ih (a + 1) _ _ (by omega) (by omega)]
    refine Prod.ext ?_ (by simp only; omega)
    funext k
    simp only []
    by_cases h1 : ptr + (a + 1) ≤ k ∧ k < ptr + (a + 1) + m
    · have h2 : ptr + a ≤ k ∧ k < ptr + a + (m + 1) := by omega
      rw [if_pos h1, if_pos h2]
    · rw [if_neg h1]
      by_cases h3 : k = ptr + a
      · have h2 : ptr + a ≤ k ∧ k < ptr + a + (m + 1) := by omega
        rw [if_pos h3, if_pos h2]
      · have h2 : ¬ (ptr + a ≤ k ∧ k < ptr + a + (m + 1)) := by omega
        rw [if_neg h3, if_neg h2]

/-- What `insert_player_id_in_buffer` writes: a field of
`no_places_it_should_take` characters that starts at `ptr`. -/
theorem insert_player_id_in_buffer_eq (b : Nat → Char) (t ptr n player_id : Nat)
    (hn : len player_id ≤ n) (hp : ptr + n ≤ 4294967296) (ht : ptr ≤ t) :
    insert_player_id_in_buffer (b, t) ptr n player_id =
      (fun k => if ptr ≤ k ∧ k < ptr + n then pocket_char player_id (k - ptr) else b k,
        max t (ptr + n)) := by
  have hl := len_pos player_id
  unfold insert_player_id_in_buffer
  by_cases h0 : player_id = 0
  · subst h0
    rw [if_neg (by simp)]
    simp only []
    rw [write_pair, write_spaces ptr (n - 1) 1 _ _ (by omega) (by omega)]
    refine Prod.ext ?_ (by simp only; omega)
    funext k
    simp only [pocket_char, if_true]
    by_cases h1 : ptr + 1 ≤ k ∧ k < ptr + 1 + (n - 1)
    · have h2 : ptr ≤ k ∧ k < ptr + n := by omega
      have h3 : ¬ k - ptr = 0 := by omega
      rw [if_pos h1, if_pos h2, if_neg h3]
    · rw [if_neg h1]
      by_cases h3 : k = ptr
      · have h2 : ptr ≤ k ∧ k < ptr + n := by omega
        have h4 : k - ptr = 0 := by omega
        rw [if_pos h3, if_pos h2, if_pos h4]
      · have h2 : ¬ (ptr ≤ k ∧ k < ptr + n) := by omega
        rw [if_neg h3, if_neg h2]
  · rw [if_pos h0]
    simp only []
    rw [write_digits ptr (len player_id) player_id b t (by omega) ht]
    simp only []
    rw [write_spaces ptr (n - len player_id) (len player_id) _ _ (by omega) (by omega)]
    refine Prod.ext ?_ (by simp only; omega)
    funext k
    simp only [pocket_char, if_neg h0]
    by_cases h1 : ptr + len player_id ≤ k ∧ k < ptr + len player_id + (n - len player_id)
    · have h2 : ptr ≤ k ∧ k < ptr + n := by omega
      have h3 : ¬ k - ptr < len player_id := by omega
      rw [if_pos h1, if_pos h2, if_neg h3]
    · rw [if_neg h1]
      by_cases h3 : ptr ≤ k ∧ k < ptr + len player_id
      · have h2 : ptr ≤ k ∧ k < ptr + n := by omega
        have h4 : k - ptr < len player_id := by omega
        rw [if_pos h3, if_pos h2, if_pos h4]
      · have h2 : ¬ (ptr ≤ k ∧ k < ptr + n) := by omega
        rw [if_neg h3, if_neg h2]

/-- Division with remainder of a place inside a row of fields. -/
theorem pocket_div_mod (m t d : Nat) (ht : t ≤ d) :
    (m * (d + 1) + t) / (d + 1) = m ∧ (m * (d + 1) + t) % (d + 1) = t := by
  constructor
  · rw [Nat.add_comm, Nat.add_mul_div_right _ _ (by omega), Nat.div_eq_of_lt (by omega),
      Nat.zero_add]
  · rw [Nat.add_comm, Nat.add_mul_mod_self_right, Nat.mod_eq_of_lt (by omega)]

/-- The column loop of `print_board_with_space` after the columns below `m`:
every field takes `d` places and is followed by a space, except the field of
the last column. -/
theorem write_pockets (pid : Nat → Nat) (d w : Nat) (hw1 : 1 ≤ w) (hw2 : w < 4294967296)
    (hlen : ∀ j, j < w → len (pid j) ≤ d) (b : Nat → Char) (it0 : Nat)
    (hfit : it0 + w * (d + 1) < 4294967296) :
    ∀ m, m ≤ w →
      (List.range m).foldl (fun (s : ((Nat → Char) × Nat) × Nat) j =>
        if j ≠ (w + 4294967295) % 4294967296 then
          (write (insert_player_id_in_buffer s.1 s.2 d (pid j)) ((s.2 + d) % 4294967296) ' ',
            ((s.2 + d) % 4294967296 + 1) % 4294967296)
        else (insert_player_id_in_buffer s.1 s.2 d (pid j), (s.2 + d) % 4294967296))
        ((b, it0), it0) =
      ((fun k => if it0 ≤ k ∧ k < it0 + (m * (d + 1) - if m = w then 1 else 0) then
          (if (k - it0) % (d + 1) < d then
            pocket_char (pid ((k - it0) / (d + 1))) ((k - it0) % (d + 1)) else ' ')
        else b k,
        it0 + (m * (d + 1) - if m = w then 1 else 0)),
        it0 + (m * (d + 1) - if m = w then 1 else 0)) := by
  have hw' : (w + 4294967295) % 4294967296 = w - 1 := by omega
  intro m
  induction m with
  | zero =>
    intro _
    have e : (0 * (d + 1) - if 0 = w then 1 else 0) = 0 := by simp
    rw [e, List.range_zero, List.foldl_nil]
    refine Prod.ext (Prod.ext ?_ rfl) rfl
    funext k
    simp only []
    rw [if_neg (by omega)]
  | succ m ih =>
    intro hm
    have hmw : ¬ m = w := by omega
    have hmul : (m + 1) * (d + 1) ≤ w * (d + 1) := Nat.mul_le_mul_right _ hm
    rw [Nat.succ_mul] at hmul
    rw [List.range_succ, List.foldl_append, ih (by omega), if_neg hmw, Nat.sub_zero, hw']
    simp only [List.foldl_cons, List.foldl_nil]
    rw [insert_player_id_in_buffer_eq _ _ _ _ _ (hlen m (by omega)) (by omega) le_rfl,
      Nat.mod_eq_of_lt (by omega)]
    have hsucc : (m + 1) * (d + 1) = m * (d + 1) + d + 1 := by rw [Nat.succ_mul]; omega
    -- the field of column `m`
    have hfield : ∀ k, it0 + m * (d + 1) ≤ k → k < it0 + m * (d + 1) + d →
        (k - it0) / (d + 1) = m ∧ (k - it0) % (d + 1) = k - (it0 + m * (d + 1)) := by
      intro k h1 h2
      have e : k - it0 = m * (d + 1) + (k - (it0 + m * (d + 1))) := by omega
      rw [e]
      have := pocket_div_mod m (k - (it0 + m * (d + 1))) d (by omega)
      exact ⟨this.1, this.2⟩
    by_cases hlast : m = w - 1
    · have hne : ¬ m ≠ w - 1 := by omega
      have hmw1 : m + 1 = w := by omega
      rw [if_neg hne, if_pos hmw1, hsucc]
      refine Prod.ext (Prod.ext ?_ (by simp only; omega)) (by simp only; omega)
      funext k
      simp only []
      by_cases h1 : it0 + m * (d + 1) ≤ k ∧ k < it0 + m * (d + 1) + d
      · have h2 : it0 ≤ k ∧ k < it0 + (m * (d + 1) + d + 1 - 1) := by omega
        obtain ⟨e1, e2⟩ := hfield k h1.1 h1.2
        have h3 : (k - it0) % (d + 1) < d := by rw [e2]; omega
        rw [if_pos h1, if_pos h2, if_pos h3, e1, e2]
      · rw [if_neg h1]
        by_cases h4 : it0 ≤ k ∧ k < it0 + m * (d + 1)
        · have h2 : it0 ≤ k ∧ k < it0 + (m * (d + 1) + d + 1 - 1) := by omega
          rw [if_pos h4, if_pos h2]
        · have h2 : ¬ (it0 ≤ k ∧ k < it0 + (m * (d + 1) + d + 1 - 1)) := by omega
          rw [if_neg h4, if_neg h2]
    · have hne : m ≠ w - 1 := hlast
      have hmw1 : ¬ m + 1 = w := by omega
      rw [if_pos hne, if_neg hmw1, Nat.sub_zero, Nat.mod_eq_of_lt (by omega), hsucc, write_pair]
      refine Prod.ext (Prod.ext ?_ (by simp only; omega)) (by simp only; omega)
      funext k
      simp only []
      by_cases h0 : k = it0 + m * (d + 1) + d
      · have h2 : it0 ≤ k ∧ k < it0 + (m * (d + 1) + d + 1) := by omega
        have e : k - it0 = m * (d + 1) + d := by omega
        have h3 : ¬ (k - it0) % (d + 1) < d := by
          rw [e, (pocket_div_mod m d d le_rfl).2]; omega
        rw [if_pos h0, if_pos h2, if_neg h3]
      · rw [if_neg h0]
        by_cases h1 : it0 + m * (d + 1) ≤ k ∧ k < it0 + m * (d + 1) + d
        · have h2 : it0 ≤ k ∧ k < it0 + (m * (d + 1) + d + 1) := by omega
          obtain ⟨e1, e2⟩ := hfield k h1.1 h1.2
          have h3 : (k - it0) % (d + 1) < d := by rw [e2]; omega
          rw [if_pos h1, if_pos h2, if_pos h3, e1, e2]
        · rw [if_neg h1]
          by_cases h4 : it0 ≤ k ∧ k < it0 + m * (d + 1)
          · have h2 : it0 ≤ k ∧ k < it0 + (m * (d + 1) + d + 1) := by omega
            rw [if_pos h4, if_pos h2]
          · have h2 : ¬ (it0 ≤ k ∧ k < it0 + (m * (d + 1) + d + 1)) := by omega
            rw [if_neg h4, if_neg h2]

/-- The row loop of `print_board_with_space` over the rows of `l`: every row
takes `w * (d + 1)` places, the last of them for the newline. -/
theorem write_pocket_rows (pid : Nat → Nat → Nat) (d w : Nat) (hd : 1 ≤ d) (hw1 : 1 ≤ w)
    (hw2 : w < 4294967296) :
    ∀ (l : List Nat) (b : Nat → Char) (it0 : Nat),
      (∀ i, i ∈ l → ∀ j, j < w → len (pid j i) ≤ d) →
      it0 + l.length * (w * (d + 1)) < 4294967296 →
      l.foldl (fun (s : ((Nat → Char) × Nat) × Nat) i =>
        (write ((List.range w).foldl (fun (s : ((Nat → Char) × Nat) × Nat) j =>
              if j ≠ (w + 4294967295) % 4294967296 then
                (write (insert_player_id_in_buffer s.1 s.2 d (pid j i))
                  ((s.2 + d) % 4294967296) ' ',
                  ((s.2 + d) % 4294967296 + 1) % 4294967296)
              else (insert_player_id_in_buffer s.1 s.2 d (pid j i),
                (s.2 + d) % 4294967296)) s).1
          ((List.range w).foldl (fun (s : ((Nat → Char) × Nat) × Nat) j =>
              if j ≠ (w + 4294967295) % 4294967296 then
                (write (insert_player_id_in_buffer s.1 s.2 d (pid j i))
                  ((s.2 + d) % 4294967296) ' ',
                  ((s.2 + d) % 4294967296 + 1) % 4294967296)
              else (insert_player_id_in_buffer s.1 s.2 d (pid j i),
                (s.2 + d) % 4294967296)) s).2 '\n',
         (((List.range w).foldl (fun (s : ((Nat → Char) × Nat) × Nat) j =>
              if j ≠ (w + 4294967295) % 4294967296 then
                (write (insert_player_id_in_buffer s.1 s.2 d (pid j i))
                  ((s.2 + d) % 4294967296) ' ',
                  ((s.2 + d) % 4294967296 + 1) % 4294967296)
              else (insert_player_id_in_buffer s.1 s.2 d (pid j i),
                (s.2 + d) % 4294967296)) s).2 + 1) % 4294967296)) ((b, it0), it0) =
      ((fun k => if it0 ≤ k ∧ k < it0 + l.length * (w * (d + 1)) then
          (if (k - it0) % (w * (d + 1)) % (d + 1) < d then
            pocket_char (pid ((k - it0) % (w * (d + 1)) / (d + 1))
                (l.getD ((k - it0) / (w * (d + 1))) 0))
              ((k - it0) % (w * (d + 1)) % (d + 1))
          else if (k - it0) % (w * (d + 1)) / (d + 1) = w - 1 then '\n' else ' ')
        else b k,
        it0 + l.length * (w * (d + 1))), it0 + l.length * (w * (d + 1))) := by
  have hR : w * (d + 1) = (w - 1) * (d + 1) + d + 1 := by
    have : w = (w - 1) + 1 := by omega
    conv_lhs => rw [this, Nat.succ_mul]
    rw [Nat.add_assoc]
  intro l
  induction l with
  | nil =>
    intro b it0 _ _
    rw [List.foldl_nil, List.length_nil, Nat.zero_mul]
    refine Prod.ext (Prod.ext ?_ rfl) rfl
    funext k
    simp only []
    rw [if_neg (by omega)]
  | cons i l ih =>
    intro b it0 hlen hfit
    have hlen' : (i :: l).length * (w * (d + 1)) = w * (d + 1) + l.length * (w * (d + 1)) := by
      rw [List.length_cons, Nat.succ_mul, Nat.add_comm]
    rw [hlen'] at hfit ⊢
    rw [List.foldl_cons,
      write_pockets (fun j => pid j i) d w hw1 hw2
        (fun j hj => hlen i (List.mem_cons_self _ _) j hj) b it0 (by omega) w le_rfl,
      if_pos rfl]
    simp only []
    have e1 : (it0 + (w * (d + 1) - 1) + 1) % 4294967296 = it0 + w * (d + 1) := by
      rw [Nat.mod_eq_of_lt (by omega)]; omega
    have e2 : max (it0 + (w * (d + 1) - 1)) (it0 + (w * (d + 1) - 1) + 1)
        = it0 + w * (d + 1) := by omega
    rw [write_pair, e2, e1, ih _ (it0 + w * (d + 1))
      (fun i' hi' => hlen i' (List.mem_cons_of_mem _ hi')) (by omega)]
    refine Prod.ext (Prod.ext ?_ (by simp only; omega)) (by simp only; omega)
    funext k
    simp only []
    by_cases hA : it0 + w * (d + 1) ≤ k ∧ k < it0 + w * (d + 1) + l.length * (w * (d + 1))
    · have hc : it0 ≤ k ∧ k < it0 + (w * (d + 1) + l.length * (w * (d + 1))) := by omega
      have e : k - it0 = (k - (it0 + w * (d + 1))) + w * (d + 1) := by omega
      rw [if_pos hA, if_pos hc, e, Nat.add_mod_right, Nat.add_div_right _ (by omega),
        List.getD_cons_succ]
    · rw [if_neg hA]
      by_cases hB : k = it0 + (w * (d + 1) - 1)
      · have hc : it0 ≤ k ∧ k < it0 + (w * (d + 1) + l.length * (w * (d + 1))) := by omega
        have e : k - it0 = (w - 1) * (d + 1) + d := by omega
        have em : ((w - 1) * (d + 1) + d) % (w * (d + 1)) = (w - 1) * (d + 1) + d :=
          Nat.mod_eq_of_lt (by omega)
        have hdd : ¬ d < d := by omega
        rw [if_pos hB, if_pos hc, e, em, (pocket_div_mod (w - 1) d d le_rfl).1,
          (pocket_div_mod (w - 1) d d le_rfl).2, if_neg hdd, if_pos rfl]
      · rw [if_neg hB]
        by_cases hC : it0 ≤ k ∧ k < it0 + (w * (d + 1) - 1)
        · have hc : it0 ≤ k ∧ k < it0 + (w * (d + 1) + l.length * (w * (d + 1))) := by omega
          have em : (k - it0) % (w * (d + 1)) = k - it0 := Nat.mod_eq_of_lt (by omega)
          have eq : (k - it0) / (w * (d + 1)) = 0 := Nat.div_eq_of_lt (by omega)
          rw [if_pos hC, if_pos hc, em, eq, List.getD_cons_zero]
          by_cases ht : (k - it0) % (d + 1) < d
          · rw [if_pos ht, if_pos ht]
          · have hne : ¬ (k - it0) / (d + 1) = w - 1 := by
              intro hq
              have hdm := Nat.div_add_mod (k - it0) (d + 1)
              have hltm := Nat.mod_lt (k - it0) (by omega : d + 1 > 0)
              rw [hq, Nat.mul_comm] at hdm
              omega
            rw [if_neg ht, if_neg ht, if_neg hne]
        · have hc : ¬ (it0 ≤ k ∧ k < it0 + (w * (d + 1) + l.length * (w * (d + 1)))) := by
            omega
          rw [if_neg hC, if_neg hc]

/-- What `print_board_with_space` does on a board of at most `2^31` rows whose
string fits the 32-bit index.  When the string and its terminating NUL fit the
32-bit size of the buffer, it returns the string held by a buffer in which the
field of the cell `(c, h - 1 - r)` starts at the place
`r * (w * (d + 1)) + c * (d + 1)` and is followed by a space, or by a newline
in the last column; when the string has `2^32 - 1` characters the size
`h * w * (d + 1) + 1` of the buffer is `0` in `uint32_t`, and the buffer is too
short. -/
theorem print_board_with_space_eq (g : gamma_t) (hd : Dims g) (hh : g.height ≤ 2147483648)
    (d : Nat) (hd1 : 1 ≤ d)
    (hlen : ∀ v, inb g v → len (owner g v) ≤ d)
    (hfit : g.height * (g.width * (d + 1)) < 4294967296) :
    ∃ buffer : Nat → Char,
      print_board_with_space g d =
        (if g.height * (g.width * (d + 1)) + 1 < 4294967296 then
          some (c_string buffer (g.height * (g.width * (d + 1)))) else none) ∧
      ∀ r c t, r < g.height → c < g.width → t ≤ d →
        buffer (r * (g.width * (d + 1)) + c * (d + 1) + t) =
          if t < d then pocket_char (owner g (c, g.height - 1 - r)) t
          else if c = g.width - 1 then '\n' else ' ' := by
  have h1 := hd.height_pos
  have hw1 := hd.width_pos
  have hw2 := hd.width_lt
  have hrows : ∀ i, i ∈ rows_down g.height → ∀ j, j < g.width →
      len ((fun j i => (g.board i j).player_id) j i) ≤ d := by
    intro i hi j hj
    rw [rows_down_eq _ h1 hh, List.mem_reverse, List.mem_range] at hi
    exact hlen (j, i) ⟨hj, hi⟩
  have hbound : 0 + (rows_down g.height).length * (g.width * (d + 1)) < 4294967296 := by
    rw [rows_down_length _ h1 hh]
    omega
  have key := write_pocket_rows (fun j i => (g.board i j).player_id) d g.width hd1 hw1 hw2
    (rows_down g.height) (fun _ => Char.ofNat 0) 0 hrows hbound
  rw [rows_down_length _ h1 hh] at key
  simp only [Nat.zero_le, true_and, Nat.zero_add, Nat.sub_zero] at key
  refine ⟨?buf, ?h1, ?h2⟩
  case h1 =>
    unfold print_board_with_space
    simp only [get_height, get_width, get_field]
    rw [key]
    simp only [c_string_write]
    rw [write_top]
    have hwd : 1 ≤ g.width * (d + 1) := Nat.mul_pos hw1 (by omega)
    have hhw : g.height * g.width < 4294967296 := by
      have := Nat.mul_le_mul_left g.height
        (Nat.mul_le_mul_left g.width (show 1 ≤ d + 1 by omega))
      rw [Nat.mul_one] at this
      omega
    have hd2 : d + 1 < 4294967296 := by
      have := Nat.mul_le_mul (show 1 ≤ g.height by omega)
        (Nat.mul_le_mul (show 1 ≤ g.width by omega) (le_refl (d + 1)))
      rw [Nat.one_mul, Nat.one_mul] at this
      omega
    rw [Nat.mod_eq_of_lt hhw, Nat.mod_eq_of_lt hd2, Nat.mul_assoc, Nat.mod_eq_of_lt hfit]
    by_cases hz : g.height * (g.width * (d + 1)) + 1 < 4294967296
    · rw [Nat.mod_eq_of_lt hz, if_pos le_rfl, if_pos hz]
      exact rfl
    · have hc : ¬ g.height * (g.width * (d + 1)) + 1
          ≤ (g.height * (g.width * (d + 1)) + 1) % 4294967296 := by
        have : g.height * (g.width * (d + 1)) + 1 = 4294967296 := by omega
        rw [this]
        decide
      rw [if_neg hc, if_neg hz]
  case h2 =>
    intro r c t hr hc ht
    have hcell : c * (d + 1) + t < g.width * (d + 1) := by
      have : (c + 1) * (d + 1) ≤ g.width * (d + 1) := Nat.mul_le_mul_right _ (by omega)
      rw [Nat.succ_mul] at this
      omega
    have hlt : r * (g.width * (d + 1)) + c * (d + 1) + t < g.height * (g.width * (d + 1)) := by
      have : (r + 1) * (g.width * (d + 1)) ≤ g.height * (g.width * (d + 1)) :=
        Nat.mul_le_mul_right _ (by omega)
      rw [Nat.succ_mul] at this
      omega
    have e : r * (g.width * (d + 1)) + c * (d + 1) + t =
        (c * (d + 1) + t) + r * (g.width * (d + 1)) := by omega
    have hm : (r * (g.width * (d + 1)) + c * (d + 1) + t) % (g.width * (d + 1)) =
        c * (d + 1) + t := by
      rw [e, Nat.add_mul_mod_self_right, Nat.mod_eq_of_lt hcell]
    have hq : (r * (g.width * (d + 1)) + c * (d + 1) + t) / (g.width * (d + 1)) = r := by
      rw [e, Nat.add_mul_div_right _ _ (by omega), Nat.div_eq_of_lt hcell, Nat.zero_add]
    rw [if_pos hlt]
    simp only [hm, hq, (pocket_div_mod c t d ht).1, (pocket_div_mod c t d ht).2,
      rows_down_getD _ _ h1 hh hr]
    rfl

/-- The claim C27 on boards of at most `2^31` rows whose string, with its
terminating NUL, has fewer than `2^32` characters.  In a state that satisfies
invariants 1 to 5 on such a board, when the highest player id `m` that owns a
field has `d = len m ≥ 2` decimal digits, `gamma_board` returns a string of
exactly `height * width * (d + 1)` characters in which the cell
`(c, height - 1 - r)` is rendered at the places from
`r * (width * (d + 1)) + c * (d + 1)` on as a field of `d` characters, the
decimal numeral of its owner (a dot for an unowned cell) padded with spaces on
the right, and is followed by one space, or by a newline in the last column. -/
theorem gamma_board_large_ids (g : gamma_t) (hI : SpecInv g) (hh : g.height ≤ 2147483648)
    (m : Nat) (hm1 : ∃ v, inb g v ∧ owner g v = m) (hm2 : ∀ v, inb g v → owner g v ≤ m)
    (hd : 2 ≤ len m) (hfit : g.height * g.width * (len m + 1) + 1 < 4294967296) :
    ∃ board, gamma_board g = some board ∧
    board.length = g.height * g.width * (len m + 1) ∧
    ∀ r c, r < g.height → c < g.width →
      (∀ t, t < len m →
        board[r * (g.width * (len m + 1)) + c * (len m + 1) + t]? =
          some (pocket_char (owner g (c, g.height - 1 - r)) t)) ∧
      board[r * (g.width * (len m + 1)) + c * (len m + 1) + len m]? =
        some (if c = g.width - 1 then '\n' else ' ') := by
  obtain ⟨hmax, hex⟩ := max_player_id_on_board_spec g hI
  have hmeq : max_player_id_on_board g = m := by
    obtain ⟨v, hv, hvo⟩ := hm1
    have h1 := hmax v hv
    rcases hex with h0 | ⟨u, hu, huo⟩
    · omega
    · have := hm2 u hu
      omega
  have hboard : gamma_board g = print_board_with_space g (len m) := by
    unfold gamma_board length_of_max_player_id_on_board
    simp only [hmeq]
    rw [if_pos (by omega)]
  rw [Nat.mul_assoc] at hfit ⊢
  obtain ⟨buffer, hs, hb⟩ := print_board_with_space_eq g hI.dims hh (len m) (by omega)
    (fun v hv => len_mono (hm2 v hv)) (by omega)
  rw [if_pos hfit] at hs
  refine ⟨_, by rw [hboard, hs], c_string_length _ _, fun r c hr hc => ?_⟩
  have hlt : ∀ t, t ≤ len m → r * (g.width * (len m + 1)) + c * (len m + 1) + t <
      g.height * (g.width * (len m + 1)) := by
    intro t ht
    have h1 : (c + 1) * (len m + 1) ≤ g.width * (len m + 1) :=
      Nat.mul_le_mul_right _ (by omega)
    have h2 : (r + 1) * (g.width * (len m + 1)) ≤ g.height * (g.width * (len m + 1)) :=
      Nat.mul_le_mul_right _ (by omega)
    rw [Nat.succ_mul] at h1 h2
    omega
  constructor
  · intro t ht
    rw [c_string_get _ _ _ (hlt t (by omega)), hb r c t hr hc (by omega), if_pos ht]
  · have hdd : ¬ len m < len m := by omega
    rw [c_string_get _ _ _ (hlt (len m) le_rfl), hb r c (len m) hr hc le_rfl, if_neg hdd]

/-- A 2x1 board on which player 10 owns the cell `(0, 0)`, as `gamma_board`
prints it. -/
theorem gamma_board_large_ids_example :
    (gamma_board
      (state_after (gamma_move (new_game 2 1 10 1) 10 0 0) (new_game 2 1 10 1))).map String.mk
      = some "10 . \n" := by
  decide

/-! ## The helper `len` and the choice of the board format -/

/-- C40, evaluated.  The documentation of `len` promises the decimal logarithm
rounded down (and `1` for `0`); the code counts the decimal digits, which is
one more: `len 1 = 1` while the logarithm of `1` is `0`, and `len 10 = 2`
while the logarithm of `10` rounded down is `1`. -/
theorem len_not_floor_log :
    len 1 = 1 ∧ Nat.log 10 1 = 0 ∧ len 10 = 2 ∧ Nat.log 10 10 = 1 ∧
    len 4294967295 = 10 ∧ Nat.log 10 4294967295 = 9 := by
  refine ⟨by decide, Nat.log_of_lt (by decide), by decide, ?_, ?_, ?_⟩
  · rw [Nat.log_eq_iff (by decide)]
    constructor <;> norm_num
  · rw [len_eq _ (by decide)]
    have : Nat.log 10 4294967295 = 9 := by
      rw [Nat.log_eq_iff (by decide)]
      constructor <;> norm_num
    rw [this]
  · rw [Nat.log_eq_iff (by decide)]
    constructor <;> norm_num

theorem len_gt_one_iff (n : Nat) : 1 < len n ↔ 10 ≤ n := by
  by_cases h0 : n = 0
  · subst h0
    simp [len]
  · rw [len_eq n (by omega)]
    constructor
    · intro h
      by_contra hlt
      rw [Nat.log_of_lt (by omega)] at h
      omega
    · intro h
      have := Nat.log_pos (by decide : 1 < 10) h
      omega

/-- C35. In every reachable state `max_player_id_on_board` returns the largest
player id that owns a cell of the board, and `0` when no cell is owned; hence
`gamma_board` uses the padded format of `print_board_with_space` exactly when
some cell is owned by a player with an id of at least 10, and the format of
`print_board_without_space` otherwise. -/
theorem max_player_id_on_board_largest (g : gamma_t) (hR : Reachable g) :
    (∀ v, inb g v → owner g v ≤ max_player_id_on_board g) ∧
    (max_player_id_on_board g = 0 ∨ ∃ v, inb g v ∧ owner g v = max_player_id_on_board g) ∧
    ((∀ v, inb g v → owner g v = 0) → max_player_id_on_board g = 0) ∧
    ((∃ v, inb g v ∧ 10 ≤ owner g v) →
      gamma_board g = print_board_with_space g (len (max_player_id_on_board g))) ∧
    ((¬ ∃ v, inb g v ∧ 10 ≤ owner g v) → gamma_board g = print_board_without_space g) := by
  obtain ⟨hmax, hex⟩ := max_player_id_on_board_spec g (inv_of_reachable hR).toSpecInv
  refine ⟨hmax, hex, ?_, ?_, ?_⟩
  · intro hall
    rcases hex with h0 | ⟨v, hv, hvo⟩
    · exact h0
    · rw [← hvo]; exact hall v hv
  · rintro ⟨v, hv, h10⟩
    have h1 := hmax v hv
    unfold gamma_board length_of_max_player_id_on_board
    simp only []
    rw [if_pos ((len_gt_one_iff _).2 (by omega))]
  · intro hno
    have hlt : ¬ 1 < len (max_player_id_on_board g) := by
      rw [len_gt_one_iff]
      intro h10
      rcases hex with h0 | ⟨v, hv, hvo⟩
      · omega
      · exact hno ⟨v, hv, by omega⟩
    unfold gamma_board length_of_max_player_id_on_board
    simp only []
    rw [if_neg hlt]

theorem max_player_id_on_board_largest_witness :
    Reachable corner_game_3 ∧ max_player_id_on_board corner_game_3 = 2 ∧
    ((∀ v, inb corner_game_3 v → owner corner_game_3 v ≤ max_player_id_on_board corner_game_3) ∧
    (max_player_id_on_board corner_game_3 = 0 ∨
      ∃ v, inb corner_game_3 v ∧ owner corner_game_3 v = max_player_id_on_board corner_game_3) ∧
    ((∀ v, inb corner_game_3 v → owner corner_game_3 v = 0) →
      max_player_id_on_board corner_game_3 = 0) ∧
    ((∃ v, inb corner_game_3 v ∧ 10 ≤ owner corner_game_3 v) →
      gamma_board corner_game_3 =
        print_board_with_space corner_game_3 (len (max_player_id_on_board corner_game_3))) ∧
    ((¬ ∃ v, inb corner_game_3 v ∧ 10 ≤ owner corner_game_3 v) →
      gamma_board corner_game_3 = print_board_without_space corner_game_3)) :=
  ⟨corner_game_3_reachable, by decide,
    max_player_id_on_board_largest corner_game_3 corner_game_3_reachable⟩

/-! ## The flood fill -/

/-- Two states that agree on everything but the region ids, and on these too,
are equal. -/
theorem eq_of_sameButAreas {g g1 g2 : gamma_t} (h1 : SameButAreas g g1)
    (h2 : SameButAreas g g2) (ha : ∀ v, area g1 v = area g2 v) : g1 = g2 := by
  apply gamma_t.ext
  · funext i j
    apply field.ext
    · have e1 := h1.owner (j, i)
      have e2 := h2.owner (j, i)
      exact e1.trans e2.symm
    · exact ha (j, i)
  · rw [h1.width, h2.width]
  · rw [h1.height, h2.height]
  · rw [h1.no_players, h2.no_players]
  · rw [h1.max_no_areas, h2.max_no_areas]
  · rw [h1.playerlist, h2.playerlist]

/-- C31. For every board, player `p`, in-bounds cell `(x, y)` and colour `c`,
`colour_area g p x y c` returns, and in the state it returns the region id is
`c` on the cell `(x, y)` and on the cells reachable from it by a 4-adjacent path
of cells of `p` whose region id differs from `c`, and is unchanged on every
other cell; no owner and nothing outside the board changes.  In particular,
when `c` does not occur in the 4-connected component of cells of `p` that
contains `(x, y)`, exactly this component is repainted. -/
theorem colour_area_paints (g : gamma_t) (p x y c : Nat) (hs : inb g (x, y)) :
    ∃ g', colour_area g p x y c = some g' ∧
      (∀ v, Path (Fillable g p c) (x, y) v → area g' v = c) ∧
      (∀ v, ¬ Path (Fillable g p c) (x, y) v → area g' v = area g v) ∧
      (∀ v, owner g' v = owner g v) ∧ g'.playerlist = g.playerlist ∧
      g'.width = g.width ∧ g'.height = g.height ∧ g'.no_players = g.no_players ∧
      g'.max_no_areas = g.max_no_areas ∧
      ((∀ v, Path (Own g p) (x, y) v → area g v ≠ c) →
        ∀ v, (Path (Own g p) (x, y) v → area g' v = c) ∧
          (¬ Path (Own g p) (x, y) v → area g' v = area g v)) := by
  obtain ⟨g', hg', F⟩ := colour_area_filled g p x y c hs
  refine ⟨g', hg', fun v hv => F.reached hv, fun v hv => F.unreached hv, F.frame.owner,
    F.frame.playerlist, F.frame.width, F.frame.height, F.frame.no_players,
    F.frame.max_no_areas, fun hc v => ⟨fun hv => ?_, fun hv => ?_⟩⟩
  · refine F.reached (Path.restrict ?_ hv)
    intro b hb hob
    exact ⟨hob.1, hob.2, hc b hb⟩
  · exact F.unreached (fun hp => hv (Path.mono (fun b hb => ⟨hb.1, hb.2.1⟩) hp))

theorem colour_area_paints_witness :
    inb split_game_4 (0, 0) ∧
    ∃ g', colour_area split_game_4 1 0 0 7 = some g' ∧
      (∀ v, Path (Fillable split_game_4 1 7) (0, 0) v → area g' v = 7) ∧
      (∀ v, ¬ Path (Fillable split_game_4 1 7) (0, 0) v → area g' v = area split_game_4 v) ∧
      (∀ v, owner g' v = owner split_game_4 v) ∧ g'.playerlist = split_game_4.playerlist ∧
      g'.width = split_game_4.width ∧ g'.height = split_game_4.height ∧
      g'.no_players = split_game_4.no_players ∧
      g'.max_no_areas = split_game_4.max_no_areas ∧
      ((∀ v, Path (Own split_game_4 1) (0, 0) v → area split_game_4 v ≠ 7) →
        ∀ v, (Path (Own split_game_4 1) (0, 0) v → area g' v = 7) ∧
          (¬ Path (Own split_game_4 1) (0, 0) v → area g' v = area split_game_4 v)) :=
  ⟨⟨by decide, by decide⟩, colour_area_paints split_game_4 1 0 0 7 ⟨by decide, by decide⟩⟩

/-- C32. The flood fill `colour_area` returns for every in-bounds start cell,
player and target colour (the sentinel `TRANSPARENT` included).  It is entered
again only on cells of the player whose region id differs from the target, the
number of these cells is at most `width * height` and drops with every cell
painted, so every bound on the depth of the recursion above that number gives
the same result; and every neighbour that the fill looks at is a cell of the
board, reached without a coordinate leaving the range. -/
theorem colour_area_terminates (g : gamma_t) (p x y c : Nat) (hs : inb g (x, y)) :
    ∃ g', colour_area g p x y c = some g' ∧
      (∀ fuel, fill_measure (set_area_id g x y c) p c < fuel →
        colour_area_aux fuel g p x y c = some g') ∧
      fill_measure (set_area_id g x y c) p c ≤ g.width * g.height ∧
      (∀ (g0 : gamma_t) (n : Cell), Fillable g0 p c n →
        fill_measure (set_area_id g0 n.1 n.2 c) p c < fill_measure g0 p c) ∧
      (∀ (u : Cell) (i : Nat), inb g u → player_areas_nearby g p u.1 u.2 i = true →
        inb g (new_x u.1 i, new_y u.2 i) ∧ owner g (new_x u.1 i, new_y u.2 i) = p ∧
        ((new_x u.1 i : Nat) : Int) = (u.1 : Int) + directions_x i ∧
        ((new_y u.2 i : Nat) : Int) = (u.2 : Int) + directions_y i) := by
  obtain ⟨g', hg', F⟩ := colour_area_filled g p x y c hs
  refine ⟨g', hg', ?_, ?_, fun g0 n hn => fill_measure_lt hn, ?_⟩
  · intro fuel hfuel
    obtain ⟨g1, hg1⟩ := colour_area_aux_total fuel g p x y c hs hfuel
    have F1 := colour_area_aux_filled fuel g p x y c g1 hs hg1
    rw [hg1]
    congr 1
    apply eq_of_sameButAreas F1.frame F.frame
    intro v
    by_cases hp : Path (Fillable g p c) (x, y) v
    · rw [F1.reached hp, F.reached hp]
    · rw [F1.unreached hp, F.unreached hp]
  · have := fill_measure_le_board (set_area_id g x y c) p c
    simpa only [set_area_id_width, set_area_id_height] using this
  · rintro ⟨a, b⟩ i hu htab
    obtain ⟨hval, hown⟩ := (nearby_iff g p a b i).1 htab
    have hin := (valid_dir_adj hu hval).2
    refine ⟨hin, hown, ?_, ?_⟩
    · unfold valid_dir at hval
      unfold new_x
      rcases hval with ⟨rfl, h⟩ | ⟨rfl, h⟩ | ⟨rfl, h⟩ | ⟨rfl, h⟩ <;>
        simp only [directions_x] <;> omega
    · unfold valid_dir at hval
      unfold new_y
      rcases hval with ⟨rfl, h⟩ | ⟨rfl, h⟩ | ⟨rfl, h⟩ | ⟨rfl, h⟩ <;>
        simp only [directions_y] <;> omega

theorem colour_area_terminates_witness :
    inb split_game_4 (1, 0) ∧
    ∃ g', colour_area split_game_4 1 1 0 TRANSPARENT = some g' ∧
      (∀ fuel, fill_measure (set_area_id split_game_4 1 0 TRANSPARENT) 1 TRANSPARENT < fuel →
        colour_area_aux fuel split_game_4 1 1 0 TRANSPARENT = some g') ∧
      fill_measure (set_area_id split_game_4 1 0 TRANSPARENT) 1 TRANSPARENT
        ≤ split_game_4.width * split_game_4.height ∧
      (∀ (g0 : gamma_t) (n : Cell), Fillable g0 1 TRANSPARENT n →
        fill_measure (set_area_id g0 n.1 n.2 TRANSPARENT) 1 TRANSPARENT
          < fill_measure g0 1 TRANSPARENT) ∧
      (∀ (u : Cell) (i : Nat), inb split_game_4 u →
        player_areas_nearby split_game_4 1 u.1 u.2 i = true →
        inb split_game_4 (new_x u.1 i, new_y u.2 i) ∧
        owner split_game_4 (new_x u.1 i, new_y u.2 i) = 1 ∧
        ((new_x u.1 i : Nat) : Int) = (u.1 : Int) + directions_x i ∧
        ((new_y u.2 i : Nat) : Int) = (u.2 : Int) + directions_y i) :=
  ⟨⟨by decide, by decide⟩,
    colour_area_terminates split_game_4 1 1 0 TRANSPARENT ⟨by decide, by decide⟩⟩

/-! ## The scan of the cursor -/

/-- The scan of `move_player_first_free_colour` stops at the first free slot it
meets. -/
theorem first_free_scan_first (g : gamma_t) (p : Nat) :
    ∀ (fuel it f : Nat), it < g.max_no_areas → first_free_scan g p fuel it = some f →
      ∃ k, k < fuel ∧ f = (it + k) % g.max_no_areas ∧
        (g.playerlist p).does_area_exist f = false ∧
        ∀ j, j < k → (g.playerlist p).does_area_exist ((it + j) % g.max_no_areas) = true := by
  intro fuel
  induction fuel with
  | zero =>
    intro it f _ h
    simp [first_free_scan] at h
  | succ fuel ih =>
    intro it f hit h
    unfold first_free_scan at h
    by_cases hex : get_player_does_area_exist g p it = true
    · rw [if_pos hex] at h
      obtain ⟨k, hk, hf, hfree, hbefore⟩ := ih _ f (Nat.mod_lt _ (by omega)) h
      refine ⟨k + 1, by omega, ?_, hfree, ?_⟩
      · rw [hf, Nat.mod_add_mod]
        congr 1
        omega
      · intro j hj
        cases j with
        | zero =>
          rw [Nat.add_zero, Nat.mod_eq_of_lt hit]
          exact hex
        | succ j =>
          have := hbefore j (by omega)
          rw [Nat.mod_add_mod] at this
          rw [← this]
          congr 2
          omega
    · rw [if_neg hex] at h
      have e : it = f := Option.some.inj h
      subst e
      refine ⟨0, by omega, ?_, by simpa [get_player_does_area_exist] using hex, ?_⟩
      · rw [Nat.add_zero, Nat.mod_eq_of_lt hit]
      · intro j hj
        omega

/-- C33. For a player whose region counter is below `max_no_areas` and equals
the number of ids marked in use (the cursor being an index into the table),
`move_player_first_free_colour` returns and has set the cursor to the first id
not in use among `cursor, cursor + 1, ...` taken modulo `max_no_areas`, and it
has changed nothing else; in particular a cursor on a free id stays in place.
When the region counter equals `max_no_areas` the call changes nothing. -/
theorem move_player_first_free_colour_scans (g : gamma_t) (p : Nat) :
    ((g.playerlist p).first_free_colour < g.max_no_areas →
      (g.playerlist p).no_areas_used < g.max_no_areas →
      (g.playerlist p).no_areas_used = (in_use g p).card →
      (∃ k, k < g.max_no_areas ∧
        move_player_first_free_colour g p = some (set_player_first_free_colour g p
          (((g.playerlist p).first_free_colour + k) % g.max_no_areas)) ∧
        (g.playerlist p).does_area_exist
          (((g.playerlist p).first_free_colour + k) % g.max_no_areas) = false ∧
        ∀ j, j < k → (g.playerlist p).does_area_exist
          (((g.playerlist p).first_free_colour + j) % g.max_no_areas) = true) ∧
      ((g.playerlist p).does_area_exist (g.playerlist p).first_free_colour = false →
        move_player_first_free_colour g p = some g)) ∧
    ((g.playerlist p).no_areas_used = g.max_no_areas →
      move_player_first_free_colour g p = some g) := by
  refine ⟨fun hc hn hcard => ?_, fun hfull => move_cursor_full g p hfull⟩
  have hne : (g.playerlist p).no_areas_used ≠ g.max_no_areas := by omega
  obtain ⟨r, hr, hrf⟩ := in_use_free_slot g p (by omega)
  have hk : ∃ k, k < g.max_no_areas ∧ (g.playerlist p).does_area_exist
      (((g.playerlist p).first_free_colour + k) % g.max_no_areas) = false := by
    refine ⟨(r + g.max_no_areas - (g.playerlist p).first_free_colour) % g.max_no_areas,
      Nat.mod_lt _ (by omega), ?_⟩
    rw [Nat.add_mod_mod]
    have e : (g.playerlist p).first_free_colour
        + (r + g.max_no_areas - (g.playerlist p).first_free_colour) = r + g.max_no_areas := by
      omega
    rw [e, Nat.add_mod_right, Nat.mod_eq_of_lt hr]
    exact hrf
  obtain ⟨f, hf, _, _⟩ := first_free_scan_finds g p g.max_no_areas _ hc hk
  obtain ⟨k, hk1, hk2, hk3, hk4⟩ := first_free_scan_first g p g.max_no_areas _ f hc hf
  have hmove : move_player_first_free_colour g p =
      some (set_player_first_free_colour g p f) := by
    unfold move_player_first_free_colour
    simp [player_all_areas_used, hne, get_player_first_free_colour, hf]
  refine ⟨⟨k, hk1, by rw [← hk2]; exact hmove, by rw [← hk2]; exact hk3, hk4⟩, ?_⟩
  intro hfree
  have hk0 : k = 0 := by
    by_contra hk0
    have := hk4 0 (by omega)
    rw [Nat.add_zero, Nat.mod_eq_of_lt hc, hfree] at this
    exact absurd this (by simp)
  subst hk0
  rw [Nat.add_zero, Nat.mod_eq_of_lt hc] at hk2
  rw [hmove, hk2, set_cursor_self]

theorem move_player_first_free_colour_scans_witness :
    (split_game_4.playerlist 1).no_areas_used = split_game_4.max_no_areas ∧
    move_player_first_free_colour split_game_4 1 = some split_game_4 ∧
    (stale_game.playerlist 1).first_free_colour < stale_game.max_no_areas ∧
    (stale_game.playerlist 1).no_areas_used < stale_game.max_no_areas ∧
    (stale_game.playerlist 1).no_areas_used = (in_use stale_game 1).card ∧
    ((∃ k, k < stale_game.max_no_areas ∧
        move_player_first_free_colour stale_game 1 = some (set_player_first_free_colour
          stale_game 1
          (((stale_game.playerlist 1).first_free_colour + k) % stale_game.max_no_areas)) ∧
        (stale_game.playerlist 1).does_area_exist
          (((stale_game.playerlist 1).first_free_colour + k) % stale_game.max_no_areas)
            = false ∧
        ∀ j, j < k → (stale_game.playerlist 1).does_area_exist
          (((stale_game.playerlist 1).first_free_colour + j) % stale_game.max_no_areas)
            = true) ∧
      ((stale_game.playerlist 1).does_area_exist (stale_game.playerlist 1).first_free_colour
          = false →
        move_player_first_free_colour stale_game 1 = some stale_game)) :=
  ⟨by decide, (move_player_first_free_colour_scans split_game_4 1).2 (by decide), by decide,
    by decide, by decide,
    (move_player_first_free_colour_scans stale_game 1).1 (by decide) (by decide) (by decide)⟩

/-! ## The id that survives a merge -/

theorem choice_last (tab : Nat → Bool) (col : Nat → Nat) (j : Nat) (hj : j < 4)
    (ht : tab j = true) (hl : ∀ i, j < i → i < 4 → tab i = false) :
    [0, 1, 2, 3].foldl (fun (ch : Nat × Bool) i => if tab i then (col i, true) else ch)
      (0, false) = (col j, true) := by
  simp only [List.foldl_cons, List.foldl_nil]
  interval_cases j
  · have h1 := hl 1 (by omega) (by omega)
    have h2 := hl 2 (by omega) (by omega)
    have h3 := hl 3 (by omega) (by omega)
    simp [ht, h1, h2, h3]
  · have h2 := hl 2 (by omega) (by omega)
    have h3 := hl 3 (by omega) (by omega)
    simp [ht, h2, h3]
  · have h3 := hl 3 (by omega) (by omega)
    simp [ht, h3]
  · simp [ht]

/-- C34. The directions are scanned in the order East, North, West, South
(`nbr x y 0 = (x + 1, y)`, `nbr x y 1 = (x, y + 1)`, `nbr x y 2 = (x - 1, y)`,
`nbr x y 3 = (x, y - 1)`).  When `gamma_move g p x y` succeeds and `j` is the
last direction in which `(x, y)` has a neighbour owned by `p`, the id that
survives is the region id of that neighbour: the new cell carries it, every
cell of a region of `p` that touches `(x, y)` carries it, and it is still marked
in use. -/
theorem gamma_move_survivor (g g' : gamma_t) (hI : BoardInv g) (p x y : Nat)
    (h : gamma_move g p x y = some (true, g')) (j : Nat) (hj : j < 4)
    (hv : valid_dir g x y j) (ho : owner g (nbr x y j) = p)
    (hlast : ∀ i, j < i → i < 4 → ¬ (valid_dir g x y i ∧ owner g (nbr x y i) = p)) :
    area g' (x, y) = area g (nbr x y j) ∧
    (∀ v, inb g v → owner g v = p →
      (∃ u, adj (x, y) u ∧ inb g u ∧ owner g u = p ∧ area g u = area g v) →
      area g' v = area g (nbr x y j)) ∧
    (g'.playerlist p).does_area_exist (area g (nbr x y j)) = true := by
  have hvi : gamma_move_valid_input g p x y = true := by
    by_contra hvi
    simp only [Bool.not_eq_true] at hvi
    simp [gamma_move, hvi] at h
  obtain ⟨⟨hp0, hpn⟩, hs, hown, _⟩ := (gamma_move_valid_input_iff g p x y).1 hvi
  have hP := hI.players p hp0 hpn
  have hop : owner g (x, y) ≠ p := by omega
  have hch := choice_last (player_areas_nearby (set_player_id g x y p) p x y)
    (fun i => area (set_player_id g x y p) (nbr x y i)) j hj
    (by rw [nearby_set_player_id hs, nearby_iff]; exact ⟨hv, ho⟩)
    (fun i hi1 hi2 => by
      rw [nearby_set_player_id hs]
      have := hlast i hi1 hi2
      rw [← nearby_iff] at this
      simpa using this)
  obtain ⟨g1, hg1, M⟩ := perform_area_colouring_merge g p x y (area g (nbr x y j)) hI.dims hP
    hs hop
  have hmk : gamma_make_move g p x y = some g1 := by
    rw [gamma_make_move_eq, hch]
    simp only [if_true, area_set_player_id]
    exact hg1
  have e : increase_player_no_busy_fields g1 p = g' := by
    simp only [gamma_move, hvi, if_true, hmk, Option.map_some'] at h
    simpa using h
  subst e
  have hnbr : Own g p (nbr x y j) := ⟨(valid_dir_adj hs hv).2, ho⟩
  refine ⟨?_, ?_, ?_⟩
  · simp only [increase_player_no_busy_fields, area_set_player]
    exact M.area_s
  · rintro v hv1 hv2 ⟨u, hu1, hu2, hu3, hu4⟩
    simp only [increase_player_no_busy_fields, area_set_player]
    by_cases hc : area g v = area g (nbr x y j)
    · have hvs : v ≠ (x, y) := by
        rintro rfl
        exact hop hv2
      rw [M.area_keep v hvs (fun hh => hh.2.1 hc), hc]
    · refine M.area_abs v ⟨hv1, hv2⟩ ⟨hc, ?_⟩
      obtain ⟨i, hi, hiu⟩ := adj_exists_dir hu1 hu2
      exact ⟨i, valid_dir_lt hi, hi, by rw [hiu]; exact hu3, by rw [hiu]; exact hu4⟩
  · simp only [increase_player_no_busy_fields, set_player_playerlist, if_true]
    rw [M.exist]
    exact ⟨(hP.exist_iff _).2 ⟨_, hnbr, rfl⟩, fun hh => hh.1 rfl⟩

theorem gamma_move_survivor_witness :
    BoardInv split_game_4 ∧ gamma_move split_game_4 1 0 1 = some (true, split_game_6) ∧
    (3 : Nat) < 4 ∧ valid_dir split_game_4 0 1 3 ∧ owner split_game_4 (nbr 0 1 3) = 1 ∧
    nbr 0 1 3 = (0, 0) ∧ valid_dir split_game_4 0 1 1 ∧ owner split_game_4 (nbr 0 1 1) = 1 ∧
    area split_game_4 (nbr 0 1 1) ≠ area split_game_4 (nbr 0 1 3) ∧
    (area split_game_6 (0, 1) = area split_game_4 (nbr 0 1 3) ∧
    (∀ v, inb split_game_4 v → owner split_game_4 v = 1 →
      (∃ u, adj (0, 1) u ∧ inb split_game_4 u ∧ owner split_game_4 u = 1 ∧
        area split_game_4 u = area split_game_4 v) →
      area split_game_6 v = area split_game_4 (nbr 0 1 3)) ∧
    (split_game_6.playerlist 1).does_area_exist (area split_game_4 (nbr 0 1 3)) = true) :=
  ⟨(inv_of_reachable split_game_4_reachable).toBoardInv, split_game_6_eq, by decide,
    by unfold valid_dir; decide, by decide, by decide, by unfold valid_dir; decide, by decide,
    by decide,
    gamma_move_survivor split_game_4 split_game_6
      (inv_of_reachable split_game_4_reachable).toBoardInv 1 0 1 split_game_6_eq 3 (by decide)
      (by unfold valid_dir; decide) (by decide) (fun i h1 h2 => by omega)⟩

theorem parse_move_command_example :
    execute_move_command (parse_move_command "m 1 20 300\n".toList) = some (1, 20, 300) ∧
    execute_move_command (parse_move_command "m 1 020 300\n".toList) = none ∧
    execute_move_command (parse_move_command "m 1 20 4294967296\n".toList) = none ∧
    execute_move_command (parse_move_command "m 1 20\n".toList) = none ∧
    execute_move_command (parse_move_command "m 1 2 3 4\n".toList) = none ∧
    parse_command_type "m 1 20 300\n".toList = command_type.Move ∧
    parse_command_type " m 1 20 300\n".toList = command_type.Unknown := by
  decide

theorem num_len_loop_eq_len_loop : ∀ (fuel n log : Nat),
    num_len_loop fuel n log = len_loop fuel n log := by
  intro fuel
  induction fuel with
  | zero => intro n log; rfl
  | succ fuel ih => intro n log; simp only [num_len_loop, len_loop, ih]

theorem num_len_eq (n : Nat) : num_len n = Nat.log 10 n + 1 := by
  unfold num_len
  rw [num_len_loop_eq_len_loop]
  by_cases h10 : n < 10
  · rw [Nat.div_eq_of_lt h10, len_loop_zero, Nat.log_of_lt h10]
  · have hd : 0 < n / 10 := Nat.div_pos (by omega) (by omega)
    rw [len_loop_eq _ _ _ hd le_rfl,
      Nat.log_of_one_lt_of_le (by omega : 1 < 10) (by omega : 10 ≤ n)]
    omega

theorem num_len_le {n k : Nat} (hk : 1 ≤ k) (h : n < 10 ^ k) : num_len n ≤ k := by
  rw [num_len_eq]
  by_cases h0 : n = 0
  · subst h0; simp; omega
  · have := Nat.log_lt_of_lt_pow h0 h
    omega

theorem lt_num_len {n k : Nat} (h : 10 ^ k ≤ n) : k < num_len n := by
  rw [num_len_eq]
  have := Nat.le_log_of_pow_le (by omega : 1 < 10) h
  omega

theorem isDigit_iff (c : Char) : c.isDigit = true ↔ 48 ≤ c.toNat ∧ c.toNat ≤ 57 := by
  simp only [Char.isDigit, Char.toNat, UInt32.le_def, BitVec.le_def, Bool.and_eq_true,
    decide_eq_true_eq, ge_iff_le]
  exact Iff.rfl

theorem eq_of_toNat_eq (c : Char) (n : Nat) (e : c.toNat = n) : c = Char.ofNat n := by
  rw [← e, Char.ofNat_toNat]

theorem delimiters_contains (c : Char) : delimiters.contains c = is_space c := by
  by_cases hn : c = '\n'
  · subst hn; decide
  · have h : (c != '\n') = true := by simp [hn]
    simp [delimiters, is_space, isspace, hn, h, Bool.or_assoc]

theorem isspace_of_isDigit {c : Char} (h : c.isDigit = true) : isspace c = false := by
  rw [isDigit_iff] at h
  unfold isspace
  have h1 : c ≠ ' ' := by rintro rfl; revert h; decide
  have h2 : c ≠ '\t' := by rintro rfl; revert h; decide
  have h3 : c ≠ '\n' := by rintro rfl; revert h; decide
  have h4 : c ≠ '\x0b' := by rintro rfl; revert h; decide
  have h5 : c ≠ '\x0c' := by rintro rfl; revert h; decide
  have h6 : c ≠ '\r' := by rintro rfl; revert h; decide
  simp [h1, h2, h3, h4, h5, h6]

theorem foldl_decimal (ds : List Char) : ∀ (a : Nat),
    ds.foldl (fun acc c => 10 * acc + (c.toNat - 48)) a =
      a * 10 ^ ds.length + decimal_value ds := by
  unfold decimal_value
  induction ds with
  | nil => intro a; simp
  | cons d ds ih =>
    intro a
    simp only [List.foldl_cons, List.length_cons]
    rw [ih (10 * a + (d.toNat - 48)), ih (10 * 0 + (d.toNat - 48))]
    ring

theorem decimal_value_cons (d : Char) (ds : List Char) :
    decimal_value (d :: ds) = (d.toNat - 48) * 10 ^ ds.length + decimal_value ds := by
  conv_lhs => unfold decimal_value
  rw [List.foldl_cons, foldl_decimal]
  simp

theorem decimal_value_lt (ds : List Char) (h : ∀ c ∈ ds, c.isDigit = true) :
    decimal_value ds < 10 ^ ds.length := by
  induction ds with
  | nil => simp [decimal_value]
  | cons d ds ih =>
    rw [decimal_value_cons, List.length_cons, pow_succ]
    have hd := (isDigit_iff d).1 (h d (List.mem_cons_self _ _))
    have := ih fun c hc => h c (List.mem_cons_of_mem _ hc)
    have h9 : d.toNat - 48 ≤ 9 := by omega
    have := Nat.mul_le_mul_right (10 ^ ds.length) h9
    omega

theorem takeWhile_eq_self_of_length {α : Type} (p : α → Bool) (l : List α)
    (h : l.length ≤ (l.takeWhile p).length) : l.takeWhile p = l := by
  induction l with
  | nil => rfl
  | cons a l ih =>
    by_cases hp : p a = true
    · rw [List.takeWhile_cons_of_pos hp] at h ⊢
      simp only [List.length_cons] at h
      rw [ih (by omega)]
    · rw [List.takeWhile_cons_of_neg hp] at h
      simp at h

theorem dropWhile_eq_self_of_length {α : Type} (p : α → Bool) (l : List α)
    (h : l.length ≤ (l.dropWhile p).length) : l.dropWhile p = l := by
  cases l with
  | nil => rfl
  | cons a l =>
    by_cases hp : p a = true
    · rw [List.dropWhile_cons_of_pos hp] at h
      have := (List.dropWhile_sublist p (l := l)).length_le
      simp only [List.length_cons] at h
      omega
    · rw [List.dropWhile_cons_of_neg hp]

theorem length_takeWhile_le {α : Type} (p : α → Bool) (l : List α) :
    (l.takeWhile p).length ≤ l.length :=
  (List.takeWhile_sublist p).length_le

theorem length_dropWhile_le {α : Type} (p : α → Bool) (l : List α) :
    (l.dropWhile p).length ≤ l.length :=
  (List.dropWhile_sublist p).length_le

theorem to_unsigned_long_natCast (n : Nat) (h : n < 18446744073709551616) :
    to_unsigned_long (n : Int) = n := by
  unfold to_unsigned_long
  omega

theorem accept_facts (t : List Char)
    (hvt : valid_num_token (to_long_long (strtoull t)) t = true)
    (hvn : valid_num (to_long_long (strtoull t)) = true) :
    strtoull t % 18446744073709551616 ≤ 4294967295 ∧
    to_long_long (strtoull t) = (strtoull t % 18446744073709551616 : Nat) ∧
    num_len (strtoull t % 18446744073709551616) = t.length ∧
    (num_len (strtoull t % 18446744073709551616) = 1 →
      ((strtoull t % 18446744073709551616 : Nat) : Int)
        = ((t.headD (Char.ofNat 0)).toNat : Int) - 48) := by
  have hlt : strtoull t % 18446744073709551616 < 18446744073709551616 :=
    Nat.mod_lt _ (by decide)
  unfold to_long_long at hvt hvn ⊢
  generalize strtoull t % 18446744073709551616 = U at *
  unfold valid_num at hvn
  simp only [Bool.and_eq_true, decide_eq_true_eq, ge_iff_le] at hvn
  by_cases hU : U < 9223372036854775808
  · rw [if_pos hU] at hvt hvn ⊢
    unfold valid_num_token at hvt
    rw [to_unsigned_long_natCast U hlt] at hvt
    refine ⟨by omega, rfl, ?_, ?_⟩
    · by_cases h1 : num_len U = 1
      · simp only [h1, if_true, Bool.true_and, Bool.and_eq_true, decide_eq_true_eq] at hvt
        rw [h1]; exact hvt.1
      · simp only [h1, if_false, Bool.true_and, decide_eq_true_eq] at hvt
        exact hvt
    · intro h1
      simp only [h1, if_true, Bool.true_and, Bool.and_eq_true, decide_eq_true_eq] at hvt
      exact hvt.2
  · rw [if_neg hU] at hvn
    omega

theorem strtoull_signed (t : List Char) (c : Char) (s' : List Char)
    (hs : t.dropWhile isspace = c :: s') (hc : c = '-' ∨ c = '+') :
    strtoull t =
      if s'.takeWhile Char.isDigit = [] then 0
      else if 18446744073709551615 < decimal_value (s'.takeWhile Char.isDigit) then
        18446744073709551615
      else if c = '-' then
        (18446744073709551616 - decimal_value (s'.takeWhile Char.isDigit))
          % 18446744073709551616
      else decimal_value (s'.takeWhile Char.isDigit) := by
  unfold strtoull decimal_value
  simp only [hs, List.head?_cons, Option.some.injEq, List.tail_cons]
  rw [if_pos hc]
  simp only [decide_eq_true_eq]

theorem strtoull_unsigned (t : List Char)
    (hc : ¬((t.dropWhile isspace).head? = some '-' ∨ (t.dropWhile isspace).head? = some '+')) :
    strtoull t =
      if (t.dropWhile isspace).takeWhile Char.isDigit = [] then 0
      else if 18446744073709551615 <
          decimal_value ((t.dropWhile isspace).takeWhile Char.isDigit) then
        18446744073709551615
      else decimal_value ((t.dropWhile isspace).takeWhile Char.isDigit) := by
  unfold strtoull decimal_value
  simp only [if_neg hc]
  have hn : ¬(t.dropWhile isspace).head? = some '-' := fun h => hc (Or.inl h)
  simp only [hn, decide_False, Bool.false_eq_true, if_false]

theorem isDigit_of_mem_takeWhile {l : List Char} {c : Char}
    (h : c ∈ l.takeWhile Char.isDigit) : c.isDigit = true :=
  (List.mem_takeWhile_imp h)

theorem canonical_of_accepted (t : List Char)
    (hvt : valid_num_token (to_long_long (strtoull t)) t = true)
    (hvn : valid_num (to_long_long (strtoull t)) = true) :
    canonical_numeral t ∧ decimal_value t ≤ 4294967295 ∧
      to_long_long (strtoull t) = (decimal_value t : Nat) := by
  obtain ⟨hU, hll, hlen, hone⟩ := accept_facts t hvt hvn
  have hst : (t.dropWhile isspace).length ≤ t.length := length_dropWhile_le _ _
  have hnl0 : num_len 0 = 1 := by decide
  by_cases hsign : (t.dropWhile isspace).head? = some '-' ∨
      (t.dropWhile isspace).head? = some '+'
  · exfalso
    obtain ⟨c, s', hs, hc⟩ : ∃ c s', t.dropWhile isspace = c :: s' ∧ (c = '-' ∨ c = '+') := by
      cases h : t.dropWhile isspace with
      | nil => rw [h] at hsign; simp at hsign
      | cons c s' =>
        rw [h] at hsign
        simp only [List.head?_cons, Option.some.injEq] at hsign
        exact ⟨c, s', rfl, hsign⟩
    have hU_eq := strtoull_signed t c s' hs hc
    have hdl : (s'.takeWhile Char.isDigit).length ≤ s'.length := length_takeWhile_le _ _
    have hv := decimal_value_lt (s'.takeWhile Char.isDigit)
      fun c hc => isDigit_of_mem_takeWhile hc
    rw [hs, List.length_cons] at hst
    generalize s'.takeWhile Char.isDigit = digits at *
    by_cases hd : digits = []
    · rw [if_pos hd] at hU_eq
      rw [hU_eq] at hlen hone
      have h1 : t.length = 1 := by rw [← hlen]; exact hnl0
      have hts : t.dropWhile isspace = t :=
        dropWhile_eq_self_of_length _ _ (by rw [hs, List.length_cons]; omega)
      rw [hts] at hs
      have := hone hnl0
      rw [hs, List.headD_cons] at this
      have h0 : ((0 % 18446744073709551616 : Nat) : Int) = 0 := by decide
      have hm : ('-' : Char).toNat = 45 := rfl
      have hp : ('+' : Char).toNat = 43 := rfl
      rw [h0] at this
      rcases hc with rfl | rfl
      · rw [hm] at this; omega
      · rw [hp] at this; omega
    · have hdpos : 1 ≤ digits.length := by
        cases digits with
        | nil => exact absurd rfl hd
        | cons _ _ => simp
      rw [if_neg hd] at hU_eq
      by_cases hov : 18446744073709551615 < decimal_value digits
      · rw [if_pos hov] at hU_eq
        rw [hU_eq] at hU
        omega
      · rw [if_neg hov] at hU_eq
        by_cases hneg : c = '-'
        · rw [if_pos hneg] at hU_eq
          rw [hU_eq, Nat.mod_mod] at hU hlen
          by_cases hv0 : decimal_value digits = 0
          · rw [hv0] at hlen
            have : num_len ((18446744073709551616 - 0) % 18446744073709551616) = 1 := by decide
            omega
          · have hbig : 10 ^ 19 ≤ decimal_value digits := by omega
            have h20 : 20 ≤ digits.length := by
              by_contra hcon
              have : 10 ^ digits.length ≤ 10 ^ 19 :=
                Nat.pow_le_pow_right (by decide) (by omega)
              omega
            have := num_len_le (n := (18446744073709551616 - decimal_value digits)
              % 18446744073709551616) (k := 10) (by decide) (by omega)
            omega
        · rw [if_neg hneg] at hU_eq
          rw [hU_eq, Nat.mod_eq_of_lt (by omega)] at hlen
          have := num_len_le hdpos hv
          omega
  · have hU_eq := strtoull_unsigned t hsign
    have hdl : ((t.dropWhile isspace).takeWhile Char.isDigit).length
        ≤ (t.dropWhile isspace).length := length_takeWhile_le _ _
    have hv := decimal_value_lt ((t.dropWhile isspace).takeWhile Char.isDigit)
      fun c hc => isDigit_of_mem_takeWhile hc
    have hdig : ∀ c ∈ (t.dropWhile isspace).takeWhile Char.isDigit, c.isDigit = true :=
      fun c hc => isDigit_of_mem_takeWhile hc
    by_cases hd : (t.dropWhile isspace).takeWhile Char.isDigit = []
    · exfalso
      rw [if_pos hd] at hU_eq
      rw [hU_eq] at hlen hone
      have h1 : t.length = 1 := by rw [← hlen]; exact hnl0
      have := hone hnl0
      match t, h1, this, hd with
      | [c], _, this, hd =>
        simp only [List.headD_cons] at this
        have hc48 : c.toNat = 48 := by
          have : (c.toNat : Int) = 48 := by
            have h0 : ((0 % 18446744073709551616 : Nat) : Int) = 0 := by decide
            rw [h0] at this
            omega
          exact_mod_cast this
        have hc := eq_of_toNat_eq c 48 hc48
        subst hc
        revert hd
        decide
    · rw [if_neg hd] at hU_eq
      have hdpos : 1 ≤ ((t.dropWhile isspace).takeWhile Char.isDigit).length := by
        cases h : (t.dropWhile isspace).takeWhile Char.isDigit with
        | nil => exact absurd h hd
        | cons _ _ => simp
      by_cases hov : 18446744073709551615 <
          decimal_value ((t.dropWhile isspace).takeWhile Char.isDigit)
      · exfalso
        rw [if_pos hov] at hU_eq
        rw [hU_eq] at hU
        omega
      · rw [if_neg hov] at hU_eq
        have hmod : strtoull t % 18446744073709551616
            = decimal_value ((t.dropWhile isspace).takeWhile Char.isDigit) := by
          rw [hU_eq, Nat.mod_eq_of_lt (by omega)]
        rw [hmod] at hlen hU hll
        have hle := num_len_le hdpos hv
        have e1 : t.dropWhile isspace = t := dropWhile_eq_self_of_length _ _ (by omega)
        rw [e1] at hdl hv hdig hd hdpos hlen hU hll hle
        have e2 : t.takeWhile Char.isDigit = t := takeWhile_eq_self_of_length _ _ (by omega)
        rw [e2] at hv hdig hd hlen hU hll
        refine ⟨⟨hd, hdig, ?_⟩, hU, hll⟩
        intro hhead
        match t, hhead, hlen, hdig with
        | d :: rest, hhead, hlen, hdig =>
          simp only [List.head?_cons, Option.some.injEq] at hhead
          subst hhead
          cases rest with
          | nil => rfl
          | cons r rest =>
            exfalso
            rw [decimal_value_cons] at hlen
            have hr := decimal_value_lt (r :: rest)
              fun c hc => hdig c (List.mem_cons_of_mem _ hc)
            have h0 : ('0'.toNat - 48) = 0 := by decide
            rw [h0, Nat.zero_mul, Nat.zero_add] at hlen
            have := num_len_le (k := (r :: rest).length) (by simp) hr
            simp only [List.length_cons] at hlen this
            omega

theorem takeWhile_eq_self_of_all {α : Type} (p : α → Bool) (l : List α)
    (h : ∀ x ∈ l, p x = true) : l.takeWhile p = l := by
  induction l with
  | nil => rfl
  | cons a l ih =>
    rw [List.takeWhile_cons_of_pos (h a (List.mem_cons_self _ _)),
      ih fun x hx => h x (List.mem_cons_of_mem _ hx)]

theorem strtoull_canonical (t : List Char) (hc : canonical_numeral t)
    (hv : decimal_value t ≤ 4294967295) : strtoull t = decimal_value t := by
  obtain ⟨hne, hdig, -⟩ := hc
  match t, hne, hdig, hv with
  | d :: rest, _, hdig, hv =>
    have hd := hdig d (List.mem_cons_self _ _)
    have hsp : ¬ isspace d = true := by rw [isspace_of_isDigit hd]; simp
    have e1 : (d :: rest).dropWhile isspace = d :: rest := List.dropWhile_cons_of_neg hsp
    have hd2 := (isDigit_iff d).1 hd
    have hsign : ¬(((d :: rest).dropWhile isspace).head? = some '-' ∨
        ((d :: rest).dropWhile isspace).head? = some '+') := by
      rw [e1]
      simp only [List.head?_cons, Option.some.injEq]
      rintro (rfl | rfl) <;> revert hd2 <;> decide
    rw [strtoull_unsigned _ hsign, e1, takeWhile_eq_self_of_all _ _ hdig,
      if_neg (by simp), if_neg (by omega)]

theorem num_len_canonical (t : List Char) (hc : canonical_numeral t) :
    num_len (decimal_value t) = t.length := by
  obtain ⟨hne, hdig, hz⟩ := hc
  match t, hne, hdig, hz with
  | d :: rest, _, hdig, hz =>
    have hd2 := (isDigit_iff d).1 (hdig d (List.mem_cons_self _ _))
    have hlt := decimal_value_lt (d :: rest) hdig
    have hle := num_len_le (k := (d :: rest).length) (by simp) hlt
    cases rest with
    | nil =>
      have := num_len_eq (decimal_value [d])
      simp only [List.length_cons, List.length_nil] at hle ⊢
      omega
    | cons r rest =>
      have hd0 : d.toNat ≠ 48 := by
        intro h
        have := eq_of_toNat_eq d 48 h
        subst this
        have := hz (by rfl)
        simp at this
      have hge : 10 ^ (r :: rest).length ≤ decimal_value (d :: r :: rest) := by
        rw [decimal_value_cons]
        have h1 : 1 ≤ d.toNat - 48 := by omega
        have := Nat.mul_le_mul_right (10 ^ (r :: rest).length) h1
        omega
      have := lt_num_len hge
      simp only [List.length_cons] at hle this ⊢
      omega

theorem accepted_of_canonical (t : List Char) (hc : canonical_numeral t)
    (hv : decimal_value t ≤ 4294967295) :
    valid_num_token (to_long_long (strtoull t)) t = true ∧
    valid_num (to_long_long (strtoull t)) = true ∧
    to_long_long (strtoull t) = (decimal_value t : Nat) := by
  have hll : to_long_long (strtoull t) = (decimal_value t : Nat) := by
    rw [strtoull_canonical t hc hv]
    unfold to_long_long
    rw [Nat.mod_eq_of_lt (by omega), if_pos (by omega)]
  have hnl := num_len_canonical t hc
  rw [hll]
  refine ⟨?_, ?_, rfl⟩
  · unfold valid_num_token
    rw [to_unsigned_long_natCast _ (by omega), hnl]
    obtain ⟨hne, hdig, hz⟩ := hc
    match t, hne, hdig with
    | d :: rest, _, hdig =>
      have hd2 := (isDigit_iff d).1 (hdig d (List.mem_cons_self _ _))
      by_cases h1 : (d :: rest).length = 1
      · have hr : rest = [] := by
          cases rest with
          | nil => rfl
          | cons _ _ => simp at h1
        subst hr
        simp only [List.length_cons, List.length_nil, if_true, List.headD_cons, Bool.true_and,
          decide_True, Bool.and_eq_true, decide_eq_true_eq, true_and]
        rw [decimal_value_cons]
        simp only [List.length_nil, pow_zero, Nat.mul_one, decimal_value, List.foldl_nil,
          Nat.add_zero]
        omega
      · simp only [if_neg h1, decide_True, Bool.and_self]
  · unfold valid_num
    simp only [Bool.and_eq_true, decide_eq_true_eq, ge_iff_le]
    omega

theorem strtok_token (tok rest : List Char) (hne : tok ≠ [])
    (htok : ∀ c ∈ tok, delimiters.contains c = false) :
    strtok tok = (some tok, []) ∧
    ∀ d, delimiters.contains d = true → strtok (tok ++ d :: rest) = (some tok, rest) := by
  match tok, hne, htok with
  | a :: tok, _, htok =>
    have ha := htok a (List.mem_cons_self _ _)
    have hall : ∀ c ∈ a :: tok, (!delimiters.contains c) = true := by
      intro c hc; rw [htok c hc]; rfl
    have hnd : ¬ (fun c => delimiters.contains c) a = true := by
      show ¬ delimiters.contains a = true
      rw [ha]; simp
    constructor
    · unfold strtok
      simp only []
      rw [List.dropWhile_cons_of_neg hnd, if_neg (by simp),
        takeWhile_eq_self_of_all _ _ hall]
      have : (a :: tok).dropWhile (fun c => !delimiters.contains c) = [] := by
        rw [List.dropWhile_eq_nil_iff]; exact hall
      rw [this]; rfl
    · intro d hd
      unfold strtok
      simp only []
      rw [List.cons_append, List.dropWhile_cons_of_neg hnd, if_neg (by simp),
        ← List.cons_append]
      have h1 : (a :: tok ++ d :: rest).takeWhile (fun c => !delimiters.contains c)
          = a :: tok := by
        rw [List.takeWhile_append_of_pos hall, List.takeWhile_cons_of_neg (by
          show ¬ (!delimiters.contains d) = true
          rw [hd]; simp),
          List.append_nil]
      have h2 : (a :: tok ++ d :: rest).dropWhile (fun c => !delimiters.contains c)
          = d :: rest := by
        rw [List.dropWhile_append_of_pos hall, List.dropWhile_cons_of_neg (by
          show ¬ (!delimiters.contains d) = true
          rw [hd]; simp)]
      rw [h1, h2]; rfl

theorem strtok_nil : strtok [] = (none, []) := rfl

/-- C37 (the code departs from its documentation).  `valid_num_token` is
documented to return true when the token is a number.  It refuses the token
`007`, which consists of decimal digits only, because the digit count of
`strtoull`'s value differs from the length of the token; and it returns true
for the token of a minus sign, eighteen zeros and a one, which is no string of
digits: `strtoull` negates the value to `2^64 - 1`, whose twenty digits match
the twenty characters of the token. -/
theorem valid_num_token_leading_zeros :
    (∀ c ∈ ['0', '0', '7'], c.isDigit = true) ∧
    strtoull ['0', '0', '7'] = 7 ∧
    valid_num_token (to_long_long (strtoull ['0', '0', '7'])) ['0', '0', '7'] = false ∧
    ¬ (∀ c ∈ '-' :: (List.replicate 18 '0' ++ ['1']), c.isDigit = true) ∧
    strtoull ('-' :: (List.replicate 18 '0' ++ ['1'])) = 18446744073709551615 ∧
    valid_num_token (to_long_long (strtoull ('-' :: (List.replicate 18 '0' ++ ['1']))))
      ('-' :: (List.replicate 18 '0' ++ ['1'])) = true := by
  refine ⟨by decide, by decide, by decide, by decide, by decide, ?_⟩
  decide

theorem trim_last_concat (body : List Char) (c : Char) : trim_last (body ++ [c]) = body := by
  unfold trim_last
  exact List.dropLast_concat

theorem parse_move_command_line (cmd a b c : List Char) (d1 d2 d3 : Char)
    (hcmd : cmd ≠ [] ∧ ∀ x ∈ cmd, delimiters.contains x = false)
    (ha : a ≠ [] ∧ ∀ x ∈ a, delimiters.contains x = false)
    (hb : b ≠ [] ∧ ∀ x ∈ b, delimiters.contains x = false)
    (hc : c ≠ [] ∧ ∀ x ∈ c, delimiters.contains x = false)
    (hd1 : delimiters.contains d1 = true) (hd2 : delimiters.contains d2 = true)
    (hd3 : delimiters.contains d3 = true) :
    parse_move_command ((cmd ++ d1 :: (a ++ d2 :: (b ++ d3 :: c))) ++ ['\n']) =
      if valid_num_token (to_long_long (strtoull a)) a = true then
        if valid_num_token (to_long_long (strtoull b)) b = true then
          if valid_num_token (to_long_long (strtoull c)) c = true then
            some [to_long_long (strtoull a), to_long_long (strtoull b),
              to_long_long (strtoull c)]
          else none
        else none
      else none := by
  unfold parse_move_command
  have hl1 : ((cmd ++ d1 :: (a ++ d2 :: (b ++ d3 :: c))) ++ ['\n']).length > 0 := by simp
  have hl2 : (cmd ++ d1 :: (a ++ d2 :: (b ++ d3 :: c))).length > 0 := by simp
  rw [if_pos hl1]
  simp only [trim_last_concat]
  rw [if_pos hl2, (strtok_token cmd _ hcmd.1 hcmd.2).2 d1 hd1]
  simp only [parse_nums]
  rw [(strtok_token a _ ha.1 ha.2).2 d2 hd2]
  simp only []
  by_cases va : valid_num_token (to_long_long (strtoull a)) a = true
  · rw [if_pos va, if_pos va, (strtok_token b _ hb.1 hb.2).2 d3 hd3]
    simp only []
    by_cases vb : valid_num_token (to_long_long (strtoull b)) b = true
    · rw [if_pos vb, if_pos vb, (strtok_token c [] hc.1 hc.2).1]
      simp only []
      by_cases vc : valid_num_token (to_long_long (strtoull c)) c = true
      · rw [if_pos vc, if_pos vc]
        rfl
      · rw [if_neg vc, if_neg vc]
        rfl
    · rw [if_neg vb, if_neg vb]
      rfl
  · rw [if_neg va, if_neg va]

theorem parse_player_info_command_line (cmd a : List Char) (d1 : Char)
    (hcmd : cmd ≠ [] ∧ ∀ x ∈ cmd, delimiters.contains x = false)
    (ha : a ≠ [] ∧ ∀ x ∈ a, delimiters.contains x = false)
    (hd1 : delimiters.contains d1 = true) :
    parse_player_info_command ((cmd ++ d1 :: a) ++ ['\n']) =
      if valid_num_token (to_long_long (strtoull a)) a = true then
        some (to_long_long (strtoull a))
      else none := by
  unfold parse_player_info_command
  have hl1 : ((cmd ++ d1 :: a) ++ ['\n']).length > 0 := by simp
  have hl2 : (cmd ++ d1 :: a).length > 0 := by simp
  rw [if_pos hl1]
  simp only [trim_last_concat]
  rw [if_pos hl2, (strtok_token cmd _ hcmd.1 hcmd.2).2 d1 hd1]
  simp only []
  rw [(strtok_token a [] ha.1 ha.2).1]
  simp only []
  by_cases va : valid_num_token (to_long_long (strtoull a)) a = true
  · rw [if_pos va, if_pos va]
    rfl
  · rw [if_neg va, if_neg va]

theorem valid_nums_three (x y z : Int) :
    valid_nums [x, y, z] = (valid_num x && valid_num y && valid_num z) := by
  unfold valid_nums valid_num
  simp only [List.foldl_cons, List.foldl_nil, Bool.true_and]

theorem uint32_of_value (v : Nat) (h : v ≤ 4294967295) :
    (((v : Nat) : Int) % 4294967296).toNat = v := by
  omega

theorem token_accepted_iff (t : List Char) :
    (valid_num_token (to_long_long (strtoull t)) t = true ∧
      valid_num (to_long_long (strtoull t)) = true) ↔
    (canonical_numeral t ∧ decimal_value t ≤ 4294967295) := by
  constructor
  · rintro ⟨h1, h2⟩
    exact ⟨(canonical_of_accepted t h1 h2).1, (canonical_of_accepted t h1 h2).2.1⟩
  · rintro ⟨h1, h2⟩
    exact ⟨(accepted_of_canonical t h1 h2).1, (accepted_of_canonical t h1 h2).2.1⟩

theorem token_argument (t : List Char) (h : canonical_numeral t ∧ decimal_value t ≤ 4294967295) :
    (to_long_long (strtoull t) % 4294967296).toNat = decimal_value t := by
  rw [(accepted_of_canonical t h.1 h.2).2.2]
  exact uint32_of_value _ h.2

theorem execute_move_command_ite (x y z : Int) (p q r : Prop)
    [Decidable p] [Decidable q] [Decidable r] :
    execute_move_command
        (if p then if q then if r then some [x, y, z] else none else none else none) =
      if (p ∧ valid_num x = true) ∧ (q ∧ valid_num y = true) ∧ (r ∧ valid_num z = true) then
        some ((x % 4294967296).toNat, (y % 4294967296).toNat, (z % 4294967296).toNat)
      else none := by
  by_cases hp : p <;> by_cases hq : q <;> by_cases hr : r <;>
    simp only [hp, hq, hr, if_true, if_false, execute_move_command, false_and, and_false,
      true_and]
  rw [valid_nums_three]
  cases valid_num x <;> cases valid_num y <;> cases valid_num z <;> simp

theorem execute_player_info_command_ite (x : Int) (p : Prop) [Decidable p] :
    execute_player_info_command (if p then some x else none) =
      if p ∧ valid_num x = true then some (x % 4294967296).toNat else none := by
  by_cases hp : p <;>
    simp only [hp, if_true, if_false, execute_player_info_command, false_and, true_and]

/-- C38. An argument token of a batch command is accepted end to end exactly
when it is the canonical decimal numeral of a value in `[0, 2^32 - 1]`, and the
engine is then called with that value.  The checks `valid_num_token` and
`valid_num` pass together exactly for such tokens; a one-argument command
`cmd a` reaches the engine with the value of `a` when `a` is such a token and is
answered with `ERROR` otherwise; a three-argument command `cmd a b c` reaches
the engine with the three values when all three tokens are such tokens and is
answered with `ERROR` otherwise. -/
theorem batch_argument_accepted (cmd a b c : List Char) (d1 d2 d3 : Char)
    (hcmd : cmd ≠ [] ∧ ∀ x ∈ cmd, delimiters.contains x = false)
    (ha : a ≠ [] ∧ ∀ x ∈ a, delimiters.contains x = false)
    (hb : b ≠ [] ∧ ∀ x ∈ b, delimiters.contains x = false)
    (hc : c ≠ [] ∧ ∀ x ∈ c, delimiters.contains x = false)
    (hd1 : delimiters.contains d1 = true) (hd2 : delimiters.contains d2 = true)
    (hd3 : delimiters.contains d3 = true) :
    (∀ t : List Char,
      (valid_num_token (to_long_long (strtoull t)) t = true ∧
        valid_num (to_long_long (strtoull t)) = true) ↔
      (canonical_numeral t ∧ decimal_value t ≤ 4294967295)) ∧
    execute_player_info_command (parse_player_info_command ((cmd ++ d1 :: a) ++ ['\n'])) =
      (if canonical_numeral a ∧ decimal_value a ≤ 4294967295 then some (decimal_value a)
        else none) ∧
    execute_move_command
        (parse_move_command ((cmd ++ d1 :: (a ++ d2 :: (b ++ d3 :: c))) ++ ['\n'])) =
      (if (canonical_numeral a ∧ decimal_value a ≤ 4294967295) ∧
          (canonical_numeral b ∧ decimal_value b ≤ 4294967295) ∧
          (canonical_numeral c ∧ decimal_value c ≤ 4294967295) then
        some (decimal_value a, decimal_value b, decimal_value c)
      else none) := by
  refine ⟨token_accepted_iff, ?_, ?_⟩
  · rw [parse_player_info_command_line cmd a d1 hcmd ha hd1, execute_player_info_command_ite]
    by_cases h : canonical_numeral a ∧ decimal_value a ≤ 4294967295
    · rw [if_pos h, if_pos ((token_accepted_iff a).2 h), token_argument a h]
    · rw [if_neg h, if_neg (fun h' => h ((token_accepted_iff a).1 h'))]
  · rw [parse_move_command_line cmd a b c d1 d2 d3 hcmd ha hb hc hd1 hd2 hd3,
      execute_move_command_ite]
    by_cases h : (canonical_numeral a ∧ decimal_value a ≤ 4294967295) ∧
        (canonical_numeral b ∧ decimal_value b ≤ 4294967295) ∧
        (canonical_numeral c ∧ decimal_value c ≤ 4294967295)
    · rw [if_pos h, if_pos ⟨(token_accepted_iff a).2 h.1, (token_accepted_iff b).2 h.2.1,
        (token_accepted_iff c).2 h.2.2⟩, token_argument a h.1, token_argument b h.2.1,
        token_argument c h.2.2]
    · rw [if_neg h, if_neg (fun h' => h ⟨(token_accepted_iff a).1 h'.1,
        (token_accepted_iff b).1 h'.2.1, (token_accepted_iff c).1 h'.2.2⟩)]

theorem batch_argument_accepted_witness :
    ((['m'] : List Char) ≠ [] ∧ ∀ x ∈ ['m'], delimiters.contains x = false) ∧
    ((['1', '2'] : List Char) ≠ [] ∧ ∀ x ∈ ['1', '2'], delimiters.contains x = false) ∧
    ((['0'] : List Char) ≠ [] ∧ ∀ x ∈ ['0'], delimiters.contains x = false) ∧
    ((['0', '7'] : List Char) ≠ [] ∧ ∀ x ∈ ['0', '7'], delimiters.contains x = false) ∧
    delimiters.contains ' ' = true ∧ delimiters.contains '\t' = true ∧
    execute_player_info_command (parse_player_info_command
        ((['m'] ++ ' ' :: ['1', '2']) ++ ['\n'])) = some 12 ∧
    execute_move_command (parse_move_command
        ((['m'] ++ ' ' :: (['1', '2'] ++ '\t' :: (['0'] ++ ' ' :: ['0', '7']))) ++ ['\n']))
      = none :=
  ⟨by decide, by decide, by decide, by decide, by decide, by decide,
    (batch_argument_accepted ['m'] ['1', '2'] ['0'] ['0', '7'] ' ' '\t' ' '
      (by decide) (by decide) (by decide) (by decide) (by decide) (by decide) (by decide)).2⟩

theorem takeWhile_eq_nil_iff_head {α : Type} (p : α → Bool) (l : List α) :
    l.takeWhile p = [] ↔ l = [] ∨ ∃ d r, l = d :: r ∧ p d = false := by
  cases l with
  | nil => simp
  | cons a l =>
    by_cases hp : p a = true
    · rw [List.takeWhile_cons_of_pos hp]
      simp [hp]
    · rw [List.takeWhile_cons_of_neg hp]
      simp [hp]

theorem mem_delimiters_iff (d : Char) : d ∈ delimiters ↔ delimiters.contains d = true := by
  simp [List.contains_iff_exists_mem_beq]

theorem parse_command_type_nil : parse_command_type ([] ++ ['\n']) = command_type.Unknown := by
  decide

theorem parse_command_type_space (c : Char) (rest : List Char) (h : is_space c = true) :
    parse_command_type ((c :: rest) ++ ['\n']) = command_type.Unknown := by
  unfold parse_command_type
  simp only [trim_last_concat, List.cons_append, List.headD_cons, h]
  simp

theorem parse_command_type_cons (c : Char) (rest : List Char) (h : is_space c = false) :
    parse_command_type ((c :: rest) ++ ['\n']) =
      if c :: rest.takeWhile (fun c => !delimiters.contains c) = ['m'] then command_type.Move
      else if c :: rest.takeWhile (fun c => !delimiters.contains c) = ['g'] then
        command_type.Golden
      else if c :: rest.takeWhile (fun c => !delimiters.contains c) = ['b'] then
        command_type.Busy
      else if c :: rest.takeWhile (fun c => !delimiters.contains c) = ['f'] then
        command_type.Free
      else if c :: rest.takeWhile (fun c => !delimiters.contains c) = ['q'] then
        command_type.GoldenPossible
      else if c :: rest.takeWhile (fun c => !delimiters.contains c) = ['p'] then
        command_type.Print
      else command_type.Unknown := by
  have hc : delimiters.contains c = false := by rw [delimiters_contains, h]
  have hnd : ¬ (fun c => delimiters.contains c) c = true := by
    show ¬ delimiters.contains c = true
    rw [hc]; simp
  have hl1 : ((c :: rest) ++ ['\n']).length > 0 := by simp
  have hl2 : (c :: rest).length > 0 ∧ is_space (((c :: rest) ++ ['\n']).headD (Char.ofNat 0))
      = false := ⟨by simp, by simpa using h⟩
  have hs : (strtok (c :: rest)).1
      = some (c :: rest.takeWhile (fun c => !delimiters.contains c)) := by
    unfold strtok
    simp only []
    rw [List.dropWhile_cons_of_neg hnd, if_neg (by simp)]
    simp only [List.takeWhile_cons, hc, Bool.not_false, if_true]
  unfold parse_command_type
  rw [if_pos hl1]
  simp only [trim_last_concat]
  rw [if_pos hl2, hs]

theorem command_line_cons (k c : Char) (rest : List Char) (hk : is_space k = false) :
    command_line k (c :: rest) ↔
      (is_space c = false ∧ c :: rest.takeWhile (fun c => !delimiters.contains c) = [k]) := by
  unfold command_line
  constructor
  · rintro ⟨r, hr, h⟩
    simp only [List.cons.injEq] at hr
    obtain ⟨rfl, rfl⟩ := hr
    refine ⟨hk, ?_⟩
    rw [List.cons.injEq]
    refine ⟨rfl, ?_⟩
    rw [takeWhile_eq_nil_iff_head]
    rcases h with h | ⟨d, r, h, hd⟩
    · exact Or.inl h
    · refine Or.inr ⟨d, r, h, ?_⟩
      rw [(mem_delimiters_iff d).1 hd]; rfl
  · rintro ⟨-, h⟩
    rw [List.cons.injEq, takeWhile_eq_nil_iff_head] at h
    obtain ⟨rfl, h⟩ := h
    refine ⟨rest, rfl, ?_⟩
    rcases h with h | ⟨d, r, h, hd⟩
    · exact Or.inl h
    · refine Or.inr ⟨d, r, h, ?_⟩
      rw [mem_delimiters_iff]
      simpa using hd

theorem command_line_nil (k : Char) : ¬ command_line k [] := by
  rintro ⟨r, hr, -⟩
  simp at hr

/-- C39. For a line `body` followed by the newline character,
`parse_command_type` returns `Move`, `Golden`, `Busy`, `Free`, `GoldenPossible`
or `Print` exactly when the line does not start with white space and its first
token is exactly `m`, `g`, `b`, `f`, `q` or `p` respectively, and `Unknown` in
every other case; in particular for every line that starts with a white-space
character. -/
theorem parse_command_type_first_token (body : List Char) :
    (parse_command_type (body ++ ['\n']) = command_type.Move ↔ command_line 'm' body) ∧
    (parse_command_type (body ++ ['\n']) = command_type.Golden ↔ command_line 'g' body) ∧
    (parse_command_type (body ++ ['\n']) = command_type.Busy ↔ command_line 'b' body) ∧
    (parse_command_type (body ++ ['\n']) = command_type.Free ↔ command_line 'f' body) ∧
    (parse_command_type (body ++ ['\n']) = command_type.GoldenPossible ↔
      command_line 'q' body) ∧
    (parse_command_type (body ++ ['\n']) = command_type.Print ↔ command_line 'p' body) ∧
    (parse_command_type (body ++ ['\n']) = command_type.Unknown ↔
      ¬(command_line 'm' body ∨ command_line 'g' body ∨ command_line 'b' body ∨
        command_line 'f' body ∨ command_line 'q' body ∨ command_line 'p' body)) ∧
    (∀ c rest, body = c :: rest → is_space c = true →
      parse_command_type (body ++ ['\n']) = command_type.Unknown) := by
  cases body with
  | nil =>
    rw [parse_command_type_nil]
    simp [command_line_nil]
  | cons c rest =>
    by_cases hsp : is_space c = true
    · rw [parse_command_type_space c rest hsp]
      have hk : ∀ k, is_space k = false → ¬ command_line k (c :: rest) := by
        intro k hk h
        have := ((command_line_cons k c rest hk).1 h).1
        rw [hsp] at this
        exact absurd this (by simp)
      simp [hk 'm' (by decide), hk 'g' (by decide), hk 'b' (by decide), hk 'f' (by decide),
        hk 'q' (by decide), hk 'p' (by decide)]
    · have hsp' : is_space c = false := by simpa using hsp
      rw [parse_command_type_cons c rest hsp', command_line_cons 'm' c rest (by decide),
        command_line_cons 'g' c rest (by decide), command_line_cons 'b' c rest (by decide),
        command_line_cons 'f' c rest (by decide), command_line_cons 'q' c rest (by decide),
        command_line_cons 'p' c rest (by decide)]
      generalize c :: rest.takeWhile (fun c => !delimiters.contains c) = tok
      refine ⟨?_, ?_, ?_, ?_, ?_, ?_, ?_, ?_⟩
      · split_ifs <;> simp_all
      · split_ifs <;> simp_all
      · split_ifs <;> simp_all
      · split_ifs <;> simp_all
      · split_ifs <;> simp_all
      · split_ifs <;> simp_all
      · split_ifs <;> simp_all
      · intro c' rest' he hs
        simp only [List.cons.injEq] at he
        rw [← he.1, hsp'] at hs
        exact absurd hs (by simp)

theorem parse_command_type_example :
    parse_command_type ['m', ' ', '1', ' ', '2', ' ', '3', '\n'] = command_type.Move ∧
    parse_command_type ['m', '\n'] = command_type.Move ∧
    parse_command_type ['m', '1', ' ', '2', '\n'] = command_type.Unknown ∧
    parse_command_type [' ', 'm', ' ', '1', '\n'] = command_type.Unknown ∧
    parse_command_type ['q', '\t', '1', '\n'] = command_type.GoldenPossible ∧
    parse_command_type ['\n'] = command_type.Unknown := by
  decide

theorem highlighted_board_corner :
    (highlighted_board corner_game_3 1 0).map String.mk
      = some "...2\n....\n....\n1\x1b[44m1\x1b[0m..\n" ∧
    (highlighted_board corner_game_3 3 3).map String.mk
      = some "...\x1b[44m2\x1b[0m\n....\n....\n11..\n" := by
  decide

theorem long_game_0_reachable : Reachable long_game_0 :=
  Reachable.new (w := 1431655765) (h := 2) (p := 1) (a := 1) (by decide) (by decide)
    (by decide) (by decide) rfl

theorem highlighted_none_of_length (str : List Char) (s k : Nat)
    (h : to_int str.length < to_int k) : highlighted str s k = none := by
  unfold highlighted
  have h3 : substr str (to_int k) (to_int str.length) = none := by
    unfold substr
    rw [if_neg]
    rintro ⟨-, h2, -⟩
    omega
  cases substr str 0 (to_int s) with
  | none => rfl
  | some str1 =>
    cases substr str (to_int s) (to_int k) with
    | none => rfl
    | some str2 => simp only [h3]

theorem long_game_0_board :
    ∃ board, gamma_board long_game_0 = some board ∧ board.length = 2863311532 ∧
      board[715827882]? = some '.' := by
  obtain ⟨board, hb, hlen, hget⟩ := gamma_board_small_ids long_game_0
    (inv_of_reachable long_game_0_reachable).toSpecInv (by decide) (by decide) (fun v _ => by
      have : owner long_game_0 v = 0 := rfl
      omega)
  refine ⟨board, hb, hlen, ?_⟩
  have hcell := (hget 0 715827882 (by decide) (by decide)).1
  rw [Nat.zero_mul, Nat.zero_add] at hcell
  exact hcell

theorem highlighted_board_of_board (game : gamma_t) (curX curY : Nat) (board : List Char)
    (hb : gamma_board game = some board) :
    highlighted_board game curX curY =
      highlighted board
        ((if length_of_max_player_id_on_board game > 1 then
          ((curX * ((length_of_max_player_id_on_board game + 1) % 4294967296)) % 4294967296 +
            ((get_width game * ((length_of_max_player_id_on_board game + 1) % 4294967296))
                % 4294967296 *
              (((get_height game + 4294967296 - 1) % 4294967296 + 4294967296 - curY)
                % 4294967296)) % 4294967296) % 4294967296
        else
          (curX + (((get_width game + 1) % 4294967296) *
            (((get_height game + 4294967296 - 1) % 4294967296 + 4294967296 - curY)
              % 4294967296)) % 4294967296) % 4294967296) % 4294967296)
        (((if length_of_max_player_id_on_board game > 1 then
          ((curX * ((length_of_max_player_id_on_board game + 1) % 4294967296)) % 4294967296 +
            ((get_width game * ((length_of_max_player_id_on_board game + 1) % 4294967296))
                % 4294967296 *
              (((get_height game + 4294967296 - 1) % 4294967296 + 4294967296 - curY)
                % 4294967296)) % 4294967296) % 4294967296
        else
          (curX + (((get_width game + 1) % 4294967296) *
            (((get_height game + 4294967296 - 1) % 4294967296 + 4294967296 - curY)
              % 4294967296)) % 4294967296) % 4294967296)
          + length_of_max_player_id_on_board game) % 4294967296) := by
  unfold highlighted_board
  simp only [hb]

theorem to_int_of_lt (n : Nat) (h : n < 2147483648) : to_int n = (n : Int) := by
  unfold to_int
  rw [Nat.mod_eq_of_lt (by omega), if_pos h]

theorem highlighted_eq (str : List Char) (s k : Nat) (h1 : s ≤ k) (h2 : k ≤ str.length)
    (h3 : str.length < 2147483648) :
    highlighted str s k =
      some (str.take s ++ [Char.ofNat 27, '[', '4', '4', 'm'] ++ (str.drop s).take (k - s)
        ++ [Char.ofNat 27, '[', '0', 'm'] ++ str.drop k) := by
  unfold highlighted substr
  rw [to_int_of_lt s (by omega), to_int_of_lt k (by omega), to_int_of_lt _ h3]
  have c1 : (0 : Int) ≤ 0 ∧ (0 : Int) ≤ (s : Int) ∧ (s : Int) ≤ (str.length : Int) :=
    ⟨le_rfl, by omega, by omega⟩
  have c2 : (0 : Int) ≤ (s : Int) ∧ (s : Int) ≤ (k : Int) ∧ (k : Int) ≤ (str.length : Int) :=
    ⟨by omega, by omega, by omega⟩
  have c3 : (0 : Int) ≤ (k : Int) ∧ (k : Int) ≤ (str.length : Int) ∧
      (str.length : Int) ≤ (str.length : Int) := ⟨by omega, by omega, le_rfl⟩
  rw [if_pos c1, if_pos c2, if_pos c3]
  have e1 : ((s : Int) - 0).toNat = s := by omega
  have e2 : ((k : Int) - (s : Int)).toNat = k - s := by omega
  have e3 : ((str.length : Int) - (k : Int)).toNat = str.length - k := by omega
  simp only [Int.toNat_zero, Int.toNat_ofNat, List.drop_zero, e1, e2, e3, append]
  rw [List.take_of_length_le (l := str.drop k) (by rw [List.length_drop])]

theorem max_player_id_on_board_eq (g : gamma_t) (hI : SpecInv g) (m : Nat)
    (hm1 : ∃ v, inb g v ∧ owner g v = m) (hm2 : ∀ v, inb g v → owner g v ≤ m) :
    max_player_id_on_board g = m := by
  obtain ⟨hmax, hex⟩ := max_player_id_on_board_spec g hI
  obtain ⟨v, hv, hvo⟩ := hm1
  have h1 := hmax v hv
  rcases hex with h0 | ⟨u, hu, huo⟩
  · omega
  · have := hm2 u hu
    omega

/-- C36 (the code departs from the claim on long boards).  On the fresh board
of 1431655765 columns and 2 rows the cursor starts on the cell
`(715827882, 1)`, which `gamma_board` renders as the character at index
`715827882` of a string of 2863311532 characters.  `highlighted_board` does not
highlight that character: the length of the string does not fit the `int`
parameter of `substr`, the third call of `substr` asks `malloc` for a negative
size, and `highlighted_board` returns `NULL`. -/
theorem highlighted_board_long_row :
    Reachable long_game_0 ∧
    get_curX_default long_game_0 = 715827882 ∧ get_curY_default long_game_0 = 1 ∧
    715827882 < long_game_0.width ∧ 1 < long_game_0.height ∧
    (∃ board, gamma_board long_game_0 = some board ∧ board.length = 2863311532 ∧
      board[715827882]? = some '.' ∧ to_int board.length = -1431655764) ∧
    highlighted_board long_game_0 715827882 1 = none := by
  obtain ⟨board, hb, hlen, hcell⟩ := long_game_0_board
  have hpos : highlighted_board long_game_0 715827882 1
      = highlighted board 715827882 715827883 :=
    highlighted_board_of_board long_game_0 715827882 1 board hb
  refine ⟨long_game_0_reachable, rfl, rfl, by decide, by decide,
    ⟨board, hb, hlen, hcell, ?_⟩, ?_⟩
  · rw [hlen]; decide
  · rw [hpos]
    apply highlighted_none_of_length
    rw [hlen]
    decide

/-- The highlight in the one-character format: while the rendered board is
shorter than `2^31` characters, `highlighted_board` wraps exactly the character
of the cell under the cursor, which stands at index
`(height - 1 - curY) * (width + 1) + curX`, into the two escape sequences. -/
theorem highlighted_board_small_ids (g : gamma_t) (hI : SpecInv g)
    (h9 : ∀ v, inb g v → owner g v ≤ 9) (hfit : g.height * (g.width + 1) < 2147483648)
    (curX curY : Nat) (hx : curX < g.width) (hy : curY < g.height) :
    ∃ board, gamma_board g = some board ∧
    board[(g.height - 1 - curY) * (g.width + 1) + curX]? =
      some (if owner g (curX, curY) = 0 then '.' else Char.ofNat (owner g (curX, curY) + 48)) ∧
    highlighted_board g curX curY =
      some (board.take ((g.height - 1 - curY) * (g.width + 1) + curX)
        ++ [Char.ofNat 27, '[', '4', '4', 'm']
        ++ (board.drop ((g.height - 1 - curY) * (g.width + 1) + curX)).take 1
        ++ [Char.ofNat 27, '[', '0', 'm']
        ++ board.drop ((g.height - 1 - curY) * (g.width + 1) + curX + 1)) := by
  have hw1 : 1 ≤ g.width + 1 := by omega
  have hh : g.height ≤ 2147483648 := by
    have := Nat.mul_le_mul_left g.height hw1
    omega
  have hcells : g.height * g.width < 4294967296 := by
    have := Nat.mul_le_mul_left g.height (show g.width ≤ g.width + 1 by omega)
    omega
  obtain ⟨board, hboard, hlen, hget⟩ := gamma_board_small_ids g hI hh hcells h9
  refine ⟨board, hboard, ?_⟩
  obtain ⟨hmax, hex⟩ := max_player_id_on_board_spec g hI
  have hm9 : max_player_id_on_board g ≤ 9 := by
    rcases hex with h0 | ⟨v, hv, hvo⟩
    · omega
    · rw [← hvo]; exact h9 v hv
  have hd : length_of_max_player_id_on_board g = 1 := by
    unfold length_of_max_player_id_on_board
    exact len_of_le_nine _ hm9
  have hrow : (g.height - 1 - curY + 1) * (g.width + 1) ≤ g.height * (g.width + 1) :=
    Nat.mul_le_mul_right _ (by omega)
  rw [Nat.succ_mul] at hrow
  have hyy : g.height - 1 - (g.height - 1 - curY) = curY := by omega
  constructor
  · have := (hget (g.height - 1 - curY) curX (by omega) hx).1
    rw [hyy] at this
    exact this
  · rw [highlighted_board_of_board g curX curY board hboard]
    unfold get_width get_height
    simp only [hd]
    rw [if_neg (by omega)]
    have hr : ((g.height + 4294967296 - 1) % 4294967296 + 4294967296 - curY) % 4294967296
        = g.height - 1 - curY := by omega
    rw [hr]
    generalize hR : (g.height - 1 - curY) * (g.width + 1) = R at *
    have e0 : (g.width + 1) % 4294967296 = g.width + 1 := Nat.mod_eq_of_lt (by omega)
    have e1 : (g.width + 1) * (g.height - 1 - curY) = R := by rw [Nat.mul_comm, hR]
    rw [e0, e1]
    have e2 : (curX + R % 4294967296) % 4294967296 % 4294967296 = R + curX := by omega
    have e3 : ((curX + R % 4294967296) % 4294967296 + 1) % 4294967296 = R + curX + 1 := by
      omega
    rw [e2, e3, highlighted_eq _ _ _ (by omega) (by omega) (by omega)]
    have : R + curX + 1 - (R + curX) = 1 := by omega
    rw [this]

/-- The highlight in the padded format: while the rendered board is shorter
than `2^31` characters, `highlighted_board` wraps exactly the `len m`
characters of the pocket of the cell under the cursor, which starts at index
`(height - 1 - curY) * (width * (len m + 1)) + curX * (len m + 1)`, into the
two escape sequences; `m` is the largest identifier on the board. -/
theorem highlighted_board_large_ids (g : gamma_t) (hI : SpecInv g) (m : Nat)
    (hm1 : ∃ v, inb g v ∧ owner g v = m) (hm2 : ∀ v, inb g v → owner g v ≤ m)
    (hd : 2 ≤ len m) (hfit : g.height * g.width * (len m + 1) < 2147483648)
    (curX curY : Nat) (hx : curX < g.width) (hy : curY < g.height) :
    ∃ board, gamma_board g = some board ∧
    (∀ t, t < len m →
      board[(g.height - 1 - curY) * (g.width * (len m + 1)) + curX * (len m + 1)
          + t]? = some (pocket_char (owner g (curX, curY)) t)) ∧
    highlighted_board g curX curY =
      some (board.take
          ((g.height - 1 - curY) * (g.width * (len m + 1)) + curX * (len m + 1))
        ++ [Char.ofNat 27, '[', '4', '4', 'm']
        ++ (board.drop
          ((g.height - 1 - curY) * (g.width * (len m + 1)) + curX * (len m + 1))).take (len m)
        ++ [Char.ofNat 27, '[', '0', 'm']
        ++ board.drop
          ((g.height - 1 - curY) * (g.width * (len m + 1)) + curX * (len m + 1) + len m)) := by
  have hwpos : 1 ≤ g.width * (len m + 1) := Nat.mul_pos (by omega) (by omega)
  have hfit' : g.height * (g.width * (len m + 1)) < 2147483648 := by
    rw [← Nat.mul_assoc]; exact hfit
  have hh : g.height ≤ 2147483648 := by
    have := Nat.mul_le_mul_left g.height hwpos
    omega
  have hwfit : g.width * (len m + 1) < 2147483648 := by
    have := Nat.mul_le_mul_right (g.width * (len m + 1)) (show 1 ≤ g.height by omega)
    omega
  obtain ⟨board, hboard, hlen, hget⟩ := gamma_board_large_ids g hI hh m hm1 hm2 hd (by omega)
  refine ⟨board, hboard, ?_⟩
  have hmeq := max_player_id_on_board_eq g hI m hm1 hm2
  have hdl : length_of_max_player_id_on_board g = len m := by
    unfold length_of_max_player_id_on_board
    rw [hmeq]
  have hrow : (g.height - 1 - curY + 1) * (g.width * (len m + 1))
      ≤ g.height * (g.width * (len m + 1)) := Nat.mul_le_mul_right _ (by omega)
  have hcol : (curX + 1) * (len m + 1) ≤ g.width * (len m + 1) :=
    Nat.mul_le_mul_right _ (by omega)
  rw [Nat.succ_mul] at hrow hcol
  have hyy : g.height - 1 - (g.height - 1 - curY) = curY := by omega
  constructor
  · intro t ht
    have := (hget (g.height - 1 - curY) curX (by omega) hx).1 t ht
    rw [hyy] at this
    exact this
  · rw [highlighted_board_of_board g curX curY board hboard]
    unfold get_width get_height
    simp only [hdl]
    rw [if_pos (by omega)]
    have hr : ((g.height + 4294967296 - 1) % 4294967296 + 4294967296 - curY) % 4294967296
        = g.height - 1 - curY := by omega
    rw [hr]
    rw [Nat.mul_assoc] at hlen
    generalize hR : (g.height - 1 - curY) * (g.width * (len m + 1)) = R at *
    generalize hC : curX * (len m + 1) = C at *
    generalize hW : g.width * (len m + 1) = W at *
    have e0 : (len m + 1) % 4294967296 = len m + 1 := by
      have : len m + 1 ≤ W := by
        rw [← hW]
        have := Nat.mul_le_mul_right (len m + 1) (show 1 ≤ g.width by omega)
        omega
      exact Nat.mod_eq_of_lt (by omega)
    rw [e0, hC, hW]
    have e1 : W % 4294967296 * (g.height - 1 - curY) = R := by
      rw [Nat.mod_eq_of_lt (by omega), Nat.mul_comm, hR]
    rw [e1]
    have e2 : (C % 4294967296 + R % 4294967296) % 4294967296 % 4294967296 = R + C := by omega
    have e3 : ((C % 4294967296 + R % 4294967296) % 4294967296 + len m) % 4294967296
        = R + C + len m := by omega
    rw [e2, e3, highlighted_eq _ _ _ (by omega) (by omega) (by omega)]
    have : R + C + len m - (R + C) = len m := by omega
    rw [this]

end Gamma
